import Mathlib

/-!
# TinyOS-3 kernel primitives: pipes, stream sockets, threads and processes

A shallow embedding of `kernel_pipe.c`, `kernel_socket.c`, `kernel_threads.c` and
`kernel_proc.c`.

Conventions of the embedding

* C pointers are `Option` values (`none` is `NULL`); heap objects are named by
  natural numbers, heaps are finite maps `Nat → Option _` with an allocation counter.
* `int` values are `Int`; the `unsigned int` byte count `n` is a `Nat`; the `uint`
  reference count of a socket is a `Nat` with arithmetic modulo `2 ^ 32`.
* A `char` is a `Byte`, a natural number; pipes only copy bytes.
* The constants `PIPE_BUFFER_SIZE`, `MAX_PORT`, `MAX_FILEID`, `MAX_PROC` come from headers
  outside the translation units, so they are parameters (`B`, `MAX_PORT`, `MAX_FILEID`,
  `MAX_PROC`, in theorems also `N` and `F`).
* A process is named by its pid, the index of its slot in the process table `PT`; a thread
  by the name of its control block. The `rlnode` rings of the process layer (`util.h`, not among the
  sources) are lists, head first; `rlist_remove` on a node takes it out of the list it is in.
* A call that reaches `kernel_wait` or `kernel_timedwait` yields: the function returns
  `wait`, other threads change the state, and the call continues through its `_resume`
  function on the state found at wake-up.
* `free`, `kernel_signal` and `kernel_broadcast` are recorded, in program order, as events;
  a freed object stays readable in the heap, so that what the code does after a `free`
  remains visible.
* A pointer that names no object of the heap (the code never produces one) makes a call
  return its error value without further effect.
* The process-info stream depends on `MAX_PROC`, `PROCINFO_MAX_ARGS_SIZE` and on the sizes
  of two structures declared outside the sources; all four are parameters (`InfoConfig`).
* Loop counters are natural numbers: on a ring with cursors in `[0, B)` a copy loop makes at
  most `B - 1` iterations, so the `int` counters of the source do not overflow.
-/

namespace TinyOS

/-! ## Definitions: pipes (`kernel_pipe.c`) -/

/-- One `char` of a buffer. -/
abbrev Byte := Nat

/-- Names of the condition variables used by pipes and sockets. -/
inductive CondVar where
  | has_space
  | has_data
  | req_available
  | connected_cv
  deriving DecidableEq, Repr

/-- Side effects on the allocator and the scheduler, in program order. -/
inductive KEvent where
  | free_pipe
  | broadcast (cv : CondVar)
  deriving DecidableEq, Repr

/-- The pipe control block: `reader`/`writer` are the FCB handles of the two ends,
`r_position`/`w_position` the cursors, `BUFFER` the ring of `PIPE_BUFFER_SIZE` bytes. -/
structure pipe_cb where
  reader : Option Nat
  writer : Option Nat
  r_position : Int
  w_position : Int
  BUFFER : List Byte
  deriving DecidableEq, Repr

/-- Source `isBuffFull(r_pos, w_pos)`: 1 when the ring is full, 0 otherwise. -/
def isBuffFull (B : Nat) (r_pos w_pos : Int) : Int :=
  if w_pos = r_pos - 1 ∨ (r_pos = 0 ∧ w_pos = (B : Int) - 1) then 1 else 0

/-- Source `isBuffEmpty(r_pos, w_pos)`: 1 when the ring is empty, 0 otherwise. -/
def isBuffEmpty (r_pos w_pos : Int) : Int :=
  if r_pos = w_pos then 1 else 0

/-- What a pipe call hands back: the returned `int`, the control block afterwards,
the caller's buffer afterwards and the events raised; or a yield in `kernel_wait`. -/
inductive PipeStep where
  | ret (v : Int) (pipe : Option pipe_cb) (buf : Option (List Byte)) (events : List KEvent)
  | wait (cv : CondVar)
  deriving DecidableEq, Repr

/-- The copy loop of `pipe_write`. The first argument counts down `n - written_counter`,
so the guard `written_counter < n` is the test for a successor; `c` is `written_counter`. -/
def pipe_write_loop (B : Nat) (buf : List Byte) : Nat → Nat → pipe_cb → Nat × pipe_cb
  | 0, c, p => (c, p)
  | m + 1, c, p =>
    if isBuffFull B p.r_position p.w_position ≠ 0 then (c, p)
    else
      pipe_write_loop B buf m (c + 1)
        { p with
          BUFFER := p.BUFFER.set p.w_position.toNat (buf.getD c 0)
          w_position := (p.w_position + 1).tmod B }

/-- Source `pipe_write` from its `while` loop on: the part that runs at entry once the handles
have been checked, and again at every wake-up from `has_space`. -/
def pipe_write_resume (B : Nat) (p : pipe_cb) (buf : List Byte) (n : Nat) : PipeStep :=
  if p.reader ≠ none ∧ isBuffFull B p.r_position p.w_position ≠ 0 then
    .wait .has_space
  else if p.reader = none then
    .ret (-1) (some p) (some buf) []
  else
    let res := pipe_write_loop B buf n 0 p
    .ret (res.1 : Int) (some res.2) (some buf) [.broadcast .has_data]

/-- Source `pipe_write(pipecb_t, buf, n)`. -/
def pipe_write (B : Nat) (pipecb_t : Option pipe_cb) (buf : Option (List Byte)) (n : Nat) :
    PipeStep :=
  match pipecb_t, buf with
  | some p, some b =>
    if p.reader = none ∨ p.writer = none then .ret (-1) pipecb_t buf []
    else pipe_write_resume B p b n
  | _, _ => .ret (-1) pipecb_t buf []

/-- The copy loop of `pipe_read`; `c` is `reader_counter`, the first argument counts down
`n - reader_counter`. -/
def pipe_read_loop (B : Nat) : Nat → Nat → pipe_cb → List Byte → Nat × pipe_cb × List Byte
  | 0, c, p, buf => (c, p, buf)
  | m + 1, c, p, buf =>
    if isBuffEmpty p.r_position p.w_position ≠ 0 then (c, p, buf)
    else
      pipe_read_loop B m (c + 1)
        { p with r_position := (p.r_position + 1).tmod B }
        (buf.set c (p.BUFFER.getD p.r_position.toNat 0))

/-- Source `pipe_read` from its `while` loop on (entry after the checks, and every wake-up
from `has_data`). -/
def pipe_read_resume (B : Nat) (p : pipe_cb) (buf : List Byte) (n : Nat) : PipeStep :=
  if p.writer ≠ none ∧ isBuffEmpty p.r_position p.w_position ≠ 0 then
    .wait .has_data
  else if p.reader = none then
    .ret (-1) (some p) (some buf) []
  else
    let res := pipe_read_loop B n 0 p buf
    .ret (res.1 : Int) (some res.2.1) (some res.2.2) [.broadcast .has_space]

/-- Source `pipe_read(pipecb_t, buf, n)`. -/
def pipe_read (B : Nat) (pipecb_t : Option pipe_cb) (buf : Option (List Byte)) (n : Nat) :
    PipeStep :=
  match pipecb_t, buf with
  | some p, some b =>
    if p.reader = none then .ret (-1) pipecb_t buf []
    else pipe_read_resume B p b n
  | _, _ => .ret (-1) pipecb_t buf []

/-- Source `pipe_writer_close(_pipecb)`: the returned `int`, the control block afterwards and the
events in program order (`free` comes before the broadcast in the source). -/
def pipe_writer_close (_pipecb : Option pipe_cb) : Int × Option pipe_cb × List KEvent :=
  match _pipecb with
  | none => (-1, none, [])
  | some pipe =>
    if pipe.writer = none then (-1, some pipe, [])
    else
      let pipe1 := { pipe with writer := none }
      let freed := if pipe1.reader = none then [KEvent.free_pipe] else []
      (0, some pipe1, freed ++ [.broadcast .has_data])

/-- Source `pipe_reader_close(_pipecb)`. -/
def pipe_reader_close (_pipecb : Option pipe_cb) : Int × Option pipe_cb × List KEvent :=
  match _pipecb with
  | none => (-1, none, [])
  | some pipe =>
    if pipe.reader = none then (-1, some pipe, [])
    else
      let pipe1 := { pipe with reader := none }
      let freed := if pipe1.writer = none then [KEvent.free_pipe] else []
      (0, some pipe1, freed ++ [.broadcast .has_space])

/-- Occupancy `(w - r) mod B` of the ring. -/
def occupancy (B : Nat) (p : pipe_cb) : Int :=
  (p.w_position - p.r_position) % (B : Int)

/-- The bytes held by the ring, oldest first: positions `r, r+1, ...` modulo `B`. -/
def ring_contents (B : Nat) (p : pipe_cb) : List Byte :=
  (List.range (occupancy B p).toNat).map
    (fun i => p.BUFFER.getD ((p.r_position.toNat + i) % B) 0)

/-- Data-model invariant of a pipe control block: both cursors lie in `[0, B)` and the
buffer has `B` cells. -/
def pipe_wf (B : Nat) (p : pipe_cb) : Prop :=
  0 ≤ p.r_position ∧ p.r_position < B ∧ 0 ≤ p.w_position ∧ p.w_position < B ∧
    p.BUFFER.length = B

instance (B : Nat) (p : pipe_cb) : Decidable (pipe_wf B p) := by
  unfold pipe_wf; infer_instance

/-- The state after one iteration of the copy loop of `pipe_write`. -/
def write_one (B : Nat) (p : pipe_cb) (b : Byte) : pipe_cb :=
  { p with
    BUFFER := p.BUFFER.set p.w_position.toNat b
    w_position := (p.w_position + 1).tmod B }

/-- The state after one iteration of the copy loop of `pipe_read`. -/
def read_one (B : Nat) (p : pipe_cb) : pipe_cb :=
  { p with r_position := (p.r_position + 1).tmod B }

/-- What the copy loop of `pipe_write` computes on a well-formed ring. -/
structure WriteLoopSpec (B : Nat) (buf : List Byte) (m c : Nat) (p : pipe_cb)
    (res : Nat × pipe_cb) : Prop where
  count : res.1 = c + min m ((B : Int) - 1 - occupancy B p).toNat
  wf : pipe_wf B res.2
  r_same : res.2.r_position = p.r_position
  reader_same : res.2.reader = p.reader
  writer_same : res.2.writer = p.writer
  occ : occupancy B res.2 = occupancy B p + ((res.1 - c : Nat) : Int)
  contents : ring_contents B res.2 =
    ring_contents B p ++ (List.range (res.1 - c)).map (fun i => buf.getD (c + i) 0)
  w_pos : res.2.w_position = (p.w_position + ((res.1 - c : Nat) : Int)) % (B : Int)

/-- What the copy loop of `pipe_read` computes on a well-formed ring. -/
structure ReadLoopSpec (B : Nat) (m c : Nat) (p : pipe_cb) (buf : List Byte)
    (res : Nat × pipe_cb × List Byte) : Prop where
  count : res.1 = c + min m (occupancy B p).toNat
  wf : pipe_wf B res.2.1
  w_same : res.2.1.w_position = p.w_position
  reader_same : res.2.1.reader = p.reader
  writer_same : res.2.1.writer = p.writer
  buffer_same : res.2.1.BUFFER = p.BUFFER
  occ : occupancy B res.2.1 = occupancy B p - ((res.1 - c : Nat) : Int)
  contents : ring_contents B res.2.1 = (ring_contents B p).drop (res.1 - c)
  r_pos : res.2.1.r_position = (p.r_position + ((res.1 - c : Nat) : Int)) % (B : Int)
  length_same : res.2.2.length = buf.length
  copied : ∀ i, i < res.1 - c → res.2.2.getD (c + i) 0 = (ring_contents B p).getD i 0
  frame : ∀ j, j < c ∨ res.1 ≤ j → res.2.2.getD j 0 = buf.getD j 0

/-- A call on the pipe: `pipe_write(pipe, buf, n)` or `pipe_read(pipe, out, n)`. -/
inductive PipeOp where
  | write (buf : List Byte) (n : Nat)
  | read (n : Nat)
  deriving DecidableEq, Repr

/-- The caller's buffer holds at least the `n` bytes the call may touch. -/
def PipeOp.wf : PipeOp → Prop
  | .write buf n => n ≤ buf.length
  | .read _ => True

instance (op : PipeOp) : Decidable op.wf := by
  cases op <;> unfold PipeOp.wf <;> infer_instance

/-- A pipe together with the history of the calls made on it: the bytes accepted by the
writes, the bytes returned by the reads and the values returned by all calls. -/
structure PipeTrace where
  pipe : pipe_cb
  accepted : List Byte
  delivered : List Byte
  rets : List Int
  deriving DecidableEq, Repr

/-- One call that proceeds without blocking; `none` when the call yields in `kernel_wait`
or fails with `-1`. A read is given a fresh buffer of `n` bytes. -/
def run_op (B : Nat) (t : PipeTrace) : PipeOp → Option PipeTrace
  | .write buf n =>
    match pipe_write B (some t.pipe) (some buf) n with
    | .ret v (some p1) _ _ =>
      if 0 ≤ v then
        some { t with pipe := p1, accepted := t.accepted ++ buf.take v.toNat,
                      rets := t.rets ++ [v] }
      else none
    | _ => none
  | .read n =>
    match pipe_read B (some t.pipe) (some (List.replicate n 0)) n with
    | .ret v (some p1) (some out) _ =>
      if 0 ≤ v then
        some { t with pipe := p1, delivered := t.delivered ++ out.take v.toNat,
                      rets := t.rets ++ [v] }
      else none
    | _ => none

/-- A sequence of calls, each proceeding without blocking. -/
def run_ops (B : Nat) : List PipeOp → PipeTrace → Option PipeTrace
  | [], t => some t
  | op :: ops, t => (run_op B t op).bind (run_ops B ops)

/-- The reader's loop: issue reads with the given request sizes until `L` bytes have been
returned in total; `none` when a read blocks or the requests run out first. -/
def read_until (B : Nat) (L : Nat) : List Nat → PipeTrace → Option PipeTrace
  | [], t => if L ≤ t.delivered.length then some t else none
  | n :: ns, t =>
    if L ≤ t.delivered.length then some t
    else (run_op B t (.read n)).bind (read_until B L ns)

/-- The history agrees with the ring: what was accepted is what was delivered followed
by what the ring still holds. -/
def TraceInv (B : Nat) (t : PipeTrace) : Prop :=
  pipe_wf B t.pipe ∧ t.pipe.reader ≠ none ∧ t.pipe.writer ≠ none ∧
    t.accepted = t.delivered ++ ring_contents B t.pipe

/-! ## Definitions: stream sockets (`kernel_socket.c`, `kernel_socket.h`) -/

/-- Constants of `tinyos.h` used by the socket layer. -/
structure KernelConfig where
  MAX_PORT : Nat
  MAX_FILEID : Nat
  PIPE_BUFFER_SIZE : Nat
  deriving DecidableEq, Repr

/-- Source `NOFILE`, the invalid file id. -/
def NOFILE : Int := -1

/-- Source `NOPORT`, the port of a socket bound to no port. -/
def NOPORT : Int := 0

/-- The modulus of `uint` arithmetic. -/
def UINT_MOD : Nat := 2 ^ 32

/-- Source `socket_type`. -/
inductive socket_type where
  | SOCKET_LISTENER
  | SOCKET_UNBOUND
  | SOCKET_PEER
  deriving DecidableEq, Repr

/-- Source `shutdown_mode`; `other` stands for any value outside the enumeration. -/
inductive shutdown_mode where
  | SHUTDOWN_READ
  | SHUTDOWN_WRITE
  | SHUTDOWN_BOTH
  | other
  deriving DecidableEq, Repr

/-- The socket control block. The members of the C union are kept side by side:
`queue` is `listener_s.queue` (request identities, oldest first), `peer`, `write_pipe`
and `read_pipe` are `peer_s`. -/
structure socket_cb where
  refcount : Nat
  fcb : Nat
  type : socket_type
  port : Int
  queue : List Nat
  peer : Option Nat
  write_pipe : Option Nat
  read_pipe : Option Nat
  deriving DecidableEq, Repr

/-- A `connection_request`: the `admitted` flag and the client socket. -/
structure connection_request where
  admitted : Int
  peer : Nat
  deriving DecidableEq, Repr

/-- Allocator and scheduler calls made by the socket layer, in program order. -/
inductive SysEvent where
  | pipe (id : Nat) (e : KEvent)
  | free_socket (sock : Nat)
  | free_request (req : Nat)
  | free_node (req : Nat)
  | signal_req_available (sock : Nat)
  | signal_connected (req : Nat)
  deriving DecidableEq, Repr

/-- The kernel state seen by the socket layer: the file table of the calling process
(`fidt`, file id to FCB), the stream object of every FCB, the heaps of sockets, connection
requests and pipes, each with its allocation counter, `port_map`, and the event log. -/
structure SockState where
  fidt : Nat → Option Nat
  streamobj : Nat → Option Nat
  nfcb : Nat
  socks : Nat → Option socket_cb
  nsock : Nat
  reqs : Nat → Option connection_request
  nreq : Nat
  pipes : Nat → Option pipe_cb
  npipe : Nat
  port_map : Int → Option Nat
  log : List SysEvent

/-- The state at boot: nothing allocated, every `port_map` entry absent. -/
def SockState.init : SockState :=
  { fidt := fun _ => none, streamobj := fun _ => none, nfcb := 0,
    socks := fun _ => none, nsock := 0, reqs := fun _ => none, nreq := 0,
    pipes := fun _ => none, npipe := 0, port_map := fun _ => none, log := [] }

/-- Store `v` at key `k` of a heap. -/
def heap_set {κ α : Type} [DecidableEq κ] (h : κ → Option α) (k : κ) (v : Option α) :
    κ → Option α :=
  fun j => if j = k then v else h j

/-- Overwrite the socket control block `sock`. -/
def SockState.set_sock (s : SockState) (sock : Nat) (cb : socket_cb) : SockState :=
  { s with socks := heap_set s.socks sock (some cb) }

/-- Append an event to the log. -/
def SockState.emit (s : SockState) (e : SysEvent) : SockState :=
  { s with log := s.log ++ [e] }

/-- Modelled from the spec: `get_fcb(fid)` of the file-descriptor layer (not among the
sources), the FCB behind a file id of the calling process, `NULL` for an id outside
`[0, MAX_FILEID)` or an unused one. -/
def get_fcb (cfg : KernelConfig) (s : SockState) (fid : Int) : Option Nat :=
  if 0 ≤ fid ∧ fid < cfg.MAX_FILEID then s.fidt fid.toNat else none

/-- Modelled from the spec: `FCB_reserve(1, &fd, &fcb)` (`reserve_fids` of the
file-descriptor layer, not among the sources): the lowest unused file id of the calling
process gets a fresh FCB; it fails when every file id is in use. -/
def FCB_reserve (cfg : KernelConfig) (s : SockState) : Option (Nat × Nat × SockState) :=
  match (List.range cfg.MAX_FILEID).find? (fun f => (s.fidt f).isNone) with
  | none => none
  | some fd =>
    some (fd, s.nfcb, { s with fidt := heap_set s.fidt fd (some s.nfcb), nfcb := s.nfcb + 1 })

/-- Source `decref(socket_CB)`: decrement the `uint` count, free when it is below zero. -/
def decref (s : SockState) (socket_CB : Nat) : SockState :=
  match s.socks socket_CB with
  | none => s
  | some cb =>
    let cb1 := { cb with refcount := (cb.refcount + (UINT_MOD - 1)) % UINT_MOD }
    let s1 := s.set_sock socket_CB cb1
    if (cb1.refcount : Int) < 0 then s1.emit (.free_socket socket_CB) else s1

/-- Source `get_socketcb(fid)`. -/
def get_socketcb (cfg : KernelConfig) (s : SockState) (fid : Int) : Option Nat :=
  match get_fcb cfg s fid with
  | none => none
  | some fcb => s.streamobj fcb

/-- The socket behind a file id, with its control block. -/
def socket_of (cfg : KernelConfig) (s : SockState) (fid : Int) : Option (Nat × socket_cb) :=
  match get_socketcb cfg s fid with
  | none => none
  | some sock => (s.socks sock).map (fun cb => (sock, cb))

/-- Source `pipe_writer_close` applied to a pipe pointer held by a socket. -/
def close_writer (s : SockState) (pipe : Option Nat) : Int × SockState :=
  match pipe with
  | none => ((pipe_writer_close none).1, s)
  | some id =>
    let r := pipe_writer_close (s.pipes id)
    (r.1, { s with pipes := heap_set s.pipes id r.2.1,
                   log := s.log ++ r.2.2.map (SysEvent.pipe id) })

/-- Source `pipe_reader_close` applied to a pipe pointer held by a socket. -/
def close_reader (s : SockState) (pipe : Option Nat) : Int × SockState :=
  match pipe with
  | none => ((pipe_reader_close none).1, s)
  | some id =>
    let r := pipe_reader_close (s.pipes id)
    (r.1, { s with pipes := heap_set s.pipes id r.2.1,
                   log := s.log ++ r.2.2.map (SysEvent.pipe id) })

/-- The listener branch of `socket_close`: pop and free every queued node. -/
def free_queue (s : SockState) : List Nat → SockState
  | [] => s
  | node :: rest => free_queue (s.emit (.free_node node)) rest

/-- Source `socket_close(socket)`. -/
def socket_close (s : SockState) (socket : Option Nat) : Int × SockState :=
  match socket with
  | none => (-1, s)
  | some socket_t =>
    match s.socks socket_t with
    | none => (-1, s)
    | some cb =>
      let s1 :=
        match cb.type with
        | .SOCKET_PEER =>
          let s2 := (close_writer s cb.write_pipe).2
          (close_reader s2 cb.read_pipe).2
        | .SOCKET_LISTENER =>
          let s2 := (free_queue s cb.queue).set_sock socket_t { cb with queue := [] }
          let s3 := s2.emit (.signal_req_available socket_t)
          { s3 with port_map := heap_set s3.port_map cb.port none }
        | .SOCKET_UNBOUND => s
      (0, decref s1 socket_t)

/-- Source `sys_Socket(port)`. -/
def sys_Socket (cfg : KernelConfig) (s : SockState) (port : Int) : Int × SockState :=
  if port > cfg.MAX_PORT ∨ port < 0 then (NOFILE, s)
  else
    match FCB_reserve cfg s with
    | none => (NOFILE, s)
    | some (fd, fcb, s1) =>
      let socket_t := s1.nsock
      ((fd : Int),
        { s1 with
          streamobj := heap_set s1.streamobj fcb (some socket_t)
          socks := heap_set s1.socks socket_t
            (some { refcount := 0, fcb := fcb, type := .SOCKET_UNBOUND, port := port,
                    queue := [], peer := none, write_pipe := none, read_pipe := none })
          nsock := s1.nsock + 1 })

/-- Source `sys_Listen(sock)`. -/
def sys_Listen (cfg : KernelConfig) (s : SockState) (sock : Int) : Int × SockState :=
  match get_socketcb cfg s sock with
  | none => (-1, s)
  | some socketcb_t =>
    match s.socks socketcb_t with
    | none => (-1, s)
    | some cb =>
      let port := cb.port
      if port = NOPORT then (-1, s)
      else if s.port_map port ≠ none then (-1, s)
      else if cb.type ≠ .SOCKET_UNBOUND then (-1, s)
      else
        let s1 := { s with port_map := heap_set s.port_map port (some socketcb_t) }
        (0, s1.set_sock socketcb_t { cb with type := .SOCKET_LISTENER, queue := [] })

/-- The call a thread is blocked in, with the locals it continues with. -/
inductive Blocked where
  | accept (listener_socket : Nat)
  | connect (request server_sock : Nat)
  deriving DecidableEq, Repr

/-- Outcome of a system call that may block: a return value, or a yield in
`kernel_wait`/`kernel_timedwait`; both with the state left behind. -/
inductive SysStep where
  | ret (v : Int) (s : SockState)
  | wait (b : Blocked) (s : SockState)

/-- A fresh pipe as `sys_Accept` sets it up: both cursors 0, the two handles given. -/
def fresh_pipe (cfg : KernelConfig) (reader writer : Nat) : pipe_cb :=
  { reader := some reader, writer := some writer, r_position := 0, w_position := 0,
    BUFFER := List.replicate cfg.PIPE_BUFFER_SIZE 0 }

/-- Source `sys_Accept` when `sys_Socket` has returned `NOFILE`: drop the reference, signal the
client, free the listener if its count is below zero. -/
def accept_alloc_failed (s2 : SockState) (listener_socket req : Nat) : SysStep :=
  match s2.socks listener_socket with
  | none => .ret NOFILE s2
  | some l2 =>
    let l3 := { l2 with refcount := (l2.refcount + (UINT_MOD - 1)) % UINT_MOD }
    let s3 := (s2.set_sock listener_socket l3).emit (.signal_connected req)
    .ret NOFILE (if (l3.refcount : Int) < 0 then s3.emit (.free_socket listener_socket) else s3)

/-- Source `sys_Accept` once the server socket exists: build the two pipes, make both sockets
peers of each other, admit the request, drop the reference and signal the client. -/
def accept_pair (cfg : KernelConfig) (s2 : SockState) (listener_socket req : Nat)
    (r : connection_request) (server_fid : Int) : SysStep :=
  let client_peer := r.peer
  match get_socketcb cfg s2 server_fid with
  | none => .ret NOFILE s2
  | some server_peer =>
    match s2.socks server_peer, s2.socks client_peer with
    | some srv, some cli =>
      let pipe1 := s2.npipe
      let pipe2 := s2.npipe + 1
      let s3 := { s2 with
        pipes := heap_set
          (heap_set s2.pipes pipe1 (some (fresh_pipe cfg cli.fcb srv.fcb)))
          pipe2 (some (fresh_pipe cfg srv.fcb cli.fcb))
        npipe := s2.npipe + 2 }
      let s4 := s3.set_sock server_peer
        { srv with type := .SOCKET_PEER, write_pipe := some pipe1,
                   read_pipe := some pipe2, peer := some client_peer }
      match s4.socks client_peer with
      | none => .ret NOFILE s4
      | some cli4 =>
        let s5 := s4.set_sock client_peer
          { cli4 with type := .SOCKET_PEER, write_pipe := some pipe2,
                      read_pipe := some pipe1, peer := some server_peer }
        let s6 := { s5 with reqs := heap_set s5.reqs req (some { r with admitted := 1 }) }
        .ret server_fid ((decref s6 listener_socket).emit (.signal_connected req))
    | _, _ => .ret NOFILE s2

/-- Source `sys_Accept` from its `while` loop on: run at entry after the checks and the
increment of the reference count, and again at every wake-up from `req_available`. -/
def sys_Accept_resume (cfg : KernelConfig) (s : SockState) (listener_socket : Nat) : SysStep :=
  match s.socks listener_socket with
  | none => .ret NOFILE s
  | some l =>
    match l.queue, s.port_map l.port with
    | [], some _ => .wait (.accept listener_socket) s
    | _, none => .ret NOFILE (decref s listener_socket)
    | req :: rest, some _ =>
      let s1 := s.set_sock listener_socket { l with queue := rest }
      match s1.reqs req with
      | none => .ret NOFILE s1
      | some r =>
        let res := sys_Socket cfg s1 l.port
        if res.1 = NOFILE then accept_alloc_failed res.2 listener_socket req
        else accept_pair cfg res.2 listener_socket req r res.1

/-- Source `sys_Accept(lsock)`. -/
def sys_Accept (cfg : KernelConfig) (s : SockState) (lsock : Int) : SysStep :=
  match get_socketcb cfg s lsock with
  | none => .ret NOFILE s
  | some listener_socket =>
    match s.socks listener_socket with
    | none => .ret NOFILE s
    | some l =>
      if l.type ≠ .SOCKET_LISTENER then .ret NOFILE s
      else if s.port_map l.port = none then .ret NOFILE s
      else
        sys_Accept_resume cfg
          (s.set_sock listener_socket { l with refcount := (l.refcount + 1) % UINT_MOD })
          listener_socket

/-- Source `sys_Connect(sock, port, timeout)` up to its `kernel_timedwait`; the wait ends on a
signal or when the timeout expires, so the timeout does not enter the result. -/
def sys_Connect (cfg : KernelConfig) (s : SockState) (sock : Int) (port : Int)
    (_timeout : Nat) : SysStep :=
  match get_socketcb cfg s sock with
  | none => .ret (-1) s
  | some socketcb_t =>
    match s.socks socketcb_t with
    | none => .ret (-1) s
    | some cb =>
      if cb.type ≠ .SOCKET_UNBOUND then .ret (-1) s
      else if port > cfg.MAX_PORT ∨ port < 1 then .ret (-1) s
      else
        match s.port_map port with
        | none => .ret (-1) s
        | some server_sock =>
          match s.socks server_sock with
          | none => .ret (-1) s
          | some srv =>
            if srv.type ≠ .SOCKET_LISTENER then .ret (-1) s
            else
              let request := s.nreq
              let s1 := { s with
                reqs := heap_set s.reqs request (some { admitted := 0, peer := socketcb_t })
                nreq := s.nreq + 1 }
              let srv1 := { srv with queue := srv.queue ++ [request] }
              let s2 := (s1.set_sock server_sock srv1).emit (.signal_req_available server_sock)
              .wait (.connect request server_sock)
                (s2.set_sock server_sock
                  { srv1 with refcount := (srv1.refcount + 1) % UINT_MOD })

/-- Source `rlist_remove(&request->queue_node)`: unlink the request from the queue it is in. -/
def unlink_request (s : SockState) (request : Nat) : SockState :=
  { s with socks := fun i =>
      (s.socks i).map (fun cb => { cb with queue := cb.queue.filter (fun q => q ≠ request) }) }

/-- Source `sys_Connect` after its `kernel_timedwait` (signalled or timed out). -/
def sys_Connect_resume (s : SockState) (request server_sock : Nat) : Int × SockState :=
  let s1 := decref s server_sock
  match s1.reqs request with
  | none => (-1, s1)
  | some r =>
    let retval := r.admitted - 1
    let s2 := unlink_request s1 request
    (retval, { s2 with reqs := heap_set s2.reqs request none }.emit (.free_request request))

/-- Source `sys_ShutDown(sock, how)`. -/
def sys_ShutDown (cfg : KernelConfig) (s : SockState) (sock : Int) (how : shutdown_mode) :
    Int × SockState :=
  match get_socketcb cfg s sock with
  | none => (-1, s)
  | some socket =>
    match s.socks socket with
    | none => (-1, s)
    | some cb =>
      if cb.type ≠ .SOCKET_PEER then (-1, s)
      else
        match how with
        | .SHUTDOWN_READ =>
          let s1 := (close_reader s cb.read_pipe).2
          (0, s1.set_sock socket { cb with read_pipe := none })
        | .SHUTDOWN_WRITE =>
          let s1 := (close_writer s cb.write_pipe).2
          (0, s1.set_sock socket { cb with write_pipe := none })
        | .SHUTDOWN_BOTH =>
          let s1 := (close_reader s cb.read_pipe).2
          let s2 := (close_writer s1 cb.write_pipe).2
          (0, s2.set_sock socket { cb with read_pipe := none, write_pipe := none })
        | .other => (-1, s)

/-- The state a step leaves behind. -/
def SysStep.state : SysStep → SockState
  | .ret _ s => s
  | .wait _ s => s

/-- The value a step returns, `none` when it blocks. -/
def SysStep.value : SysStep → Option Int
  | .ret v _ => some v
  | .wait _ _ => none

/-- A small configuration for worked examples: ports up to 1023, 16 file ids, ring of 8. -/
def demo_config : KernelConfig := ⟨1023, 16, 8⟩

/-- Worked example: a socket on port 80 (file id 0, socket 0). -/
def demo_socket : SockState := (sys_Socket demo_config SockState.init 80).2

/-- Worked example: the socket made a listener. -/
def demo_listening : SockState := (sys_Listen demo_config demo_socket 0).2

/-- Worked example: a second socket, on no port (file id 1, socket 1), the client. -/
def demo_client : SockState := (sys_Socket demo_config demo_listening 0).2

/-- Worked example: the client asleep in `sys_Connect(1, 80, 1000)`, request 0 queued. -/
def demo_connecting : SockState := (sys_Connect demo_config demo_client 1 80 1000).state

/-- Worked example: the server has accepted the request (file id 2, socket 2). -/
def demo_accepted : SockState := (sys_Accept demo_config demo_connecting 0).state

/-- One step taken by a thread of the calling process: a call that runs to its return or
to its wait, or the continuation of a blocked call. -/
inductive SockCall where
  | Socket (port : Int)
  | Listen (fid : Int)
  | Connect (fid port : Int) (timeout : Nat)
  | Accept (fid : Int)
  | Wake (b : Blocked)
  | ShutDown (fid : Int) (how : shutdown_mode)
  | Close (sock : Nat)
  deriving DecidableEq, Repr

/-- The socket layer together with the calls currently blocked in it. -/
structure Kernel where
  st : SockState
  blocked : List Blocked

/-- Record the outcome of a call: the new state, and the call itself when it blocks. -/
def Kernel.after (k : Kernel) : SysStep → Kernel
  | .ret _ s => { k with st := s }
  | .wait b s => { st := s, blocked := k.blocked ++ [b] }

/-- Run one step under the big kernel lock. Waking a call that is not blocked does
nothing. -/
def sock_step (cfg : KernelConfig) (k : Kernel) : SockCall → Kernel
  | .Socket port => { k with st := (sys_Socket cfg k.st port).2 }
  | .Listen fid => { k with st := (sys_Listen cfg k.st fid).2 }
  | .Connect fid port timeout => k.after (sys_Connect cfg k.st fid port timeout)
  | .Accept fid => k.after (sys_Accept cfg k.st fid)
  | .Wake b =>
    if b ∈ k.blocked then
      match b with
      | .accept l =>
        Kernel.after { k with blocked := k.blocked.erase b } (sys_Accept_resume cfg k.st l)
      | .connect req srv =>
        { st := (sys_Connect_resume k.st req srv).2, blocked := k.blocked.erase b }
    else k
  | .ShutDown fid how => { k with st := (sys_ShutDown cfg k.st fid how).2 }
  | .Close sock => { k with st := (socket_close k.st (some sock)).2 }

/-- Run a schedule of steps from left to right. -/
def sock_run (cfg : KernelConfig) : List SockCall → Kernel → Kernel
  | [], k => k
  | c :: cs, k => sock_run cfg cs (sock_step cfg k c)

/-- A schedule of three threads sharing file id 0: the socket on port 5 starts to connect
to port 80, is made a listener while its request is pending, and is then accepted. -/
def race_schedule : List SockCall :=
  [.Socket 5, .Socket 80, .Listen 1, .Connect 0 80 1000, .Listen 0, .Accept 1]

/-- The state `sys_Connect` leaves behind when it goes to sleep: the request `s.nreq`,
not admitted, is the newest entry of the listener's queue and the listener's reference
count is one higher. -/
def connect_pending (s : SockState) (client server_sock : Nat) (srv : socket_cb) : SockState :=
  { s with
    reqs := heap_set s.reqs s.nreq (some { admitted := 0, peer := client })
    nreq := s.nreq + 1
    socks := heap_set (heap_set s.socks server_sock
        (some { srv with queue := srv.queue ++ [s.nreq] })) server_sock
      (some { srv with queue := srv.queue ++ [s.nreq],
                       refcount := (srv.refcount + 1) % UINT_MOD })
    log := s.log ++ [.signal_req_available server_sock] }

/-- The preconditions of `sys_Connect`: the file id names an `UNBOUND` socket, the port
lies in `[1, MAX_PORT]` and `port_map[port]` holds a `LISTENER`. -/
def connect_pre (cfg : KernelConfig) (s : SockState) (sock port : Int) : Prop :=
  (∃ id cb, socket_of cfg s sock = some (id, cb) ∧ cb.type = .SOCKET_UNBOUND) ∧
    1 ≤ port ∧ port ≤ cfg.MAX_PORT ∧
    ∃ l lcb, s.port_map port = some l ∧ s.socks l = some lcb ∧ lcb.type = .SOCKET_LISTENER

/-- What a successful `accept_pair` leaves behind. -/
structure Paired (cfg : KernelConfig) (s2 s' : SockState) (listener_socket req : Nat)
    (r : connection_request) (server client : Nat) : Prop where
  admitted : s'.reqs req = some { r with admitted := 1 }
  reqs_other : ∀ q, q ≠ req → s'.reqs q = s2.reqs q
  pairing : ∃ srv cli srv' cli',
    s2.socks server = some srv ∧ s2.socks client = some cli ∧
    s'.socks server = some srv' ∧ s'.socks client = some cli' ∧
    srv'.type = .SOCKET_PEER ∧ cli'.type = .SOCKET_PEER ∧
    srv'.peer = some client ∧ cli'.peer = some server ∧
    srv'.port = srv.port ∧ cli'.port = cli.port ∧ srv'.fcb = srv.fcb ∧ cli'.fcb = cli.fcb ∧
    cli'.read_pipe = some s2.npipe ∧ srv'.write_pipe = some s2.npipe ∧
    cli'.write_pipe = some (s2.npipe + 1) ∧ srv'.read_pipe = some (s2.npipe + 1) ∧
    s'.pipes s2.npipe = some (fresh_pipe cfg cli.fcb srv.fcb) ∧
    s'.pipes (s2.npipe + 1) = some (fresh_pipe cfg srv.fcb cli.fcb)
  socks_other : ∀ j, j ≠ server → j ≠ client → j ≠ listener_socket → s'.socks j = s2.socks j
  listener : ∀ lcb, s2.socks listener_socket = some lcb → listener_socket ≠ server →
    ∃ lcb', s'.socks listener_socket = some lcb' ∧ lcb'.queue = lcb.queue ∧
      lcb'.port = lcb.port ∧
      lcb'.refcount = (lcb.refcount + (UINT_MOD - 1)) % UINT_MOD
  port_map : s'.port_map = s2.port_map
  fidt : s'.fidt = s2.fidt
  streamobj : s'.streamobj = s2.streamobj

/-- The state of `accept_pair` just before its `decref`: pipes built, sockets paired,
request admitted. -/
def paired_core (cfg : KernelConfig) (s2 : SockState) (req : Nat) (r : connection_request)
    (server : Nat) (srv cli : socket_cb) : SockState :=
  { s2 with
    pipes := heap_set
      (heap_set s2.pipes s2.npipe (some (fresh_pipe cfg cli.fcb srv.fcb)))
      (s2.npipe + 1) (some (fresh_pipe cfg srv.fcb cli.fcb))
    npipe := s2.npipe + 2
    socks := heap_set
      (heap_set s2.socks server
        (some { srv with type := .SOCKET_PEER, write_pipe := some s2.npipe,
                         read_pipe := some (s2.npipe + 1), peer := some r.peer }))
      r.peer
      (some { cli with type := .SOCKET_PEER, write_pipe := some (s2.npipe + 1),
                       read_pipe := some s2.npipe, peer := some server })
    reqs := heap_set s2.reqs req (some { r with admitted := 1 }) }

/-- The state `accept_pair` returns when the server socket `server` (block `srv`) and the
client socket `r.peer` (block `cli`) are distinct. -/
def paired_state (cfg : KernelConfig) (s2 : SockState) (l req : Nat) (r : connection_request)
    (server : Nat) (srv cli : socket_cb) : SockState :=
  (decref (paired_core cfg s2 req r server srv cli) l).emit (.signal_connected req)

/-- The state in which `sys_Accept` calls `sys_Socket`: the oldest request popped. -/
def popped (s : SockState) (l : Nat) (lcb : socket_cb) (rest : List Nat) : SockState :=
  s.set_sock l { lcb with queue := rest }

/-- The fresh socket control block written by `sys_Socket`. -/
def fresh_socket (fcb : Nat) (port : Int) : socket_cb :=
  { refcount := 0, fcb := fcb, type := .SOCKET_UNBOUND, port := port, queue := [],
    peer := none, write_pipe := none, read_pipe := none }

/-- The request at the head of a listener's queue, and its client, are allocated. -/
def head_allocated (s : SockState) (lcb : socket_cb) : Prop :=
  ∀ req rest, lcb.queue = req :: rest → ∃ r, s.reqs req = some r ∧ (s.socks r.peer).isSome

/-! ## Definitions: socket reads, writes and shutdown (`kernel_socket.c`) -/

/-- What a read or write on a socket hands back: the returned `int`, the kernel state and the
caller's buffer afterwards; or a yield in the `kernel_wait` of the pipe layer. -/
inductive SockIO where
  | ret (v : Int) (s : SockState) (buf : Option (List Byte))
  | wait (cv : CondVar)

/-- Run a pipe call on the pipe `id` of the heap and store the control block it leaves. -/
def on_pipe (s : SockState) (id : Nat) (step : PipeStep) : SockIO :=
  match step with
  | .ret v q b ev =>
    .ret v { s with pipes := heap_set s.pipes id q,
                    log := s.log ++ ev.map (SysEvent.pipe id) } b
  | .wait cv => .wait cv

/-- Source `socket_read(sock, buf, size)`. -/
def socket_read (cfg : KernelConfig) (s : SockState) (sock : Option Nat)
    (buf : Option (List Byte)) (size : Nat) : SockIO :=
  match sock with
  | none => .ret (-1) s buf
  | some id =>
    match s.socks id with
    | none => .ret (-1) s buf
    | some socket =>
      if socket.type ≠ .SOCKET_PEER then .ret (-1) s buf
      else match socket.read_pipe with
        | none => .ret (-1) s buf
        | some pipe => on_pipe s pipe (pipe_read cfg.PIPE_BUFFER_SIZE (s.pipes pipe) buf size)

/-- Source `socket_write(socket_t, buf, size)`. -/
def socket_write (cfg : KernelConfig) (s : SockState) (socket_t : Option Nat)
    (buf : Option (List Byte)) (size : Nat) : SockIO :=
  match socket_t with
  | none => .ret (-1) s buf
  | some id =>
    match s.socks id with
    | none => .ret (-1) s buf
    | some scb =>
      if scb.type ≠ .SOCKET_PEER then .ret (-1) s buf
      else match scb.write_pipe with
        | none => .ret (-1) s buf
        | some pipe => on_pipe s pipe (pipe_write cfg.PIPE_BUFFER_SIZE (s.pipes pipe) buf size)

/-- The returned `int` of a socket read or write, if the call returned. -/
def SockIO.value : SockIO → Option Int
  | .ret v _ _ => some v
  | .wait _ => none

/-- The caller's buffer after a socket read or write, if the call returned. -/
def SockIO.buffer : SockIO → Option (List Byte)
  | .ret _ _ b => b
  | .wait _ => none

/-- The kernel state after a socket read or write; `s` when the call yields. -/
def SockIO.state (s : SockState) : SockIO → SockState
  | .ret _ t _ => t
  | .wait _ => s

/-- Sockets `a` and `b` are the two ends of one connection: both are `PEER`, `a` writes
into pipe `pab` from which `b` reads, `b` writes into pipe `pba` from which `a` reads. -/
def Linked (s : SockState) (a b pab pba : Nat) : Prop :=
  ∃ ca cb, s.socks a = some ca ∧ s.socks b = some cb ∧
    ca.type = .SOCKET_PEER ∧ cb.type = .SOCKET_PEER ∧
    ca.write_pipe = some pab ∧ cb.read_pipe = some pab ∧
    cb.write_pipe = some pba ∧ ca.read_pipe = some pba ∧ pab ≠ pba


/-- Whether a mode of `sys_ShutDown` shuts the read direction (`SHUTDOWN_READ` and
`SHUTDOWN_BOTH` run `pipe_reader_close`). -/
def shutdown_mode.closes_read : shutdown_mode → Bool
  | .SHUTDOWN_READ => true
  | .SHUTDOWN_BOTH => true
  | _ => false

/-- Whether a mode of `sys_ShutDown` shuts the write direction (`SHUTDOWN_WRITE` and
`SHUTDOWN_BOTH` run `pipe_writer_close`). -/
def shutdown_mode.closes_write : shutdown_mode → Bool
  | .SHUTDOWN_WRITE => true
  | .SHUTDOWN_BOTH => true
  | _ => false

/-! ## Definitions: threads and processes (`kernel_threads.c`, `kernel_proc.c`) -/

/-- Modelled from the spec: `NOPROC` (`tinyos.h`, not among the sources), the `Pid_t` returned
when there is no process, is -1. -/
def NOPROC : Int := -1

/-- Modelled from the spec: the states `FREE`, `ALIVE`, `ZOMBIE` of a slot of the process
table (`pid_state` of `kernel_proc.h`, not among the sources). -/
inductive pid_state where
  | FREE
  | ALIVE
  | ZOMBIE
  deriving DecidableEq, Repr

/-- Modelled from the spec: the thread control block `PTCB` (its declaration, in
`kernel_proc.h`, is not among the sources; the fields are those the code uses): the task
and its arguments, the exit value, the flags `exited` and `detached`, and the count
`ref_count` of joiners. The thread id `Tid_t` of a thread is the address of this block. -/
structure PTCB where
  task : Option Nat
  argl : Int
  args : Option (List Byte)
  exitval : Int
  exited : Bool
  detached : Bool
  ref_count : Int
  deriving DecidableEq, Repr

/-- Modelled from the spec: the process control block `PCB` (declared in `kernel_proc.h`, not
among the sources; the fields are those the code uses). `parent` is a pointer into the
process table, that is a pid; the `rlnode` rings `children_list`, `exited_list` and
`ptcb_list` are lists of pids and of thread ids, head first. -/
structure PCB where
  pstate : pid_state
  parent : Option Nat
  exitval : Int
  main_task : Option Nat
  argl : Int
  args : Option (List Byte)
  FIDT : List (Option Nat)
  children_list : List Nat
  exited_list : List Nat
  thread_count : Int
  ptcb_list : List Nat
  main_thread : Option Nat
  deriving DecidableEq, Repr

/-- Side effects of the process layer on the allocator and the scheduler, in program order. -/
inductive ProcEvent where
  | free_ptcb (ptcb : Nat)
  | free_args (pid : Nat)
  | wakeup (ptcb : Nat)
  | broadcast_exit_cv (ptcb : Nat)
  | broadcast_child_exit (pid : Nat)
  | sleep_exited (ptcb : Nat)
  deriving DecidableEq, Repr

/-- The kernel state seen by the process layer: the process table `PT`, the head of the
free list (threaded through the `parent` fields), `process_count`, the heap of thread
control blocks with its allocation counter, the reference count of every FCB, and the
event log. -/
structure ProcState where
  PT : Nat → PCB
  pcb_freelist : Option Nat
  process_count : Nat
  ptcbs : Nat → Option PTCB
  nptcb : Nat
  fcb_refcount : Nat → Nat
  log : List ProcEvent

/-- Overwrite the slot `pid` of the process table. -/
def ProcState.set_pcb (s : ProcState) (pid : Nat) (pcb : PCB) : ProcState :=
  { s with PT := fun q => if q = pid then pcb else s.PT q }

/-- Overwrite the thread control block `ptcb`. -/
def ProcState.set_ptcb (s : ProcState) (ptcb : Nat) (t : PTCB) : ProcState :=
  { s with ptcbs := heap_set s.ptcbs ptcb (some t) }

/-- Append an event to the log. -/
def ProcState.emit (s : ProcState) (e : ProcEvent) : ProcState :=
  { s with log := s.log ++ [e] }

/-- A write through the pointer `ptcb` to a thread control block. -/
def ProcState.update_ptcb (s : ProcState) (ptcb : Nat) (f : PTCB → PTCB) : ProcState :=
  match s.ptcbs ptcb with
  | none => s
  | some t => s.set_ptcb ptcb (f t)

/-- Source `get_pcb(pid)`. -/
def get_pcb (s : ProcState) (pid : Nat) : Option Nat :=
  if (s.PT pid).pstate = .FREE then none else some pid

/-- Source `get_pid(pcb)`. -/
def get_pid (pcb : Option Nat) : Int :=
  match pcb with
  | none => NOPROC
  | some p => p

/-- A slot of the table before `initialize_PCB`: static storage, all zero. -/
def PCB.zero : PCB :=
  { pstate := .FREE, parent := none, exitval := 0, main_task := none, argl := 0, args := none,
    FIDT := [], children_list := [], exited_list := [], thread_count := 0, ptcb_list := [],
    main_thread := none }

/-- Source `initialize_PCB(pcb)`. -/
def initialize_PCB (MAX_FILEID : Nat) (pcb : PCB) : PCB :=
  { pcb with pstate := .FREE, argl := 0, args := none,
             FIDT := List.replicate MAX_FILEID none, children_list := [], exited_list := [] }

/-- Source `acquire_PCB()`. -/
def acquire_PCB (s : ProcState) : Option Nat × ProcState :=
  match s.pcb_freelist with
  | none => (none, s)
  | some pcb =>
    (some pcb,
      { s.set_pcb pcb { s.PT pcb with pstate := .ALIVE } with
        pcb_freelist := (s.PT pcb).parent
        process_count := (s.process_count + 1) % UINT_MOD })

/-- Source `release_PCB(pcb)`. -/
def release_PCB (s : ProcState) (pcb : Nat) : ProcState :=
  { s.set_pcb pcb { s.PT pcb with pstate := .FREE, parent := s.pcb_freelist } with
    pcb_freelist := some pcb
    process_count := (s.process_count + (UINT_MOD - 1)) % UINT_MOD }

/-- Modelled from the spec: `spawn_process_thread(pcb, entry)` of the scheduler (not among
the sources) allocates a thread control block for a new thread of `pcb`, not exited, not
detached, with no joiner, links it at the back of the process's `ptcb_list` and counts the
thread in `thread_count`. -/
def spawn_process_thread (s : ProcState) (pcb : Nat) : Nat × ProcState :=
  let p := s.PT pcb
  let s1 := s.set_pcb pcb
    { p with ptcb_list := p.ptcb_list ++ [s.nptcb], thread_count := p.thread_count + 1 }
  (s.nptcb,
    { s1 with
      ptcbs := heap_set s.ptcbs s.nptcb
        (some { task := none, argl := 0, args := none, exitval := 0, exited := false,
                detached := false, ref_count := 0 })
      nptcb := s.nptcb + 1 })

/-- Modelled from the spec: `FCB_incref(fcb)` of the stream layer (not among the sources)
adds one to the reference count of the FCB. -/
def FCB_incref (s : ProcState) (fcb : Nat) : ProcState :=
  { s with fcb_refcount := fun f => if f = fcb then s.fcb_refcount f + 1 else s.fcb_refcount f }

/-- Modelled from the spec: `FCB_decref(fcb)` of the stream layer (not among the sources)
takes one from the reference count of the FCB. -/
def FCB_decref (s : ProcState) (fcb : Nat) : ProcState :=
  { s with fcb_refcount := fun f => if f = fcb then s.fcb_refcount f - 1 else s.fcb_refcount f }

/-- The loop of `sys_Exec` over the inherited file table: one `FCB_incref` per non-null
entry. -/
def incref_all (s : ProcState) : List (Option Nat) → ProcState
  | [] => s
  | none :: rest => incref_all s rest
  | some fcb :: rest => incref_all (FCB_incref s fcb) rest

/-- The loop of `CleanUp` over the file table: one `FCB_decref` per non-null entry. -/
def decref_all (s : ProcState) : List (Option Nat) → ProcState
  | [] => s
  | none :: rest => decref_all s rest
  | some fcb :: rest => decref_all (FCB_decref s fcb) rest

/-- The first `MAX_FILEID` entries of a file table. -/
def fidt_entries (MAX_FILEID : Nat) (FIDT : List (Option Nat)) : List (Option Nat) :=
  (List.range MAX_FILEID).map (fun i => FIDT.getD i none)

/-- The first part of `sys_Exec`: a process with pid 0 or 1 is parentless; any other gets
`curproc` as parent, goes to the front of its children list and inherits its file table,
with one `FCB_incref` per non-null entry. -/
def exec_link (MAX_FILEID : Nat) (s1 : ProcState) (curproc newproc : Nat) : ProcState :=
  if get_pid (some newproc) ≤ 1 then
    s1.set_pcb newproc { s1.PT newproc with parent := none }
  else
    let sa := s1.set_pcb newproc { s1.PT newproc with parent := some curproc }
    let sb := sa.set_pcb curproc
      { sa.PT curproc with children_list := newproc :: (sa.PT curproc).children_list }
    let inherited := fidt_entries MAX_FILEID (sb.PT curproc).FIDT
    incref_all (sb.set_pcb newproc { sb.PT newproc with FIDT := inherited }) inherited

/-- The argument copy of `sys_Exec`, `malloc(argl)` followed by
`memcpy(newproc->args, args, argl)`, is defined: `args` is null (nothing is copied), or
`argl` is not negative and `args` points to at least `argl` bytes. Outside this domain the
code faults or reads beyond the buffer of the caller. -/
def args_defined (argl : Int) (args : Option (List Byte)) : Prop :=
  match args with
  | none => True
  | some a => 0 ≤ argl ∧ argl.toNat ≤ a.length

instance (argl : Int) (args : Option (List Byte)) : Decidable (args_defined argl args) := by
  unfold args_defined
  cases args <;> infer_instance

/-- The second part of `sys_Exec`: the main task and a copy of the `argl` argument bytes.
The copy is the one the code makes where it is defined (`args_defined`): the first `argl`
bytes behind `args`; the function is a model of the code on that domain only. -/
def exec_args (s2 : ProcState) (newproc : Nat) (call : Option Nat) (argl : Int)
    (args : Option (List Byte)) : ProcState :=
  s2.set_pcb newproc
    { s2.PT newproc with
      main_task := call, argl := argl, args := args.map (fun a => a.take argl.toNat) }

/-- The last part of `sys_Exec`: for a non-null task, the main thread is spawned, given the
task and its arguments, and woken up. -/
def exec_thread (s3 : ProcState) (newproc : Nat) (call : Option Nat) (argl : Int)
    (args : Option (List Byte)) : ProcState :=
  if call ≠ none then
    let sc := s3.set_pcb newproc { s3.PT newproc with thread_count := 0, ptcb_list := [] }
    let sp := spawn_process_thread sc newproc
    (sp.2.update_ptcb sp.1 (fun t => { t with task := call, argl := argl, args := args })).emit
      (.wakeup sp.1)
  else s3

/-- Source `sys_Exec(call, argl, args)`, called by a thread of process `curproc`. -/
def sys_Exec (MAX_FILEID : Nat) (s : ProcState) (curproc : Nat) (call : Option Nat)
    (argl : Int) (args : Option (List Byte)) : Int × ProcState :=
  match acquire_PCB s with
  | (none, s0) => (get_pid none, s0)
  | (some newproc, s1) =>
    (get_pid (some newproc),
      exec_thread (exec_args (exec_link MAX_FILEID s1 curproc newproc) newproc call argl args)
        newproc call argl args)

/-- Successive calls of `sys_Exec`, each with its caller and arguments: the pids returned and
the state after the last. -/
def exec_seq (MAX_FILEID : Nat) :
    List (Nat × Option Nat × Int × Option (List Byte)) → ProcState → List Int × ProcState
  | [], s => ([], s)
  | c :: rest, s =>
    let r := sys_Exec MAX_FILEID s c.1 c.2.1 c.2.2.1 c.2.2.2
    (r.1 :: (exec_seq MAX_FILEID rest r.2).1, (exec_seq MAX_FILEID rest r.2).2)

/-- The free-list loop of `initialize_processes`, from the last slot down to the first. -/
def build_freelist (s : ProcState) : List Nat → ProcState
  | [] => s
  | p :: rest =>
    build_freelist
      { s.set_pcb p { s.PT p with parent := s.pcb_freelist } with pcb_freelist := some p } rest

/-- The process table once `initialize_processes` has built the free list, before it
executes the idle process. -/
def init_table (MAX_PROC MAX_FILEID : Nat) : ProcState :=
  build_freelist
    { PT := fun _ => initialize_PCB MAX_FILEID PCB.zero, pcb_freelist := none,
      process_count := 0, ptcbs := fun _ => none, nptcb := 0, fcb_refcount := fun _ => 0,
      log := [] }
    (List.range MAX_PROC).reverse

/-- Source `initialize_processes()`: the value of its `Exec(NULL,0,NULL)` and the state. -/
def initialize_processes (MAX_PROC MAX_FILEID : Nat) : Int × ProcState :=
  sys_Exec MAX_FILEID (init_table MAX_PROC MAX_FILEID) 0 none 0 none

/-- Source `sys_GetPid()`. -/
def sys_GetPid (curproc : Nat) : Int :=
  get_pid (some curproc)

/-- Source `sys_GetPPid()`. -/
def sys_GetPPid (s : ProcState) (curproc : Nat) : Int :=
  get_pid (s.PT curproc).parent

/-- Source `sys_CreateThread(task, argl, args)`, called by a thread of process `curproc`;
`none` is `NOTHREAD`. -/
def sys_CreateThread (s : ProcState) (curproc : Nat) (task : Option Nat) (argl : Int)
    (args : Option (List Byte)) : Option Nat × ProcState :=
  match task with
  | none => (none, s)
  | some _ =>
    let sp := spawn_process_thread s curproc
    (some sp.1,
      (sp.2.update_ptcb sp.1 (fun t => { t with task := task, args := args, argl := argl })).emit
        (.wakeup sp.1))

/-- Source `sys_ThreadSelf()`: the thread control block of the running thread. -/
def sys_ThreadSelf (self : Nat) : Option Nat :=
  some self

/-- What `sys_ThreadJoin` hands back: the returned `int`, the state and the content of
`*exitval` afterwards (`none` for a null pointer); or a yield in `kernel_wait` on the
`exit_cv` of the thread joined. -/
inductive JoinStep where
  | ret (v : Int) (s : ProcState) (exitval : Option Int)
  | wait (ptcb : Nat) (s : ProcState)

/-- Source `rlist_remove(&ptcb->ptcb_list_node)`: the node leaves the list it is in. -/
def unlink_ptcb (s : ProcState) (ptcb : Nat) : ProcState :=
  { s with PT := fun q =>
      { s.PT q with ptcb_list := (s.PT q).ptcb_list.filter (fun t => t ≠ ptcb) } }

/-- Source `sys_ThreadJoin` from its `while` loop on: run at entry after the checks and the
increment of `ref_count`, and again at every wake-up from `exit_cv`. -/
def sys_ThreadJoin_resume (s : ProcState) (ptcb : Nat) (exitval : Option Int) : JoinStep :=
  match s.ptcbs ptcb with
  | none => .ret (-1) s exitval
  | some t =>
    if !t.exited && !t.detached then .wait ptcb s
    else
      let t1 := { t with ref_count := t.ref_count - 1 }
      let s1 := s.set_ptcb ptcb t1
      if t1.detached then .ret (-1) s1 exitval
      else
        let out := exitval.map (fun _ => t1.exitval)
        if t1.ref_count = 0 then .ret 0 ((unlink_ptcb s1 ptcb).emit (.free_ptcb ptcb)) out
        else .ret 0 s1 out

/-- Source `sys_ThreadJoin(tid, exitval)`, called by the thread `self` of process `curproc`. -/
def sys_ThreadJoin (s : ProcState) (curproc self : Nat) (tid : Option Nat)
    (exitval : Option Int) : JoinStep :=
  match tid with
  | none => .ret (-1) s exitval
  | some ptcb =>
    if ptcb ∉ (s.PT curproc).ptcb_list then .ret (-1) s exitval
    else
      match s.ptcbs ptcb with
      | none => .ret (-1) s exitval
      | some t =>
        if t.detached then .ret (-1) s exitval
        else if tid = sys_ThreadSelf self then .ret (-1) s exitval
        else
          sys_ThreadJoin_resume (s.set_ptcb ptcb { t with ref_count := t.ref_count + 1 })
            ptcb exitval

/-- Source `sys_ThreadDetach(tid)`, called by a thread of process `curproc`. A null `tid` is
the key of no node of the list, so `rlist_find` fails on it. -/
def sys_ThreadDetach (s : ProcState) (curproc : Nat) (tid : Option Nat) : Int × ProcState :=
  match tid with
  | none => (-1, s)
  | some ptcb =>
    if ptcb ∉ (s.PT curproc).ptcb_list then (-1, s)
    else
      match s.ptcbs ptcb with
      | none => (-1, s)
      | some t =>
        if t.exited then (-1, s)
        else (0, (s.set_ptcb ptcb { t with detached := true }).emit (.broadcast_exit_cv ptcb))

/-- One turn of the reparenting loop of `sys_ThreadExit`: `child` is popped from the front
of the children list of `curproc` (`rest` remains), gets `initpcb` as parent and goes to the
front of the children list of `initpcb`. -/
def reparent_one (initpcb : Option Nat) (curproc child : Nat) (rest : List Nat)
    (s : ProcState) : ProcState :=
  let s1 := s.set_pcb curproc { s.PT curproc with children_list := rest }
  let s2 := s1.set_pcb child { s1.PT child with parent := initpcb }
  match initpcb with
  | none => s2
  | some i => s2.set_pcb i { s2.PT i with children_list := child :: (s2.PT i).children_list }

/-- The reparenting loop of `sys_ThreadExit` over the children list of `curproc`. -/
def reparent_children (initpcb : Option Nat) (curproc : Nat) :
    List Nat → ProcState → ProcState
  | [], s => s
  | child :: rest, s =>
    reparent_children initpcb curproc rest (reparent_one initpcb curproc child rest s)

/-- The free loop of `CleanUp` over the `ptcb_list`. -/
def free_ptcbs (s : ProcState) : List Nat → ProcState
  | [] => s
  | ptcb :: rest => free_ptcbs (s.emit (.free_ptcb ptcb)) rest

/-- Source `CleanUp(curproc)`. -/
def CleanUp (MAX_FILEID : Nat) (s : ProcState) (curproc : Nat) : ProcState :=
  let s1 :=
    if (s.PT curproc).args ≠ none then
      (s.emit (.free_args curproc)).set_pcb curproc { s.PT curproc with args := none }
    else s
  let s2 := (decref_all s1 (fidt_entries MAX_FILEID (s1.PT curproc).FIDT)).set_pcb curproc
    { s1.PT curproc with FIDT := List.replicate MAX_FILEID none }
  let s3 := (free_ptcbs s2 (s2.PT curproc).ptcb_list).set_pcb curproc
    { s2.PT curproc with ptcb_list := [] }
  s3.set_pcb curproc { s3.PT curproc with main_thread := none, pstate := .ZOMBIE }

/-- The step of `sys_ThreadExit` after the reparenting loop: a non-empty exited list of
`curproc` is appended to the exited list of `initpcb`, which is then signalled. -/
def splice_exited (initpcb : Option Nat) (curproc : Nat) (s : ProcState) : ProcState :=
  if (s.PT curproc).exited_list ≠ [] then
    match initpcb with
    | none => s
    | some i =>
      let sa := s.set_pcb i
        { s.PT i with exited_list := (s.PT i).exited_list ++ (s.PT curproc).exited_list }
      (sa.set_pcb curproc { sa.PT curproc with exited_list := [] }).emit
        (.broadcast_child_exit i)
  else s

/-- The step of `sys_ThreadExit` that puts `curproc` at the front of the exited list of its
parent and signals the parent. -/
def enter_exited (curproc : Nat) (s : ProcState) : ProcState :=
  match (s.PT curproc).parent with
  | none => s
  | some parent =>
    (s.set_pcb parent
      { s.PT parent with exited_list := curproc :: (s.PT parent).exited_list }).emit
      (.broadcast_child_exit parent)

/-- The branch of `sys_ThreadExit` for the last thread of a process other than init: hand
the children and the exited children over to init, then enter the exited list of the
parent. -/
def orphan_children (s : ProcState) (curproc : Nat) : ProcState :=
  let initpcb := get_pcb s 1
  enter_exited curproc
    (splice_exited initpcb curproc
      (reparent_children initpcb curproc (s.PT curproc).children_list s))

/-- The first statements of `sys_ThreadExit`: the exit value and the `exited` flag are
stored in the thread control block of the running thread. -/
def mark_exited (s : ProcState) (self : Nat) (exitval : Int) : ProcState :=
  s.update_ptcb self (fun t => { t with exitval := exitval, exited := true })

/-- The next statements of `sys_ThreadExit`: one thread less in `curproc`, and a broadcast on
the `exit_cv` of the running thread. -/
def leave_process (s : ProcState) (curproc self : Nat) : ProcState :=
  (s.set_pcb curproc { s.PT curproc with thread_count := (s.PT curproc).thread_count - 1 }).emit
    (.broadcast_exit_cv self)

/-- The branch of `sys_ThreadExit` for the last thread of a process. -/
def last_thread (MAX_FILEID : Nat) (s : ProcState) (curproc : Nat) : ProcState :=
  CleanUp MAX_FILEID (if get_pid (some curproc) ≠ 1 then orphan_children s curproc else s)
    curproc

/-- Source `sys_ThreadExit(exitval)`, called by the thread `self` of process `curproc`. -/
def sys_ThreadExit (MAX_FILEID : Nat) (s : ProcState) (curproc self : Nat) (exitval : Int) :
    ProcState :=
  let s3 := leave_process (mark_exited s self exitval) curproc self
  let s4 := if (s3.PT curproc).thread_count = 0 then last_thread MAX_FILEID s3 curproc else s3
  s4.emit (.sleep_exited self)

/-- What `sys_WaitChild` hands back: the returned pid, the state and the content of `*status`
afterwards (`none` for a null pointer); or a yield in `kernel_wait` on `child_exit`. -/
inductive WaitStep where
  | ret (v : Int) (s : ProcState) (status : Option Int)
  | wait (s : ProcState)

/-- Source `cleanup_zombie(pcb, status)`: the two `rlist_remove` take the nodes of `pcb` out
of the lists they are in. -/
def cleanup_zombie (s : ProcState) (pcb : Nat) (status : Option Int) :
    ProcState × Option Int :=
  let s1 : ProcState :=
    { s with PT := fun q =>
        { s.PT q with
          children_list := (s.PT q).children_list.filter (fun c => c ≠ pcb)
          exited_list := (s.PT q).exited_list.filter (fun c => c ≠ pcb) } }
  (release_PCB s1 pcb, status.map (fun _ => (s.PT pcb).exitval))

/-- Source `wait_for_specific_child` from its `while` loop on (entry after the checks, and
every wake-up from `child_exit`). -/
def wait_for_specific_child_resume (s : ProcState) (child : Nat) (status : Option Int) :
    WaitStep :=
  if (s.PT child).pstate = .ALIVE then .wait s
  else
    let r := cleanup_zombie s child status
    .ret child r.1 r.2

/-- Source `wait_for_specific_child(cpid, status)`, called by a thread of `curproc`. -/
def wait_for_specific_child (MAX_PROC : Nat) (s : ProcState) (curproc : Nat) (cpid : Int)
    (status : Option Int) : WaitStep :=
  if cpid < 0 ∨ cpid ≥ MAX_PROC then .ret NOPROC s status
  else
    match get_pcb s cpid.toNat with
    | none => .ret NOPROC s status
    | some child =>
      if (s.PT child).parent ≠ some curproc then .ret NOPROC s status
      else wait_for_specific_child_resume s child status

/-- Source `wait_for_any_child(status)`, called by a thread of `curproc`; the same function
continues the call at a wake-up from `child_exit`. -/
def wait_for_any_child (s : ProcState) (curproc : Nat) (status : Option Int) : WaitStep :=
  if (s.PT curproc).children_list = [] then .ret NOPROC s status
  else
    match (s.PT curproc).exited_list with
    | [] => .wait s
    | child :: _ =>
      let r := cleanup_zombie s child status
      .ret (get_pid (some child)) r.1 r.2

/-- Source `sys_WaitChild(cpid, status)`. -/
def sys_WaitChild (MAX_PROC : Nat) (s : ProcState) (curproc : Nat) (cpid : Int)
    (status : Option Int) : WaitStep :=
  if cpid ≠ NOPROC then wait_for_specific_child MAX_PROC s curproc cpid status
  else wait_for_any_child s curproc status

/-- The loop `while(sys_WaitChild(NOPROC,NULL)!=NOPROC);` of `sys_Exit`; every turn takes
the head off the exited list, so the first argument, one more than the length of that list,
bounds the number of turns. The result is the state and whether the loop has ended
(`false`: the call sleeps in `kernel_wait`). -/
def drain_children : Nat → ProcState → Nat → Bool × ProcState
  | 0, s, _ => (false, s)
  | fuel + 1, s, curproc =>
    match wait_for_any_child s curproc none with
    | .wait s1 => (false, s1)
    | .ret v s1 _ => if v ≠ NOPROC then drain_children fuel s1 curproc else (true, s1)

/-- Source `sys_Exit(exitval)`, called by the thread `self` of process `curproc`; `false`
when the call sleeps in the `sys_WaitChild` of init. -/
def sys_Exit (MAX_FILEID : Nat) (s : ProcState) (curproc self : Nat) (exitval : Int) :
    Bool × ProcState :=
  let s1 := s.set_pcb curproc { s.PT curproc with exitval := exitval }
  if get_pid (some curproc) = 1 then
    let r := drain_children ((s1.PT curproc).exited_list.length + 1) s1 curproc
    if r.1 then (true, sys_ThreadExit MAX_FILEID r.2 curproc self exitval) else r
  else (true, sys_ThreadExit MAX_FILEID s1 curproc self exitval)

/-- The joiners blocked on `ptcb` resume one after the other, each with its own `exitval`
pointer: what each call hands back (`none` for a call that goes back to sleep) and the
state after the last. -/
def resume_joiners (ptcb : Nat) :
    List (Option Int) → ProcState → List (Option (Int × Option Int)) × ProcState
  | [], s => ([], s)
  | out :: rest, s =>
    match sys_ThreadJoin_resume s ptcb out with
    | .ret v s1 o => ((some (v, o)) :: (resume_joiners ptcb rest s1).1,
        (resume_joiners ptcb rest s1).2)
    | .wait _ s1 => (none :: (resume_joiners ptcb rest s1).1, (resume_joiners ptcb rest s1).2)

/-- The state of a join call: `s` itself when the call yields. -/
def JoinStep.state : JoinStep → ProcState
  | .ret _ s _ => s
  | .wait _ s => s

/-- The state of a wait call. -/
def WaitStep.state : WaitStep → ProcState
  | .ret _ s _ => s
  | .wait s => s

/-- The pid returned by a wait call, if it returned. -/
def WaitStep.value : WaitStep → Option Int
  | .ret v _ _ => some v
  | .wait _ => none

/-- Worked example, a table of four slots and two file ids: after `initialize_processes`
the idle process has pid 0. -/
def demo_boot : ProcState := (initialize_processes 4 2).2

/-- Worked example: the init process, pid 1, with its main thread, thread 0. -/
def demo_init : ProcState := (sys_Exec 2 demo_boot 0 (some 1) 0 none).2

/-- Worked example: init has created a second thread, thread 1. -/
def demo_threads : ProcState := (sys_CreateThread demo_init 1 (some 2) 0 none).2

/-- Worked example: init has executed a child process, pid 2, whose main thread is thread 1. -/
def demo_child : ProcState := (sys_Exec 2 demo_init 1 (some 3) 2 (some [7, 8, 9])).2

/-- Worked example: the child, pid 2, has executed a process of its own, pid 3, whose main
thread is thread 2. -/
def demo_grandchild : ProcState := (sys_Exec 2 demo_child 2 (some 4) 0 none).2

/-- No flag of a thread control block of `s` is reset in `s'`: every block of `s` is still
there, detached if it was detached and exited if it was exited. -/
def flags_kept (s s' : ProcState) : Prop :=
  ∀ q u, s.ptcbs q = some u →
    ∃ u', s'.ptcbs q = some u' ∧ (u.detached = true → u'.detached = true) ∧
      (u.exited = true → u'.exited = true)

/-- Worked example: the only thread of the child, pid 2, has called `Exit(42)`. -/
def demo_zombie : ProcState := (sys_Exit 2 demo_child 2 1 42).2

/-- The free list is well formed: following the `parent` links from `head` visits exactly
the slots of `L`, in order, each of them `FREE` and none twice, and ends in `NULL`. -/
def free_chain (s : ProcState) : Option Nat → List Nat → Prop
  | none, [] => True
  | some p, q :: rest =>
    p = q ∧ (s.PT q).pstate = .FREE ∧ q ∉ rest ∧ free_chain s (s.PT q).parent rest
  | _, _ => False

/-- The invariant of the process table. `child_in` is the parent/child relation as the code
keeps it: a live or zombie process with parent `q` is in the children list of `q`, and it
is in the exited list of `q` exactly when it is a zombie. The other fields make the
invariant inductive: the lists hold nothing else, the free list is well formed, pids 0 and
1 are parentless, and no pid above 1 is in use before init exists. -/
structure ProcInv (s : ProcState) : Prop where
  chain : ∃ L, free_chain s s.pcb_freelist L
  child_in : ∀ c q, (s.PT c).pstate ≠ .FREE → (s.PT c).parent = some q →
    c ∈ (s.PT q).children_list ∧ (c ∈ (s.PT q).exited_list ↔ (s.PT c).pstate = .ZOMBIE)
  children_ok : ∀ q c, c ∈ (s.PT q).children_list →
    (s.PT c).pstate ≠ .FREE ∧ (s.PT c).parent = some q
  exited_ok : ∀ q c, c ∈ (s.PT q).exited_list →
    (s.PT c).pstate = .ZOMBIE ∧ (s.PT c).parent = some q
  low : ∀ p, p ≤ 1 → (s.PT p).pstate ≠ .FREE → (s.PT p).parent = none
  init_first : (s.PT 1).pstate = .FREE →
    (∀ p, 2 ≤ p → (s.PT p).pstate = .FREE) ∧
      (s.pcb_freelist = some 1 ∨ s.pcb_freelist = none)

/-- The states the process table goes through: `initialize_processes`, then calls of
`sys_Exec`, `sys_ThreadExit`, `sys_Exit` and `sys_WaitChild` by threads of live processes.
A call of `sys_WaitChild` that goes to sleep leaves the state as it is; when it wakes up
with its child still unreaped it continues as the call made anew in the state it finds. -/
inductive Reachable (MAX_PROC MAX_FILEID : Nat) : ProcState → Prop where
  | boot : Reachable MAX_PROC MAX_FILEID (initialize_processes MAX_PROC MAX_FILEID).2
  | exec (s : ProcState) (curproc : Nat) (call : Option Nat) (argl : Int)
      (args : Option (List Byte)) :
      Reachable MAX_PROC MAX_FILEID s → (s.PT curproc).pstate = .ALIVE →
      Reachable MAX_PROC MAX_FILEID (sys_Exec MAX_FILEID s curproc call argl args).2
  | thread_exit (s : ProcState) (curproc self : Nat) (exitval : Int) :
      Reachable MAX_PROC MAX_FILEID s → (s.PT curproc).pstate = .ALIVE →
      Reachable MAX_PROC MAX_FILEID (sys_ThreadExit MAX_FILEID s curproc self exitval)
  | exit (s : ProcState) (curproc self : Nat) (exitval : Int) :
      Reachable MAX_PROC MAX_FILEID s → (s.PT curproc).pstate = .ALIVE →
      Reachable MAX_PROC MAX_FILEID (sys_Exit MAX_FILEID s curproc self exitval).2
  | wait_child (s : ProcState) (curproc : Nat) (cpid : Int) (status : Option Int) :
      Reachable MAX_PROC MAX_FILEID s → (s.PT curproc).pstate = .ALIVE →
      Reachable MAX_PROC MAX_FILEID (sys_WaitChild MAX_PROC s curproc cpid status).state

/-! ## Definitions: the process-info stream (`kernel_proc.c`) -/

/-- Constants the process-info stream depends on: `MAX_PROC` and `PROCINFO_MAX_ARGS_SIZE` of
`tinyos.h`, and the two sizes the compiler gives to `sizeof(procinfo)`, the record, and to
`sizeof(procinfo_cb)`, the control block of the stream (neither declaration is among the
sources, so both sizes are parameters). -/
structure InfoConfig where
  MAX_PROC : Nat
  PROCINFO_MAX_ARGS_SIZE : Nat
  sizeof_procinfo : Nat
  sizeof_procinfo_cb : Nat
  deriving DecidableEq, Repr

/-- Modelled from the spec: the record `procinfo` (`tinyos.h`, not among the sources; the
fields are those the code writes): pid, parent pid, alive flag, thread count, main task,
`argl` and the inline buffer `args` of `PROCINFO_MAX_ARGS_SIZE` bytes. -/
structure procinfo where
  pid : Int
  ppid : Int
  alive : Int
  thread_count : Int
  main_task : Option Nat
  argl : Int
  args : List Byte
  deriving DecidableEq, Repr

/-- Modelled from the spec: the control block `procinfo_cb` of the stream (`kernel_proc.h`,
not among the sources; the fields are those the code uses): the record `info` it owns and
the `cursor` into the process table, `none` for `NULL`. -/
structure procinfo_cb where
  info : procinfo
  cursor : Option Nat
  deriving DecidableEq, Repr

/-- What a `procinfo_read` that returns hands back: the returned `int`, the stream
afterwards, the record image that `memcpy(buf, info, size)` copies from (`none` at end of
stream, where `buf` is not touched) with the number `copied` of bytes it delivers, and the
count `copy_size` given to the `memcpy` of the argument bytes. -/
structure InfoRead where
  ret : Int
  cb : procinfo_cb
  buf : Option procinfo
  copied : Nat
  copy_size : Nat
  deriving DecidableEq, Repr

/-- Outcome of one `procinfo_read`: the call returns, or its `memcpy` of the argument bytes
is undefined, asked for `copy_size` bytes that its source does not hold: the call faults
and nothing is returned. -/
inductive InfoStep where
  | ret (r : InfoRead)
  | fault (copy_size : Nat)
  deriving DecidableEq, Repr

/-- The `int` a read returns, `none` for a read that faults. -/
def InfoStep.value : InfoStep → Option Int
  | .ret r => some r.ret
  | .fault _ => none

/-- The record a read delivers, `none` at end of stream and for a read that faults. -/
def InfoStep.buf : InfoStep → Option procinfo
  | .ret r => r.buf
  | .fault _ => none

/-- The number of bytes a read delivers into the buffer of the caller. -/
def InfoStep.copied : InfoStep → Nat
  | .ret r => r.copied
  | .fault _ => 0

/-- The count a read gives to the `memcpy` of the argument bytes. -/
def InfoStep.copy_size : InfoStep → Nat
  | .ret r => r.copy_size
  | .fault n => n

/-- The `unsigned int copy_size` of `procinfo_read`: the `int` chosen by the conditional
expression, converted to `unsigned int`. -/
def copy_size (PROCINFO_MAX_ARGS_SIZE : Nat) (argl : Int) : Nat :=
  ((if argl < PROCINFO_MAX_ARGS_SIZE then argl else PROCINFO_MAX_ARGS_SIZE) % UINT_MOD).toNat

/-- The effect of `memcpy(dst, src, n)` on `dst`: its first `n` bytes become those of `src`.
The result is `none` where the call is undefined: `n > 0` bytes asked from a null pointer,
which faults, or from a buffer that holds fewer than `n`, which reads beyond it. -/
def memcpy (dst : List Byte) (src : Option (List Byte)) (n : Nat) : Option (List Byte) :=
  if n = 0 then some dst
  else
    match src with
    | none => none
    | some a => if n ≤ a.length then some (a.take n ++ dst.drop n) else none

/-- The `while(index < MAX_PROC)` loop of `procinfo_read`; the first argument is
`MAX_PROC - index`, the number of slots left, so it is positive exactly when
`index < MAX_PROC`. The result is the final `index` and the cursor. -/
def skip_free_loop (PT : Nat → PCB) (cursor : Option Nat) : Nat → Nat → Nat × Option Nat
  | 0, index => (index, cursor)
  | left + 1, index =>
    if (PT index).pstate ≠ .FREE then (index, some index)
    else skip_free_loop PT cursor left (index + 1)

/-- The search of `procinfo_read` for the next slot in use, from `index` on, and its test
for the end of the table. -/
def skip_free (MAX_PROC : Nat) (PT : Nat → PCB) (cursor : Option Nat) (index : Nat) :
    Option Nat :=
  let r := skip_free_loop PT cursor (MAX_PROC - index) index
  if r.1 = MAX_PROC then none else r.2

/-- Source `procinfo_read(procinfo_, buf, size)` on the process table of `s`. The value
returned is `sizeof(*procinfo)` where `procinfo` is the local `procinfo_cb*`. The call
faults where the `memcpy` from `pcb_cursor->args` is undefined. -/
def procinfo_read (cfg : InfoConfig) (s : ProcState) (procinfo_ : procinfo_cb) (size : Nat) :
    InfoStep :=
  match procinfo_.cursor with
  | none => .ret { ret := 0, cb := procinfo_, buf := none, copied := 0, copy_size := 0 }
  | some pcb_cursor =>
    let pcb := s.PT pcb_cursor
    let n := copy_size cfg.PROCINFO_MAX_ARGS_SIZE pcb.argl
    match memcpy procinfo_.info.args pcb.args n with
    | none => .fault n
    | some bytes =>
      let info : procinfo :=
        { pid := get_pid (some pcb_cursor)
          ppid := get_pid pcb.parent
          alive := if pcb.pstate = .ALIVE then 1 else 0
          thread_count := pcb.thread_count
          main_task := pcb.main_task
          argl := pcb.argl
          args := bytes }
      let infoSize : Int := cfg.sizeof_procinfo_cb
      let index := (info.pid + 1).toNat
      .ret
        { ret := infoSize
          cb := { info := info, cursor := skip_free cfg.MAX_PROC s.PT procinfo_.cursor index }
          buf := some info
          copied := size
          copy_size := n }

/-- Source `sys_OpenInfo()`: the file id returned and the stream object installed.
`reserved` is the outcome of `FCB_reserve(1, &fd, &fcb)` of the file layer (not among the
sources), a file id and its FCB or a failure; `raw` is the content of the record as
`xmalloc` hands it out. -/
def sys_OpenInfo (reserved : Option (Nat × Nat)) (raw : procinfo) : Int × Option procinfo_cb :=
  match reserved with
  | none => (NOFILE, none)
  | some (fd, _) => ((fd : Int), some { info := { raw with pid := 1 }, cursor := some 1 })

/-- Successive calls of `procinfo_read` on one stream, each with a buffer of `size` bytes,
over a process table that does not change: the outcomes of the first `n` calls, or of the
calls up to the first that faults. -/
def procinfo_reads (cfg : InfoConfig) (s : ProcState) (size : Nat) :
    Nat → procinfo_cb → List InfoStep
  | 0, _ => []
  | n + 1, cb =>
    match procinfo_read cfg s cb size with
    | .ret r => .ret r :: procinfo_reads cfg s size n r.cb
    | .fault k => [.fault k]

/-- The fields of a record other than the argument bytes. -/
structure InfoHeader where
  pid : Int
  ppid : Int
  alive : Int
  thread_count : Int
  main_task : Option Nat
  argl : Int
  deriving DecidableEq, Repr

/-- The record the specification expects for the slot `pid`, without the argument bytes:
the pid, the pid of the parent (`NOPROC` for none), `alive` equal to 1 exactly for an
`ALIVE` slot, and the slot's thread count, main task and `argl`. -/
def info_spec (s : ProcState) (pid : Nat) : InfoHeader :=
  { pid := pid, ppid := get_pid (s.PT pid).parent,
    alive := if (s.PT pid).pstate = .ALIVE then 1 else 0,
    thread_count := (s.PT pid).thread_count, main_task := (s.PT pid).main_task,
    argl := (s.PT pid).argl }

/-- The fields of a record image other than the argument bytes. -/
def procinfo.header (r : procinfo) : InfoHeader :=
  { pid := r.pid, ppid := r.ppid, alive := r.alive, thread_count := r.thread_count,
    main_task := r.main_task, argl := r.argl }

/-- The slots in use from pid 1 on, in ascending order. -/
def live_pids (MAX_PROC : Nat) (s : ProcState) : List Nat :=
  (List.range' 1 (MAX_PROC - 1)).filter (fun p => (s.PT p).pstate ≠ .FREE)

/-- The `memcpy` of the argument bytes of a slot is defined: the count is 0, or the slot
owns a buffer of at least that many bytes. -/
def args_readable (PROCINFO_MAX_ARGS_SIZE : Nat) (pcb : PCB) : Prop :=
  (memcpy [] pcb.args (copy_size PROCINFO_MAX_ARGS_SIZE pcb.argl)).isSome

instance (M : Nat) (pcb : PCB) : Decidable (args_readable M pcb) := by
  unfold args_readable
  infer_instance

/-- Worked example: four slots, 128 argument bytes, and the sizes of a 64-bit target, 168
bytes for the record (three `int`, an `unsigned long`, a pointer, an `int`, 128 bytes and
padding) and 16 for the control block (two pointers). -/
def demo_info : InfoConfig := ⟨4, 128, 168, 16⟩

/-- Worked example: a record as `xmalloc` may hand it out. -/
def demo_raw : procinfo := ⟨0, 0, 0, 0, none, 0, List.replicate 128 0⟩

/-- Worked example: the stream that `sys_OpenInfo` installs over `demo_raw`. -/
def demo_stream : procinfo_cb := ⟨{ demo_raw with pid := 1 }, some 1⟩

/-- Worked example: pid 2 of `demo_grandchild` has exited and init has reaped it, so slot 2
is `FREE` between init, pid 1, and the process of pid 3. -/
def demo_reaped : ProcState :=
  (sys_WaitChild 4 (sys_Exit 2 demo_grandchild 2 1 42).2 1 2 none).state

/-- Worked example: init executes a process with `argl = 5` and no argument buffer. -/
def demo_noargs : ProcState := (sys_Exec 2 demo_init 1 (some 3) 5 none).2

/-- Worked example: init executes a process with `argl = -1` and no argument buffer. -/
def demo_negargs : ProcState := (sys_Exec 2 demo_init 1 (some 3) (-1) none).2

/-! ## Definitions: schedules of thread calls (`kernel_threads.c`) -/

/-- One step taken by a thread: one of the four thread calls, run to its return or to its
wait, or the wake-up of a joiner asleep on the `exit_cv` of `ptcb`. -/
inductive ThreadCall where
  | create (curproc : Nat) (task : Option Nat) (argl : Int) (args : Option (List Byte))
  | join (curproc self : Nat) (tid : Option Nat) (exitval : Option Int)
  | wake (ptcb : Nat) (exitval : Option Int)
  | detach (curproc : Nat) (tid : Option Nat)
  | exit (curproc self : Nat) (exitval : Int)
  deriving DecidableEq, Repr

/-- The state after one step. -/
def thread_step (MAX_FILEID : Nat) (s : ProcState) : ThreadCall → ProcState
  | .create curproc task argl args => (sys_CreateThread s curproc task argl args).2
  | .join curproc self tid exitval => (sys_ThreadJoin s curproc self tid exitval).state
  | .wake ptcb exitval => (sys_ThreadJoin_resume s ptcb exitval).state
  | .detach curproc tid => (sys_ThreadDetach s curproc tid).2
  | .exit curproc self exitval => sys_ThreadExit MAX_FILEID s curproc self exitval

/-- The state after a schedule of steps. -/
def thread_run (MAX_FILEID : Nat) : List ThreadCall → ProcState → ProcState
  | [], s => s
  | c :: rest, s => thread_run MAX_FILEID rest (thread_step MAX_FILEID s c)

/-- A step that can occur in state `s`: a wake-up needs a joiner asleep on the thread, so
its `ref_count` is positive; `sys_ThreadExit` is called by a thread of the process that has
not exited. -/
def ThreadCall.ok (s : ProcState) : ThreadCall → Prop
  | .create _ _ _ _ => True
  | .join _ _ _ _ => True
  | .wake ptcb _ =>
    match s.ptcbs ptcb with
    | some t => 0 < t.ref_count
    | none => False
  | .detach _ _ => True
  | .exit curproc self _ =>
    self ∈ (s.PT curproc).ptcb_list ∧
      match s.ptcbs self with
      | some t => t.exited = false
      | none => False

instance (s : ProcState) (c : ThreadCall) : Decidable (c.ok s) := by
  cases c <;> simp only [ThreadCall.ok] <;> try infer_instance
  all_goals (split <;> infer_instance)

/-- The step is the exit of the last running thread of process `p`. -/
def ThreadCall.last_exit (s : ProcState) (p : Nat) : ThreadCall → Prop
  | .exit curproc _ _ => curproc = p ∧ (s.PT p).thread_count = 1
  | _ => False

instance (s : ProcState) (p : Nat) (c : ThreadCall) : Decidable (c.last_exit s p) := by
  cases c <;> simp only [ThreadCall.last_exit] <;> infer_instance

/-- A schedule every step of which can occur and none of which is the exit of the last
running thread of `p`. -/
def Admissible (MAX_FILEID : Nat) (p : Nat) : ProcState → List ThreadCall → Prop
  | _, [] => True
  | s, c :: rest =>
    c.ok s ∧ ¬ c.last_exit s p ∧ Admissible MAX_FILEID p (thread_step MAX_FILEID s c) rest

instance (MAX_FILEID p : Nat) (s : ProcState) (calls : List ThreadCall) :
    Decidable (Admissible MAX_FILEID p s calls) := by
  induction calls generalizing s with
  | nil => exact isTrue trivial
  | cons c rest ih =>
    simp only [Admissible]
    exact instDecidableAnd

/-- The thread control block `t` is in the list of process `p`, exited, detached and
without joiner. -/
def Lingering (s : ProcState) (p t : Nat) : Prop :=
  t ∈ (s.PT p).ptcb_list ∧ t < s.nptcb ∧
    match s.ptcbs t with
    | some u => u.exited = true ∧ u.detached = true ∧ u.ref_count = 0
    | none => False

instance (s : ProcState) (p t : Nat) : Decidable (Lingering s p t) := by
  unfold Lingering
  cases s.ptcbs t <;> infer_instance

/-- Worked example: thread 0 of init has detached thread 1. -/
def demo_detached : ProcState := (sys_ThreadDetach demo_threads 1 (some 1)).2

/-- Worked example: the detached thread 1 has called `sys_ThreadExit(7)`; thread 0 runs. -/
def demo_lingering : ProcState := sys_ThreadExit 2 demo_detached 1 1 7

/-! ## Theorems: pipes -/

theorem tmod_succ (B : Nat) (w : Int) (h0 : 0 ≤ w) (h1 : w < B) :
    (w + 1).tmod (B : Int) = if w + 1 = B then 0 else w + 1 := by
  rw [Int.tmod_eq_emod (by omega) (by omega)]
  split_ifs with h
  · rw [h]; exact Int.emod_self
  · exact Int.emod_eq_of_lt (by omega) (by omega)

theorem emod_wrap (B : Nat) (x : Int) (h0 : -(B : Int) < x) (h1 : x < B) :
    x % (B : Int) = if 0 ≤ x then x else x + B := by
  split_ifs with h
  · exact Int.emod_eq_of_lt h h1
  · rw [← Int.add_emod_self]
    exact Int.emod_eq_of_lt (by omega) (by omega)

theorem nat_mod_wrap (B x : Nat) (h : x < 2 * B) :
    x % B = if x < B then x else x - B := by
  split_ifs with hx
  · exact Nat.mod_eq_of_lt hx
  · rw [Nat.mod_eq_sub_mod (by omega)]
    exact Nat.mod_eq_of_lt (by omega)

theorem occupancy_eq (B : Nat) (p : pipe_cb) (h : pipe_wf B p) :
    occupancy B p =
      if p.r_position ≤ p.w_position then p.w_position - p.r_position
      else p.w_position - p.r_position + B := by
  obtain ⟨h1, h2, h3, h4, _⟩ := h
  unfold occupancy
  rw [emod_wrap B _ (by omega) (by omega)]
  split_ifs <;> omega

theorem occupancy_bounds (B : Nat) (p : pipe_cb) (h : pipe_wf B p) :
    0 ≤ occupancy B p ∧ occupancy B p ≤ (B : Int) - 1 := by
  have h' := h
  obtain ⟨h1, h2, h3, h4, _⟩ := h
  rw [occupancy_eq B p h']
  split_ifs <;> omega

theorem isBuffFull_ne_zero (B : Nat) (p : pipe_cb) (h : pipe_wf B p) :
    isBuffFull B p.r_position p.w_position ≠ 0 ↔ occupancy B p = (B : Int) - 1 := by
  have h' := h
  obtain ⟨h1, h2, h3, h4, _⟩ := h
  rw [occupancy_eq B p h']
  unfold isBuffFull
  split_ifs <;> constructor <;> intro _ <;> omega

theorem isBuffEmpty_ne_zero (B : Nat) (p : pipe_cb) (h : pipe_wf B p) :
    isBuffEmpty p.r_position p.w_position ≠ 0 ↔ occupancy B p = 0 := by
  have h' := h
  obtain ⟨h1, h2, h3, h4, _⟩ := h
  rw [occupancy_eq B p h']
  unfold isBuffEmpty
  split_ifs <;> constructor <;> intro _ <;> omega

theorem getD_set_self (l : List Byte) (i : Nat) (a d : Byte) (h : i < l.length) :
    (l.set i a).getD i d = a := by
  simp [List.getD_eq_getElem?_getD, List.getElem?_set, h]

theorem getD_set_other (l : List Byte) (i j : Nat) (a d : Byte) (h : i ≠ j) :
    (l.set i a).getD j d = l.getD j d := by
  simp [List.getD_eq_getElem?_getD, List.getElem?_set, h]

theorem write_one_wf (B : Nat) (p : pipe_cb) (b : Byte) (h : pipe_wf B p) :
    pipe_wf B (write_one B p b) := by
  obtain ⟨h1, h2, h3, h4, h5⟩ := h
  refine ⟨h1, h2, ?_, ?_, ?_⟩
  · simp only [write_one]; rw [tmod_succ B _ h3 h4]; split_ifs <;> omega
  · simp only [write_one]; rw [tmod_succ B _ h3 h4]; split_ifs <;> omega
  · simp [write_one, h5]

theorem write_one_occupancy (B : Nat) (p : pipe_cb) (b : Byte) (h : pipe_wf B p)
    (hf : occupancy B p ≠ (B : Int) - 1) :
    occupancy B (write_one B p b) = occupancy B p + 1 := by
  have hw := write_one_wf B p b h
  rw [occupancy_eq B _ hw, occupancy_eq B p h] at *
  obtain ⟨h1, h2, h3, h4, h5⟩ := h
  simp only [write_one] at *
  rw [tmod_succ B _ h3 h4] at *
  split_ifs at * <;> omega

theorem write_one_contents (B : Nat) (p : pipe_cb) (b : Byte) (h : pipe_wf B p)
    (hf : occupancy B p ≠ (B : Int) - 1) :
    ring_contents B (write_one B p b) = ring_contents B p ++ [b] := by
  have ho := write_one_occupancy B p b h hf
  have hb := occupancy_bounds B p h
  have hoe := occupancy_eq B p h
  obtain ⟨h1, h2, h3, h4, h5⟩ := h
  unfold ring_contents
  have hk : (occupancy B (write_one B p b)).toNat = (occupancy B p).toNat + 1 := by omega
  rw [hk, List.range_succ, List.map_append]
  congr 1
  · apply List.map_congr_left
    intro i hi
    rw [List.mem_range] at hi
    simp only [write_one]
    apply getD_set_other
    rw [nat_mod_wrap B _ (by omega)]
    split_ifs at * <;> omega
  · simp only [write_one, List.map_cons, List.map_nil, List.cons.injEq, and_true]
    have : (p.r_position.toNat + (occupancy B p).toNat) % B = p.w_position.toNat := by
      rw [nat_mod_wrap B _ (by omega)]
      split_ifs at * <;> omega
    rw [this]
    exact getD_set_self _ _ _ _ (by omega)

theorem read_one_wf (B : Nat) (p : pipe_cb) (h : pipe_wf B p) :
    pipe_wf B (read_one B p) := by
  obtain ⟨h1, h2, h3, h4, h5⟩ := h
  refine ⟨?_, ?_, h3, h4, h5⟩
  · simp only [read_one]; rw [tmod_succ B _ h1 h2]; split_ifs <;> omega
  · simp only [read_one]; rw [tmod_succ B _ h1 h2]; split_ifs <;> omega

theorem read_one_occupancy (B : Nat) (p : pipe_cb) (h : pipe_wf B p)
    (he : occupancy B p ≠ 0) :
    occupancy B (read_one B p) = occupancy B p - 1 := by
  have hw := read_one_wf B p h
  rw [occupancy_eq B _ hw, occupancy_eq B p h] at *
  obtain ⟨h1, h2, h3, h4, h5⟩ := h
  simp only [read_one] at *
  rw [tmod_succ B _ h1 h2] at *
  split_ifs at * <;> omega

theorem read_one_contents (B : Nat) (p : pipe_cb) (h : pipe_wf B p)
    (he : occupancy B p ≠ 0) :
    ring_contents B p =
      p.BUFFER.getD p.r_position.toNat 0 :: ring_contents B (read_one B p) := by
  have ho := read_one_occupancy B p h he
  have hb := occupancy_bounds B p h
  have hw := read_one_wf B p h
  obtain ⟨h1, h2, h3, h4, h5⟩ := h
  unfold ring_contents
  have hk : (occupancy B p).toNat = (occupancy B (read_one B p)).toNat + 1 := by omega
  rw [hk, List.range_succ_eq_map, List.map_cons, List.map_map]
  congr 1
  · rw [Nat.add_zero, Nat.mod_eq_of_lt (by omega)]
  · apply List.map_congr_left
    intro i _
    simp only [Function.comp, read_one]
    congr 1
    rw [tmod_succ B _ h1 h2]
    split_ifs with hh
    · have : p.r_position.toNat + (i + 1) = i + B := by omega
      rw [this, Nat.add_mod_right]; simp
    · have : (p.r_position + 1).toNat = p.r_position.toNat + 1 := by omega
      rw [this]; congr 1; omega

theorem pipe_write_loop_succ (B : Nat) (buf : List Byte) (m c : Nat) (p : pipe_cb) :
    pipe_write_loop B buf (m + 1) c p =
      if isBuffFull B p.r_position p.w_position ≠ 0 then (c, p)
      else pipe_write_loop B buf m (c + 1) (write_one B p (buf.getD c 0)) := rfl

theorem pipe_read_loop_succ (B : Nat) (m c : Nat) (p : pipe_cb) (buf : List Byte) :
    pipe_read_loop B (m + 1) c p buf =
      if isBuffEmpty p.r_position p.w_position ≠ 0 then (c, p, buf)
      else pipe_read_loop B m (c + 1) (read_one B p)
        (buf.set c (p.BUFFER.getD p.r_position.toNat 0)) := rfl

theorem pipe_write_loop_spec (B : Nat) (buf : List Byte) (m : Nat) :
    ∀ (c : Nat) (p : pipe_cb), pipe_wf B p →
      WriteLoopSpec B buf m c p (pipe_write_loop B buf m c p) := by
  induction m with
  | zero =>
    intro c p h
    refine ⟨by simp [pipe_write_loop], h, rfl, rfl, rfl, by simp [pipe_write_loop],
      by simp [pipe_write_loop], ?_⟩
    simp only [pipe_write_loop, Nat.sub_self, Nat.cast_zero, add_zero]
    exact (Int.emod_eq_of_lt h.2.2.1 h.2.2.2.1).symm
  | succ m ih =>
    intro c p h
    have hb := occupancy_bounds B p h
    rw [pipe_write_loop_succ]
    split_ifs with hfull
    · rw [isBuffFull_ne_zero B p h] at hfull
      refine ⟨?_, h, rfl, rfl, rfl, by simp, by simp, ?_⟩
      · simp only
        omega
      · simp only [Nat.sub_self, Nat.cast_zero, add_zero]
        exact (Int.emod_eq_of_lt h.2.2.1 h.2.2.2.1).symm
    · rw [isBuffFull_ne_zero B p h] at hfull
      have hw := write_one_wf B p (buf.getD c 0) h
      have ho := write_one_occupancy B p (buf.getD c 0) h hfull
      have hc := write_one_contents B p (buf.getD c 0) h hfull
      have s := ih (c + 1) (write_one B p (buf.getD c 0)) hw
      have hcount := s.count
      have hk : (pipe_write_loop B buf m (c + 1) (write_one B p (buf.getD c 0))).1 - c =
          ((pipe_write_loop B buf m (c + 1) (write_one B p (buf.getD c 0))).1 - (c + 1)) + 1 := by
        omega
      refine ⟨?_, s.wf, s.r_same, s.reader_same, s.writer_same, ?_, ?_, ?_⟩
      · rw [hcount, ho]; omega
      · rw [s.occ, ho]; omega
      · rw [s.contents, hc, hk, List.range_succ_eq_map, List.map_cons, List.map_map,
          List.append_assoc]
        congr 1
        simp only [List.singleton_append, Nat.add_zero, List.cons.injEq, true_and]
        apply List.map_congr_left
        intro i _
        simp only [Function.comp]
        congr 1
        omega
      · rw [s.w_pos, hk]
        simp only [write_one]
        rw [Int.tmod_eq_emod (by have := h.2.2.1; omega) (by omega), Int.emod_add_emod]
        congr 1
        push_cast
        omega

theorem pipe_read_loop_spec (B : Nat) (m : Nat) :
    ∀ (c : Nat) (p : pipe_cb) (buf : List Byte), pipe_wf B p → c + m ≤ buf.length →
      ReadLoopSpec B m c p buf (pipe_read_loop B m c p buf) := by
  induction m with
  | zero =>
    intro c p buf h _
    refine ⟨by simp [pipe_read_loop], h, rfl, rfl, rfl, rfl, by simp [pipe_read_loop],
      by simp [pipe_read_loop], ?_, rfl, ?_, ?_⟩
    · simp only [pipe_read_loop, Nat.sub_self, Nat.cast_zero, add_zero]
      exact (Int.emod_eq_of_lt h.1 h.2.1).symm
    · intro i hi; simp [pipe_read_loop] at hi
    · intro j _; rfl
  | succ m ih =>
    intro c p buf h hlen
    have hb := occupancy_bounds B p h
    rw [pipe_read_loop_succ]
    split_ifs with hemp
    · rw [isBuffEmpty_ne_zero B p h] at hemp
      refine ⟨?_, h, rfl, rfl, rfl, rfl, by simp, by simp, ?_, rfl, ?_, ?_⟩
      · simp only
        omega
      · simp only [Nat.sub_self, Nat.cast_zero, add_zero]
        exact (Int.emod_eq_of_lt h.1 h.2.1).symm
      · intro i hi; simp at hi
      · intro j _; rfl
    · rw [isBuffEmpty_ne_zero B p h] at hemp
      have hw := read_one_wf B p h
      have ho := read_one_occupancy B p h hemp
      have hc := read_one_contents B p h hemp
      have s := ih (c + 1) (read_one B p) (buf.set c (p.BUFFER.getD p.r_position.toNat 0)) hw
        (by rw [List.length_set]; omega)
      have hcount := s.count
      have hk : (pipe_read_loop B m (c + 1) (read_one B p)
            (buf.set c (p.BUFFER.getD p.r_position.toNat 0))).1 - c =
          ((pipe_read_loop B m (c + 1) (read_one B p)
            (buf.set c (p.BUFFER.getD p.r_position.toNat 0))).1 - (c + 1)) + 1 := by
        omega
      refine ⟨?_, s.wf, s.w_same, s.reader_same, s.writer_same, s.buffer_same, ?_, ?_, ?_, ?_,
        ?_, ?_⟩
      · rw [hcount, ho]; omega
      · rw [s.occ, ho]; omega
      · rw [s.contents, hc, hk, List.drop_succ_cons]
      · rw [s.r_pos, hk]
        simp only [read_one]
        rw [Int.tmod_eq_emod (by have := h.1; omega) (by omega), Int.emod_add_emod]
        congr 1
        push_cast
        omega
      · rw [s.length_same, List.length_set]
      · intro i hi
        rw [hc]
        cases i with
        | zero =>
          show _ = (_ :: _).getD 0 0
          rw [List.getD_cons_zero]
          show List.getD _ c 0 = _
          rw [s.frame c (Or.inl (by omega))]
          exact getD_set_self _ _ _ _ (by omega)
        | succ i =>
          have := s.copied i (by omega)
          rw [List.getD_cons_succ, ← this]
          congr 1
          omega
      · intro j hj
        rw [s.frame j (by omega)]
        apply getD_set_other
        omega

theorem ring_contents_length (B : Nat) (p : pipe_cb) :
    (ring_contents B p).length = (occupancy B p).toNat := by
  simp [ring_contents]

theorem ring_contents_getD (B : Nat) (p : pipe_cb) (i : Nat)
    (hi : i < (occupancy B p).toNat) :
    (ring_contents B p).getD i 0 = p.BUFFER.getD ((p.r_position.toNat + i) % B) 0 := by
  unfold ring_contents
  rw [List.getD_eq_getElem _ _ (by simpa using hi)]
  simp

theorem map_getD_range (b : List Byte) (k : Nat) (hk : k ≤ b.length) :
    (List.range k).map (fun i => b.getD (0 + i) 0) = b.take k := by
  apply List.ext_getElem
  · simp [hk]
  · intro i h1 h2
    simp only [List.length_map, List.length_range] at h1
    have hib : i < b.length := by omega
    simp [List.getElem?_eq_getElem hib]

theorem take_eq_of_getD (l1 l2 : List Byte) (k : Nat) (h1 : k ≤ l1.length)
    (h2 : k ≤ l2.length) (h : ∀ i, i < k → l1.getD i 0 = l2.getD i 0) :
    l1.take k = l2.take k := by
  apply List.ext_getElem
  · simp [h1, h2]
  · intro i hi1 hi2
    simp only [List.length_take] at hi1
    have := h i (by omega)
    rw [List.getD_eq_getElem _ _ (by omega), List.getD_eq_getElem _ _ (by omega)] at this
    simpa using this

/-- A write on an open, well-formed, non-full ring returns without blocking. -/
theorem pipe_write_open (B : Nat) (p : pipe_cb) (b : List Byte) (n : Nat)
    (hr : p.reader ≠ none) (hw : p.writer ≠ none)
    (hnf : isBuffFull B p.r_position p.w_position = 0) :
    pipe_write B (some p) (some b) n =
      .ret ((pipe_write_loop B b n 0 p).1 : Int) (some (pipe_write_loop B b n 0 p).2)
        (some b) [.broadcast .has_data] := by
  simp [pipe_write, pipe_write_resume, hr, hw, hnf]

/-- A read on a well-formed ring that is non-empty, or whose writer is gone, returns
without blocking. -/
theorem pipe_read_open (B : Nat) (p : pipe_cb) (b : List Byte) (n : Nat)
    (hr : p.reader ≠ none)
    (hne : isBuffEmpty p.r_position p.w_position = 0 ∨ p.writer = none) :
    pipe_read B (some p) (some b) n =
      .ret ((pipe_read_loop B n 0 p b).1 : Int) (some (pipe_read_loop B n 0 p b).2.1)
        (some (pipe_read_loop B n 0 p b).2.2) [.broadcast .has_space] := by
  rcases hne with hne | hne <;> simp [pipe_read, pipe_read_resume, hr, hne]

theorem isBuffFull_cases (B : Nat) (r w : Int) :
    isBuffFull B r w = 0 ∨ isBuffFull B r w ≠ 0 := by
  unfold isBuffFull; split_ifs <;> simp

theorem isBuffEmpty_cases (r w : Int) :
    isBuffEmpty r w = 0 ∨ isBuffEmpty r w ≠ 0 := by
  unfold isBuffEmpty; split_ifs <;> simp

theorem isBuffFull_eq_zero (B : Nat) (p : pipe_cb) (h : pipe_wf B p) :
    isBuffFull B p.r_position p.w_position = 0 ↔ occupancy B p ≠ (B : Int) - 1 := by
  have := isBuffFull_ne_zero B p h
  constructor
  · intro h0 h1; exact (this.mpr h1) h0
  · intro h1; by_contra h0; exact h1 (this.mp h0)

theorem isBuffEmpty_eq_zero (B : Nat) (p : pipe_cb) (h : pipe_wf B p) :
    isBuffEmpty p.r_position p.w_position = 0 ↔ occupancy B p ≠ 0 := by
  have := isBuffEmpty_ne_zero B p h
  constructor
  · intro h0 h1; exact (this.mpr h1) h0
  · intro h1; by_contra h0; exact h1 (this.mp h0)

/-- A write on a full ring with the reader present yields. -/
theorem run_op_write_full (B : Nat) (t : PipeTrace) (buf : List Byte) (n : Nat)
    (hr : t.pipe.reader ≠ none) (hw : t.pipe.writer ≠ none)
    (hf : isBuffFull B t.pipe.r_position t.pipe.w_position ≠ 0) :
    run_op B t (.write buf n) = none := by
  simp [run_op, pipe_write, pipe_write_resume, hr, hw, hf]

/-- A read on an empty ring with the writer present yields. -/
theorem run_op_read_empty (B : Nat) (t : PipeTrace) (n : Nat)
    (hr : t.pipe.reader ≠ none) (hw : t.pipe.writer ≠ none)
    (he : isBuffEmpty t.pipe.r_position t.pipe.w_position ≠ 0) :
    run_op B t (.read n) = none := by
  simp [run_op, pipe_read, pipe_read_resume, hr, hw, he]

/-- The effect on the history of a write that does not block. -/
theorem run_op_write (B : Nat) (t : PipeTrace) (buf : List Byte) (n : Nat)
    (hinv : TraceInv B t) (hn : n ≤ buf.length)
    (hnf : isBuffFull B t.pipe.r_position t.pipe.w_position = 0) :
    ∃ t1, run_op B t (.write buf n) = some t1 ∧ TraceInv B t1 ∧
      t1.accepted = t.accepted ++
        buf.take (min n ((B : Int) - 1 - occupancy B t.pipe).toNat) ∧
      t1.delivered = t.delivered ∧
      t1.rets = t.rets ++ [((min n ((B : Int) - 1 - occupancy B t.pipe).toNat : Nat) : Int)] ∧
      occupancy B t1.pipe =
        occupancy B t.pipe + ((min n ((B : Int) - 1 - occupancy B t.pipe).toNat : Nat) : Int) := by
  obtain ⟨hwf, hr, hw, hacc⟩ := hinv
  have s := pipe_write_loop_spec B buf n 0 t.pipe hwf
  have hcount := s.count
  rw [Nat.zero_add] at hcount
  have hcont := s.contents
  have hocc := s.occ
  rw [Nat.sub_zero, hcount] at hcont hocc
  rw [map_getD_range buf _ (by omega)] at hcont
  refine ⟨{ t with
      pipe := (pipe_write_loop B buf n 0 t.pipe).2
      accepted := t.accepted ++ buf.take (min n ((B : Int) - 1 - occupancy B t.pipe).toNat)
      rets := t.rets ++ [((min n ((B : Int) - 1 - occupancy B t.pipe).toNat : Nat) : Int)] },
    ?_, ⟨s.wf, ?_, ?_, ?_⟩, rfl, rfl, rfl, hocc⟩
  · simp only [run_op, pipe_write_open B t.pipe buf n hr hw hnf, hcount]
    generalize min n ((B : Int) - 1 - occupancy B t.pipe).toNat = k
    simp
  · rw [s.reader_same]; exact hr
  · rw [s.writer_same]; exact hw
  · simp only [hcont, hacc, List.append_assoc]

/-- The effect on the history of a read that does not block. -/
theorem run_op_read (B : Nat) (t : PipeTrace) (n : Nat)
    (hinv : TraceInv B t)
    (hne : isBuffEmpty t.pipe.r_position t.pipe.w_position = 0) :
    ∃ t1, run_op B t (.read n) = some t1 ∧ TraceInv B t1 ∧
      t1.accepted = t.accepted ∧
      t1.delivered = t.delivered ++
        (ring_contents B t.pipe).take (min n (occupancy B t.pipe).toNat) ∧
      t1.rets = t.rets ++ [((min n (occupancy B t.pipe).toNat : Nat) : Int)] ∧
      occupancy B t1.pipe =
        occupancy B t.pipe - ((min n (occupancy B t.pipe).toNat : Nat) : Int) := by
  obtain ⟨hwf, hr, hw, hacc⟩ := hinv
  have s := pipe_read_loop_spec B n 0 t.pipe (List.replicate n 0) hwf (by simp)
  have hcount := s.count
  rw [Nat.zero_add] at hcount
  have hcont := s.contents
  have hocc := s.occ
  have hcop := s.copied
  have hlen := s.length_same
  rw [Nat.sub_zero, hcount] at hcont hocc hcop
  have htake : (pipe_read_loop B n 0 t.pipe (List.replicate n 0)).2.2.take
      (min n (occupancy B t.pipe).toNat) =
      (ring_contents B t.pipe).take (min n (occupancy B t.pipe).toNat) := by
    apply take_eq_of_getD
    · rw [hlen]; simp
    · rw [ring_contents_length]; omega
    · intro i hi
      have := hcop i hi
      rwa [Nat.zero_add] at this
  refine ⟨{ t with
      pipe := (pipe_read_loop B n 0 t.pipe (List.replicate n 0)).2.1
      delivered := t.delivered ++
        (ring_contents B t.pipe).take (min n (occupancy B t.pipe).toNat)
      rets := t.rets ++ [((min n (occupancy B t.pipe).toNat : Nat) : Int)] },
    ?_, ⟨s.wf, ?_, ?_, ?_⟩, rfl, rfl, rfl, hocc⟩
  · simp only [run_op, pipe_read_open B t.pipe _ n hr (Or.inl hne), hcount]
    rw [← htake]
    generalize min n (occupancy B t.pipe).toNat = k
    simp
  · rw [s.reader_same]; exact hr
  · rw [s.writer_same]; exact hw
  · simp only [hcont, hacc, List.append_assoc, List.take_append_drop]

theorem run_op_inv (B : Nat) (t t1 : PipeTrace) (op : PipeOp) (hinv : TraceInv B t)
    (hop : op.wf) (h : run_op B t op = some t1) : TraceInv B t1 := by
  cases op with
  | write buf n =>
    rcases isBuffFull_cases B t.pipe.r_position t.pipe.w_position with hf | hf
    · obtain ⟨t2, h2, hi, _⟩ := run_op_write B t buf n hinv hop hf
      rw [h2] at h; cases h; exact hi
    · rw [run_op_write_full B t buf n hinv.2.1 hinv.2.2.1 hf] at h; cases h
  | read n =>
    rcases isBuffEmpty_cases t.pipe.r_position t.pipe.w_position with he | he
    · obtain ⟨t2, h2, hi, _⟩ := run_op_read B t n hinv he
      rw [h2] at h; cases h; exact hi
    · rw [run_op_read_empty B t n hinv.2.1 hinv.2.2.1 he] at h; cases h

theorem run_ops_inv (B : Nat) (ops : List PipeOp) :
    ∀ (t t1 : PipeTrace), TraceInv B t → (∀ op ∈ ops, op.wf) →
      run_ops B ops t = some t1 → TraceInv B t1 := by
  induction ops with
  | nil => intro t t1 hinv _ h; simp only [run_ops] at h; cases h; exact hinv
  | cons op ops ih =>
    intro t t1 hinv hwf h
    simp only [run_ops] at h
    cases hop : run_op B t op with
    | none => rw [hop] at h; cases h
    | some t2 =>
      rw [hop] at h
      exact ih t2 t1 (run_op_inv B t t2 op hinv (hwf op (List.mem_cons_self _ _)) hop)
        (fun o ho => hwf o (List.mem_cons_of_mem _ ho)) h

/-- What the invariant says about the observable history. -/
theorem TraceInv.fifo (B : Nat) (t : PipeTrace) (h : TraceInv B t) :
    t.delivered <+: t.accepted ∧
      occupancy B t.pipe = (t.accepted.length : Int) - (t.delivered.length : Int) ∧
      0 ≤ occupancy B t.pipe ∧ occupancy B t.pipe ≤ (B : Int) - 1 := by
  obtain ⟨hwf, _, _, hacc⟩ := h
  have hb := occupancy_bounds B t.pipe hwf
  refine ⟨⟨_, hacc.symm⟩, ?_, hb.1, hb.2⟩
  have := congrArg List.length hacc
  rw [List.length_append, ring_contents_length] at this
  omega

/-- A payload written chunk by chunk into a ring with room for all of it: no write blocks
and each write accepts its whole chunk. -/
theorem run_ops_write_chunks (B : Nat) (chunks : List (List Byte)) :
    ∀ (t : PipeTrace), TraceInv B t →
      occupancy B t.pipe + (chunks.flatten.length : Int) ≤ (B : Int) - 1 →
      ((∀ c ∈ chunks, c ≠ []) ∨
        occupancy B t.pipe + (chunks.flatten.length : Int) < (B : Int) - 1) →
      ∃ t1, run_ops B (chunks.map (fun c => PipeOp.write c c.length)) t = some t1 ∧
        TraceInv B t1 ∧ t1.accepted = t.accepted ++ chunks.flatten ∧
        t1.delivered = t.delivered ∧
        t1.rets = t.rets ++ chunks.map (fun c => (c.length : Int)) := by
  induction chunks with
  | nil => intro t hinv _ _; exact ⟨t, rfl, hinv, by simp, rfl, by simp⟩
  | cons c cs ih =>
    intro t hinv hroom hne
    have hb := occupancy_bounds B t.pipe hinv.1
    simp only [List.flatten_cons, List.length_append, Nat.cast_add] at hroom hne
    have hclen : c ≠ [] → 0 < c.length := fun h => List.length_pos.mpr h
    have hnf : occupancy B t.pipe ≠ (B : Int) - 1 := by
      rcases hne with h | h
      · have := hclen (h c (List.mem_cons_self _ _)); omega
      · omega
    obtain ⟨t1, h1, hinv1, hacc1, hdel1, hret1, hocc1⟩ :=
      run_op_write B t c c.length hinv (le_refl _) ((isBuffFull_eq_zero B t.pipe hinv.1).mpr hnf)
    have hk : min c.length ((B : Int) - 1 - occupancy B t.pipe).toNat = c.length := by omega
    rw [hk] at hacc1 hret1 hocc1
    rw [List.take_length] at hacc1
    obtain ⟨t2, h2, hinv2, hacc2, hdel2, hret2⟩ := ih t1 hinv1 (by omega) (by
      rcases hne with h | h
      · exact Or.inl (fun x hx => h x (List.mem_cons_of_mem _ hx))
      · exact Or.inr (by omega))
    refine ⟨t2, ?_, hinv2, ?_, ?_, ?_⟩
    · simp only [List.map_cons, run_ops, h1, Option.some_bind, h2]
    · rw [hacc2, hacc1, List.flatten_cons, List.append_assoc]
    · rw [hdel2, hdel1]
    · rw [hret2, hret1, List.map_cons, List.append_assoc, List.singleton_append]

/-- Reading until everything accepted so far has been returned: no read blocks and the
bytes returned are the bytes accepted. -/
theorem read_until_all (B : Nat) (ns : List Nat) :
    ∀ (t : PipeTrace), TraceInv B t → (∀ n ∈ ns, 0 < n) →
      t.accepted.length ≤ t.delivered.length + ns.sum →
      ∃ t2, read_until B t.accepted.length ns t = some t2 ∧ t2.delivered = t.accepted ∧
        t2.accepted = t.accepted := by
  have hdone : ∀ t : PipeTrace, TraceInv B t → t.accepted.length ≤ t.delivered.length →
      t.delivered = t.accepted := by
    intro t hinv hle
    have hacc := hinv.2.2.2
    have hl := congrArg List.length hacc
    rw [List.length_append] at hl
    have : ring_contents B t.pipe = [] := List.length_eq_zero.mp (by omega)
    rw [hacc, this, List.append_nil]
  induction ns with
  | nil =>
    intro t hinv _ hsum
    simp only [List.sum_nil, Nat.add_zero] at hsum
    exact ⟨t, by simp [read_until, hsum], hdone t hinv hsum, rfl⟩
  | cons n ns ih =>
    intro t hinv hpos hsum
    by_cases hle : t.accepted.length ≤ t.delivered.length
    · exact ⟨t, by simp [read_until, hle], hdone t hinv hle, rfl⟩
    · have hf := TraceInv.fifo B t hinv
      have hne : occupancy B t.pipe ≠ 0 := by omega
      obtain ⟨t1, h1, hinv1, hacc1, hdel1, _, _⟩ :=
        run_op_read B t n hinv ((isBuffEmpty_eq_zero B t.pipe hinv.1).mpr hne)
      have hn := hpos n (List.mem_cons_self _ _)
      have hl1 : t1.delivered.length =
          t.delivered.length + min n (occupancy B t.pipe).toNat := by
        rw [hdel1, List.length_append, List.length_take, ring_contents_length]
        omega
      simp only [List.sum_cons] at hsum
      obtain ⟨t2, h2, hd2, ha2⟩ := ih t1 hinv1 (fun x hx => hpos x (List.mem_cons_of_mem _ hx))
        (by rw [hacc1, hl1]; omega)
      rw [hacc1] at h2 hd2 ha2
      exact ⟨t2, by simp only [read_until, hle, if_false, h1, Option.some_bind, h2], hd2, ha2⟩

theorem ring_index (B : Nat) (p : pipe_cb) (h : pipe_wf B p) (i : Nat) :
    (p.r_position.toNat + ((occupancy B p).toNat + i)) % B =
      (p.w_position.toNat + i) % B := by
  have hoe := occupancy_eq B p h
  obtain ⟨h1, h2, h3, h4, _⟩ := h
  split_ifs at hoe with hle
  · congr 1; omega
  · have : p.r_position.toNat + ((occupancy B p).toNat + i) = p.w_position.toNat + i + B := by
      omega
    rw [this, Nat.add_mod_right]

theorem getD_take_lt (b : List Byte) (k i : Nat) (hi : i < k) :
    (b.take k).getD i 0 = b.getD i 0 := by
  simp [List.getD_eq_getElem?_getD, List.getElem?_take_of_lt hi]

/-- One `pipe_write` on a well-formed ring that is not full, both ends open. -/
theorem pipe_write_spec (B : Nat) (p : pipe_cb) (b : List Byte) (n : Nat)
    (hwf : pipe_wf B p) (hr : p.reader ≠ none) (hw : p.writer ≠ none)
    (hnf : isBuffFull B p.r_position p.w_position = 0) (hn : n ≤ b.length) :
    ∃ p1, pipe_write B (some p) (some b) n =
        .ret ((min n ((B : Int) - 1 - occupancy B p).toNat : Nat) : Int) (some p1) (some b)
          [.broadcast .has_data] ∧
      pipe_wf B p1 ∧ p1.r_position = p.r_position ∧
      p1.w_position =
        (p.w_position + ((min n ((B : Int) - 1 - occupancy B p).toNat : Nat) : Int)) % (B : Int) ∧
      p1.reader = p.reader ∧ p1.writer = p.writer ∧
      ring_contents B p1 =
        ring_contents B p ++ b.take (min n ((B : Int) - 1 - occupancy B p).toNat) ∧
      occupancy B p1 =
        occupancy B p + ((min n ((B : Int) - 1 - occupancy B p).toNat : Nat) : Int) ∧
      (∀ i, i < min n ((B : Int) - 1 - occupancy B p).toNat →
        p1.BUFFER.getD ((p.w_position.toNat + i) % B) 0 = b.getD i 0) := by
  have s := pipe_write_loop_spec B b n 0 p hwf
  have hcount := s.count
  rw [Nat.zero_add] at hcount
  have hcont := s.contents
  have hocc := s.occ
  have hwp := s.w_pos
  have hb := occupancy_bounds B p hwf
  rw [Nat.sub_zero, hcount] at hcont hocc hwp
  rw [map_getD_range b _ (by omega)] at hcont
  refine ⟨(pipe_write_loop B b n 0 p).2, ?_, s.wf, s.r_same, hwp, s.reader_same, s.writer_same,
    hcont, hocc, ?_⟩
  · rw [pipe_write_open B p b n hr hw hnf, hcount]
  · intro i hi
    have h1 := ring_contents_getD B (pipe_write_loop B b n 0 p).2 ((occupancy B p).toNat + i)
      (by rw [hocc]; omega)
    rw [s.r_same, ring_index B p hwf i] at h1
    rw [← h1, hcont, List.getD_append_right _ _ _ _ (by rw [ring_contents_length]; omega),
      ring_contents_length, Nat.add_sub_cancel_left, getD_take_lt _ _ _ hi]

/-- One `pipe_read` on a well-formed ring whose reader end is open and which is non-empty
or has lost its writer. -/
theorem pipe_read_spec (B : Nat) (p : pipe_cb) (b : List Byte) (n : Nat)
    (hwf : pipe_wf B p) (hr : p.reader ≠ none)
    (hne : isBuffEmpty p.r_position p.w_position = 0 ∨ p.writer = none)
    (hn : n ≤ b.length) :
    ∃ p1 b1, pipe_read B (some p) (some b) n =
        .ret ((min n (occupancy B p).toNat : Nat) : Int) (some p1) (some b1)
          [.broadcast .has_space] ∧
      pipe_wf B p1 ∧ p1.w_position = p.w_position ∧
      p1.r_position =
        (p.r_position + ((min n (occupancy B p).toNat : Nat) : Int)) % (B : Int) ∧
      p1.reader = p.reader ∧ p1.writer = p.writer ∧ p1.BUFFER = p.BUFFER ∧
      ring_contents B p1 = (ring_contents B p).drop (min n (occupancy B p).toNat) ∧
      occupancy B p1 = occupancy B p - ((min n (occupancy B p).toNat : Nat) : Int) ∧
      b1.length = b.length ∧
      b1.take (min n (occupancy B p).toNat) =
        (ring_contents B p).take (min n (occupancy B p).toNat) ∧
      (∀ i, i < min n (occupancy B p).toNat →
        b1.getD i 0 = p.BUFFER.getD ((p.r_position.toNat + i) % B) 0) ∧
      (∀ j, min n (occupancy B p).toNat ≤ j → b1.getD j 0 = b.getD j 0) := by
  have s := pipe_read_loop_spec B n 0 p b hwf (by omega)
  have hcount := s.count
  rw [Nat.zero_add] at hcount
  have hcont := s.contents
  have hocc := s.occ
  have hrp := s.r_pos
  have hcop := s.copied
  have hfr := s.frame
  have hlen := s.length_same
  rw [Nat.sub_zero, hcount] at hcont hocc hcop hrp
  rw [hcount] at hfr
  have hcop1 : ∀ i, i < min n (occupancy B p).toNat →
      (pipe_read_loop B n 0 p b).2.2.getD i 0 = (ring_contents B p).getD i 0 := by
    intro i hi
    have := hcop i hi
    rwa [Nat.zero_add] at this
  refine ⟨(pipe_read_loop B n 0 p b).2.1, (pipe_read_loop B n 0 p b).2.2, ?_, s.wf, s.w_same,
    hrp, s.reader_same, s.writer_same, s.buffer_same, hcont, hocc, hlen, ?_, ?_, ?_⟩
  · rw [pipe_read_open B p b n hr hne, hcount]
  · apply take_eq_of_getD
    · rw [hlen]; omega
    · rw [ring_contents_length]; omega
    · exact hcop1
  · intro i hi
    rw [hcop1 i hi, ring_contents_getD B p i (by omega)]
  · intro j hj
    exact hfr j (Or.inr hj)

/-- C1. FIFO delivery on a pipe. Start from an empty, well-formed ring (any cursor position
`r = w`) with both ends open. (1) For every sequence of `pipe_write` and `pipe_read` calls
that all proceed without blocking, the bytes returned by the reads, concatenated, are a
prefix of the bytes accepted by the writes (the first `ret` bytes of each write buffer),
the occupancy `(w - r) mod B` equals accepted minus delivered and lies in `[0, B-1]`.
(2) A payload of length `L ≤ B-1` split into consecutive writes (chunks non-empty, or
`L < B-1`, so that no write meets a full ring) is accepted in full by each write, and
reading with positive request sizes until `L` bytes have been returned yields exactly
the payload. -/
theorem pipe_fifo_delivery (B : Nat) (p0 : pipe_cb) (hwf : pipe_wf B p0)
    (hempty : p0.r_position = p0.w_position)
    (hr : p0.reader ≠ none) (hw : p0.writer ≠ none) :
    (∀ (ops : List PipeOp) (t : PipeTrace), (∀ op ∈ ops, op.wf) →
        run_ops B ops ⟨p0, [], [], []⟩ = some t →
        t.delivered <+: t.accepted ∧
          occupancy B t.pipe = (t.accepted.length : Int) - (t.delivered.length : Int) ∧
          0 ≤ occupancy B t.pipe ∧ occupancy B t.pipe ≤ (B : Int) - 1) ∧
    (∀ (chunks : List (List Byte)) (ns : List Nat),
        chunks.flatten.length + 1 ≤ B →
        ((∀ c ∈ chunks, c ≠ []) ∨ chunks.flatten.length + 1 < B) →
        (∀ n ∈ ns, 0 < n) → chunks.flatten.length ≤ ns.sum →
        ∃ t1 t2,
          run_ops B (chunks.map (fun c => PipeOp.write c c.length)) ⟨p0, [], [], []⟩ = some t1 ∧
          t1.rets = chunks.map (fun c => (c.length : Int)) ∧
          read_until B chunks.flatten.length ns t1 = some t2 ∧
          t2.delivered = chunks.flatten) := by
  have hocc0 : occupancy B p0 = 0 := by
    rw [occupancy_eq B p0 hwf]; split_ifs <;> omega
  have hcont0 : ring_contents B p0 = [] := by
    unfold ring_contents; rw [hocc0]; rfl
  have hinv0 : TraceInv B ⟨p0, [], [], []⟩ := ⟨hwf, hr, hw, by simp [hcont0]⟩
  refine ⟨?_, ?_⟩
  · intro ops t hops hrun
    exact TraceInv.fifo B t (run_ops_inv B ops _ t hinv0 hops hrun)
  · intro chunks ns hL hne hpos hsum
    obtain ⟨t1, h1, hinv1, hacc1, hdel1, hret1⟩ :=
      run_ops_write_chunks B chunks ⟨p0, [], [], []⟩ hinv0
        (by simp only [hocc0]; omega)
        (by
          rcases hne with h | h
          · exact Or.inl h
          · exact Or.inr (by simp only [hocc0]; omega))
    simp only [List.nil_append] at hacc1 hret1 hdel1
    obtain ⟨t2, h2, hd2, _⟩ := read_until_all B ns t1 hinv1 hpos (by rw [hacc1]; omega)
    rw [hacc1] at h2 hd2
    exact ⟨t1, t2, h1, hret1, h2, hd2⟩

/-- C1 at `B = 8`, cursors at 5: the payload `1..7` written as `[1,2,3]`, `[4,5]`, `[6,7]`
and read back with requests of 2, 4 and 10 bytes. -/
theorem pipe_fifo_delivery_witness :
    ∃ t1 t2,
      run_ops 8 ([[1, 2, 3], [4, 5], [6, 7]].map (fun c => PipeOp.write c c.length))
        ⟨⟨some 0, some 1, 5, 5, List.replicate 8 0⟩, [], [], []⟩ = some t1 ∧
      t1.rets = [3, 2, 2] ∧
      read_until 8 7 [2, 4, 10] t1 = some t2 ∧
      t2.delivered = [1, 2, 3, 4, 5, 6, 7] :=
  (pipe_fifo_delivery 8 ⟨some 0, some 1, 5, 5, List.replicate 8 0⟩
    (by decide) rfl (by decide) (by decide)).2
    [[1, 2, 3], [4, 5], [6, 7]] [2, 4, 10] (by decide) (Or.inl (by decide)) (by decide)
    (by decide)

/-- C2. Result of `pipe_write`. (1) At entry it returns `-1` exactly when the pipe or the
buffer is null or the reader or the writer handle is clear, and then the control block and
the buffer are unchanged. (2) After waiting on `has_space` it returns `-1` exactly when the
reader handle is clear at wake-up, again changing nothing. (3) Otherwise, for cursors in
`[0, B)` and a ring that is not full, it returns `min(n, B-1-occ)` with
`occ = (w - r) mod B`, stores that many leading bytes of `buf` at positions
`w, w+1, ...` modulo `B`, advances `w` by that count modulo `B` and leaves `r` and both
handles unchanged; into an empty ring a write of `n ≥ B-1` bytes returns `B-1`. -/
theorem pipe_write_result (B n : Nat) :
    (∀ (pipecb_t : Option pipe_cb) (buf : Option (List Byte)),
      (pipe_write B pipecb_t buf n = .ret (-1) pipecb_t buf [] ↔
        (pipecb_t = none ∨ buf = none ∨
          ∃ p, pipecb_t = some p ∧ (p.reader = none ∨ p.writer = none))) ∧
      (∀ v q b ev, pipe_write B pipecb_t buf n = .ret v q b ev → v = -1 →
        q = pipecb_t ∧ b = buf ∧ ev = [])) ∧
    (∀ (p : pipe_cb) (b : List Byte),
      (pipe_write_resume B p b n = .ret (-1) (some p) (some b) [] ↔ p.reader = none) ∧
      (∀ v q b1 ev, pipe_write_resume B p b n = .ret v q b1 ev → v = -1 →
        q = some p ∧ b1 = some b ∧ ev = [])) ∧
    (∀ (p : pipe_cb) (b : List Byte),
      pipe_wf B p → p.reader ≠ none → p.writer ≠ none →
      isBuffFull B p.r_position p.w_position = 0 → n ≤ b.length →
      ∃ p1,
        pipe_write B (some p) (some b) n =
          .ret (min (n : Int) ((B : Int) - 1 - occupancy B p)) (some p1) (some b)
            [.broadcast .has_data] ∧
        (∀ i : Nat, (i : Int) < min (n : Int) ((B : Int) - 1 - occupancy B p) →
          p1.BUFFER.getD ((p.w_position.toNat + i) % B) 0 = b.getD i 0) ∧
        p1.w_position =
          (p.w_position + min (n : Int) ((B : Int) - 1 - occupancy B p)) % (B : Int) ∧
        p1.r_position = p.r_position ∧ p1.reader = p.reader ∧ p1.writer = p.writer ∧
        (p.r_position = p.w_position → B ≤ n + 1 →
          pipe_write B (some p) (some b) n =
            .ret ((B : Int) - 1) (some p1) (some b) [.broadcast .has_data])) := by
  have hloop : ∀ (p : pipe_cb) (b : List Byte) (v : Int) q b1 ev,
      PipeStep.ret ((pipe_write_loop B b n 0 p).1 : Int) (some (pipe_write_loop B b n 0 p).2)
        (some b) [.broadcast .has_data] = .ret v q b1 ev → v ≠ -1 := by
    intro p b v q b1 ev h
    injection h with h1 _ _ _
    omega
  have hres : ∀ (p : pipe_cb) (b : List Byte),
      (pipe_write_resume B p b n = .ret (-1) (some p) (some b) [] ↔ p.reader = none) ∧
      (∀ v q b1 ev, pipe_write_resume B p b n = .ret v q b1 ev → v = -1 →
        q = some p ∧ b1 = some b ∧ ev = []) := by
    intro p b
    unfold pipe_write_resume
    by_cases hr : p.reader = none
    · rw [if_neg (fun h => h.1 hr), if_pos hr]
      refine ⟨⟨fun _ => hr, fun _ => rfl⟩, ?_⟩
      intro v q b1 ev h _
      injection h with _ h2 h3 h4
      exact ⟨h2.symm, h3.symm, h4.symm⟩
    · rcases isBuffFull_cases B p.r_position p.w_position with hf | hf
      · simp only [hr, hf, ne_eq, not_false_eq_true, not_true_eq_false, and_false, if_false,
          iff_false]
        refine ⟨fun h => hloop p b _ _ _ _ h rfl, ?_⟩
        intro v q b1 ev h hv
        exact absurd hv (hloop p b _ _ _ _ h)
      · simp [hr, hf]
  refine ⟨?_, hres, ?_⟩
  · intro pipecb_t buf
    cases pipecb_t with
    | none =>
      refine ⟨by simp [pipe_write], ?_⟩
      intro v q b ev h _
      simp only [pipe_write] at h
      injection h with _ h2 h3 h4
      exact ⟨h2.symm, h3.symm, h4.symm⟩
    | some p =>
      cases buf with
      | none =>
        refine ⟨by simp [pipe_write], ?_⟩
        intro v q b ev h _
        simp only [pipe_write] at h
        injection h with _ h2 h3 h4
        exact ⟨h2.symm, h3.symm, h4.symm⟩
      | some b =>
        by_cases hh : p.reader = none ∨ p.writer = none
        · simp only [pipe_write, hh, if_true, true_iff]
          refine ⟨Or.inr (Or.inr ⟨p, rfl, hh⟩), ?_⟩
          intro v q b1 ev h _
          injection h with _ h2 h3 h4
          exact ⟨h2.symm, h3.symm, h4.symm⟩
        · have hr : p.reader ≠ none := fun h => hh (Or.inl h)
          simp only [pipe_write, hh, if_false]
          refine ⟨?_, (hres p b).2⟩
          rw [(hres p b).1]
          constructor
          · intro h; exact absurd h hr
          · rintro (h | h | ⟨p', h1, h2⟩)
            · cases h
            · cases h
            · cases h1; exact absurd h2 hh
  · intro p b hwf hr hw hnf hn
    obtain ⟨p1, h1, _, h3, h4, h5, h6, _, _, h9⟩ := pipe_write_spec B p b n hwf hr hw hnf hn
    have hb := occupancy_bounds B p hwf
    have hk : ((min n ((B : Int) - 1 - occupancy B p).toNat : Nat) : Int) =
        min (n : Int) ((B : Int) - 1 - occupancy B p) := by omega
    rw [hk] at h1 h4
    refine ⟨p1, h1, ?_, h4, h3, h5, h6, ?_⟩
    · intro i hi
      exact h9 i (by omega)
    · intro he hBn
      have hocc0 : occupancy B p = 0 := by
        rw [occupancy_eq B p hwf]; split_ifs <;> omega
      rw [h1, hocc0]
      congr 1
      omega

/-- C2 at `B = 8`: writing `"ABCDEFGH"` into the fresh ring accepts 7 bytes, and a write
on a pipe whose reader is gone fails without touching it. -/
theorem pipe_write_result_witness :
    (∃ p1, pipe_write 8 (some ⟨some 0, some 1, 0, 0, List.replicate 8 0⟩)
        (some [65, 66, 67, 68, 69, 70, 71, 72]) 8 =
          .ret 7 (some p1) (some [65, 66, 67, 68, 69, 70, 71, 72]) [.broadcast .has_data] ∧
        p1.w_position = 7 ∧ p1.r_position = 0) ∧
    pipe_write 8 (some ⟨none, some 1, 0, 0, List.replicate 8 0⟩) (some [65]) 1 =
      .ret (-1) (some ⟨none, some 1, 0, 0, List.replicate 8 0⟩) (some [65]) [] := by
  obtain ⟨p1, h1, _, h3, h4, _, _, _⟩ :=
    (pipe_write_result 8 8).2.2 ⟨some 0, some 1, 0, 0, List.replicate 8 0⟩
      [65, 66, 67, 68, 69, 70, 71, 72] (by decide) (by decide) (by decide) (by decide)
      (by decide)
  refine ⟨⟨p1, h1, ?_, h4⟩, ?_⟩
  · rw [h3]; decide
  · exact ((pipe_write_result 8 1).1 (some ⟨none, some 1, 0, 0, List.replicate 8 0⟩)
      (some [65])).1.mpr (Or.inr (Or.inr ⟨_, rfl, Or.inl rfl⟩))

/-- C3. Result of `pipe_read`. (1) At entry it returns `-1` exactly when the pipe or the
buffer is null or the reader handle is clear, leaving everything unchanged; (2) after
waiting on `has_data` it waits again exactly while the writer is present and the ring is
empty, and when it returns, the value is `-1` exactly when the reader handle is clear.
(3) Otherwise, on a ring that is non-empty or whose writer handle is clear, it returns
`min(n, occ)` with `occ = (w - r) mod B`, copies the oldest that many bytes in order into
the buffer, advances `r` by that count modulo `B` and leaves `w`, the ring cells and the
handles unchanged; with the writer closed and `n > 0` the result is `0` exactly when the
ring is empty. (4) Bytes written before the writer end is closed are still delivered: a
write of `n` bytes into an empty ring, `pipe_writer_close`, then a read of `m ≥ n` bytes
returns those `n` bytes, and the next read returns `0`. -/
theorem pipe_read_result (B n : Nat) :
    (∀ (pipecb_t : Option pipe_cb) (buf : Option (List Byte)),
      (pipe_read B pipecb_t buf n = .ret (-1) pipecb_t buf [] ↔
        (pipecb_t = none ∨ buf = none ∨ ∃ p, pipecb_t = some p ∧ p.reader = none)) ∧
      (∀ v q b ev, pipe_read B pipecb_t buf n = .ret v q b ev → v = -1 →
        q = pipecb_t ∧ b = buf ∧ ev = [])) ∧
    (∀ (p : pipe_cb) (b : List Byte),
      (pipe_read_resume B p b n = .wait .has_data ↔
        (p.writer ≠ none ∧ isBuffEmpty p.r_position p.w_position ≠ 0)) ∧
      (∀ v q b1 ev, pipe_read_resume B p b n = .ret v q b1 ev →
        (v = -1 ↔ p.reader = none) ∧ (v = -1 → q = some p ∧ b1 = some b ∧ ev = []))) ∧
    (∀ (p : pipe_cb) (b : List Byte),
      pipe_wf B p → p.reader ≠ none →
      (isBuffEmpty p.r_position p.w_position = 0 ∨ p.writer = none) → n ≤ b.length →
      ∃ p1 b1,
        pipe_read B (some p) (some b) n =
          .ret (min (n : Int) (occupancy B p)) (some p1) (some b1) [.broadcast .has_space] ∧
        (∀ i : Nat, (i : Int) < min (n : Int) (occupancy B p) →
          b1.getD i 0 = p.BUFFER.getD ((p.r_position.toNat + i) % B) 0) ∧
        p1.r_position = (p.r_position + min (n : Int) (occupancy B p)) % (B : Int) ∧
        p1.w_position = p.w_position ∧ p1.BUFFER = p.BUFFER ∧
        p1.reader = p.reader ∧ p1.writer = p.writer ∧
        (0 < n → (min (n : Int) (occupancy B p) = 0 ↔ p.r_position = p.w_position))) ∧
    (∀ (p : pipe_cb) (b out out2 : List Byte) (m : Nat),
      pipe_wf B p → p.r_position = p.w_position → p.reader ≠ none → p.writer ≠ none →
      2 ≤ B → n ≤ b.length → n + 1 ≤ B → n ≤ m → m ≤ out.length → m ≤ out2.length →
      ∃ p1 p2 p3 p4 b1 b2 ev,
        pipe_write B (some p) (some b) n = .ret n (some p1) (some b) [.broadcast .has_data] ∧
        pipe_writer_close (some p1) = (0, some p2, ev) ∧ p2.writer = none ∧
        pipe_read B (some p2) (some out) m =
          .ret n (some p3) (some b1) [.broadcast .has_space] ∧
        b1.take n = b.take n ∧
        pipe_read B (some p3) (some out2) m =
          .ret 0 (some p4) (some b2) [.broadcast .has_space]) := by
  have hloop : ∀ (p : pipe_cb) (b : List Byte) (v : Int) q b1 ev,
      PipeStep.ret ((pipe_read_loop B n 0 p b).1 : Int) (some (pipe_read_loop B n 0 p b).2.1)
        (some (pipe_read_loop B n 0 p b).2.2) [.broadcast .has_space] = .ret v q b1 ev →
      v ≠ -1 := by
    intro p b v q b1 ev h
    injection h with h1 _ _ _
    omega
  have hres : ∀ (p : pipe_cb) (b : List Byte),
      (pipe_read_resume B p b n = .wait .has_data ↔
        (p.writer ≠ none ∧ isBuffEmpty p.r_position p.w_position ≠ 0)) ∧
      (∀ v q b1 ev, pipe_read_resume B p b n = .ret v q b1 ev →
        (v = -1 ↔ p.reader = none) ∧ (v = -1 → q = some p ∧ b1 = some b ∧ ev = [])) := by
    intro p b
    unfold pipe_read_resume
    split_ifs with h1 h2
    · exact ⟨⟨fun _ => h1, fun _ => rfl⟩, fun v q b1 ev h => by cases h⟩
    · refine ⟨⟨fun h => (by cases h), fun h => absurd h h1⟩, ?_⟩
      intro v q b1 ev h
      injection h with h1 h2 h3 h4
      exact ⟨⟨fun _ => by assumption, fun _ => h1.symm⟩, fun _ => ⟨h2.symm, h3.symm, h4.symm⟩⟩
    · refine ⟨⟨fun h => (by cases h), fun h => absurd h h1⟩, ?_⟩
      intro v q b1 ev h
      have := hloop p b _ _ _ _ h
      exact ⟨⟨fun hv => absurd hv this, fun hr => absurd hr h2⟩, fun hv => absurd hv this⟩
  refine ⟨?_, hres, ?_, ?_⟩
  · intro pipecb_t buf
    cases pipecb_t with
    | none =>
      refine ⟨by simp [pipe_read], ?_⟩
      intro v q b ev h _
      simp only [pipe_read] at h
      injection h with _ h2 h3 h4
      exact ⟨h2.symm, h3.symm, h4.symm⟩
    | some p =>
      cases buf with
      | none =>
        refine ⟨by simp [pipe_read], ?_⟩
        intro v q b ev h _
        simp only [pipe_read] at h
        injection h with _ h2 h3 h4
        exact ⟨h2.symm, h3.symm, h4.symm⟩
      | some b =>
        by_cases hr : p.reader = none
        · simp only [pipe_read, hr, if_true, true_iff]
          refine ⟨Or.inr (Or.inr ⟨p, rfl, hr⟩), ?_⟩
          intro v q b1 ev h _
          injection h with _ h2 h3 h4
          exact ⟨h2.symm, h3.symm, h4.symm⟩
        · simp only [pipe_read, hr, if_false]
          refine ⟨⟨fun h => ?_, ?_⟩, fun v q b1 ev h hv => ((hres p b).2 v q b1 ev h).2 hv⟩
          · exact absurd (((hres p b).2 _ _ _ _ h).1.mp rfl) hr
          · rintro (h | h | ⟨p', h1, h2⟩)
            · cases h
            · cases h
            · cases h1; exact absurd h2 hr
  · intro p b hwf hr hne hn
    obtain ⟨p1, b1, h1, _, h3, h4, h5, h6, h7, _, _, _, _, h12, _⟩ :=
      pipe_read_spec B p b n hwf hr hne hn
    have hb := occupancy_bounds B p hwf
    have hk : ((min n (occupancy B p).toNat : Nat) : Int) = min (n : Int) (occupancy B p) := by
      omega
    rw [hk] at h1 h4
    refine ⟨p1, b1, h1, ?_, h4, h3, h7, h5, h6, ?_⟩
    · intro i hi
      exact h12 i (by omega)
    · intro hn0
      have hoe := occupancy_eq B p hwf
      obtain ⟨a1, a2, a3, a4, _⟩ := hwf
      split_ifs at hoe <;> constructor <;> intro _ <;> omega
  · intro p b out out2 m hwf he hr hw hB hn hnB hnm hm hm2
    have hocc0 : occupancy B p = 0 := by
      rw [occupancy_eq B p hwf]; split_ifs <;> omega
    have hcont0 : ring_contents B p = [] := by
      unfold ring_contents; rw [hocc0]; rfl
    obtain ⟨p1, h1, hwf1, _, _, hr1, hw1, hc1, ho1, _⟩ :=
      pipe_write_spec B p b n hwf hr hw
        ((isBuffFull_eq_zero B p hwf).mpr (by rw [hocc0]; omega)) hn
    have hk : min n ((B : Int) - 1 - occupancy B p).toNat = n := by rw [hocc0]; omega
    rw [hk] at h1 hc1 ho1
    rw [hcont0, List.nil_append] at hc1
    rw [hocc0, zero_add] at ho1
    have hw1' : p1.writer ≠ none := by rw [hw1]; exact hw
    have hr1' : p1.reader ≠ none := by rw [hr1]; exact hr
    have hclose : pipe_writer_close (some p1) =
        (0, some { p1 with writer := none }, [.broadcast .has_data]) := by
      simp [pipe_writer_close, hw1', hr1']
    have hwf2 : pipe_wf B { p1 with writer := none } := hwf1
    have ho2 : occupancy B { p1 with writer := none } = n := ho1
    have hc2 : ring_contents B { p1 with writer := none } = b.take n := hc1
    obtain ⟨p3, b1, h3, hwf3, _, _, hr3, hw3, _, _, ho3, _, ht3, _⟩ :=
      pipe_read_spec B { p1 with writer := none } out m hwf2 hr1' (Or.inr rfl) hm
    have hk2 : min m (occupancy B { p1 with writer := none }).toNat = n := by rw [ho2]; omega
    rw [hk2] at h3 ho3 ht3
    rw [hc2, List.take_take, Nat.min_self] at ht3
    rw [ho2, sub_self] at ho3
    obtain ⟨p4, b2, h4, _⟩ :=
      pipe_read_spec B p3 out2 m hwf3 (by rw [hr3]; exact hr1') (Or.inr (by rw [hw3])) hm2
    have hk3 : min m (occupancy B p3).toNat = 0 := by rw [ho3]; simp
    rw [hk3] at h4
    exact ⟨p1, _, p3, p4, b1, b2, _, h1, hclose, rfl, h3, ht3, h4⟩

/-- C3 on the pipe of the EOF scenario (`B = 8`): the writer writes `"abc"` and closes;
the first read into a 10-byte buffer returns 3 with the bytes `a b c`, the second 0. -/
theorem pipe_read_result_witness :
    ∃ p1 p2 p3 p4 b1 b2 ev,
      pipe_write 8 (some ⟨some 0, some 1, 0, 0, List.replicate 8 0⟩) (some [97, 98, 99]) 3 =
        .ret 3 (some p1) (some [97, 98, 99]) [.broadcast .has_data] ∧
      pipe_writer_close (some p1) = (0, some p2, ev) ∧ p2.writer = none ∧
      pipe_read 8 (some p2) (some (List.replicate 10 0)) 10 =
        .ret 3 (some p3) (some b1) [.broadcast .has_space] ∧
      b1.take 3 = [97, 98, 99] ∧
      pipe_read 8 (some p3) (some (List.replicate 10 0)) 10 =
        .ret 0 (some p4) (some b2) [.broadcast .has_space] :=
  (pipe_read_result 8 3).2.2.2 ⟨some 0, some 1, 0, 0, List.replicate 8 0⟩ [97, 98, 99]
    (List.replicate 10 0) (List.replicate 10 0) 10
    (by decide) rfl (by decide) (by decide) (by decide) (by decide) (by decide) (by decide)
    (by decide) (by decide)

theorem pipe_write_loop_handles (B : Nat) (buf : List Byte) (m : Nat) :
    ∀ (c : Nat) (p : pipe_cb),
      (pipe_write_loop B buf m c p).2.reader = p.reader ∧
        (pipe_write_loop B buf m c p).2.writer = p.writer := by
  induction m with
  | zero => intro c p; exact ⟨rfl, rfl⟩
  | succ m ih =>
    intro c p
    rw [pipe_write_loop_succ]
    split_ifs
    · exact ⟨rfl, rfl⟩
    · exact ih (c + 1) (write_one B p (buf.getD c 0))

theorem pipe_read_loop_handles (B : Nat) (m : Nat) :
    ∀ (c : Nat) (p : pipe_cb) (buf : List Byte),
      (pipe_read_loop B m c p buf).2.1.reader = p.reader ∧
        (pipe_read_loop B m c p buf).2.1.writer = p.writer := by
  induction m with
  | zero => intro c p buf; exact ⟨rfl, rfl⟩
  | succ m ih =>
    intro c p buf
    rw [pipe_read_loop_succ]
    split_ifs
    · exact ⟨rfl, rfl⟩
    · exact ih (c + 1) (read_one B p) _

/-- Function `pipe_write` leaves both handles as they are and frees nothing. -/
theorem pipe_write_handles (B : Nat) (p : pipe_cb) (buf : Option (List Byte)) (n : Nat)
    (v : Int) (q : pipe_cb) (b : Option (List Byte)) (ev : List KEvent)
    (h : pipe_write B (some p) buf n = .ret v (some q) b ev) :
    q.reader = p.reader ∧ q.writer = p.writer ∧ KEvent.free_pipe ∉ ev := by
  cases buf with
  | none =>
    simp only [pipe_write] at h
    injection h with _ h2 _ h4
    cases h2; subst h4
    exact ⟨rfl, rfl, by simp⟩
  | some bb =>
    simp only [pipe_write, pipe_write_resume] at h
    split_ifs at h <;> injection h with _ h2 _ h4 <;> cases h2 <;> subst h4
    · exact ⟨rfl, rfl, by simp⟩
    · exact ⟨rfl, rfl, by simp⟩
    · exact ⟨(pipe_write_loop_handles B bb n 0 p).1, (pipe_write_loop_handles B bb n 0 p).2,
        by simp⟩

/-- Function `pipe_read` leaves both handles as they are and frees nothing. -/
theorem pipe_read_handles (B : Nat) (p : pipe_cb) (buf : Option (List Byte)) (n : Nat)
    (v : Int) (q : pipe_cb) (b : Option (List Byte)) (ev : List KEvent)
    (h : pipe_read B (some p) buf n = .ret v (some q) b ev) :
    q.reader = p.reader ∧ q.writer = p.writer ∧ KEvent.free_pipe ∉ ev := by
  cases buf with
  | none =>
    simp only [pipe_read] at h
    injection h with _ h2 _ h4
    cases h2; subst h4
    exact ⟨rfl, rfl, by simp⟩
  | some bb =>
    simp only [pipe_read, pipe_read_resume] at h
    split_ifs at h <;> injection h with _ h2 _ h4 <;> cases h2 <;> subst h4
    · exact ⟨rfl, rfl, by simp⟩
    · exact ⟨(pipe_read_loop_handles B n 0 p bb).1, (pipe_read_loop_handles B n 0 p bb).2,
        by simp⟩

/-- C4. Monotonic close of the pipe ends. `pipe_writer_close` on a pipe whose writer handle
is set returns 0 and clears only the writer handle; on a pipe whose writer handle is clear,
or on a null pipe, it returns `-1` and changes nothing; `pipe_reader_close` is symmetric.
No pipe operation sets a cleared handle again (write and read leave both handles alone, a
close only clears), and `free` is called on the control block exactly by a close that
returns 0 and leaves both handles clear; write and read never free it. -/
theorem pipe_close_monotonic (B : Nat) (p : pipe_cb) :
    (p.writer ≠ none →
      ∃ ev, pipe_writer_close (some p) = (0, some { p with writer := none }, ev)) ∧
    (p.writer = none → pipe_writer_close (some p) = (-1, some p, [])) ∧
    pipe_writer_close none = (-1, none, []) ∧
    (p.reader ≠ none →
      ∃ ev, pipe_reader_close (some p) = (0, some { p with reader := none }, ev)) ∧
    (p.reader = none → pipe_reader_close (some p) = (-1, some p, [])) ∧
    pipe_reader_close none = (-1, none, []) ∧
    (∀ q, (pipe_writer_close (some p)).2.1 = some q →
      (p.reader = none → q.reader = none) ∧ (p.writer = none → q.writer = none)) ∧
    (∀ q, (pipe_reader_close (some p)).2.1 = some q →
      (p.reader = none → q.reader = none) ∧ (p.writer = none → q.writer = none)) ∧
    (∀ buf n v q b ev, pipe_write B (some p) buf n = .ret v (some q) b ev →
      q.reader = p.reader ∧ q.writer = p.writer ∧ KEvent.free_pipe ∉ ev) ∧
    (∀ buf n v q b ev, pipe_read B (some p) buf n = .ret v (some q) b ev →
      q.reader = p.reader ∧ q.writer = p.writer ∧ KEvent.free_pipe ∉ ev) ∧
    (KEvent.free_pipe ∈ (pipe_writer_close (some p)).2.2 ↔
      ((pipe_writer_close (some p)).1 = 0 ∧
        ∃ q, (pipe_writer_close (some p)).2.1 = some q ∧ q.reader = none ∧ q.writer = none)) ∧
    (KEvent.free_pipe ∈ (pipe_reader_close (some p)).2.2 ↔
      ((pipe_reader_close (some p)).1 = 0 ∧
        ∃ q, (pipe_reader_close (some p)).2.1 = some q ∧ q.reader = none ∧ q.writer = none)) := by
  refine ⟨?_, ?_, rfl, ?_, ?_, rfl, ?_, ?_, ?_, ?_, ?_, ?_⟩
  · intro h
    exact ⟨(if p.reader = none then [KEvent.free_pipe] else []) ++ [.broadcast .has_data],
      by simp only [pipe_writer_close, h, if_false]⟩
  · intro h; simp only [pipe_writer_close, h, if_true]
  · intro h
    exact ⟨(if p.writer = none then [KEvent.free_pipe] else []) ++ [.broadcast .has_space],
      by simp only [pipe_reader_close, h, if_false]⟩
  · intro h; simp only [pipe_reader_close, h, if_true]
  · intro q hq
    simp only [pipe_writer_close] at hq
    split_ifs at hq <;> cases hq <;>
      exact ⟨id, fun h => (by first | exact h | rfl)⟩
  · intro q hq
    simp only [pipe_reader_close] at hq
    split_ifs at hq <;> cases hq <;>
      exact ⟨fun h => (by first | exact h | rfl), id⟩
  · intro buf n v q b ev h
    exact pipe_write_handles B p buf n v q b ev h
  · intro buf n v q b ev h
    exact pipe_read_handles B p buf n v q b ev h
  · simp only [pipe_writer_close]
    by_cases hw : p.writer = none <;> by_cases hr : p.reader = none <;> simp [hw, hr]
  · simp only [pipe_reader_close]
    by_cases hw : p.writer = none <;> by_cases hr : p.reader = none <;> simp [hw, hr]

/-- C4 on a pipe whose reader end is already closed: closing the writer end returns 0
and clears the writer handle, and a second close returns `-1`. -/
theorem pipe_close_monotonic_witness :
    (∃ ev, pipe_writer_close (some ⟨none, some 1, 2, 5, List.replicate 8 0⟩) =
        (0, some ⟨none, none, 2, 5, List.replicate 8 0⟩, ev)) ∧
      pipe_writer_close (some ⟨none, none, 2, 5, List.replicate 8 0⟩) =
        (-1, some ⟨none, none, 2, 5, List.replicate 8 0⟩, []) :=
  ⟨(pipe_close_monotonic 8 ⟨none, some 1, 2, 5, List.replicate 8 0⟩).1 (by decide),
   (pipe_close_monotonic 8 ⟨none, none, 2, 5, List.replicate 8 0⟩).2.1 rfl⟩

/-! ## Theorems: stream sockets -/

theorem heap_set_same {κ α : Type} [DecidableEq κ] (h : κ → Option α) (k : κ) (v : Option α) :
    heap_set h k v k = v := by
  simp [heap_set]

theorem heap_set_other {κ α : Type} [DecidableEq κ] (h : κ → Option α) (k j : κ)
    (v : Option α) (hne : j ≠ k) : heap_set h k v j = h j := by
  simp [heap_set, hne]

theorem socket_of_none (cfg : KernelConfig) (s : SockState) (fid : Int) :
    socket_of cfg s fid = none ↔
      (get_socketcb cfg s fid = none ∨
        ∃ sock, get_socketcb cfg s fid = some sock ∧ s.socks sock = none) := by
  unfold socket_of
  cases get_socketcb cfg s fid with
  | none => simp
  | some sock => cases s.socks sock <;> simp

theorem socket_of_some (cfg : KernelConfig) (s : SockState) (fid : Int) (sock : Nat)
    (cb : socket_cb) :
    socket_of cfg s fid = some (sock, cb) ↔
      (get_socketcb cfg s fid = some sock ∧ s.socks sock = some cb) := by
  unfold socket_of
  cases get_socketcb cfg s fid with
  | none => simp
  | some sock1 =>
    simp only [Option.some.injEq]
    constructor
    · intro h3
      cases h2 : s.socks sock1 with
      | none => rw [h2] at h3; simp at h3
      | some cb1 =>
        rw [h2] at h3
        simp only [Option.map_some', Option.some.injEq, Prod.mk.injEq] at h3
        obtain ⟨rfl, rfl⟩ := h3
        exact ⟨rfl, h2⟩
    · rintro ⟨rfl, h3⟩
      rw [h3]; rfl

theorem sys_Listen_none (cfg : KernelConfig) (s : SockState) (sock : Int)
    (h : socket_of cfg s sock = none) : sys_Listen cfg s sock = (-1, s) := by
  rcases (socket_of_none cfg s sock).mp h with hg | ⟨id, hg, hs⟩
  · simp only [sys_Listen, hg]
  · simp only [sys_Listen, hg, hs]

theorem sys_Listen_some (cfg : KernelConfig) (s : SockState) (sock : Int) (id : Nat)
    (cb : socket_cb) (h : socket_of cfg s sock = some (id, cb)) :
    sys_Listen cfg s sock =
      if cb.port = NOPORT then (-1, s)
      else if s.port_map cb.port ≠ none then (-1, s)
      else if cb.type ≠ .SOCKET_UNBOUND then (-1, s)
      else
        (0, { s with
          port_map := heap_set s.port_map cb.port (some id)
          socks := heap_set s.socks id
            (some { cb with type := .SOCKET_LISTENER, queue := [] }) }) := by
  obtain ⟨hg, hs⟩ := (socket_of_some cfg s sock id cb).mp h
  simp only [sys_Listen, hg, hs, SockState.set_sock]

/-- C5. `sys_Listen` returns `-1`, leaving the whole state (so `port_map` and the socket)
unchanged, exactly when the file id has no socket, the socket's port is `NOPORT`,
`port_map[port]` is occupied, or the socket is not `UNBOUND`; otherwise it returns 0, puts
the socket into `port_map[port]`, makes it a `LISTENER` with an empty request queue, and
changes no other `port_map` entry and no other socket. -/
theorem sys_Listen_result (cfg : KernelConfig) (s : SockState) (sock : Int) :
    (sys_Listen cfg s sock = (-1, s) ↔
      (socket_of cfg s sock = none ∨
        ∃ id cb, socket_of cfg s sock = some (id, cb) ∧
          (cb.port = NOPORT ∨ s.port_map cb.port ≠ none ∨ cb.type ≠ .SOCKET_UNBOUND))) ∧
    ((sys_Listen cfg s sock).1 = -1 → (sys_Listen cfg s sock).2 = s) ∧
    (∀ id cb, socket_of cfg s sock = some (id, cb) → cb.port ≠ NOPORT →
      s.port_map cb.port = none → cb.type = .SOCKET_UNBOUND →
      (sys_Listen cfg s sock).1 = 0 ∧
      (sys_Listen cfg s sock).2.port_map cb.port = some id ∧
      (∀ q, q ≠ cb.port → (sys_Listen cfg s sock).2.port_map q = s.port_map q) ∧
      (sys_Listen cfg s sock).2.socks id =
        some { cb with type := .SOCKET_LISTENER, queue := [] } ∧
      (∀ j, j ≠ id → (sys_Listen cfg s sock).2.socks j = s.socks j) ∧
      (sys_Listen cfg s sock).2.reqs = s.reqs ∧ (sys_Listen cfg s sock).2.pipes = s.pipes ∧
      (sys_Listen cfg s sock).2.fidt = s.fidt ∧ (sys_Listen cfg s sock).2.log = s.log) := by
  cases hso : socket_of cfg s sock with
  | none =>
    have h := sys_Listen_none cfg s sock hso
    refine ⟨⟨fun _ => Or.inl rfl, fun _ => h⟩, fun _ => by rw [h], ?_⟩
    intro id cb hc
    cases hc
  | some pr =>
    obtain ⟨id, cb⟩ := pr
    have h := sys_Listen_some cfg s sock id cb hso
    by_cases h1 : cb.port = NOPORT
    · rw [if_pos h1] at h
      refine ⟨⟨fun _ => Or.inr ⟨id, cb, rfl, Or.inl h1⟩, fun _ => h⟩, fun _ => by rw [h], ?_⟩
      intro id1 cb1 hc hp
      cases hc
      exact absurd h1 hp
    · by_cases h2 : s.port_map cb.port ≠ none
      · rw [if_neg h1, if_pos h2] at h
        refine ⟨⟨fun _ => Or.inr ⟨id, cb, rfl, Or.inr (Or.inl h2)⟩, fun _ => h⟩,
          fun _ => by rw [h], ?_⟩
        intro id1 cb1 hc _ hp
        cases hc
        exact absurd hp h2
      · by_cases h3 : cb.type ≠ .SOCKET_UNBOUND
        · rw [if_neg h1, if_neg h2, if_pos h3] at h
          refine ⟨⟨fun _ => Or.inr ⟨id, cb, rfl, Or.inr (Or.inr h3)⟩, fun _ => h⟩,
            fun _ => by rw [h], ?_⟩
          intro id1 cb1 hc _ _ hp
          cases hc
          exact absurd hp h3
        · rw [if_neg h1, if_neg h2, if_neg h3] at h
          refine ⟨⟨fun hh => ?_, ?_⟩, fun hh => ?_, ?_⟩
          · rw [h] at hh
            have := congrArg Prod.fst hh
            simp at this
          · rintro (hc | ⟨id1, cb1, hc, hd⟩)
            · cases hc
            · cases hc
              rcases hd with hd | hd | hd
              · exact absurd hd h1
              · exact absurd hd h2
              · exact absurd hd h3
          · rw [h] at hh
            simp at hh
          · intro id1 cb1 hc _ _ _
            cases hc
            rw [h]
            exact ⟨rfl, heap_set_same _ _ _, fun q hq => heap_set_other _ _ _ _ hq,
              heap_set_same _ _ _, fun j hj => heap_set_other _ _ _ _ hj, rfl, rfl, rfl, rfl⟩

theorem sys_Connect_none (cfg : KernelConfig) (s : SockState) (sock port : Int) (t : Nat)
    (h : socket_of cfg s sock = none) : sys_Connect cfg s sock port t = .ret (-1) s := by
  rcases (socket_of_none cfg s sock).mp h with hg | ⟨id, hg, hs⟩
  · simp only [sys_Connect, hg]
  · simp only [sys_Connect, hg, hs]

theorem sys_Connect_some (cfg : KernelConfig) (s : SockState) (sock port : Int) (t : Nat)
    (id : Nat) (cb : socket_cb) (h : socket_of cfg s sock = some (id, cb)) :
    sys_Connect cfg s sock port t =
      if cb.type ≠ .SOCKET_UNBOUND then .ret (-1) s
      else if port > cfg.MAX_PORT ∨ port < 1 then .ret (-1) s
      else
        match s.port_map port with
        | none => .ret (-1) s
        | some server_sock =>
          match s.socks server_sock with
          | none => .ret (-1) s
          | some srv =>
            if srv.type ≠ .SOCKET_LISTENER then .ret (-1) s
            else .wait (.connect s.nreq server_sock) (connect_pending s id server_sock srv) := by
  obtain ⟨hg, hs⟩ := (socket_of_some cfg s sock id cb).mp h
  simp only [sys_Connect, hg, hs, SockState.set_sock, SockState.emit, connect_pending]

/-- C7. `sys_Connect` rejects bad requests atomically: whenever the file id has no socket,
the socket is not `UNBOUND`, the port is outside `[1, MAX_PORT]`, or `port_map[port]` does
not hold a `LISTENER` socket, it returns `-1` at once and the state is unchanged: no
request is created or queued, no socket, reference count or `port_map` entry changes.
Conversely an immediate `-1` happens only then. -/
theorem sys_Connect_rejects (cfg : KernelConfig) (s : SockState) (sock port : Int)
    (timeout : Nat) :
    (¬ connect_pre cfg s sock port → sys_Connect cfg s sock port timeout = .ret (-1) s) ∧
    (∀ v s1, sys_Connect cfg s sock port timeout = .ret v s1 →
      v = -1 ∧ s1 = s ∧ ¬ connect_pre cfg s sock port) := by
  cases hso : socket_of cfg s sock with
  | none =>
    have h := sys_Connect_none cfg s sock port timeout hso
    refine ⟨fun _ => h, ?_⟩
    intro v s1 hr
    rw [h] at hr
    injection hr with h1 h2
    refine ⟨h1.symm, h2.symm, ?_⟩
    rintro ⟨⟨id, cb, hc, _⟩, _⟩
    rw [hso] at hc; cases hc
  | some pr =>
    obtain ⟨id, cb⟩ := pr
    have h := sys_Connect_some cfg s sock port timeout id cb hso
    have hfail : ∀ (hn : ¬ connect_pre cfg s sock port),
        sys_Connect cfg s sock port timeout = .ret (-1) s →
        (¬ connect_pre cfg s sock port → sys_Connect cfg s sock port timeout = .ret (-1) s) ∧
        (∀ v s1, sys_Connect cfg s sock port timeout = .ret v s1 →
          v = -1 ∧ s1 = s ∧ ¬ connect_pre cfg s sock port) := by
      intro hn he
      refine ⟨fun _ => he, ?_⟩
      intro v s1 hr
      rw [he] at hr
      injection hr with h1 h2
      exact ⟨h1.symm, h2.symm, hn⟩
    by_cases h1 : cb.type ≠ .SOCKET_UNBOUND
    · rw [if_pos h1] at h
      refine hfail ?_ h
      rintro ⟨⟨id1, cb1, hc, ht⟩, _⟩
      rw [hso] at hc; cases hc
      exact h1 ht
    · by_cases h2 : port > cfg.MAX_PORT ∨ port < 1
      · rw [if_neg h1, if_pos h2] at h
        refine hfail ?_ h
        rintro ⟨_, hp1, hp2, _⟩
        omega
      · rw [if_neg h1, if_neg h2] at h
        cases hpm : s.port_map port with
        | none =>
          rw [hpm] at h
          refine hfail ?_ h
          rintro ⟨_, _, _, l, lcb, hl, _⟩
          rw [hpm] at hl; cases hl
        | some server =>
          rw [hpm] at h
          cases hsv : s.socks server with
          | none =>
            simp only [hsv] at h
            refine hfail ?_ h
            rintro ⟨_, _, _, l, lcb, hl, hl2, _⟩
            rw [hpm] at hl; cases hl
            rw [hsv] at hl2; cases hl2
          | some srv =>
            simp only [hsv] at h
            by_cases h3 : srv.type ≠ .SOCKET_LISTENER
            · rw [if_pos h3] at h
              refine hfail ?_ h
              rintro ⟨_, _, _, l, lcb, hl, hl2, hl3⟩
              rw [hpm] at hl; cases hl
              rw [hsv] at hl2; cases hl2
              exact h3 hl3
            · rw [if_neg h3] at h
              have hpre : connect_pre cfg s sock port :=
                ⟨⟨id, cb, hso, not_not.mp h1⟩, by omega, by omega, server, srv, hpm, hsv,
                  not_not.mp h3⟩
              refine ⟨fun hn => absurd hpre hn, ?_⟩
              intro v s1 hr
              rw [h] at hr
              cases hr

theorem sys_Socket_ok (cfg : KernelConfig) (s : SockState) (port : Int) (v : Int)
    (s2 : SockState) (h : sys_Socket cfg s port = (v, s2)) (hv : v ≠ NOFILE) :
    ∃ fd : Nat, v = (fd : Int) ∧ fd < cfg.MAX_FILEID ∧ 0 ≤ port ∧ port ≤ cfg.MAX_PORT ∧
      s.fidt fd = none ∧
      s2 = { s with
        fidt := heap_set s.fidt fd (some s.nfcb)
        nfcb := s.nfcb + 1
        streamobj := heap_set s.streamobj s.nfcb (some s.nsock)
        socks := heap_set s.socks s.nsock
          (some { refcount := 0, fcb := s.nfcb, type := .SOCKET_UNBOUND, port := port,
                  queue := [], peer := none, write_pipe := none, read_pipe := none })
        nsock := s.nsock + 1 } := by
  unfold sys_Socket at h
  split_ifs at h with hp
  · injection h with h1 _; exact absurd h1.symm hv
  · unfold FCB_reserve at h
    cases hf : (List.range cfg.MAX_FILEID).find? (fun f => (s.fidt f).isNone) with
    | none =>
      rw [hf] at h
      injection h with h1 _; exact absurd h1.symm hv
    | some fd =>
      rw [hf] at h
      injection h with h1 h2
      have hmem := List.mem_of_find?_eq_some hf
      have hprop := List.find?_some hf
      rw [List.mem_range] at hmem
      refine ⟨fd, h1.symm, hmem, by omega, by omega, ?_, h2.symm⟩
      simpa using hprop

theorem decref_socks (s : SockState) (x j : Nat) :
    (decref s x).socks j =
      if j = x then
        (s.socks x).map
          (fun cb => { cb with refcount := (cb.refcount + (UINT_MOD - 1)) % UINT_MOD })
      else s.socks j := by
  unfold decref
  cases hx : s.socks x with
  | none =>
    split_ifs with hj
    · rw [hj, hx]; rfl
    · rfl
  | some cb =>
    have hnn : ¬ (((cb.refcount + (UINT_MOD - 1)) % UINT_MOD : Nat) : Int) < 0 := by omega
    simp only [hnn, if_false, SockState.set_sock, heap_set, Option.map_some']

theorem decref_frame (s : SockState) (x : Nat) :
    (decref s x).reqs = s.reqs ∧ (decref s x).pipes = s.pipes ∧
      (decref s x).port_map = s.port_map ∧ (decref s x).fidt = s.fidt ∧
      (decref s x).streamobj = s.streamobj ∧ (decref s x).nsock = s.nsock ∧
      (decref s x).nreq = s.nreq ∧ (decref s x).npipe = s.npipe ∧
      (decref s x).nfcb = s.nfcb ∧ (decref s x).log = s.log := by
  unfold decref
  cases hx : s.socks x with
  | none => simp
  | some cb =>
    have hnn : ¬ (((cb.refcount + (UINT_MOD - 1)) % UINT_MOD : Nat) : Int) < 0 := by omega
    simp only [hnn, if_false, SockState.set_sock]
    simp

theorem decref_socks_some (s : SockState) (x j : Nat) (cb : socket_cb)
    (h : s.socks j = some cb) :
    ∃ cb', (decref s x).socks j = some cb' ∧ cb'.type = cb.type ∧ cb'.peer = cb.peer ∧
      cb'.port = cb.port ∧ cb'.fcb = cb.fcb ∧ cb'.queue = cb.queue ∧
      cb'.write_pipe = cb.write_pipe ∧ cb'.read_pipe = cb.read_pipe ∧
      cb'.refcount =
        if j = x then (cb.refcount + (UINT_MOD - 1)) % UINT_MOD else cb.refcount := by
  rw [decref_socks]
  by_cases hj : j = x
  · subst hj
    simp [h]
  · simp [hj, h]

theorem accept_pair_eq (cfg : KernelConfig) (s2 : SockState) (l req : Nat)
    (r : connection_request) (fid : Int) (server : Nat) (srv cli : socket_cb)
    (hg : get_socketcb cfg s2 fid = some server) (hsrv : s2.socks server = some srv)
    (hcli : s2.socks r.peer = some cli) (hne : r.peer ≠ server) :
    accept_pair cfg s2 l req r fid = .ret fid (paired_state cfg s2 l req r server srv cli) := by
  have hcli4 : heap_set s2.socks server
      (some { srv with type := .SOCKET_PEER, write_pipe := some s2.npipe,
                       read_pipe := some (s2.npipe + 1), peer := some r.peer }) r.peer =
      some cli := by
    rw [heap_set_other _ _ _ _ hne, hcli]
  simp only [accept_pair, hg, hsrv, hcli, SockState.set_sock, hcli4, paired_state, paired_core]

theorem paired_state_ok (cfg : KernelConfig) (s2 : SockState) (l req : Nat)
    (r : connection_request) (server : Nat) (srv cli : socket_cb)
    (hsrv : s2.socks server = some srv)
    (hcli : s2.socks r.peer = some cli) (hne : r.peer ≠ server) :
    Paired cfg s2 (paired_state cfg s2 l req r server srv cli) l req r server r.peer := by
  have hf := decref_frame (paired_core cfg s2 req r server srv cli) l
  have hne' : server ≠ r.peer := fun h => hne h.symm
  have hcs : (paired_core cfg s2 req r server srv cli).socks server =
      some { srv with type := .SOCKET_PEER, write_pipe := some s2.npipe,
                      read_pipe := some (s2.npipe + 1), peer := some r.peer } := by
    simp only [paired_core, heap_set_other _ _ _ _ hne', heap_set_same]
  have hcc : (paired_core cfg s2 req r server srv cli).socks r.peer =
      some { cli with type := .SOCKET_PEER, write_pipe := some (s2.npipe + 1),
                      read_pipe := some s2.npipe, peer := some server } := by
    simp only [paired_core, heap_set_same]
  refine ⟨?_, ?_, ?_, ?_, ?_, ?_, ?_, ?_⟩
  · simp only [paired_state, SockState.emit, hf.1]
    simp only [paired_core, heap_set_same]
  · intro q hq
    simp only [paired_state, SockState.emit, hf.1]
    simp only [paired_core, heap_set_other _ _ _ _ hq]
  · obtain ⟨srv', hs1, hs2, hs3, hs4, hs5, _, hs7, hs8, _⟩ := decref_socks_some _ l server _ hcs
    obtain ⟨cli', hc1, hc2, hc3, hc4, hc5, _, hc7, hc8, _⟩ := decref_socks_some _ l r.peer _ hcc
    refine ⟨srv, cli, srv', cli', hsrv, hcli, hs1, hc1, hs2, hc2, hs3, hc3, hs4, hc4, hs5, hc5,
      hc8, hs7, hc7, hs8, ?_, ?_⟩
    · simp only [paired_state, SockState.emit, hf.2.1]
      simp only [paired_core]
      rw [heap_set_other _ _ _ _ (by omega), heap_set_same]
    · simp only [paired_state, SockState.emit, hf.2.1]
      simp only [paired_core, heap_set_same]
  · intro j h1 h2 h3
    simp only [paired_state, SockState.emit, decref_socks, h3, if_false]
    simp only [paired_core, heap_set_other _ _ _ _ h1, heap_set_other _ _ _ _ h2]
  · intro lcb hl hls
    have hcl : ∃ c, (paired_core cfg s2 req r server srv cli).socks l = some c ∧
        c.queue = lcb.queue ∧ c.port = lcb.port ∧ c.refcount = lcb.refcount := by
      by_cases h2 : l = r.peer
      · rw [h2, hcli] at hl; cases hl
        rw [h2, hcc]; exact ⟨_, rfl, rfl, rfl, rfl⟩
      · simp only [paired_core, heap_set_other _ _ _ _ h2, heap_set_other _ _ _ _ hls]
        exact ⟨lcb, hl, rfl, rfl, rfl⟩
    obtain ⟨c, hc, hq, hp, hrc⟩ := hcl
    obtain ⟨c', h1, _, _, h4, _, h6, _, _, h9⟩ := decref_socks_some _ l l _ hc
    refine ⟨c', h1, by rw [h6, hq], by rw [h4, hp], ?_⟩
    rw [h9, if_pos rfl, hrc]
  · simp only [paired_state, SockState.emit, hf.2.2.1]; rfl
  · simp only [paired_state, SockState.emit, hf.2.2.2.1]; rfl
  · simp only [paired_state, SockState.emit, hf.2.2.2.2.1]; rfl

theorem accept_alloc_failed_ret (s2 : SockState) (l req : Nat) (v : Int) (s' : SockState)
    (h : accept_alloc_failed s2 l req = .ret v s') : v = NOFILE := by
  unfold accept_alloc_failed at h
  split at h <;> injection h with h1 _ <;> exact h1.symm

theorem sys_Accept_resume_served (cfg : KernelConfig) (s : SockState) (l : Nat)
    (lcb : socket_cb) (req : Nat) (rest : List Nat) (r : connection_request) (x : Nat)
    (hl : s.socks l = some lcb) (hq : lcb.queue = req :: rest)
    (hpm : s.port_map lcb.port = some x) (hr : s.reqs req = some r) :
    sys_Accept_resume cfg s l =
      if (sys_Socket cfg (popped s l lcb rest) lcb.port).1 = NOFILE then
        accept_alloc_failed (sys_Socket cfg (popped s l lcb rest) lcb.port).2 l req
      else
        accept_pair cfg (sys_Socket cfg (popped s l lcb rest) lcb.port).2 l req r
          (sys_Socket cfg (popped s l lcb rest) lcb.port).1 := by
  have hr' : (s.set_sock l { lcb with queue := rest }).reqs req = some r := hr
  simp only [sys_Accept_resume, hl, hq, hpm, hr', popped]

/-- After `sys_Socket` has succeeded inside `sys_Accept`: the new server socket is
`s.nsock` with FCB `s.nfcb`, and `accept_pair` returns `paired_state`. -/
theorem accept_after_socket (cfg : KernelConfig) (s : SockState) (l : Nat) (lcb : socket_cb)
    (req : Nat) (rest : List Nat) (r : connection_request) (v0 : Int) (s2 : SockState)
    (hl : s.socks l = some lcb) (hc : (s.socks r.peer).isSome)
    (hfresh : s.socks s.nsock = none)
    (hres : sys_Socket cfg (popped s l lcb rest) lcb.port = (v0, s2)) (hnf : v0 ≠ NOFILE) :
    ∃ cli : socket_cb,
      get_socketcb cfg s2 v0 = some s.nsock ∧
      s2.socks s.nsock = some (fresh_socket s.nfcb lcb.port) ∧
      (∀ j, j ≠ s.nsock → s2.socks j = (popped s l lcb rest).socks j) ∧
      s2.socks r.peer = some cli ∧ r.peer ≠ s.nsock ∧ l ≠ s.nsock ∧
      s2.reqs = s.reqs ∧ s2.pipes = s.pipes ∧ s2.npipe = s.npipe ∧ s2.port_map = s.port_map ∧
      accept_pair cfg s2 l req r v0 =
        .ret v0 (paired_state cfg s2 l req r s.nsock (fresh_socket s.nfcb lcb.port) cli) := by
  obtain ⟨fd, hfd, hfdlt, hp0, hp1, hfree, hs2⟩ := sys_Socket_ok cfg _ lcb.port _ _ hres hnf
  have hpn : (popped s l lcb rest).nsock = s.nsock := rfl
  have hpf : (popped s l lcb rest).nfcb = s.nfcb := rfl
  have hlne : l ≠ s.nsock := by
    intro he; rw [he, hfresh] at hl; cases hl
  have hcne : r.peer ≠ s.nsock := by
    intro he; rw [he, hfresh] at hc; cases hc
  have hg : get_socketcb cfg s2 v0 = some s.nsock := by
    rw [hs2, hfd]
    have : (0 : Int) ≤ (fd : Int) ∧ (fd : Int) < (cfg.MAX_FILEID : Int) := by omega
    simp only [get_socketcb, get_fcb, this, and_self, if_true, Int.toNat_ofNat,
      heap_set_same, hpn, hpf]
  have hsv : s2.socks s.nsock = some (fresh_socket s.nfcb lcb.port) := by
    rw [hs2]; simp only [hpn, hpf, heap_set_same, fresh_socket]
  have hoth : ∀ j, j ≠ s.nsock → s2.socks j = (popped s l lcb rest).socks j := by
    intro j hj
    rw [hs2]; simp only [hpn, heap_set_other _ _ _ _ hj]
  have hcl : ∃ cli, s2.socks r.peer = some cli := by
    rw [hoth _ hcne]
    by_cases he : r.peer = l
    · rw [he]; exact ⟨_, heap_set_same _ _ _⟩
    · simp only [popped, SockState.set_sock, heap_set_other _ _ _ _ he]
      exact Option.isSome_iff_exists.mp hc
  obtain ⟨cli, hcli⟩ := hcl
  refine ⟨cli, hg, hsv, hoth, hcli, hcne, hlne, ?_, ?_, ?_, ?_,
    accept_pair_eq cfg _ l req r _ s.nsock _ cli hg hsv hcli hcne⟩
  · rw [hs2]; rfl
  · rw [hs2]; rfl
  · rw [hs2]; rfl
  · rw [hs2]; rfl

/-- A successful `sys_Accept`, unfolded: the new server socket is `s.nsock`, its FCB
`s.nfcb`, and the state is `paired_state` over the state left by `sys_Socket`. -/
theorem sys_Accept_resume_success (cfg : KernelConfig) (s : SockState) (l : Nat) (v : Int)
    (s' : SockState) (lcb : socket_cb) (req : Nat) (rest : List Nat) (r : connection_request)
    (hl : s.socks l = some lcb) (hq : lcb.queue = req :: rest) (hr : s.reqs req = some r)
    (hc : (s.socks r.peer).isSome) (hfresh : s.socks s.nsock = none)
    (h : sys_Accept_resume cfg s l = .ret v s') (hv : v ≠ NOFILE) :
    ∃ (s2 : SockState) (cli : socket_cb),
      (sys_Socket cfg (popped s l lcb rest) lcb.port) = (v, s2) ∧
      get_socketcb cfg s2 v = some s.nsock ∧
      s2.socks s.nsock = some (fresh_socket s.nfcb lcb.port) ∧
      (∀ j, j ≠ s.nsock → s2.socks j = (popped s l lcb rest).socks j) ∧
      s2.socks r.peer = some cli ∧ r.peer ≠ s.nsock ∧ l ≠ s.nsock ∧
      s2.reqs = s.reqs ∧ s2.pipes = s.pipes ∧ s2.npipe = s.npipe ∧ s2.port_map = s.port_map ∧
      s' = paired_state cfg s2 l req r s.nsock (fresh_socket s.nfcb lcb.port) cli := by
  cases hpm : s.port_map lcb.port with
  | none =>
    simp only [sys_Accept_resume, hl, hq, hpm] at h
    injection h with h1 _; exact absurd h1.symm hv
  | some x =>
    rw [sys_Accept_resume_served cfg s l lcb req rest r x hl hq hpm hr] at h
    rcases hres : sys_Socket cfg (popped s l lcb rest) lcb.port with ⟨v0, s2⟩
    rw [hres] at h
    simp only at h
    split_ifs at h with hnf
    · exact absurd (accept_alloc_failed_ret _ _ _ _ _ h) hv
    · obtain ⟨cli, hg, hsv, hoth, hcli, hcne, hlne, h7, h8, h9, h10, hp⟩ :=
        accept_after_socket cfg s l lcb req rest r v0 s2 hl hc hfresh hres hnf
      rw [hp] at h
      injection h with h1 h2
      subst h1
      exact ⟨_, cli, rfl, hg, hsv, hoth, hcli, hcne, hlne, h7, h8, h9, h10, h2.symm⟩

theorem sys_Accept_entry (cfg : KernelConfig) (s : SockState) (lsock : Int) (l : Nat)
    (lcb : socket_cb) (x : Nat) (hso : socket_of cfg s lsock = some (l, lcb))
    (ht : lcb.type = .SOCKET_LISTENER) (hpm : s.port_map lcb.port = some x) :
    sys_Accept cfg s lsock =
      sys_Accept_resume cfg
        (s.set_sock l { lcb with refcount := (lcb.refcount + 1) % UINT_MOD }) l := by
  obtain ⟨hg, hs⟩ := (socket_of_some cfg s lsock l lcb).mp hso
  simp only [sys_Accept, hg, hs, ht, hpm, ne_eq, not_true_eq_false, if_false, reduceCtorEq]

/-- C9. Pairing produced by a successful `sys_Accept` (the code after the wait loop, reached
at entry or after a wake-up, in a state where the listener `l` has the request `req` at
the head of its queue, the client socket of the request is allocated and the allocation
counter is fresh). The call serves that oldest request: it is popped from the queue and
gets `admitted = 1`; the returned file id names a new socket `server`; client and server
both have type `PEER` and point to each other; the server carries the listener's port;
`client.read_pipe` is `server.write_pipe`, `client.write_pipe` is `server.read_pipe`, the
two pipes are distinct and empty, and each pipe's reader (writer) handle is the FCB of the
socket that reads (writes) it. -/
theorem sys_Accept_pairing (cfg : KernelConfig) (s : SockState) (l : Nat) (v : Int)
    (s' : SockState) (lcb : socket_cb) (req : Nat) (rest : List Nat) (r : connection_request)
    (hl : s.socks l = some lcb) (hq : lcb.queue = req :: rest) (hr : s.reqs req = some r)
    (hc : (s.socks r.peer).isSome) (hfresh : s.socks s.nsock = none)
    (h : sys_Accept_resume cfg s l = .ret v s') (hv : v ≠ NOFILE) :
    s'.reqs req = some { r with admitted := 1 } ∧
    (∃ lcb', s'.socks l = some lcb' ∧ lcb'.queue = rest ∧ lcb'.port = lcb.port) ∧
    ∃ server srv' cli' p1 p2 pipe1 pipe2,
      get_socketcb cfg s' v = some server ∧ s.socks server = none ∧
      s'.socks server = some srv' ∧ s'.socks r.peer = some cli' ∧
      srv'.type = .SOCKET_PEER ∧ cli'.type = .SOCKET_PEER ∧
      srv'.peer = some r.peer ∧ cli'.peer = some server ∧ srv'.port = lcb.port ∧
      cli'.read_pipe = some p1 ∧ srv'.write_pipe = some p1 ∧
      cli'.write_pipe = some p2 ∧ srv'.read_pipe = some p2 ∧ p1 ≠ p2 ∧
      s'.pipes p1 = some pipe1 ∧ s'.pipes p2 = some pipe2 ∧
      isBuffEmpty pipe1.r_position pipe1.w_position = 1 ∧
      isBuffEmpty pipe2.r_position pipe2.w_position = 1 ∧
      pipe1.reader = some cli'.fcb ∧ pipe1.writer = some srv'.fcb ∧
      pipe2.reader = some srv'.fcb ∧ pipe2.writer = some cli'.fcb := by
  obtain ⟨s2, cli, _, hg, hsv, hoth, hcli, hcne, hlne, _, _, hnp, _, hs'⟩ :=
    sys_Accept_resume_success cfg s l v s' lcb req rest r hl hq hr hc hfresh h hv
  have P := paired_state_ok cfg s2 l req r s.nsock (fresh_socket s.nfcb lcb.port) cli hsv hcli hcne
  rw [← hs'] at P
  have hl2 : s2.socks l = some { lcb with queue := rest } := by
    rw [hoth l hlne]; exact heap_set_same _ _ _
  obtain ⟨lcb', hl', hq', hp', _⟩ := P.listener _ hl2 hlne
  obtain ⟨srv, cli0, srv', cli', h1, h2, h3, h4, h5, h6, h7, h8, h9, h10, h11, h12, h13, h14,
    h15, h16, h17, h18⟩ := P.pairing
  rw [hsv] at h1; cases h1
  rw [hcli] at h2; cases h2
  refine ⟨P.admitted, ⟨lcb', hl', hq', hp'⟩, s.nsock, srv', cli', s2.npipe, s2.npipe + 1, _, _,
    ?_, hfresh, h3, h4, h5, h6, h7, h8, h9, h13, h14, h15, h16, by omega, h17, h18, rfl, rfl,
    ?_, ?_, ?_, ?_⟩
  · simp only [get_socketcb, get_fcb, P.fidt, P.streamobj] at hg ⊢
    exact hg
  · rw [h12]; rfl
  · rw [h11]; rfl
  · rw [h11]; rfl
  · rw [h12]; rfl

theorem sys_Socket_fail (cfg : KernelConfig) (s : SockState) (port : Int)
    (h : (sys_Socket cfg s port).1 = NOFILE) : (sys_Socket cfg s port).2 = s := by
  unfold sys_Socket at h ⊢
  split_ifs with hp
  · rfl
  · rw [if_neg hp] at h
    cases hf : FCB_reserve cfg s with
    | none => rfl
    | some pr =>
      obtain ⟨fd, fcb, s1⟩ := pr
      rw [hf] at h
      simp only [NOFILE] at h
      omega

theorem free_queue_frame (q : List Nat) :
    ∀ s : SockState, (free_queue s q).socks = s.socks ∧ (free_queue s q).reqs = s.reqs ∧
      (free_queue s q).pipes = s.pipes ∧ (free_queue s q).port_map = s.port_map ∧
      (free_queue s q).fidt = s.fidt ∧ (free_queue s q).streamobj = s.streamobj ∧
      (free_queue s q).nsock = s.nsock ∧ (free_queue s q).nreq = s.nreq ∧
      (free_queue s q).npipe = s.npipe ∧ (free_queue s q).nfcb = s.nfcb := by
  induction q with
  | nil => intro s; simp [free_queue]
  | cons a q ih =>
    intro s
    simp only [free_queue]
    have := ih (s.emit (.free_node a))
    simpa [SockState.emit] using this

/-- Function `socket_close` on a listener, unfolded. -/
theorem socket_close_listener (s : SockState) (l : Nat) (lcb : socket_cb)
    (hl : s.socks l = some lcb) (ht : lcb.type = .SOCKET_LISTENER) :
    (socket_close s (some l)).1 = 0 ∧
    (socket_close s (some l)).2.port_map = heap_set s.port_map lcb.port none ∧
    (socket_close s (some l)).2.socks l =
      some { lcb with queue := [], refcount := (lcb.refcount + (UINT_MOD - 1)) % UINT_MOD } ∧
    (∀ j, j ≠ l → (socket_close s (some l)).2.socks j = s.socks j) ∧
    (socket_close s (some l)).2.reqs = s.reqs ∧
    (socket_close s (some l)).2.pipes = s.pipes ∧
    (socket_close s (some l)).2.nsock = s.nsock ∧
    (socket_close s (some l)).2.nreq = s.nreq ∧
    (socket_close s (some l)).2.fidt = s.fidt ∧
    (socket_close s (some l)).2.streamobj = s.streamobj := by
  have hq := free_queue_frame lcb.queue s
  have hsc : socket_close s (some l) =
      (0, decref
        { ((free_queue s lcb.queue).set_sock l { lcb with queue := [] }).emit
            (.signal_req_available l) with
          port_map := heap_set
            (((free_queue s lcb.queue).set_sock l { lcb with queue := [] }).emit
              (.signal_req_available l)).port_map lcb.port none } l) := by
    simp only [socket_close, hl, ht]
  rw [hsc]
  refine ⟨rfl, ?_, ?_, ?_, ?_, ?_, ?_, ?_, ?_, ?_⟩
  · rw [(decref_frame _ l).2.2.1]
    simp only [SockState.emit, SockState.set_sock, hq.2.2.2.1]
  · rw [decref_socks, if_pos rfl]
    simp only [SockState.emit, SockState.set_sock, heap_set_same, Option.map_some']
  · intro j hj
    rw [decref_socks, if_neg hj]
    simp only [SockState.emit, SockState.set_sock, heap_set_other _ _ _ _ hj, hq.1]
  · rw [(decref_frame _ l).1]
    simp only [SockState.emit, SockState.set_sock, hq.2.1]
  · rw [(decref_frame _ l).2.1]
    simp only [SockState.emit, SockState.set_sock, hq.2.2.1]
  · rw [(decref_frame _ l).2.2.2.2.2.1]
    simp only [SockState.emit, SockState.set_sock, hq.2.2.2.2.2.2.1]
  · rw [(decref_frame _ l).2.2.2.2.2.2.1]
    simp only [SockState.emit, SockState.set_sock, hq.2.2.2.2.2.2.2.1]
  · rw [(decref_frame _ l).2.2.2.1]
    simp only [SockState.emit, SockState.set_sock, hq.2.2.2.2.1]
  · rw [(decref_frame _ l).2.2.2.2.1]
    simp only [SockState.emit, SockState.set_sock, hq.2.2.2.2.2.1]

/-- Every return of `sys_Accept_resume` has dropped exactly one reference of the
listener, provided the request at the head of the queue and its client are allocated. -/
theorem sys_Accept_resume_refcount (cfg : KernelConfig) (s : SockState) (l : Nat)
    (lcb : socket_cb) (v : Int) (s' : SockState) (hl : s.socks l = some lcb)
    (hq : ∀ req rest, lcb.queue = req :: rest →
      ∃ r, s.reqs req = some r ∧ (s.socks r.peer).isSome)
    (hfresh : s.socks s.nsock = none)
    (h : sys_Accept_resume cfg s l = .ret v s') :
    ∃ lcb', s'.socks l = some lcb' ∧
      lcb'.refcount = (lcb.refcount + (UINT_MOD - 1)) % UINT_MOD ∧
      lcb'.port = lcb.port := by
  cases hpm : s.port_map lcb.port with
  | none =>
    have : sys_Accept_resume cfg s l = .ret NOFILE (decref s l) := by
      simp only [sys_Accept_resume, hl, hpm]
    rw [this] at h
    injection h with _ h2
    obtain ⟨c', h1, _, _, h4, _, _, _, _, h9⟩ := decref_socks_some s l l lcb hl
    rw [← h2]
    exact ⟨c', h1, by rw [h9, if_pos rfl], h4⟩
  | some x =>
    cases hqq : lcb.queue with
    | nil =>
      simp only [sys_Accept_resume, hl, hpm, hqq] at h
      cases h
    | cons req rest =>
      obtain ⟨r, hr, hc⟩ := hq req rest hqq
      rw [sys_Accept_resume_served cfg s l lcb req rest r x hl hqq hpm hr] at h
      split_ifs at h with hnf
      · rw [sys_Socket_fail cfg _ _ hnf] at h
        have hp : (popped s l lcb rest).socks l = some { lcb with queue := rest } :=
          heap_set_same _ _ _
        simp only [accept_alloc_failed, hp] at h
        have hnn : ¬ (((lcb.refcount + (UINT_MOD - 1)) % UINT_MOD : Nat) : Int) < 0 := by
          omega
        simp only [hnn, if_false] at h
        injection h with _ h2
        rw [← h2]
        exact ⟨_, heap_set_same _ _ _, rfl, rfl⟩
      · rcases hres : sys_Socket cfg (popped s l lcb rest) lcb.port with ⟨v0, s2⟩
        rw [hres] at h hnf
        simp only at h hnf
        obtain ⟨cli, hg, hsv, hoth, hcli, hcne, hlne, _, _, _, _, hp⟩ :=
          accept_after_socket cfg s l lcb req rest r v0 s2 hl hc hfresh hres hnf
        rw [hp] at h
        injection h with _ h2
        have P := paired_state_ok cfg s2 l req r s.nsock (fresh_socket s.nfcb lcb.port) cli
          hsv hcli hcne
        rw [h2] at P
        have hl2 : s2.socks l = some { lcb with queue := rest } := by
          rw [hoth l hlne]; exact heap_set_same _ _ _
        obtain ⟨lcb', hl', _, hp', hrc⟩ := P.listener _ hl2 hlne
        exact ⟨lcb', hl', hrc, hp'⟩

theorem uint_inc_dec (rc : Nat) (h : rc < UINT_MOD) :
    ((rc + 1) % UINT_MOD + (UINT_MOD - 1)) % UINT_MOD = rc := by
  unfold UINT_MOD at *
  omega

theorem sys_Accept_resume_wait (cfg : KernelConfig) (s : SockState) (l : Nat) (c : socket_cb)
    (x : Nat) (hl : s.socks l = some c) (hq : c.queue = [])
    (hpm : s.port_map c.port = some x) :
    sys_Accept_resume cfg s l = .wait (.accept l) s := by
  simp only [sys_Accept_resume, hl, hq, hpm]

theorem sys_Accept_resume_vacated (cfg : KernelConfig) (s : SockState) (l : Nat)
    (c : socket_cb) (hl : s.socks l = some c) (hpm : s.port_map c.port = none) :
    sys_Accept_resume cfg s l = .ret NOFILE (decref s l) := by
  simp only [sys_Accept_resume, hl, hpm]

/-- The entry checks of `sys_Accept`: no socket, not a listener, or port vacated. -/
theorem sys_Accept_rejected (cfg : KernelConfig) (s : SockState) (lsock : Int)
    (h : socket_of cfg s lsock = none ∨
      ∃ l lcb, socket_of cfg s lsock = some (l, lcb) ∧
        (lcb.type ≠ .SOCKET_LISTENER ∨ s.port_map lcb.port = none)) :
    sys_Accept cfg s lsock = .ret NOFILE s := by
  rcases h with h | ⟨l, lcb, hso, h⟩
  · rcases (socket_of_none cfg s lsock).mp h with hg | ⟨id, hg, hs⟩
    · simp only [sys_Accept, hg]
    · simp only [sys_Accept, hg, hs]
  · obtain ⟨hg, hs⟩ := (socket_of_some cfg s lsock l lcb).mp hso
    rcases h with h | h
    · simp only [sys_Accept, hg, hs, h, ne_eq, not_false_eq_true, if_true]
    · by_cases ht : lcb.type ≠ .SOCKET_LISTENER
      · simp only [sys_Accept, hg, hs, ht, ne_eq, not_false_eq_true, if_true]
      · simp only [sys_Accept, hg, hs, ht, h, if_true, if_false]

/-- Function `sys_Accept` resumed after the listener has been closed. -/
theorem accept_closed_resume (cfg : KernelConfig) (s1 : SockState) (l : Nat) (c1 : socket_cb)
    (h1 : s1.socks l = some c1) (ht : c1.type = .SOCKET_LISTENER) :
    sys_Accept_resume cfg (socket_close s1 (some l)).2 l =
        .ret NOFILE (decref (socket_close s1 (some l)).2 l) ∧
      (decref (socket_close s1 (some l)).2 l).nsock = s1.nsock ∧
      (decref (socket_close s1 (some l)).2 l).reqs = s1.reqs ∧
      (decref (socket_close s1 (some l)).2 l).socks l =
        some { c1 with
          queue := []
          refcount := ((c1.refcount + (UINT_MOD - 1)) % UINT_MOD + (UINT_MOD - 1)) % UINT_MOD } ∧
      (∀ j, j ≠ l → (decref (socket_close s1 (some l)).2 l).socks j = s1.socks j) := by
  obtain ⟨_, c2, c3, c4, c5, _, c7, _, _, _⟩ := socket_close_listener s1 l c1 h1 ht
  have hpm2 : (socket_close s1 (some l)).2.port_map c1.port = none := by
    rw [c2]; exact heap_set_same _ _ _
  refine ⟨sys_Accept_resume_vacated cfg _ l _ c3 hpm2, ?_, ?_, ?_, ?_⟩
  · rw [(decref_frame _ l).2.2.2.2.2.1, c7]
  · rw [(decref_frame _ l).1, c5]
  · rw [decref_socks, if_pos rfl, c3]; rfl
  · intro j hj
    rw [decref_socks, if_neg hj, c4 j hj]

/-- C10, amended. `sys_Accept` fails cleanly. (1) When the file id has no socket, the socket
is not a `LISTENER`, or `port_map[its port]` is empty on entry, it returns `NOFILE` with the
state unchanged (no socket created, no request admitted). (2) Called on a listener with an
empty queue it waits, holding one reference. Whenever it then wakes up with
`port_map[its port]` empty, it returns `NOFILE`, creates no socket, admits no request and
drops the reference it holds; woken right after a close of the listener, it leaves the
listener's reference count where the close alone would have left it. (3) Whenever the call
returns without having waited (failure, allocation failure of the server socket, or
success) the listener's reference count equals its value on entry. (4) Whenever a resumed
call returns, it has dropped exactly the one reference it took before waiting. -/
theorem sys_Accept_fails_cleanly (cfg : KernelConfig) (s : SockState) (lsock : Int) :
    ((socket_of cfg s lsock = none ∨
        ∃ l lcb, socket_of cfg s lsock = some (l, lcb) ∧
          (lcb.type ≠ .SOCKET_LISTENER ∨ s.port_map lcb.port = none)) →
      sys_Accept cfg s lsock = .ret NOFILE s) ∧
    (∀ l lcb x, socket_of cfg s lsock = some (l, lcb) → lcb.type = .SOCKET_LISTENER →
      s.port_map lcb.port = some x → lcb.queue = [] → lcb.refcount < UINT_MOD →
      sys_Accept cfg s lsock =
        .wait (.accept l)
          (s.set_sock l { lcb with refcount := (lcb.refcount + 1) % UINT_MOD }) ∧
      (∀ (s2 : SockState) lcb2, s2.socks l = some lcb2 → s2.port_map lcb2.port = none →
        sys_Accept_resume cfg s2 l = .ret NOFILE (decref s2 l) ∧
        (decref s2 l).nsock = s2.nsock ∧ (decref s2 l).reqs = s2.reqs ∧
        (decref s2 l).socks l =
          some { lcb2 with refcount := (lcb2.refcount + (UINT_MOD - 1)) % UINT_MOD } ∧
        (∀ j, j ≠ l → (decref s2 l).socks j = s2.socks j)) ∧
      ∃ s3,
        sys_Accept_resume cfg
          (socket_close
            (s.set_sock l { lcb with refcount := (lcb.refcount + 1) % UINT_MOD })
            (some l)).2 l = .ret NOFILE s3 ∧
        s3.nsock = s.nsock ∧ s3.reqs = s.reqs ∧
        s3.socks l = (socket_close s (some l)).2.socks l ∧
        (∀ j, j ≠ l → s3.socks j = s.socks j)) ∧
    (∀ l lcb v s', socket_of cfg s lsock = some (l, lcb) → lcb.refcount < UINT_MOD →
      head_allocated s lcb → s.socks s.nsock = none →
      sys_Accept cfg s lsock = .ret v s' →
      ∃ lcb', s'.socks l = some lcb' ∧ lcb'.refcount = lcb.refcount) ∧
    (∀ (s2 : SockState) l lcb2 v s', s2.socks l = some lcb2 →
      head_allocated s2 lcb2 → s2.socks s2.nsock = none →
      sys_Accept_resume cfg s2 l = .ret v s' →
      ∃ lcb', s'.socks l = some lcb' ∧
        lcb'.refcount = (lcb2.refcount + (UINT_MOD - 1)) % UINT_MOD) := by
  refine ⟨?_, ?_, ?_, ?_⟩
  · exact sys_Accept_rejected cfg s lsock
  · intro l lcb x hso ht hpm hq hrc
    obtain ⟨hg, hs⟩ := (socket_of_some cfg s lsock l lcb).mp hso
    have hs1 : (s.set_sock l { lcb with refcount := (lcb.refcount + 1) % UINT_MOD }).socks l =
        some { lcb with refcount := (lcb.refcount + 1) % UINT_MOD } := heap_set_same _ _ _
    refine ⟨?_, ?_, ?_⟩
    · rw [sys_Accept_entry cfg s lsock l lcb x hso ht hpm]
      exact sys_Accept_resume_wait cfg _ l _ x hs1 hq hpm
    · intro s2 lcb2 h2 hv
      refine ⟨sys_Accept_resume_vacated cfg s2 l lcb2 h2 hv, (decref_frame s2 l).2.2.2.2.2.1,
        (decref_frame s2 l).1, ?_, fun j hj => ?_⟩
      · rw [decref_socks, if_pos rfl, h2]; rfl
      · rw [decref_socks, if_neg hj]
    · obtain ⟨a1, a2, a3, a4, a5⟩ := accept_closed_resume cfg _ l _ hs1 ht
      obtain ⟨_, _, d3, _⟩ := socket_close_listener s l lcb hs ht
      refine ⟨_, a1, a2, a3, ?_, ?_⟩
      · rw [a4, d3]
        simp only [uint_inc_dec _ hrc]
      · intro j hj
        rw [a5 j hj]
        exact heap_set_other _ _ _ _ hj
  · intro l lcb v s' hso hrc hq hfresh h
    obtain ⟨hg, hs⟩ := (socket_of_some cfg s lsock l lcb).mp hso
    by_cases ht : lcb.type ≠ .SOCKET_LISTENER
    · simp only [sys_Accept, hg, hs, ht, ne_eq, not_false_eq_true, if_true] at h
      injection h with _ h2
      rw [← h2]; exact ⟨lcb, hs, rfl⟩
    · cases hpm : s.port_map lcb.port with
      | none =>
        simp only [sys_Accept, hg, hs, ht, hpm, if_true, if_false] at h
        injection h with _ h2
        rw [← h2]; exact ⟨lcb, hs, rfl⟩
      | some x =>
        rw [sys_Accept_entry cfg s lsock l lcb x hso (not_not.mp ht) hpm] at h
        have hlne : s.nsock ≠ l := by
          intro he; rw [he, hs] at hfresh; cases hfresh
        obtain ⟨lcb', h1, h2, _⟩ := sys_Accept_resume_refcount cfg _ l
          { lcb with refcount := (lcb.refcount + 1) % UINT_MOD } v s' (heap_set_same _ _ _)
          (by
            intro req rest hqq
            obtain ⟨r, hr, hc⟩ := hq req rest hqq
            refine ⟨r, hr, ?_⟩
            by_cases he : r.peer = l
            · rw [he]
              simp only [SockState.set_sock, heap_set_same, Option.isSome_some]
            · simp only [SockState.set_sock, heap_set_other _ _ _ _ he]
              exact hc)
          (by
            simp only [SockState.set_sock, heap_set_other _ _ _ _ hlne]
            exact hfresh)
          h
        exact ⟨lcb', h1, by rw [h2]; exact uint_inc_dec _ hrc⟩
  · intro s2 l lcb2 v s' hl hq hfresh h
    obtain ⟨lcb', h1, h2, _⟩ := sys_Accept_resume_refcount cfg s2 l lcb2 v s' hl hq hfresh h
    exact ⟨lcb', h1, h2⟩

/-- C10, counterexample. In the worked example the listener, socket 0 on port 80, has
reference count 0 when `sys_Accept(0)` is called; the call waits. The listener is closed
during the wait: the resumed call returns `NOFILE` and the reference count is 4294967295,
not its value on entry. If instead another socket has become the listener of port 80 before
the call wakes up, the resumed call does not return: it goes back to sleep. -/
theorem accept_after_close_not_restored :
    (demo_listening.socks 0).map (fun cb => cb.refcount) = some 0 ∧
    (sys_Accept demo_config demo_listening 0).value = none ∧
    (sys_Accept_resume demo_config
      (socket_close (sys_Accept demo_config demo_listening 0).state (some 0)).2 0).value =
        some NOFILE ∧
    ((sys_Accept_resume demo_config
      (socket_close (sys_Accept demo_config demo_listening 0).state (some 0)).2 0).state.socks
        0).map (fun cb => cb.refcount) = some 4294967295 ∧
    (sys_Listen demo_config
      (sys_Socket demo_config
        (socket_close (sys_Accept demo_config demo_listening 0).state (some 0)).2 80).2
      1).2.port_map 80 = some 1 ∧
    (sys_Accept_resume demo_config
      (sys_Listen demo_config
        (sys_Socket demo_config
          (socket_close (sys_Accept demo_config demo_listening 0).state (some 0)).2 80).2
        1).2 0).value = none := by
  decide

/-- Function `sys_Connect` after its wait, unfolded, for a request that is still allocated. -/
theorem sys_Connect_resume_spec (s2 : SockState) (req l : Nat) (r : connection_request)
    (hr : s2.reqs req = some r) :
    (sys_Connect_resume s2 req l).1 = r.admitted - 1 ∧
    (sys_Connect_resume s2 req l).2.port_map = s2.port_map ∧
    (sys_Connect_resume s2 req l).2.reqs req = none ∧
    (∀ q, q ≠ req → (sys_Connect_resume s2 req l).2.reqs q = s2.reqs q) ∧
    (∀ j, (sys_Connect_resume s2 req l).2.socks j =
      ((decref s2 l).socks j).map
        (fun cb => { cb with queue := cb.queue.filter (fun q => q ≠ req) })) ∧
    (sys_Connect_resume s2 req l).2.nsock = s2.nsock ∧
    (sys_Connect_resume s2 req l).2.pipes = s2.pipes := by
  have hf := decref_frame s2 l
  have hr' : (decref s2 l).reqs req = some r := by rw [hf.1]; exact hr
  have he : sys_Connect_resume s2 req l =
      (r.admitted - 1,
        ({ unlink_request (decref s2 l) req with
            reqs := heap_set (unlink_request (decref s2 l) req).reqs req none }).emit
          (.free_request req)) := by
    simp only [sys_Connect_resume, hr']
  rw [he]
  refine ⟨rfl, hf.2.2.1, heap_set_same _ _ _, ?_, fun j => rfl, hf.2.2.2.2.2.1, hf.2.1⟩
  intro q hq
  simp only [SockState.emit, unlink_request, heap_set_other _ _ _ _ hq, hf.1]

theorem get_socketcb_congr (cfg : KernelConfig) (s t : SockState) (fid : Int)
    (h1 : t.fidt = s.fidt) (h2 : t.streamobj = s.streamobj) :
    get_socketcb cfg t fid = get_socketcb cfg s fid := by
  simp only [get_socketcb, get_fcb, h1, h2]

/-- C6, evaluated on the code. In the schedule `race_schedule` socket 0 (port 5) is asleep
in `sys_Connect` to the listener on port 80 when a second thread calls `sys_Listen` on it,
which returns 0, and a third thread accepts its request, which returns the new file id 2.
Afterwards `port_map[5]` holds socket 0, whose port field is 5 but whose type is `PEER`:
the port-map invariant does not hold in this reachable state. -/
theorem port_map_holds_peer_after_race :
    (sys_Listen demo_config
      (sock_run demo_config (race_schedule.take 4) ⟨SockState.init, []⟩).st 0).1 = 0 ∧
    (sys_Accept demo_config
      (sock_run demo_config (race_schedule.take 5) ⟨SockState.init, []⟩).st 1).value = some 2 ∧
    (sock_run demo_config race_schedule ⟨SockState.init, []⟩).st.port_map 5 = some 0 ∧
    ((sock_run demo_config race_schedule ⟨SockState.init, []⟩).st.socks 0).map
        (fun cb => (cb.type, cb.port)) = some (.SOCKET_PEER, 5) ∧
    (sock_run demo_config race_schedule ⟨SockState.init, []⟩).blocked = [.connect 0 1] := by
  decide

/-- C5 on the worked example: `sys_Listen` on the fresh socket of port 80 returns 0 and
installs it in `port_map[80]`. -/
theorem sys_Listen_result_witness :
    (sys_Listen demo_config demo_socket 0).1 = 0 ∧
      (sys_Listen demo_config demo_socket 0).2.port_map 80 = some 0 :=
  ⟨((sys_Listen_result demo_config demo_socket 0).2.2 0
      ⟨0, 0, .SOCKET_UNBOUND, 80, [], none, none, none⟩
      (by decide) (by decide) (by decide) (by decide)).1,
   ((sys_Listen_result demo_config demo_socket 0).2.2 0
      ⟨0, 0, .SOCKET_UNBOUND, 80, [], none, none, none⟩
      (by decide) (by decide) (by decide) (by decide)).2.1⟩

/-- C7 on the worked example: connecting the client to port 0 is rejected at once and
changes nothing. -/
theorem sys_Connect_rejects_witness :
    sys_Connect demo_config demo_client 1 0 1000 = .ret (-1) demo_client :=
  (sys_Connect_rejects demo_config demo_client 1 0 1000).1
    (fun h => absurd h.2.1 (by decide))

/-- C9 on the worked example: accepting the pending request of the client admits it. -/
theorem sys_Accept_pairing_witness :
    (sys_Accept_resume demo_config demo_connecting 0).state.reqs 0 =
      some { admitted := 1, peer := 1 } :=
  (sys_Accept_pairing demo_config demo_connecting 0 2
    (sys_Accept_resume demo_config demo_connecting 0).state
    ⟨1, 0, .SOCKET_LISTENER, 80, [0], none, none, none⟩ 0 [] ⟨0, 1⟩
    (by decide) (by decide) (by decide) (by decide) (by decide) rfl (by decide)).1

/-- C10 on the worked example: `sys_Accept` on a file id without a socket returns `NOFILE`
and changes nothing; on the listener with an empty queue it waits, and woken after a close
of the listener it returns `NOFILE` with the listener as the close alone would have left
it; on the listener with the client's request pending it returns at once with the reference
count as on entry. -/
theorem sys_Accept_fails_cleanly_witness :
    sys_Accept demo_config demo_listening 5 = .ret NOFILE demo_listening ∧
    (sys_Accept demo_config demo_listening 0 =
        .wait (.accept 0)
          (demo_listening.set_sock 0 ⟨(0 + 1) % UINT_MOD, 0, .SOCKET_LISTENER, 80, [], none,
            none, none⟩) ∧
      ∃ s3,
        sys_Accept_resume demo_config
          (socket_close
            (demo_listening.set_sock 0 ⟨(0 + 1) % UINT_MOD, 0, .SOCKET_LISTENER, 80, [], none,
              none, none⟩)
            (some 0)).2 0 = .ret NOFILE s3 ∧
        s3.nsock = demo_listening.nsock ∧ s3.reqs = demo_listening.reqs ∧
        s3.socks 0 = (socket_close demo_listening (some 0)).2.socks 0) ∧
    (∃ lcb', (sys_Accept demo_config demo_connecting 0).state.socks 0 = some lcb' ∧
      lcb'.refcount = 1) :=
  have h2 := (sys_Accept_fails_cleanly demo_config demo_listening 0).2.1 0
    ⟨0, 0, .SOCKET_LISTENER, 80, [], none, none, none⟩ 0
    (by decide) (by decide) (by decide) (by decide) (by decide)
  have h3 := (sys_Accept_fails_cleanly demo_config demo_connecting 0).2.2.1 0
    ⟨1, 0, .SOCKET_LISTENER, 80, [0], none, none, none⟩ 2
    (sys_Accept demo_config demo_connecting 0).state
    (by decide) (by decide)
    (fun req rest h => by
      have e : req = 0 := by
        have := (List.cons.inj h).1
        exact this.symm
      subst e
      exact ⟨⟨0, 1⟩, by decide, by decide⟩)
    (by decide) rfl
  ⟨(sys_Accept_fails_cleanly demo_config demo_listening 5).1 (Or.inl (by decide)),
    ⟨h2.1, h2.2.2.imp (fun _ h => ⟨h.1, h.2.1, h.2.2.1, h.2.2.2.1⟩)⟩, h3⟩

/-! ## Theorems: socket reads, writes and shutdown -/

theorem socket_write_eq (cfg : KernelConfig) (s : SockState) (a p : Nat) (ca : socket_cb)
    (buf : Option (List Byte)) (n : Nat)
    (ha : s.socks a = some ca) (ht : ca.type = .SOCKET_PEER) (hp : ca.write_pipe = some p) :
    socket_write cfg s (some a) buf n =
      on_pipe s p (pipe_write cfg.PIPE_BUFFER_SIZE (s.pipes p) buf n) := by
  simp [socket_write, ha, ht, hp]

theorem socket_read_eq (cfg : KernelConfig) (s : SockState) (a p : Nat) (ca : socket_cb)
    (buf : Option (List Byte)) (n : Nat)
    (ha : s.socks a = some ca) (ht : ca.type = .SOCKET_PEER) (hp : ca.read_pipe = some p) :
    socket_read cfg s (some a) buf n =
      on_pipe s p (pipe_read cfg.PIPE_BUFFER_SIZE (s.pipes p) buf n) := by
  simp [socket_read, ha, ht, hp]

theorem socket_io_not_peer (cfg : KernelConfig) (s : SockState) (a : Nat) (ca : socket_cb)
    (buf : Option (List Byte)) (n : Nat)
    (ha : s.socks a = some ca) (ht : ca.type ≠ .SOCKET_PEER) :
    socket_read cfg s (some a) buf n = .ret (-1) s buf ∧
      socket_write cfg s (some a) buf n = .ret (-1) s buf := by
  simp [socket_read, socket_write, ha, ht]

theorem fresh_pipe_facts (cfg : KernelConfig) (r w : Nat) (hB : 2 ≤ cfg.PIPE_BUFFER_SIZE) :
    pipe_wf cfg.PIPE_BUFFER_SIZE (fresh_pipe cfg r w) ∧
      occupancy cfg.PIPE_BUFFER_SIZE (fresh_pipe cfg r w) = 0 ∧
      isBuffFull cfg.PIPE_BUFFER_SIZE (fresh_pipe cfg r w).r_position
        (fresh_pipe cfg r w).w_position = 0 ∧
      isBuffEmpty (fresh_pipe cfg r w).r_position (fresh_pipe cfg r w).w_position = 1 ∧
      ring_contents cfg.PIPE_BUFFER_SIZE (fresh_pipe cfg r w) = [] := by
  have hocc : occupancy cfg.PIPE_BUFFER_SIZE (fresh_pipe cfg r w) = 0 := by
    simp [occupancy, fresh_pipe]
  refine ⟨?_, hocc, ?_, ?_, ?_⟩
  · have h0 : (0 : Int) < (cfg.PIPE_BUFFER_SIZE : Int) := by omega
    simp [pipe_wf, fresh_pipe, h0]
  · have h0 : ¬ ((0 : Int) = 0 - 1 ∨ ((0 : Int) = 0 ∧ (0 : Int) = (cfg.PIPE_BUFFER_SIZE : Int) - 1)) := by
      omega
    unfold isBuffFull
    exact if_neg h0
  · simp [isBuffEmpty, fresh_pipe]
  · simp [ring_contents, hocc]

theorem socket_write_open (cfg : KernelConfig) (s : SockState) (a p : Nat) (ca : socket_cb)
    (P : pipe_cb) (b : List Byte) (n : Nat)
    (ha : s.socks a = some ca) (ht : ca.type = .SOCKET_PEER) (hp : ca.write_pipe = some p)
    (hP : s.pipes p = some P) (hwf : pipe_wf cfg.PIPE_BUFFER_SIZE P)
    (hr : P.reader ≠ none) (hw : P.writer ≠ none)
    (hnf : isBuffFull cfg.PIPE_BUFFER_SIZE P.r_position P.w_position = 0)
    (hn : n ≤ b.length) :
    ∃ P1, socket_write cfg s (some a) (some b) n =
        .ret ((min n ((cfg.PIPE_BUFFER_SIZE : Int) - 1 -
            occupancy cfg.PIPE_BUFFER_SIZE P).toNat : Nat) : Int)
          { s with pipes := heap_set s.pipes p (some P1),
                   log := s.log ++ [SysEvent.pipe p (.broadcast .has_data)] } (some b) ∧
      pipe_wf cfg.PIPE_BUFFER_SIZE P1 ∧ P1.reader = P.reader ∧ P1.writer = P.writer ∧
      ring_contents cfg.PIPE_BUFFER_SIZE P1 =
        ring_contents cfg.PIPE_BUFFER_SIZE P ++
          b.take (min n ((cfg.PIPE_BUFFER_SIZE : Int) - 1 -
            occupancy cfg.PIPE_BUFFER_SIZE P).toNat) ∧
      occupancy cfg.PIPE_BUFFER_SIZE P1 =
        occupancy cfg.PIPE_BUFFER_SIZE P +
          ((min n ((cfg.PIPE_BUFFER_SIZE : Int) - 1 -
            occupancy cfg.PIPE_BUFFER_SIZE P).toNat : Nat) : Int) := by
  obtain ⟨P1, h1, hwf1, _, _, hr1, hw1, hc1, ho1, _⟩ :=
    pipe_write_spec cfg.PIPE_BUFFER_SIZE P b n hwf hr hw hnf hn
  refine ⟨P1, ?_, hwf1, hr1, hw1, hc1, ho1⟩
  rw [socket_write_eq cfg s a p ca (some b) n ha ht hp, hP, h1]
  rfl

theorem socket_read_open (cfg : KernelConfig) (s : SockState) (a p : Nat) (ca : socket_cb)
    (P : pipe_cb) (b : List Byte) (n : Nat)
    (ha : s.socks a = some ca) (ht : ca.type = .SOCKET_PEER) (hp : ca.read_pipe = some p)
    (hP : s.pipes p = some P) (hwf : pipe_wf cfg.PIPE_BUFFER_SIZE P)
    (hr : P.reader ≠ none)
    (hne : isBuffEmpty P.r_position P.w_position = 0 ∨ P.writer = none)
    (hn : n ≤ b.length) :
    ∃ P1 b1, socket_read cfg s (some a) (some b) n =
        .ret ((min n (occupancy cfg.PIPE_BUFFER_SIZE P).toNat : Nat) : Int)
          { s with pipes := heap_set s.pipes p (some P1),
                   log := s.log ++ [SysEvent.pipe p (.broadcast .has_space)] } (some b1) ∧
      pipe_wf cfg.PIPE_BUFFER_SIZE P1 ∧ P1.reader = P.reader ∧ P1.writer = P.writer ∧
      ring_contents cfg.PIPE_BUFFER_SIZE P1 =
        (ring_contents cfg.PIPE_BUFFER_SIZE P).drop
          (min n (occupancy cfg.PIPE_BUFFER_SIZE P).toNat) ∧
      occupancy cfg.PIPE_BUFFER_SIZE P1 =
        occupancy cfg.PIPE_BUFFER_SIZE P -
          ((min n (occupancy cfg.PIPE_BUFFER_SIZE P).toNat : Nat) : Int) ∧
      b1.length = b.length ∧
      b1.take (min n (occupancy cfg.PIPE_BUFFER_SIZE P).toNat) =
        (ring_contents cfg.PIPE_BUFFER_SIZE P).take
          (min n (occupancy cfg.PIPE_BUFFER_SIZE P).toNat) ∧
      (∀ j, min n (occupancy cfg.PIPE_BUFFER_SIZE P).toNat ≤ j → b1.getD j 0 = b.getD j 0) := by
  obtain ⟨P1, b1, h1, hwf1, _, _, hr1, hw1, _, hc1, ho1, hl1, ht1, _, hrest⟩ :=
    pipe_read_spec cfg.PIPE_BUFFER_SIZE P b n hwf hr hne hn
  refine ⟨P1, b1, ?_, hwf1, hr1, hw1, hc1, ho1, hl1, ht1, hrest⟩
  rw [socket_read_eq cfg s a p ca (some b) n ha ht hp, hP, h1]
  rfl

theorem socket_read_blocks (cfg : KernelConfig) (s : SockState) (a p : Nat) (ca : socket_cb)
    (P : pipe_cb) (b : List Byte) (n : Nat)
    (ha : s.socks a = some ca) (ht : ca.type = .SOCKET_PEER) (hp : ca.read_pipe = some p)
    (hP : s.pipes p = some P) (hr : P.reader ≠ none) (hw : P.writer ≠ none)
    (he : isBuffEmpty P.r_position P.w_position = 1) :
    socket_read cfg s (some a) (some b) n = .wait .has_data := by
  rw [socket_read_eq cfg s a p ca (some b) n ha ht hp, hP]
  simp [pipe_read, pipe_read_resume, hr, hw, he, on_pipe]

theorem Linked.symm (s : SockState) (a b pab pba : Nat) (h : Linked s a b pab pba) :
    Linked s b a pba pab := by
  obtain ⟨ca, cb, ha, hb, hta, htb, h1, h2, h3, h4, hne⟩ := h
  exact ⟨cb, ca, hb, ha, htb, hta, h3, h4, h1, h2, fun e => hne e.symm⟩

theorem linked_delivery (cfg : KernelConfig) (s : SockState) (a b pab pba : Nat)
    (r1 w1 r2 w2 : Nat) (payload : List Byte)
    (hlink : Linked s a b pab pba)
    (hp1 : s.pipes pab = some (fresh_pipe cfg r1 w1))
    (hp2 : s.pipes pba = some (fresh_pipe cfg r2 w2))
    (hL1 : 1 ≤ payload.length) (hL2 : payload.length ≤ cfg.PIPE_BUFFER_SIZE - 1) :
    ∃ s1, socket_write cfg s (some a) (some payload) payload.length =
        .ret payload.length s1 (some payload) ∧
      (∀ n dst, socket_read cfg s1 (some a) (some dst) n = .wait .has_data) ∧
      ∀ n dst, payload.length ≤ n → n ≤ dst.length →
        ∃ s2 out, socket_read cfg s1 (some b) (some dst) n =
            .ret payload.length s2 (some out) ∧
          out.take payload.length = payload ∧ out.length = dst.length ∧
          ∀ j, payload.length ≤ j → out.getD j 0 = dst.getD j 0 := by
  obtain ⟨ca, cb, ha, hb, hta, htb, hwa, hrb, hwb, hra, hne⟩ := hlink
  have hB : 2 ≤ cfg.PIPE_BUFFER_SIZE := by omega
  obtain ⟨fwf, focc, fnf, _, fc⟩ := fresh_pipe_facts cfg r1 w1 hB
  obtain ⟨_, _, _, fe2, _⟩ := fresh_pipe_facts cfg r2 w2 hB
  obtain ⟨P1, hw, hwf1, hr1, hw1, hc1, ho1⟩ :=
    socket_write_open cfg s a pab ca (fresh_pipe cfg r1 w1) payload payload.length
      ha hta hwa hp1 fwf (by simp [fresh_pipe]) (by simp [fresh_pipe]) fnf le_rfl
  have hk : min payload.length ((cfg.PIPE_BUFFER_SIZE : Int) - 1 -
      occupancy cfg.PIPE_BUFFER_SIZE (fresh_pipe cfg r1 w1)).toNat = payload.length := by
    rw [focc]; omega
  rw [hk] at hw hc1 ho1
  rw [fc] at hc1
  simp only [List.nil_append, List.take_length] at hc1
  rw [focc, zero_add] at ho1
  refine ⟨_, hw, ?_, ?_⟩
  · intro n dst
    refine socket_read_blocks cfg
      { s with pipes := heap_set s.pipes pab (some P1),
               log := s.log ++ [SysEvent.pipe pab (.broadcast .has_data)] }
      a pba ca (fresh_pipe cfg r2 w2) dst n ha hta hra ?_
      (by simp [fresh_pipe]) (by simp [fresh_pipe]) fe2
    show heap_set s.pipes pab (some P1) pba = _
    rw [heap_set_other _ _ _ _ (fun e => hne e.symm), hp2]
  · intro n dst hn1 hn2
    have hne1 : isBuffEmpty P1.r_position P1.w_position = 0 := by
      rw [isBuffEmpty_eq_zero cfg.PIPE_BUFFER_SIZE P1 hwf1, ho1]; omega
    obtain ⟨P2, b1, hrd, _, _, _, _, _, hlen, htake, hrest⟩ :=
      socket_read_open cfg
        { s with pipes := heap_set s.pipes pab (some P1),
                 log := s.log ++ [SysEvent.pipe pab (.broadcast .has_data)] }
        b pab cb P1 dst n hb htb hrb
        (heap_set_same s.pipes pab (some P1)) hwf1
        (by rw [hr1]; simp [fresh_pipe]) (Or.inl hne1) hn2
    have hk2 : min n (occupancy cfg.PIPE_BUFFER_SIZE P1).toNat = payload.length := by
      rw [ho1]; omega
    rw [hk2] at hrd htake hrest
    rw [hc1, List.take_length] at htake
    exact ⟨_, b1, hrd, htake, hlen, hrest⟩

theorem accept_links (cfg : KernelConfig) (s : SockState) (l : Nat) (v : Int)
    (s' : SockState) (lcb : socket_cb) (req : Nat) (rest : List Nat) (r : connection_request)
    (hl : s.socks l = some lcb) (hq : lcb.queue = req :: rest) (hr : s.reqs req = some r)
    (hc : (s.socks r.peer).isSome) (hfresh : s.socks s.nsock = none)
    (h : sys_Accept_resume cfg s l = .ret v s') (hv : v ≠ NOFILE) :
    ∃ server fa fb, get_socketcb cfg s' v = some server ∧
      Linked s' server r.peer s.npipe (s.npipe + 1) ∧
      s'.pipes s.npipe = some (fresh_pipe cfg fb fa) ∧
      s'.pipes (s.npipe + 1) = some (fresh_pipe cfg fa fb) ∧
      s'.reqs req = some { r with admitted := 1 } := by
  obtain ⟨s2, cli, _, hg, hsv, _, hcli, hne, _, _, _, hnp, _, hs'⟩ :=
    sys_Accept_resume_success cfg s l v s' lcb req rest r hl hq hr hc hfresh h hv
  have P := paired_state_ok cfg s2 l req r s.nsock _ cli hsv hcli hne
  rw [← hs'] at P
  obtain ⟨srv, cli0, srv', cli', h1, h2, h3, h4, h5, h6, _, _, _, _, h11, h12, h13, h14,
    h15, h16, h17, h18⟩ := P.pairing
  rw [hnp] at h13 h14 h15 h16 h17 h18
  refine ⟨s.nsock, srv.fcb, cli0.fcb, ?_, ⟨srv', cli', h3, h4, h5, h6, h14, h13, h15, h16,
    by omega⟩, h17, h18, P.admitted⟩
  rw [get_socketcb_congr cfg s2 s' v P.fidt P.streamobj]
  exact hg

theorem linked_connect_resume (s : SockState) (req l : Nat) (r : connection_request)
    (a b pab pba : Nat) (hr : s.reqs req = some r) (h : Linked s a b pab pba) :
    Linked (sys_Connect_resume s req l).2 a b pab pba ∧
      (sys_Connect_resume s req l).2.pipes = s.pipes := by
  obtain ⟨_, _, _, _, hsocks, _, hpipes⟩ := sys_Connect_resume_spec s req l r hr
  obtain ⟨ca, cb, ha, hb, hta, htb, h1, h2, h3, h4, hne⟩ := h
  obtain ⟨ca', ha', hta', _, _, _, _, hwa', hra', _⟩ := decref_socks_some s l a ca ha
  obtain ⟨cb', hb', htb', _, _, _, _, hwb', hrb', _⟩ := decref_socks_some s l b cb hb
  refine ⟨⟨{ ca' with queue := ca'.queue.filter (fun q => q ≠ req) },
    { cb' with queue := cb'.queue.filter (fun q => q ≠ req) }, ?_, ?_, ?_, ?_, ?_, ?_, ?_, ?_,
    hne⟩, hpipes⟩
  · rw [hsocks a, ha']; rfl
  · rw [hsocks b, hb']; rfl
  · exact hta'.trans hta
  · exact htb'.trans htb
  · exact hwa'.trans h1
  · exact hrb'.trans h2
  · exact hwb'.trans h3
  · exact hra'.trans h4

/-- Claim C11. After a successful rendezvous (`sys_Accept` returns the file id `v` of the new
server socket, the request's client is `r.peer`), both on the state the accept leaves and on
the state after the client's `sys_Connect` has resumed, and in both directions: for every
payload of length `L` with `1 ≤ L ≤ B - 1`, `socket_write` on one end returns `L`; a
following `socket_read` on the writer's own end finds nothing to read and waits; a following
`socket_read` of `n ≥ L` bytes on the other end returns `L` and the payload in order, the
rest of the destination buffer untouched. On a socket that is not `PEER` both calls return
`-1` and change nothing. -/
theorem socket_pair_delivery (cfg : KernelConfig) (s : SockState) (l : Nat) (v : Int)
    (s' : SockState) (lcb : socket_cb) (req : Nat) (rest : List Nat) (r : connection_request)
    (payload : List Byte)
    (hl : s.socks l = some lcb) (hq : lcb.queue = req :: rest) (hr : s.reqs req = some r)
    (hc : (s.socks r.peer).isSome) (hfresh : s.socks s.nsock = none)
    (h : sys_Accept_resume cfg s l = .ret v s') (hv : v ≠ NOFILE)
    (hL1 : 1 ≤ payload.length) (hL2 : payload.length ≤ cfg.PIPE_BUFFER_SIZE - 1) :
    (∃ server, get_socketcb cfg s' v = some server ∧
      ∀ t, t = s' ∨ t = (sys_Connect_resume s' req l).2 →
      ∀ a b, (a = server ∧ b = r.peer) ∨ (a = r.peer ∧ b = server) →
        ∃ t1, socket_write cfg t (some a) (some payload) payload.length =
            .ret payload.length t1 (some payload) ∧
          (∀ n dst, socket_read cfg t1 (some a) (some dst) n = .wait .has_data) ∧
          ∀ n dst, payload.length ≤ n → n ≤ dst.length →
            ∃ t2 out, socket_read cfg t1 (some b) (some dst) n =
                .ret payload.length t2 (some out) ∧
              out.take payload.length = payload ∧ out.length = dst.length ∧
              ∀ j, payload.length ≤ j → out.getD j 0 = dst.getD j 0) ∧
    ∀ (t : SockState) (a : Nat) (ca : socket_cb) (buf : Option (List Byte)) (n : Nat),
      t.socks a = some ca → ca.type ≠ .SOCKET_PEER →
      socket_read cfg t (some a) buf n = .ret (-1) t buf ∧
        socket_write cfg t (some a) buf n = .ret (-1) t buf := by
  obtain ⟨server, fa, fb, hg, hlink, hp1, hp2, hadm⟩ :=
    accept_links cfg s l v s' lcb req rest r hl hq hr hc hfresh h hv
  refine ⟨⟨server, hg, ?_⟩, fun t a ca buf n ha ht => socket_io_not_peer cfg t a ca buf n ha ht⟩
  intro t ht a b hab
  have key : Linked t server r.peer s.npipe (s.npipe + 1) ∧ t.pipes = s'.pipes := by
    rcases ht with rfl | rfl
    · exact ⟨hlink, rfl⟩
    · exact linked_connect_resume _ req l _ _ _ _ _ hadm hlink
  obtain ⟨hlt, hpt⟩ := key
  rcases hab with ⟨rfl, rfl⟩ | ⟨rfl, rfl⟩
  · exact linked_delivery cfg t _ _ _ _ fb fa fa fb payload hlt (by rw [hpt]; exact hp1)
      (by rw [hpt]; exact hp2) hL1 hL2
  · exact linked_delivery cfg t _ _ _ _ fa fb fb fa payload (Linked.symm _ _ _ _ _ hlt)
      (by rw [hpt]; exact hp2) (by rw [hpt]; exact hp1) hL1 hL2

/-- C11 on the worked example: three bytes written on the server end of the accepted
connection are read, in order, on the client end. -/
theorem socket_pair_delivery_witness :
    ∃ server t1 t2 out,
      get_socketcb demo_config (sys_Accept_resume demo_config demo_connecting 0).state 2 =
        some server ∧
      socket_write demo_config (sys_Accept_resume demo_config demo_connecting 0).state
        (some server) (some [7, 8, 9]) 3 = .ret 3 t1 (some [7, 8, 9]) ∧
      socket_read demo_config t1 (some 1) (some [0, 0, 0, 0]) 4 = .ret 3 t2 (some out) ∧
      out.take 3 = [7, 8, 9] := by
  obtain ⟨⟨server, hg, H⟩, _⟩ := socket_pair_delivery demo_config demo_connecting 0 2
    (sys_Accept_resume demo_config demo_connecting 0).state
    ⟨1, 0, .SOCKET_LISTENER, 80, [0], none, none, none⟩ 0 [] ⟨0, 1⟩ [7, 8, 9]
    (by decide) (by decide) (by decide) (by decide) (by decide) rfl (by decide)
    (by decide) (by decide)
  obtain ⟨t1, hw, _, hr⟩ := H _ (Or.inl rfl) server 1 (Or.inl ⟨rfl, rfl⟩)
  obtain ⟨t2, out, h1, h2, _⟩ := hr 4 [0, 0, 0, 0] (by decide) (by decide)
  exact ⟨server, t1, t2, out, hg, hw, h1, h2⟩

theorem close_reader_spec (s : SockState) (o : Option Nat) :
    (close_reader s o).2.socks = s.socks ∧ (close_reader s o).2.fidt = s.fidt ∧
      (close_reader s o).2.streamobj = s.streamobj ∧
      (close_reader s o).2.port_map = s.port_map ∧ (close_reader s o).2.reqs = s.reqs ∧
      ∀ p, (close_reader s o).2.pipes p =
        (s.pipes p).map (fun P => { P with reader := if o = some p then none else P.reader }) := by
  cases o with
  | none =>
    refine ⟨rfl, rfl, rfl, rfl, rfl, fun p => ?_⟩
    show s.pipes p = _
    cases s.pipes p <;> simp
  | some id =>
    refine ⟨rfl, rfl, rfl, rfl, rfl, fun p => ?_⟩
    show heap_set s.pipes id (pipe_reader_close (s.pipes id)).2.1 p = _
    by_cases hp : p = id
    · subst hp
      rw [heap_set_same]
      cases hP : s.pipes p with
      | none => rfl
      | some P =>
        by_cases hr : P.reader = none
        · simp only [pipe_reader_close, hr, if_true, Option.map_some']
          congr 1
          cases P
          simp_all
        · simp [pipe_reader_close, hr]
    · rw [heap_set_other _ _ _ _ hp]
      have : ¬ (id = p) := fun e => hp e.symm
      cases s.pipes p <;> simp [this]

theorem close_writer_spec (s : SockState) (o : Option Nat) :
    (close_writer s o).2.socks = s.socks ∧ (close_writer s o).2.fidt = s.fidt ∧
      (close_writer s o).2.streamobj = s.streamobj ∧
      (close_writer s o).2.port_map = s.port_map ∧ (close_writer s o).2.reqs = s.reqs ∧
      ∀ p, (close_writer s o).2.pipes p =
        (s.pipes p).map (fun P => { P with writer := if o = some p then none else P.writer }) := by
  cases o with
  | none =>
    refine ⟨rfl, rfl, rfl, rfl, rfl, fun p => ?_⟩
    show s.pipes p = _
    cases s.pipes p <;> simp
  | some id =>
    refine ⟨rfl, rfl, rfl, rfl, rfl, fun p => ?_⟩
    show heap_set s.pipes id (pipe_writer_close (s.pipes id)).2.1 p = _
    by_cases hp : p = id
    · subst hp
      rw [heap_set_same]
      cases hP : s.pipes p with
      | none => rfl
      | some P =>
        by_cases hr : P.writer = none
        · simp only [pipe_writer_close, hr, if_true, Option.map_some']
          congr 1
          cases P
          simp_all
        · simp [pipe_writer_close, hr]
    · rw [heap_set_other _ _ _ _ hp]
      have : ¬ (id = p) := fun e => hp e.symm
      cases s.pipes p <;> simp [this]

theorem sys_ShutDown_fails (cfg : KernelConfig) (s : SockState) (sock : Int)
    (how : shutdown_mode)
    (h : how = .other ∨ get_socketcb cfg s sock = none ∨
      ∃ id cb, socket_of cfg s sock = some (id, cb) ∧ cb.type ≠ .SOCKET_PEER) :
    sys_ShutDown cfg s sock how = (-1, s) := by
  unfold sys_ShutDown
  rcases h with h | h | ⟨id, cb, h, ht⟩
  · subst h
    cases hg : get_socketcb cfg s sock with
    | none => rfl
    | some socket =>
      cases hs : s.socks socket with
      | none => simp [hs]
      | some cb => by_cases ht : cb.type = .SOCKET_PEER <;> simp [hs, ht]
  · rw [h]
  · obtain ⟨hg, hs⟩ := (socket_of_some cfg s sock id cb).1 h
    simp [hg, hs, ht]

theorem sys_ShutDown_peer (cfg : KernelConfig) (s : SockState) (sock : Int)
    (how : shutdown_mode) (id : Nat) (cb : socket_cb)
    (hso : socket_of cfg s sock = some (id, cb)) (ht : cb.type = .SOCKET_PEER)
    (hh : how ≠ .other) :
    (sys_ShutDown cfg s sock how).1 = 0 ∧
    (sys_ShutDown cfg s sock how).2.socks id =
      some { cb with
        read_pipe := if how.closes_read then none else cb.read_pipe
        write_pipe := if how.closes_write then none else cb.write_pipe } ∧
    (∀ j, j ≠ id → (sys_ShutDown cfg s sock how).2.socks j = s.socks j) ∧
    (∀ p, (sys_ShutDown cfg s sock how).2.pipes p =
      (s.pipes p).map (fun P => { P with
        reader := if how.closes_read = true ∧ cb.read_pipe = some p then none else P.reader
        writer := if how.closes_write = true ∧ cb.write_pipe = some p then none
          else P.writer })) ∧
    (sys_ShutDown cfg s sock how).2.port_map = s.port_map ∧
    (sys_ShutDown cfg s sock how).2.fidt = s.fidt ∧
    (sys_ShutDown cfg s sock how).2.streamobj = s.streamobj := by
  obtain ⟨hg, hs⟩ := (socket_of_some cfg s sock id cb).1 hso
  obtain ⟨r1, r2, r3, r4, _, r6⟩ := close_reader_spec s cb.read_pipe
  obtain ⟨w1, w2, w3, w4, _, w6⟩ := close_writer_spec s cb.write_pipe
  obtain ⟨b1, b2, b3, b4, _, b6⟩ := close_writer_spec (close_reader s cb.read_pipe).2 cb.write_pipe
  cases how with
  | other => exact absurd rfl hh
  | SHUTDOWN_READ =>
    have e : sys_ShutDown cfg s sock .SHUTDOWN_READ =
        (0, (close_reader s cb.read_pipe).2.set_sock id { cb with read_pipe := none }) := by
      simp [sys_ShutDown, hg, hs, ht]
    rw [e]
    refine ⟨rfl, ?_, fun j hj => ?_, fun p => ?_, r4, r2, r3⟩
    · show heap_set _ id _ id = _
      rw [heap_set_same]; rfl
    · show heap_set _ id _ j = _
      rw [heap_set_other _ _ _ _ hj, r1]
    · show (close_reader s cb.read_pipe).2.pipes p = _
      rw [r6 p]
      cases s.pipes p <;> simp [shutdown_mode.closes_read, shutdown_mode.closes_write]
  | SHUTDOWN_WRITE =>
    have e : sys_ShutDown cfg s sock .SHUTDOWN_WRITE =
        (0, (close_writer s cb.write_pipe).2.set_sock id { cb with write_pipe := none }) := by
      simp [sys_ShutDown, hg, hs, ht]
    rw [e]
    refine ⟨rfl, ?_, fun j hj => ?_, fun p => ?_, w4, w2, w3⟩
    · show heap_set _ id _ id = _
      rw [heap_set_same]; rfl
    · show heap_set _ id _ j = _
      rw [heap_set_other _ _ _ _ hj, w1]
    · show (close_writer s cb.write_pipe).2.pipes p = _
      rw [w6 p]
      cases s.pipes p <;> simp [shutdown_mode.closes_read, shutdown_mode.closes_write]
  | SHUTDOWN_BOTH =>
    have e : sys_ShutDown cfg s sock .SHUTDOWN_BOTH =
        (0, (close_writer (close_reader s cb.read_pipe).2 cb.write_pipe).2.set_sock id
          { cb with read_pipe := none, write_pipe := none }) := by
      simp [sys_ShutDown, hg, hs, ht]
    rw [e]
    refine ⟨rfl, ?_, fun j hj => ?_, fun p => ?_, b4.trans r4, b2.trans r2, b3.trans r3⟩
    · show heap_set _ id _ id = _
      rw [heap_set_same]; rfl
    · show heap_set _ id _ j = _
      rw [heap_set_other _ _ _ _ hj, b1, r1]
    · show (close_writer (close_reader s cb.read_pipe).2 cb.write_pipe).2.pipes p = _
      rw [b6 p, r6 p]
      cases s.pipes p <;> simp [shutdown_mode.closes_read, shutdown_mode.closes_write]

theorem linked_ne (s : SockState) (a b pab pba : Nat) (h : Linked s a b pab pba) : b ≠ a := by
  obtain ⟨ca, cb, ha, hb, _, _, h1, _, h3, _, hne⟩ := h
  rintro rfl
  rw [ha] at hb
  cases hb
  rw [h1] at h3
  exact hne (Option.some.inj h3)

theorem read_after_writer_shut (cfg : KernelConfig) (t : SockState) (b pab : Nat)
    (cbb : socket_cb) (P : pipe_cb)
    (hb : t.socks b = some cbb) (htb : cbb.type = .SOCKET_PEER)
    (hrb : cbb.read_pipe = some pab) (hP : t.pipes pab = some P)
    (hwf : pipe_wf cfg.PIPE_BUFFER_SIZE P) (hr : P.reader ≠ none) (hw : P.writer = none)
    (n : Nat) (dst : List Byte)
    (hn1 : (occupancy cfg.PIPE_BUFFER_SIZE P).toNat ≤ n) (hn2 : n ≤ dst.length) :
    ∃ t1 out, socket_read cfg t (some b) (some dst) n =
        .ret (occupancy cfg.PIPE_BUFFER_SIZE P).toNat t1 (some out) ∧
      out.take (occupancy cfg.PIPE_BUFFER_SIZE P).toNat = ring_contents cfg.PIPE_BUFFER_SIZE P ∧
      ∀ n2 dst2, n2 ≤ dst2.length →
        (socket_read cfg t1 (some b) (some dst2) n2).value = some 0 := by
  obtain ⟨P1, b1, hrd, hwf1, hr1, hw1, _, ho1, _, htake, _⟩ :=
    socket_read_open cfg t b pab cbb P dst n hb htb hrb hP hwf hr (Or.inr hw) hn2
  have hk : min n (occupancy cfg.PIPE_BUFFER_SIZE P).toNat =
      (occupancy cfg.PIPE_BUFFER_SIZE P).toNat := by omega
  have hpos := (occupancy_bounds cfg.PIPE_BUFFER_SIZE P hwf).1
  rw [hk] at hrd htake ho1
  refine ⟨_, b1, hrd, ?_, ?_⟩
  · rw [htake, List.take_of_length_le]
    rw [ring_contents_length]
  · intro n2 dst2 hn
    obtain ⟨P2, b2, hrd2, _⟩ :=
      socket_read_open cfg
        { t with pipes := heap_set t.pipes pab (some P1),
                 log := t.log ++ [SysEvent.pipe pab (.broadcast .has_space)] }
        b pab cbb P1 dst2 n2 hb htb hrb (heap_set_same t.pipes pab (some P1)) hwf1
        (by rw [hr1]; exact hr) (Or.inr (by rw [hw1]; exact hw)) hn
    rw [hrd2]
    have h0 : min n2 (occupancy cfg.PIPE_BUFFER_SIZE P1).toNat = 0 := by
      rw [ho1]; omega
    rw [h0]
    rfl

/-- Claim C12. `sys_ShutDown` returns `-1` and changes nothing for a `how` outside the three
modes, a file id without a socket, or a socket that is not `PEER`. On a `PEER` socket `id`
with control block `cb` it returns 0; the read direction (modes `READ`, `BOTH`) clears
`read_pipe` and the reader handle of that pipe, the write direction (modes `WRITE`, `BOTH`)
clears `write_pipe` and the writer handle of that pipe, and nothing else changes in any pipe
or socket. Afterwards `socket_read` (resp. `socket_write`) on the socket returns `-1`; on
the other end `b` of the connection `socket_write` into the read-shut pipe returns `-1`,
and `socket_read` from the write-shut pipe returns the bytes still in the ring and then 0. -/
theorem sys_ShutDown_spec (cfg : KernelConfig) (s : SockState) (sock : Int)
    (how : shutdown_mode) :
    ((how = .other ∨ get_socketcb cfg s sock = none ∨
        ∃ id cb, socket_of cfg s sock = some (id, cb) ∧ cb.type ≠ .SOCKET_PEER) →
      sys_ShutDown cfg s sock how = (-1, s)) ∧
    ∀ id cb, socket_of cfg s sock = some (id, cb) → cb.type = .SOCKET_PEER → how ≠ .other →
      (sys_ShutDown cfg s sock how).1 = 0 ∧
      (sys_ShutDown cfg s sock how).2.socks id =
        some { cb with
          read_pipe := if how.closes_read then none else cb.read_pipe
          write_pipe := if how.closes_write then none else cb.write_pipe } ∧
      (∀ j, j ≠ id → (sys_ShutDown cfg s sock how).2.socks j = s.socks j) ∧
      (∀ p, (sys_ShutDown cfg s sock how).2.pipes p =
        (s.pipes p).map (fun P => { P with
          reader := if how.closes_read = true ∧ cb.read_pipe = some p then none else P.reader
          writer := if how.closes_write = true ∧ cb.write_pipe = some p then none
            else P.writer })) ∧
      (how.closes_read = true → ∀ buf n,
        socket_read cfg (sys_ShutDown cfg s sock how).2 (some id) buf n =
          .ret (-1) (sys_ShutDown cfg s sock how).2 buf) ∧
      (how.closes_write = true → ∀ buf n,
        socket_write cfg (sys_ShutDown cfg s sock how).2 (some id) buf n =
          .ret (-1) (sys_ShutDown cfg s sock how).2 buf) ∧
      ∀ b pab pba, Linked s id b pab pba →
        (how.closes_read = true → ∀ buf n,
          (socket_write cfg (sys_ShutDown cfg s sock how).2 (some b) buf n).value =
            some (-1)) ∧
        (how.closes_write = true → ∀ P, s.pipes pab = some P →
          pipe_wf cfg.PIPE_BUFFER_SIZE P → P.reader ≠ none →
          ∀ n dst, (occupancy cfg.PIPE_BUFFER_SIZE P).toNat ≤ n → n ≤ dst.length →
            ∃ t out, socket_read cfg (sys_ShutDown cfg s sock how).2 (some b) (some dst) n =
                .ret (occupancy cfg.PIPE_BUFFER_SIZE P).toNat t (some out) ∧
              out.take (occupancy cfg.PIPE_BUFFER_SIZE P).toNat =
                ring_contents cfg.PIPE_BUFFER_SIZE P ∧
              ∀ n2 dst2, n2 ≤ dst2.length →
                (socket_read cfg t (some b) (some dst2) n2).value = some 0) := by
  refine ⟨sys_ShutDown_fails cfg s sock how, ?_⟩
  intro id cb hso ht hh
  obtain ⟨e1, e2, e3, e4, _⟩ := sys_ShutDown_peer cfg s sock how id cb hso ht hh
  refine ⟨e1, e2, e3, e4, ?_, ?_, ?_⟩
  · intro hr buf n
    simp [socket_read, e2, ht, hr]
  · intro hw buf n
    simp [socket_write, e2, ht, hw]
  · intro b pab pba hlink
    have hbne := linked_ne s id b pab pba hlink
    obtain ⟨ca, cbb, ha, hb, _, htb, h1, h2, h3, h4, hne⟩ := hlink
    obtain ⟨_, hs⟩ := (socket_of_some cfg s sock id cb).1 hso
    rw [hs] at ha
    cases ha
    have hb' : (sys_ShutDown cfg s sock how).2.socks b = some cbb := by
      rw [e3 b hbne]; exact hb
    constructor
    · intro hr buf n
      rw [socket_write_eq cfg _ b pba cbb buf n hb' htb h3, e4 pba]
      cases hP : s.pipes pba with
      | none =>
        simp only [Option.map_none']
        cases buf <;> rfl
      | some P =>
        simp only [Option.map_some']
        cases buf with
        | none => rfl
        | some bf => simp [pipe_write, hr, h4, on_pipe, SockIO.value]
    · intro hw P hP hwf hrd n dst hn1 hn2
      have hne' : ¬ (some pba = some pab) := fun e => hne (Option.some.inj e).symm
      refine read_after_writer_shut cfg _ b pab cbb
        { P with
          reader := if how.closes_read = true ∧ cb.read_pipe = some pab then none else P.reader
          writer := if how.closes_write = true ∧ cb.write_pipe = some pab then none
            else P.writer } hb' htb h2 ?_ hwf ?_ ?_ n dst hn1 hn2
      · rw [e4 pab, hP]; rfl
      · simp only [h4, hne', and_false, if_false]
        exact hrd
      · simp [hw, h1]

/-- C12 on the worked example: shutting the read direction of the connected client socket
returns 0, and a later read on it returns `-1`. -/
theorem sys_ShutDown_spec_witness :
    (sys_ShutDown demo_config demo_accepted 1 .SHUTDOWN_READ).1 = 0 ∧
      socket_read demo_config (sys_ShutDown demo_config demo_accepted 1 .SHUTDOWN_READ).2
        (some 1) (some [0, 0]) 2 =
        .ret (-1) (sys_ShutDown demo_config demo_accepted 1 .SHUTDOWN_READ).2 (some [0, 0]) :=
  have h := (sys_ShutDown_spec demo_config demo_accepted 1 .SHUTDOWN_READ).2 1
    ⟨0, 1, .SOCKET_PEER, 0, [], some 2, some 1, some 0⟩ (by decide) (by decide) (by decide)
  ⟨h.1, h.2.2.2.2.1 rfl (some [0, 0]) 2⟩

/-! ## Theorems: threads -/

theorem update_ptcb_frame (s : ProcState) (p : Nat) (f : PTCB → PTCB) :
    (s.update_ptcb p f).PT = s.PT ∧ (s.update_ptcb p f).pcb_freelist = s.pcb_freelist ∧
      (s.update_ptcb p f).process_count = s.process_count ∧
      (s.update_ptcb p f).fcb_refcount = s.fcb_refcount ∧
      (s.update_ptcb p f).nptcb = s.nptcb ∧ (s.update_ptcb p f).log = s.log := by
  unfold ProcState.update_ptcb
  cases s.ptcbs p <;> exact ⟨rfl, rfl, rfl, rfl, rfl, rfl⟩

theorem update_ptcb_some (s : ProcState) (p : Nat) (f : PTCB → PTCB) (t : PTCB)
    (h : s.ptcbs p = some t) : s.update_ptcb p f = s.set_ptcb p (f t) := by
  unfold ProcState.update_ptcb
  rw [h]

theorem reparent_children_frame (i : Option Nat) (cp : Nat) (L : List Nat) :
    ∀ s : ProcState, (reparent_children i cp L s).ptcbs = s.ptcbs ∧
      (reparent_children i cp L s).nptcb = s.nptcb ∧
      (reparent_children i cp L s).pcb_freelist = s.pcb_freelist ∧
      (reparent_children i cp L s).process_count = s.process_count ∧
      (reparent_children i cp L s).fcb_refcount = s.fcb_refcount ∧
      (reparent_children i cp L s).log = s.log := by
  induction L with
  | nil => intro s; exact ⟨rfl, rfl, rfl, rfl, rfl, rfl⟩
  | cons c rest ih =>
    intro s
    obtain ⟨h1, h2, h3, h4, h5, h6⟩ := ih (reparent_one i cp c rest s)
    have e : (reparent_one i cp c rest s).ptcbs = s.ptcbs ∧
        (reparent_one i cp c rest s).nptcb = s.nptcb ∧
        (reparent_one i cp c rest s).pcb_freelist = s.pcb_freelist ∧
        (reparent_one i cp c rest s).process_count = s.process_count ∧
        (reparent_one i cp c rest s).fcb_refcount = s.fcb_refcount ∧
        (reparent_one i cp c rest s).log = s.log := by
      unfold reparent_one
      cases i <;> exact ⟨rfl, rfl, rfl, rfl, rfl, rfl⟩
    exact ⟨h1.trans e.1, h2.trans e.2.1, h3.trans e.2.2.1, h4.trans e.2.2.2.1,
      h5.trans e.2.2.2.2.1, h6.trans e.2.2.2.2.2⟩

theorem decref_all_frame (L : List (Option Nat)) :
    ∀ s : ProcState, (decref_all s L).ptcbs = s.ptcbs ∧ (decref_all s L).nptcb = s.nptcb ∧
      (decref_all s L).pcb_freelist = s.pcb_freelist ∧
      (decref_all s L).process_count = s.process_count ∧
      (decref_all s L).PT = s.PT ∧ (decref_all s L).log = s.log := by
  induction L with
  | nil => intro s; exact ⟨rfl, rfl, rfl, rfl, rfl, rfl⟩
  | cons e rest ih =>
    intro s
    cases e with
    | none => exact ih s
    | some f => exact ih (FCB_decref s f)

theorem incref_all_frame (L : List (Option Nat)) :
    ∀ s : ProcState, (incref_all s L).ptcbs = s.ptcbs ∧ (incref_all s L).nptcb = s.nptcb ∧
      (incref_all s L).pcb_freelist = s.pcb_freelist ∧
      (incref_all s L).process_count = s.process_count ∧
      (incref_all s L).PT = s.PT ∧ (incref_all s L).log = s.log := by
  induction L with
  | nil => intro s; exact ⟨rfl, rfl, rfl, rfl, rfl, rfl⟩
  | cons e rest ih =>
    intro s
    cases e with
    | none => exact ih s
    | some f => exact ih (FCB_incref s f)

theorem free_ptcbs_frame (L : List Nat) :
    ∀ s : ProcState, (free_ptcbs s L).ptcbs = s.ptcbs ∧ (free_ptcbs s L).nptcb = s.nptcb ∧
      (free_ptcbs s L).pcb_freelist = s.pcb_freelist ∧
      (free_ptcbs s L).process_count = s.process_count ∧
      (free_ptcbs s L).PT = s.PT ∧ (free_ptcbs s L).fcb_refcount = s.fcb_refcount := by
  induction L with
  | nil => intro s; exact ⟨rfl, rfl, rfl, rfl, rfl, rfl⟩
  | cons e rest ih => intro s; exact ih _

theorem CleanUp_frame (F : Nat) (s : ProcState) (cp : Nat) :
    (CleanUp F s cp).ptcbs = s.ptcbs ∧ (CleanUp F s cp).nptcb = s.nptcb ∧
      (CleanUp F s cp).pcb_freelist = s.pcb_freelist ∧
      (CleanUp F s cp).process_count = s.process_count := by
  unfold CleanUp
  simp only [ProcState.set_pcb]
  refine ⟨?_, ?_, ?_, ?_⟩
  · show (free_ptcbs _ _).ptcbs = _
    rw [(free_ptcbs_frame _ _).1]
    show (decref_all _ _).ptcbs = _
    rw [(decref_all_frame _ _).1]
    split_ifs <;> rfl
  · show (free_ptcbs _ _).nptcb = _
    rw [(free_ptcbs_frame _ _).2.1]
    show (decref_all _ _).nptcb = _
    rw [(decref_all_frame _ _).2.1]
    split_ifs <;> rfl
  · show (free_ptcbs _ _).pcb_freelist = _
    rw [(free_ptcbs_frame _ _).2.2.1]
    show (decref_all _ _).pcb_freelist = _
    rw [(decref_all_frame _ _).2.2.1]
    split_ifs <;> rfl
  · show (free_ptcbs _ _).process_count = _
    rw [(free_ptcbs_frame _ _).2.2.2.1]
    show (decref_all _ _).process_count = _
    rw [(decref_all_frame _ _).2.2.2.1]
    split_ifs <;> rfl

theorem splice_exited_frame (i : Option Nat) (cp : Nat) (s : ProcState) :
    (splice_exited i cp s).ptcbs = s.ptcbs ∧ (splice_exited i cp s).nptcb = s.nptcb ∧
      (splice_exited i cp s).pcb_freelist = s.pcb_freelist ∧
      (splice_exited i cp s).process_count = s.process_count ∧
      (splice_exited i cp s).fcb_refcount = s.fcb_refcount := by
  unfold splice_exited
  split_ifs
  · cases i <;> exact ⟨rfl, rfl, rfl, rfl, rfl⟩
  · exact ⟨rfl, rfl, rfl, rfl, rfl⟩

theorem enter_exited_frame (cp : Nat) (s : ProcState) :
    (enter_exited cp s).ptcbs = s.ptcbs ∧ (enter_exited cp s).nptcb = s.nptcb ∧
      (enter_exited cp s).pcb_freelist = s.pcb_freelist ∧
      (enter_exited cp s).process_count = s.process_count ∧
      (enter_exited cp s).fcb_refcount = s.fcb_refcount := by
  unfold enter_exited
  cases (s.PT cp).parent <;> exact ⟨rfl, rfl, rfl, rfl, rfl⟩

theorem orphan_children_frame (s : ProcState) (cp : Nat) :
    (orphan_children s cp).ptcbs = s.ptcbs ∧ (orphan_children s cp).nptcb = s.nptcb ∧
      (orphan_children s cp).pcb_freelist = s.pcb_freelist ∧
      (orphan_children s cp).process_count = s.process_count := by
  obtain ⟨h1, h2, h3, h4, _, _⟩ :=
    reparent_children_frame (get_pcb s 1) cp (s.PT cp).children_list s
  obtain ⟨a1, a2, a3, a4, _⟩ := splice_exited_frame (get_pcb s 1) cp
    (reparent_children (get_pcb s 1) cp (s.PT cp).children_list s)
  obtain ⟨b1, b2, b3, b4, _⟩ := enter_exited_frame cp (splice_exited (get_pcb s 1) cp
    (reparent_children (get_pcb s 1) cp (s.PT cp).children_list s))
  unfold orphan_children
  exact ⟨b1.trans (a1.trans h1), b2.trans (a2.trans h2), b3.trans (a3.trans h3),
    b4.trans (a4.trans h4)⟩

theorem last_thread_frame (F : Nat) (s : ProcState) (cp : Nat) :
    (last_thread F s cp).ptcbs = s.ptcbs ∧ (last_thread F s cp).nptcb = s.nptcb ∧
      (last_thread F s cp).pcb_freelist = s.pcb_freelist ∧
      (last_thread F s cp).process_count = s.process_count := by
  unfold last_thread
  obtain ⟨c1, c2, c3, c4⟩ :=
    CleanUp_frame F (if get_pid (some cp) ≠ 1 then orphan_children s cp else s) cp
  obtain ⟨o1, o2, o3, o4⟩ := orphan_children_frame s cp
  rw [c1, c2, c3, c4]
  split_ifs
  · exact ⟨o1, o2, o3, o4⟩
  · exact ⟨rfl, rfl, rfl, rfl⟩

theorem sys_ThreadExit_ptcbs (F : Nat) (s : ProcState) (cp self : Nat) (v : Int) :
    (sys_ThreadExit F s cp self v).ptcbs = (mark_exited s self v).ptcbs := by
  unfold sys_ThreadExit
  show (if _ then _ else _ : ProcState).ptcbs = _
  split_ifs
  · rw [(last_thread_frame F _ cp).1]; rfl
  · rfl

theorem sys_ThreadExit_live (F : Nat) (s : ProcState) (cp self : Nat) (v : Int)
    (h : (s.PT cp).thread_count ≠ 1) :
    sys_ThreadExit F s cp self v =
      (leave_process (mark_exited s self v) cp self).emit (.sleep_exited self) := by
  have hpt : (mark_exited s self v).PT = s.PT := (update_ptcb_frame s self _).1
  have hc : ((leave_process (mark_exited s self v) cp self).PT cp).thread_count ≠ 0 := by
    show ((if cp = cp then _ else _ : PCB)).thread_count ≠ 0
    rw [if_pos rfl, hpt]
    show (s.PT cp).thread_count - 1 ≠ 0
    omega
  unfold sys_ThreadExit
  simp only [if_neg hc]

theorem flags_kept_refl (s : ProcState) : flags_kept s s :=
  fun _ u h => ⟨u, h, id, id⟩

theorem flags_kept_of_eq (s s' : ProcState) (h : s'.ptcbs = s.ptcbs) : flags_kept s s' :=
  fun q u hq => ⟨u, by rw [h]; exact hq, id, id⟩

theorem flags_kept_set (s s' : ProcState) (p : Nat) (t t' : PTCB)
    (hp : s.ptcbs p = some t) (h : s'.ptcbs = heap_set s.ptcbs p (some t'))
    (hd : t.detached = true → t'.detached = true) (he : t.exited = true → t'.exited = true) :
    flags_kept s s' := by
  intro q u hq
  by_cases hqp : q = p
  · subst hqp
    rw [hp] at hq
    cases hq
    exact ⟨t', by rw [h, heap_set_same], hd, he⟩
  · exact ⟨u, by rw [h, heap_set_other _ _ _ _ hqp]; exact hq, id, id⟩

theorem flags_kept_trans (s s' s'' : ProcState) (h1 : flags_kept s s')
    (h2 : flags_kept s' s'') : flags_kept s s'' := by
  intro q u hq
  obtain ⟨u', hu', d1, e1⟩ := h1 q u hq
  obtain ⟨u'', hu'', d2, e2⟩ := h2 q u' hu'
  exact ⟨u'', hu'', fun h => d2 (d1 h), fun h => e2 (e1 h)⟩

/-- Claim C13. `sys_ThreadJoin` returns `-1` and leaves the whole state (so the target's
`ref_count` and flags and every PTCB list) and `*exitval` as they were whenever the tid is
null, the PTCB is not in the PTCB list of the calling process, the PTCB is already
detached, or the tid is the caller's own. -/
theorem sys_ThreadJoin_rejects (s : ProcState) (curproc self : Nat) (tid : Option Nat)
    (exitval : Option Int)
    (h : tid = none ∨ (∃ p, tid = some p ∧ p ∉ (s.PT curproc).ptcb_list) ∨
      (∃ p t, tid = some p ∧ s.ptcbs p = some t ∧ t.detached = true) ∨
      tid = sys_ThreadSelf self) :
    sys_ThreadJoin s curproc self tid exitval = .ret (-1) s exitval := by
  unfold sys_ThreadJoin
  rcases h with rfl | ⟨p, rfl, hp⟩ | ⟨p, t, rfl, ht, hd⟩ | rfl
  · rfl
  · simp [hp]
  · by_cases hp : p ∈ (s.PT curproc).ptcb_list <;> simp [hp, ht, hd]
  · simp only [sys_ThreadSelf]
    by_cases hp : self ∈ (s.PT curproc).ptcb_list
    · cases ht : s.ptcbs self with
      | none => simp [hp]
      | some t => by_cases hd : t.detached = true <;> simp [hp, hd]
    · simp [hp]

/-- C13 on the worked example: the main thread of init cannot join itself. -/
theorem sys_ThreadJoin_rejects_witness :
    sys_ThreadJoin demo_threads 1 0 (some 0) (some 5) = .ret (-1) demo_threads (some 5) :=
  sys_ThreadJoin_rejects demo_threads 1 0 (some 0) (some 5) (Or.inr (Or.inr (Or.inr rfl)))

theorem sys_ThreadDetach_ok (s : ProcState) (curproc p : Nat) (t : PTCB)
    (hp : p ∈ (s.PT curproc).ptcb_list) (ht : s.ptcbs p = some t) (he : t.exited = false) :
    sys_ThreadDetach s curproc (some p) =
      (0, (s.set_ptcb p { t with detached := true }).emit (.broadcast_exit_cv p)) := by
  simp [sys_ThreadDetach, hp, ht, he]

theorem sys_ThreadDetach_fail (s : ProcState) (curproc : Nat) (tid : Option Nat)
    (h : (¬ ∃ p, tid = some p ∧ p ∈ (s.PT curproc).ptcb_list) ∨
      ∃ p t, tid = some p ∧ s.ptcbs p = some t ∧ t.exited = true) :
    sys_ThreadDetach s curproc tid = (-1, s) := by
  unfold sys_ThreadDetach
  cases tid with
  | none => rfl
  | some p =>
    by_cases hp : p ∈ (s.PT curproc).ptcb_list
    · rcases h with h | ⟨p', t, hpp, ht, he⟩
      · exact absurd ⟨p, rfl, hp⟩ h
      · cases hpp
        simp [hp, ht, he]
    · simp [hp]

theorem sys_ThreadJoin_resume_flags (s : ProcState) (p : Nat) (out : Option Int) :
    flags_kept s (sys_ThreadJoin_resume s p out).state := by
  unfold sys_ThreadJoin_resume
  cases ht : s.ptcbs p with
  | none => exact flags_kept_refl s
  | some t =>
    simp only []
    split_ifs
    · exact flags_kept_refl s
    · exact flags_kept_set s _ p t _ ht rfl id id
    · exact flags_kept_set s _ p t _ ht rfl id id
    · exact flags_kept_set s _ p t _ ht rfl id id

theorem sys_ThreadJoin_flags (s : ProcState) (cp self : Nat) (tid : Option Nat)
    (out : Option Int) : flags_kept s (sys_ThreadJoin s cp self tid out).state := by
  unfold sys_ThreadJoin
  cases tid with
  | none => exact flags_kept_refl s
  | some p =>
    by_cases hp : p ∈ (s.PT cp).ptcb_list
    · simp only [hp, not_true_eq_false, if_false]
      cases ht : s.ptcbs p with
      | none => exact flags_kept_refl s
      | some t =>
        simp only []
        split_ifs
        · exact flags_kept_refl s
        · exact flags_kept_refl s
        · exact flags_kept_trans s _ _
            (flags_kept_set s (s.set_ptcb p { t with ref_count := t.ref_count + 1 }) p t _ ht
              rfl id id)
            (sys_ThreadJoin_resume_flags _ p out)
    · simp only [hp, not_false_eq_true, if_true]
      exact flags_kept_refl s

theorem sys_ThreadDetach_flags (s : ProcState) (cp : Nat) (tid : Option Nat) :
    flags_kept s (sys_ThreadDetach s cp tid).2 := by
  unfold sys_ThreadDetach
  cases tid with
  | none => exact flags_kept_refl s
  | some p =>
    by_cases hp : p ∈ (s.PT cp).ptcb_list
    · simp only [hp, not_true_eq_false, if_false]
      cases ht : s.ptcbs p with
      | none => exact flags_kept_refl s
      | some t =>
        simp only []
        split_ifs
        · exact flags_kept_refl s
        · exact flags_kept_set s _ p t _ ht rfl (fun _ => rfl) id
    · simp only [hp, not_false_eq_true, if_true]
      exact flags_kept_refl s

theorem sys_ThreadExit_flags (F : Nat) (s : ProcState) (cp self : Nat) (v : Int) :
    flags_kept s (sys_ThreadExit F s cp self v) := by
  have h := sys_ThreadExit_ptcbs F s cp self v
  unfold mark_exited ProcState.update_ptcb at h
  cases ht : s.ptcbs self with
  | none =>
    rw [ht] at h
    exact flags_kept_of_eq s _ h
  | some t =>
    rw [ht] at h
    exact flags_kept_set s _ self t _ ht h id (fun _ => rfl)

theorem sys_CreateThread_flags (s : ProcState) (cp : Nat) (task : Option Nat) (argl : Int)
    (args : Option (List Byte)) (hfresh : s.ptcbs s.nptcb = none) :
    flags_kept s (sys_CreateThread s cp task argl args).2 := by
  unfold sys_CreateThread
  cases task with
  | none => exact flags_kept_refl s
  | some f =>
    intro q u hq
    have hne : q ≠ s.nptcb := by
      rintro rfl
      rw [hfresh] at hq
      cases hq
    refine ⟨u, ?_, id, id⟩
    show (((spawn_process_thread s cp).2.update_ptcb (spawn_process_thread s cp).1 _).emit
      _).ptcbs q = some u
    rw [update_ptcb_some (spawn_process_thread s cp).2 (spawn_process_thread s cp).1 _ _
      (heap_set_same s.ptcbs s.nptcb _)]
    show heap_set (heap_set s.ptcbs s.nptcb _) s.nptcb _ q = some u
    rw [heap_set_other _ _ _ _ hne, heap_set_other _ _ _ _ hne]
    exact hq

/-- Claim C16. In a state whose PTCB list of the calling process names allocated blocks,
`sys_ThreadDetach` returns `-1` exactly when the tid is not in that list or the thread has
exited, and then changes nothing; otherwise it returns 0 and sets `detached`, leaving
`exited`, `exitval`, `ref_count`, every other block and every list as they were (the caller
itself and an already detached thread included). None of `sys_CreateThread`,
`sys_ThreadJoin` (entry and wake-up), `sys_ThreadDetach` and `sys_ThreadExit` resets a
`detached` or `exited` flag. -/
theorem sys_ThreadDetach_spec (F : Nat) (s : ProcState) (curproc : Nat) (tid : Option Nat)
    (hheap : ∀ p ∈ (s.PT curproc).ptcb_list, (s.ptcbs p).isSome) :
    ((sys_ThreadDetach s curproc tid).1 = -1 ↔
      ((¬ ∃ p, tid = some p ∧ p ∈ (s.PT curproc).ptcb_list) ∨
        ∃ p t, tid = some p ∧ s.ptcbs p = some t ∧ t.exited = true)) ∧
    ((sys_ThreadDetach s curproc tid).1 = -1 → (sys_ThreadDetach s curproc tid).2 = s) ∧
    ((sys_ThreadDetach s curproc tid).1 ≠ -1 →
      (sys_ThreadDetach s curproc tid).1 = 0 ∧
      (sys_ThreadDetach s curproc tid).2.PT = s.PT ∧
      ∃ p t, tid = some p ∧ s.ptcbs p = some t ∧
        (sys_ThreadDetach s curproc tid).2.ptcbs p = some { t with detached := true } ∧
        ∀ q, q ≠ p → (sys_ThreadDetach s curproc tid).2.ptcbs q = s.ptcbs q) ∧
    ∀ (cp self : Nat) (tid' : Option Nat) (out : Option Int) (task : Option Nat) (argl : Int)
      (args : Option (List Byte)) (v : Int) (p : Nat),
      flags_kept s (sys_ThreadJoin s cp self tid' out).state ∧
      flags_kept s (sys_ThreadJoin_resume s p out).state ∧
      flags_kept s (sys_ThreadDetach s cp tid').2 ∧
      flags_kept s (sys_ThreadExit F s cp self v) ∧
      (s.ptcbs s.nptcb = none → flags_kept s (sys_CreateThread s cp task argl args).2) := by
  have key : ((¬ ∃ p, tid = some p ∧ p ∈ (s.PT curproc).ptcb_list) ∨
        ∃ p t, tid = some p ∧ s.ptcbs p = some t ∧ t.exited = true) ∨
      ∃ p t, tid = some p ∧ p ∈ (s.PT curproc).ptcb_list ∧ s.ptcbs p = some t ∧
        t.exited = false := by
    cases tid with
    | none => exact Or.inl (Or.inl (fun ⟨p, h, _⟩ => by cases h))
    | some p =>
      by_cases hp : p ∈ (s.PT curproc).ptcb_list
      · have := hheap p hp
        cases ht : s.ptcbs p with
        | none => rw [ht] at this; cases this
        | some t =>
          cases he : t.exited with
          | true => exact Or.inl (Or.inr ⟨p, t, rfl, ht, he⟩)
          | false => exact Or.inr ⟨p, t, rfl, hp, ht, he⟩
      · exact Or.inl (Or.inl (fun ⟨p', h, hp'⟩ => by cases h; exact hp hp'))
  refine ⟨?_, ?_, ?_, fun cp self tid' out task argl args v p =>
    ⟨sys_ThreadJoin_flags s cp self tid' out, sys_ThreadJoin_resume_flags s p out,
      sys_ThreadDetach_flags s cp tid', sys_ThreadExit_flags F s cp self v,
      sys_CreateThread_flags s cp task argl args⟩⟩
  · rcases key with h | ⟨p, t, rfl, hp, ht, he⟩
    · rw [sys_ThreadDetach_fail s curproc tid h]
      exact ⟨fun _ => h, fun _ => rfl⟩
    · rw [sys_ThreadDetach_ok s curproc p t hp ht he]
      constructor
      · intro h; exact absurd (show (0 : Int) = -1 from h) (by decide)
      · rintro (h | ⟨p', t', hpp, ht', he'⟩)
        · exact absurd ⟨p, rfl, hp⟩ h
        · cases hpp
          rw [ht] at ht'
          cases ht'
          rw [he] at he'
          cases he'
  · rcases key with h | ⟨p, t, rfl, hp, ht, he⟩
    · rw [sys_ThreadDetach_fail s curproc tid h]
      exact fun _ => rfl
    · rw [sys_ThreadDetach_ok s curproc p t hp ht he]
      intro h; exact absurd (show (0 : Int) = -1 from h) (by decide)
  · rcases key with h | ⟨p, t, rfl, hp, ht, he⟩
    · rw [sys_ThreadDetach_fail s curproc tid h]
      intro h'; exact absurd rfl h'
    · rw [sys_ThreadDetach_ok s curproc p t hp ht he]
      intro _
      refine ⟨rfl, rfl, p, t, rfl, ht, ?_, fun q hq => ?_⟩
      · show heap_set s.ptcbs p _ p = _
        rw [heap_set_same]
      · show heap_set s.ptcbs p _ q = _
        rw [heap_set_other _ _ _ _ hq]

/-- C16 on the worked example: the main thread of init detaches the second thread. -/
theorem sys_ThreadDetach_spec_witness :
    (sys_ThreadDetach demo_threads 1 (some 1)).1 ≠ -1 ∧
      flags_kept demo_threads (sys_ThreadExit 2 demo_threads 1 1 7) :=
  have h := sys_ThreadDetach_spec 2 demo_threads 1 (some 1) (by decide)
  ⟨by decide, (h.2.2.2 1 1 none none none 0 none 7 0).2.2.2.1⟩

theorem join_resume_exited (s : ProcState) (T : Nat) (t : PTCB) (out : Option Int)
    (ht : s.ptcbs T = some t) (he : t.exited = true) (hd : t.detached = false) :
    sys_ThreadJoin_resume s T out =
      .ret 0
        (if t.ref_count - 1 = 0 then
          (unlink_ptcb (s.set_ptcb T { t with ref_count := t.ref_count - 1 }) T).emit
            (.free_ptcb T)
         else s.set_ptcb T { t with ref_count := t.ref_count - 1 })
        (out.map (fun _ => t.exitval)) := by
  unfold sys_ThreadJoin_resume
  simp only [ht, he, hd]
  split_ifs <;> simp_all

theorem join_resume_detached (s : ProcState) (T : Nat) (t : PTCB) (out : Option Int)
    (ht : s.ptcbs T = some t) (hd : t.detached = true) :
    sys_ThreadJoin_resume s T out =
      .ret (-1) (s.set_ptcb T { t with ref_count := t.ref_count - 1 }) out := by
  unfold sys_ThreadJoin_resume
  simp [ht, hd]

theorem join_resume_live (s : ProcState) (T : Nat) (t : PTCB) (out : Option Int)
    (ht : s.ptcbs T = some t) (he : t.exited = false) (hd : t.detached = false) :
    sys_ThreadJoin_resume s T out = .wait T s := by
  unfold sys_ThreadJoin_resume
  simp [ht, hd, he]

theorem join_entry (s : ProcState) (cp J T : Nat) (t : PTCB) (out : Option Int)
    (hT : T ∈ (s.PT cp).ptcb_list) (ht : s.ptcbs T = some t) (hd : t.detached = false)
    (hJ : J ≠ T) :
    sys_ThreadJoin s cp J (some T) out =
      sys_ThreadJoin_resume (s.set_ptcb T { t with ref_count := t.ref_count + 1 }) T out := by
  unfold sys_ThreadJoin
  have : ¬ (T = J) := fun e => hJ e.symm
  simp [hT, ht, hd, sys_ThreadSelf, this]

theorem join_gone (s : ProcState) (cp J T : Nat) (out : Option Int)
    (hT : T ∉ (s.PT cp).ptcb_list) :
    sys_ThreadJoin s cp J (some T) out = .ret (-1) s out := by
  unfold sys_ThreadJoin
  simp [hT]

theorem unlink_ptcb_gone (s : ProcState) (T cp : Nat) :
    T ∉ ((unlink_ptcb s T).PT cp).ptcb_list := by
  show T ∉ ((s.PT cp).ptcb_list.filter (fun t => t ≠ T))
  simp

theorem join_finish (s0 : ProcState) (cp T : Nat) (t0 : PTCB) (r : Int) (out : Option Int)
    (ht : s0.ptcbs T = some t0) (he : t0.exited = true) (hd : t0.detached = false)
    (hr : t0.ref_count = r + 1) :
    ∃ s', sys_ThreadJoin_resume s0 T out = .ret 0 s' (out.map (fun _ => t0.exitval)) ∧
      s'.ptcbs T = some { t0 with ref_count := r } ∧
      (∀ q, q ≠ T → s'.ptcbs q = s0.ptcbs q) ∧
      (r = 0 → T ∉ (s'.PT cp).ptcb_list ∧
        ∀ J' out', sys_ThreadJoin s' cp J' (some T) out' = .ret (-1) s' out') ∧
      (r ≠ 0 → s'.PT = s0.PT) := by
  have hr' : t0.ref_count - 1 = r := by omega
  refine ⟨_, join_resume_exited s0 T t0 out ht he hd, ?_, ?_, ?_, ?_⟩
  · rw [hr']
    split_ifs
    · show heap_set s0.ptcbs T _ T = _
      rw [heap_set_same]
    · show heap_set s0.ptcbs T _ T = _
      rw [heap_set_same]
  · intro q hq
    split_ifs
    · show heap_set s0.ptcbs T _ q = _
      rw [heap_set_other _ _ _ _ hq]
    · show heap_set s0.ptcbs T _ q = _
      rw [heap_set_other _ _ _ _ hq]
  · intro h0
    rw [hr', if_pos h0]
    have hg : T ∉ (((unlink_ptcb (s0.set_ptcb T { t0 with ref_count := r }) T).emit
        (.free_ptcb T)).PT cp).ptcb_list :=
      unlink_ptcb_gone (s0.set_ptcb T { t0 with ref_count := r }) T cp
    exact ⟨hg, fun J' out' => join_gone _ cp J' T out' hg⟩
  · intro h0
    rw [hr', if_neg h0]
    rfl

theorem resume_joiners_ret (T : Nat) (o : Option Int) (rest : List (Option Int))
    (s s1 : ProcState) (v : Int) (o1 : Option Int)
    (h : sys_ThreadJoin_resume s T o = .ret v s1 o1) :
    resume_joiners T (o :: rest) s =
      (some (v, o1) :: (resume_joiners T rest s1).1, (resume_joiners T rest s1).2) := by
  rw [resume_joiners, h]

theorem resume_joiners_wait (T : Nat) (o : Option Int) (rest : List (Option Int))
    (s s1 : ProcState) (p : Nat) (h : sys_ThreadJoin_resume s T o = .wait p s1) :
    resume_joiners T (o :: rest) s =
      (none :: (resume_joiners T rest s1).1, (resume_joiners T rest s1).2) := by
  rw [resume_joiners, h]

theorem resume_joiners_append (T : Nat) (a b : List (Option Int)) :
    ∀ s : ProcState, resume_joiners T (a ++ b) s =
      ((resume_joiners T a s).1 ++ (resume_joiners T b (resume_joiners T a s).2).1,
        (resume_joiners T b (resume_joiners T a s).2).2) := by
  induction a with
  | nil => intro s; rfl
  | cons o rest ih =>
    intro s
    cases h : sys_ThreadJoin_resume s T o with
    | ret v s1 o1 =>
      rw [List.cons_append, resume_joiners_ret T o (rest ++ b) s s1 v o1 h,
        resume_joiners_ret T o rest s s1 v o1 h, ih s1]
      rfl
    | wait p s1 =>
      rw [List.cons_append, resume_joiners_wait T o (rest ++ b) s s1 p h,
        resume_joiners_wait T o rest s s1 p h, ih s1]
      rfl

theorem resume_joiners_prefix (T : Nat) (pre : List (Option Int)) :
    ∀ (s : ProcState) (t : PTCB) (n : Int), s.ptcbs T = some t → t.exited = true →
      t.detached = false → t.ref_count = pre.length + n → 1 ≤ n →
      (resume_joiners T pre s).1 = pre.map (fun o => some (0, o.map (fun _ => t.exitval))) ∧
        (resume_joiners T pre s).2.PT = s.PT ∧
        (resume_joiners T pre s).2.ptcbs T = some { t with ref_count := n } := by
  induction pre with
  | nil =>
    intro s t n ht _ _ hr _
    refine ⟨rfl, rfl, ?_⟩
    show s.ptcbs T = _
    rw [ht]
    cases t
    simp_all
  | cons o rest ih =>
    intro s t n ht he hd hr hn
    have hr' : t.ref_count = ((rest.length : Int) + n) + 1 := by
      rw [hr, List.length_cons]; push_cast; ring
    obtain ⟨s', hres, hT', _, _, hPT⟩ :=
      join_finish s 0 T t ((rest.length : Int) + n) o ht he hd hr'
    obtain ⟨i1, i2, i3⟩ := ih s' { t with ref_count := (rest.length : Int) + n } n hT' he hd
      rfl hn
    have e : resume_joiners T (o :: rest) s =
        (some (0, o.map (fun _ => t.exitval)) :: (resume_joiners T rest s').1,
          (resume_joiners T rest s').2) :=
      resume_joiners_ret T o rest s s' 0 _ hres
    rw [e]
    refine ⟨?_, ?_, i3⟩
    · rw [List.map_cons, i1]
    · rw [i2]; exact hPT (by omega)

theorem resume_joiners_all (T cp : Nat) (outs : List (Option Int)) (s : ProcState) (t : PTCB)
    (hT : T ∈ (s.PT cp).ptcb_list)
    (ht : s.ptcbs T = some t) (he : t.exited = true) (hd : t.detached = false)
    (hr : t.ref_count = outs.length) :
    (resume_joiners T outs s).1 = outs.map (fun o => some (0, o.map (fun _ => t.exitval))) ∧
      (∀ pre suf, outs = pre ++ suf → suf ≠ [] →
        T ∈ ((resume_joiners T pre s).2.PT cp).ptcb_list) ∧
      (outs ≠ [] → T ∉ ((resume_joiners T outs s).2.PT cp).ptcb_list) := by
  have hpre : ∀ pre suf, outs = pre ++ suf → suf ≠ [] →
      (resume_joiners T pre s).1 = pre.map (fun o => some (0, o.map (fun _ => t.exitval))) ∧
        (resume_joiners T pre s).2.PT = s.PT ∧
        (resume_joiners T pre s).2.ptcbs T = some { t with ref_count := suf.length } := by
    intro pre suf ho hs
    have hl : 1 ≤ suf.length := by
      cases suf with
      | nil => exact absurd rfl hs
      | cons _ _ => simp
    refine resume_joiners_prefix T pre s t suf.length ht he hd ?_ (by exact_mod_cast hl)
    rw [hr, ho, List.length_append]; push_cast; ring
  refine ⟨?_, fun pre suf ho hs => ?_, fun hne => ?_⟩
  · rcases List.eq_nil_or_concat outs with rfl | ⟨pre, o, hc⟩
    · rfl
    rw [List.concat_eq_append] at hc
    subst hc
    · obtain ⟨p1, _, p3⟩ := hpre pre [o] rfl (by simp)
      obtain ⟨s', hres, _⟩ := join_finish (resume_joiners T pre s).2 cp T
        { t with ref_count := (([o] : List (Option Int)).length : Int) } 0 o p3 he hd (by simp)
      rw [resume_joiners_append, p1]
      have e : resume_joiners T [o] (resume_joiners T pre s).2 =
          ([some (0, o.map (fun _ => t.exitval))], s') :=
        resume_joiners_ret T o [] _ s' 0 _ hres
      rw [e]
      simp
  · rw [(hpre pre suf ho hs).2.1]; exact hT
  · rcases List.eq_nil_or_concat outs with rfl | ⟨pre, o, hc⟩
    · exact absurd rfl hne
    rw [List.concat_eq_append] at hc
    subst hc
    · obtain ⟨_, _, p3⟩ := hpre pre [o] rfl (by simp)
      obtain ⟨s', hres, _, _, hgone, _⟩ := join_finish (resume_joiners T pre s).2 cp T
        { t with ref_count := (([o] : List (Option Int)).length : Int) } 0 o p3 he hd (by simp)
      rw [resume_joiners_append]
      have e : resume_joiners T [o] (resume_joiners T pre s).2 =
          ([some (0, o.map (fun _ => t.exitval))], s') :=
        resume_joiners_ret T o [] _ s' 0 _ hres
      rw [e]
      exact (hgone rfl).1

/-- Claim C14. Let `T` be a thread of the caller's process that is not detached, `J` another
thread. If `T` has exited, `sys_ThreadJoin(T, &out)` returns 0 with `out` set to the exit
value (a null pointer stays null) and leaves the control block of `T`, so its `ref_count`,
as it was. If `T` is alive the call sleeps with `ref_count` one higher, and once `T` has
exited with `v` the woken call returns 0 with `out = v` and `ref_count` back at its value
before the call. In both cases, when that value is 0 the PTCB leaves the PTCB list, so
every later join of `T` returns `-1`; otherwise the list is unchanged. When the joiners
asleep on `T` are all that hold it (`ref_count` equals their number), each of them in turn
returns 0 with `v`, `T` stays in the list until the last has resumed, and the last removes
it. -/
theorem sys_ThreadJoin_delivers (F : Nat) (s : ProcState) (cp J T : Nat) (t : PTCB)
    (out : Option Int)
    (hT : T ∈ (s.PT cp).ptcb_list) (ht : s.ptcbs T = some t) (hd : t.detached = false)
    (hJ : J ≠ T) :
    (t.exited = true →
      ∃ s', sys_ThreadJoin s cp J (some T) out = .ret 0 s' (out.map (fun _ => t.exitval)) ∧
        s'.ptcbs T = some t ∧
        (t.ref_count = 0 → T ∉ (s'.PT cp).ptcb_list ∧
          ∀ J' out', sys_ThreadJoin s' cp J' (some T) out' = .ret (-1) s' out') ∧
        (t.ref_count ≠ 0 → s'.PT = s.PT)) ∧
    (t.exited = false → (s.PT cp).thread_count ≠ 1 → ∀ v : Int,
      sys_ThreadJoin s cp J (some T) out =
        .wait T (s.set_ptcb T { t with ref_count := t.ref_count + 1 }) ∧
      ∃ s3, sys_ThreadJoin_resume
          (sys_ThreadExit F (s.set_ptcb T { t with ref_count := t.ref_count + 1 }) cp T v)
          T out = .ret 0 s3 (out.map (fun _ => v)) ∧
        s3.ptcbs T = some { t with exitval := v, exited := true } ∧
        (t.ref_count = 0 → T ∉ (s3.PT cp).ptcb_list ∧
          ∀ J' out', sys_ThreadJoin s3 cp J' (some T) out' = .ret (-1) s3 out') ∧
        (t.ref_count ≠ 0 → (s3.PT cp).ptcb_list = (s.PT cp).ptcb_list)) ∧
    (∀ (outs : List (Option Int)), t.exited = true → t.ref_count = outs.length →
      (resume_joiners T outs s).1 =
        outs.map (fun o => some (0, o.map (fun _ => t.exitval))) ∧
      (∀ pre suf, outs = pre ++ suf → suf ≠ [] →
        T ∈ ((resume_joiners T pre s).2.PT cp).ptcb_list) ∧
      (outs ≠ [] → T ∉ ((resume_joiners T outs s).2.PT cp).ptcb_list)) := by
  have hentry := join_entry s cp J T t out hT ht hd hJ
  refine ⟨fun he => ?_, fun he hc v => ?_, fun outs he hr =>
    resume_joiners_all T cp outs s t hT ht he hd hr⟩
  · obtain ⟨s', hres, h1, _, h3, h4⟩ := join_finish
      (s.set_ptcb T { t with ref_count := t.ref_count + 1 }) cp T
      { t with ref_count := t.ref_count + 1 } t.ref_count out
      (heap_set_same s.ptcbs T _) he hd rfl
    refine ⟨s', hentry.trans hres, ?_, h3, h4⟩
    rw [h1]
  · refine ⟨hentry.trans (join_resume_live _ T _ out (heap_set_same s.ptcbs T _) he hd), ?_⟩
    have hlive := sys_ThreadExit_live F (s.set_ptcb T { t with ref_count := t.ref_count + 1 })
      cp T v hc
    have hm : mark_exited (s.set_ptcb T { t with ref_count := t.ref_count + 1 }) T v =
        (s.set_ptcb T { t with ref_count := t.ref_count + 1 }).set_ptcb T
          { t with ref_count := t.ref_count + 1, exitval := v, exited := true } := by
      unfold mark_exited ProcState.update_ptcb
      rw [show (s.set_ptcb T { t with ref_count := t.ref_count + 1 }).ptcbs T = some _ from
        heap_set_same s.ptcbs T _]
    rw [hlive, hm]
    obtain ⟨s3, hres, h1, _, h3, h4⟩ := join_finish
      ((leave_process ((s.set_ptcb T { t with ref_count := t.ref_count + 1 }).set_ptcb T
          { t with ref_count := t.ref_count + 1, exitval := v, exited := true }) cp T).emit
        (.sleep_exited T)) cp T
      { t with ref_count := t.ref_count + 1, exitval := v, exited := true } t.ref_count out
      (heap_set_same _ T _) rfl hd rfl
    refine ⟨s3, hres, h1, h3, fun h0 => ?_⟩
    rw [h4 h0]
    show (if cp = cp then _ else _ : PCB).ptcb_list = _
    rw [if_pos rfl]
    rfl

/-- C14 on the worked example: the main thread of init joins the second thread, which then
exits with 42; the woken join returns 0 and stores 42. -/
theorem sys_ThreadJoin_delivers_witness :
    ∃ s3, sys_ThreadJoin_resume
        (sys_ThreadExit 2 (demo_threads.set_ptcb 1 ⟨some 2, 0, none, 0, false, false, 0 + 1⟩)
          1 1 42) 1 (some 0) = .ret 0 s3 (some 42) ∧
      1 ∉ (s3.PT 1).ptcb_list := by
  obtain ⟨_, s3, h1, _, h3, _⟩ :=
    (sys_ThreadJoin_delivers 2 demo_threads 1 0 1 ⟨some 2, 0, none, 0, false, false, 0⟩
      (some 0) (by decide) (by decide) rfl (by decide)).2.1 rfl (by decide) 42
  exact ⟨s3, h1, (h3 rfl).1⟩

theorem join_after_detach_exit (F : Nat) (s2 : ProcState) (cp T : Nat) (t2 : PTCB) (v : Int)
    (out : Option Int) (h2 : s2.ptcbs T = some t2) (hd2 : t2.detached = true)
    (hc : (s2.PT cp).thread_count ≠ 1) :
    ∃ s4 t4, sys_ThreadJoin_resume (sys_ThreadExit F s2 cp T v) T out = .ret (-1) s4 out ∧
      (s4.PT cp).ptcb_list = (s2.PT cp).ptcb_list ∧
      s4.ptcbs T = some t4 ∧ t4.ref_count = t2.ref_count - 1 ∧ t4.detached = true := by
  rw [sys_ThreadExit_live F s2 cp T v hc]
  have hm : mark_exited s2 T v = s2.set_ptcb T { t2 with exitval := v, exited := true } := by
    unfold mark_exited ProcState.update_ptcb
    rw [h2]
  rw [hm]
  refine ⟨_, _, join_resume_detached _ T { t2 with exitval := v, exited := true }
    out (heap_set_same _ T _) hd2, ?_, heap_set_same _ T _, rfl, hd2⟩
  show (if cp = cp then _ else _ : PCB).ptcb_list = _
  rw [if_pos rfl]
  rfl

/-- Claim C15. A joiner `J` sleeps in `sys_ThreadJoin(T, &out)` on a live thread `T`; then
`sys_ThreadDetach(T)` succeeds. Whether the joiner resumes right away or after `T` has also
exited, it returns `-1`, leaves `out` and the PTCB list as they were, and `ref_count` is
back at its value before the join. More generally a woken join that finds the block
detached returns `-1`, writes nothing and only takes its own reference back. -/
theorem detach_wins_over_join (F : Nat) (s : ProcState) (cp J T : Nat) (t : PTCB)
    (out : Option Int)
    (hT : T ∈ (s.PT cp).ptcb_list) (ht : s.ptcbs T = some t) (hd : t.detached = false)
    (he : t.exited = false) (hJ : J ≠ T) (hc : (s.PT cp).thread_count ≠ 1) :
    sys_ThreadJoin s cp J (some T) out =
      .wait T (s.set_ptcb T { t with ref_count := t.ref_count + 1 }) ∧
    (sys_ThreadDetach (s.set_ptcb T { t with ref_count := t.ref_count + 1 }) cp (some T)).1
      = 0 ∧
    (∀ s3,
      (s3 = (sys_ThreadDetach (s.set_ptcb T { t with ref_count := t.ref_count + 1 }) cp
          (some T)).2 ∨
        ∃ v, s3 = sys_ThreadExit F
          (sys_ThreadDetach (s.set_ptcb T { t with ref_count := t.ref_count + 1 }) cp
            (some T)).2 cp T v) →
      ∃ s4 t4, sys_ThreadJoin_resume s3 T out = .ret (-1) s4 out ∧
        (s4.PT cp).ptcb_list = (s.PT cp).ptcb_list ∧
        s4.ptcbs T = some t4 ∧ t4.ref_count = t.ref_count ∧ t4.detached = true) ∧
    ∀ s' t', s'.ptcbs T = some t' → t'.detached = true →
      sys_ThreadJoin_resume s' T out =
        .ret (-1) (s'.set_ptcb T { t' with ref_count := t'.ref_count - 1 }) out := by
  have hwait : sys_ThreadJoin s cp J (some T) out =
      .wait T (s.set_ptcb T { t with ref_count := t.ref_count + 1 }) :=
    (join_entry s cp J T t out hT ht hd hJ).trans
      (join_resume_live _ T _ out (heap_set_same s.ptcbs T _) he hd)
  have hdet := sys_ThreadDetach_ok (s.set_ptcb T { t with ref_count := t.ref_count + 1 }) cp T
    { t with ref_count := t.ref_count + 1 } hT (heap_set_same s.ptcbs T _) he
  refine ⟨hwait, by rw [hdet], ?_, fun s' t' h1 h2 => join_resume_detached s' T t' out h1 h2⟩
  rw [hdet]
  rintro s3 (rfl | ⟨v, rfl⟩)
  · refine ⟨_, _, join_resume_detached _ T
      { t with ref_count := t.ref_count + 1, detached := true } out (heap_set_same _ T _) rfl,
      rfl, heap_set_same _ T _, ?_, rfl⟩
    show t.ref_count + 1 - 1 = t.ref_count
    omega
  · obtain ⟨s4, t4, h1, h2, h3, h4, h5⟩ := join_after_detach_exit F
      (((s.set_ptcb T { t with ref_count := t.ref_count + 1 }).set_ptcb T
        { t with ref_count := t.ref_count + 1, detached := true }).emit
          (.broadcast_exit_cv T)) cp T
      { t with ref_count := t.ref_count + 1, detached := true } v out
      (heap_set_same _ T _) rfl hc
    refine ⟨s4, t4, h1, h2, h3, ?_, h5⟩
    rw [h4]
    show t.ref_count + 1 - 1 = t.ref_count
    omega

/-- C15 on the worked example: the main thread of init sleeps in a join of the second
thread, the second thread is detached, and the woken join returns `-1` without writing. -/
theorem detach_wins_over_join_witness :
    ∃ s4, sys_ThreadJoin_resume
        (sys_ThreadDetach (demo_threads.set_ptcb 1 ⟨some 2, 0, none, 0, false, false, 0 + 1⟩)
          1 (some 1)).2 1 (some 5) = .ret (-1) s4 (some 5) ∧
      (s4.PT 1).ptcb_list = (demo_threads.PT 1).ptcb_list := by
  obtain ⟨s4, t4, h1, h2, _⟩ :=
    (detach_wins_over_join 2 demo_threads 1 0 1 ⟨some 2, 0, none, 0, false, false, 0⟩
      (some 5) (by decide) (by decide) rfl rfl (by decide) (by decide)).2.2.1 _ (Or.inl rfl)
  exact ⟨s4, h1, h2⟩

/-! ## Theorems: processes -/

theorem set_pcb_same (s : ProcState) (p : Nat) (x : PCB) : (s.set_pcb p x).PT p = x := by
  simp [ProcState.set_pcb]

theorem set_pcb_other (s : ProcState) (p q : Nat) (x : PCB) (h : q ≠ p) :
    (s.set_pcb p x).PT q = s.PT q := by
  simp [ProcState.set_pcb, h]

theorem incref_all_count (L : List (Option Nat)) :
    ∀ (s : ProcState) (f : Nat),
      (incref_all s L).fcb_refcount f = s.fcb_refcount f + L.count (some f) := by
  induction L with
  | nil => intro s f; rfl
  | cons e rest ih =>
    intro s f
    cases e with
    | none =>
      show (incref_all s rest).fcb_refcount f = _
      rw [ih s f, List.count_cons]
      simp
    | some g =>
      show (incref_all (FCB_incref s g) rest).fcb_refcount f = _
      rw [ih (FCB_incref s g) f, List.count_cons]
      by_cases hfg : f = g
      · subst hfg
        simp [FCB_incref]
        omega
      · have : ¬ (g = f) := fun e => hfg e.symm
        simp [FCB_incref, hfg, this]

theorem exec_thread_PT (s3 : ProcState) (np : Nat) (call : Option Nat) (argl : Int)
    (args : Option (List Byte)) (q : Nat) :
    ∃ tc pl, (exec_thread s3 np call argl args).PT q =
      { s3.PT q with thread_count := tc, ptcb_list := pl } := by
  unfold exec_thread
  by_cases hc : call = none
  · rw [if_neg (not_not.mpr hc)]
    exact ⟨_, _, rfl⟩
  · rw [if_pos hc]
    show ∃ tc pl, (ProcState.update_ptcb _ _ _).PT q = _
    rw [(update_ptcb_frame _ _ _).1]
    show ∃ tc pl, (if q = np then _ else (if q = np then _ else s3.PT q) : PCB) = _
    by_cases hq : q = np
    · subst hq
      rw [if_pos rfl]
      exact ⟨1, [s3.nptcb], by simp [ProcState.set_pcb]⟩
    · rw [if_neg hq, if_neg hq]
      exact ⟨_, _, rfl⟩

theorem exec_thread_frame (s3 : ProcState) (np : Nat) (call : Option Nat) (argl : Int)
    (args : Option (List Byte)) :
    (exec_thread s3 np call argl args).pcb_freelist = s3.pcb_freelist ∧
      (exec_thread s3 np call argl args).fcb_refcount = s3.fcb_refcount ∧
      (exec_thread s3 np call argl args).process_count = s3.process_count := by
  unfold exec_thread
  by_cases hc : call = none
  · rw [if_neg (not_not.mpr hc)]
    exact ⟨rfl, rfl, rfl⟩
  · rw [if_pos hc]
    obtain ⟨_, h2, h3, h4, _⟩ := update_ptcb_frame
      (spawn_process_thread
        (s3.set_pcb np { s3.PT np with thread_count := 0, ptcb_list := [] }) np).2
      (spawn_process_thread
        (s3.set_pcb np { s3.PT np with thread_count := 0, ptcb_list := [] }) np).1
      (fun t => { t with task := call, argl := argl, args := args })
    exact ⟨h2, h4, h3⟩

theorem get_pid_le_one (np : Nat) : get_pid (some np) ≤ 1 ↔ np ≤ 1 := by
  show (np : Int) ≤ 1 ↔ np ≤ 1
  omega

theorem exec_link_low (F : Nat) (s1 : ProcState) (cp np : Nat) (h : np ≤ 1) :
    exec_link F s1 cp np = s1.set_pcb np { s1.PT np with parent := none } := by
  unfold exec_link
  rw [if_pos ((get_pid_le_one np).2 h)]

theorem incref_all_PT (L : List (Option Nat)) (s : ProcState) :
    (incref_all s L).PT = s.PT := (incref_all_frame L s).2.2.2.2.1

theorem incref_all_freelist (L : List (Option Nat)) (s : ProcState) :
    (incref_all s L).pcb_freelist = s.pcb_freelist := (incref_all_frame L s).2.2.1

theorem incref_all_pcount (L : List (Option Nat)) (s : ProcState) :
    (incref_all s L).process_count = s.process_count := (incref_all_frame L s).2.2.2.1

theorem exec_link_high (F : Nat) (s1 : ProcState) (cp np : Nat) (h : 1 < np) (hne : np ≠ cp) :
    (exec_link F s1 cp np).PT np =
        { s1.PT np with parent := some cp, FIDT := fidt_entries F (s1.PT cp).FIDT } ∧
      (exec_link F s1 cp np).PT cp =
        { s1.PT cp with children_list := np :: (s1.PT cp).children_list } ∧
      (∀ q, q ≠ np → q ≠ cp → (exec_link F s1 cp np).PT q = s1.PT q) ∧
      (∀ f, (exec_link F s1 cp np).fcb_refcount f =
        s1.fcb_refcount f + (fidt_entries F (s1.PT cp).FIDT).count (some f)) ∧
      (exec_link F s1 cp np).pcb_freelist = s1.pcb_freelist ∧
      (exec_link F s1 cp np).process_count = s1.process_count := by
  have hcp : cp ≠ np := fun e => hne e.symm
  unfold exec_link
  rw [if_neg (fun h' => absurd ((get_pid_le_one np).1 h') (by omega))]
  simp only []
  refine ⟨?_, ?_, ?_, ?_, ?_, ?_⟩
  · rw [incref_all_PT]
    simp [ProcState.set_pcb, hne, hcp]
  · rw [incref_all_PT]
    simp [ProcState.set_pcb, hne, hcp]
  · intro q h1 h2
    rw [incref_all_PT]
    simp [ProcState.set_pcb, h1, h2]
  · intro f
    rw [incref_all_count]
    simp [ProcState.set_pcb, hne, hcp]
  · rw [incref_all_freelist]; rfl
  · rw [incref_all_pcount]; rfl

theorem sys_Exec_none (F : Nat) (s : ProcState) (cp : Nat) (call : Option Nat) (argl : Int)
    (args : Option (List Byte)) (h : s.pcb_freelist = none) :
    sys_Exec F s cp call argl args = (NOPROC, s) := by
  simp [sys_Exec, acquire_PCB, h, get_pid]

theorem sys_Exec_some (F : Nat) (s : ProcState) (cp : Nat) (call : Option Nat) (argl : Int)
    (args : Option (List Byte)) (p : Nat) (h : s.pcb_freelist = some p) :
    sys_Exec F s cp call argl args =
      ((p : Int), exec_thread (exec_args (exec_link F (acquire_PCB s).2 cp p) p call argl args)
        p call argl args) := by
  simp [sys_Exec, acquire_PCB, h, get_pid]

theorem acquire_PCB_some (s : ProcState) (p : Nat) (h : s.pcb_freelist = some p) :
    (acquire_PCB s).2.PT p = { s.PT p with pstate := .ALIVE } ∧
      (∀ q, q ≠ p → (acquire_PCB s).2.PT q = s.PT q) ∧
      (acquire_PCB s).2.pcb_freelist = (s.PT p).parent ∧
      (acquire_PCB s).2.fcb_refcount = s.fcb_refcount := by
  have e : acquire_PCB s = (some p,
      { s.set_pcb p { s.PT p with pstate := .ALIVE } with
        pcb_freelist := (s.PT p).parent
        process_count := (s.process_count + 1) % UINT_MOD }) := by
    simp [acquire_PCB, h]
  rw [e]
  refine ⟨?_, fun q hq => ?_, rfl, rfl⟩
  · show (if p = p then _ else _ : PCB) = _
    rw [if_pos rfl]
  · show (if q = p then _ else _ : PCB) = _
    rw [if_neg hq]

theorem sys_Exec_links (F : Nat) (s : ProcState) (cp : Nat) (call : Option Nat) (argl : Int)
    (args : Option (List Byte)) (p : Nat) (h : s.pcb_freelist = some p)
    (hne' : 1 < p → p ≠ cp) :
    (∀ q, ((sys_Exec F s cp call argl args).2.PT q).pstate =
        if q = p then .ALIVE else (s.PT q).pstate) ∧
    (∀ q, ((sys_Exec F s cp call argl args).2.PT q).parent =
        if q = p then (if p ≤ 1 then none else some cp) else (s.PT q).parent) ∧
    (∀ q, ((sys_Exec F s cp call argl args).2.PT q).children_list =
        if q = cp ∧ 1 < p then p :: (s.PT q).children_list else (s.PT q).children_list) ∧
    (∀ q, ((sys_Exec F s cp call argl args).2.PT q).exited_list = (s.PT q).exited_list) ∧
    (sys_Exec F s cp call argl args).2.pcb_freelist = (s.PT p).parent ∧
    ((sys_Exec F s cp call argl args).2.PT p).argl = argl ∧
    ((sys_Exec F s cp call argl args).2.PT p).args = args.map (fun a => a.take argl.toNat) ∧
    (1 < p → ((sys_Exec F s cp call argl args).2.PT p).FIDT = fidt_entries F (s.PT cp).FIDT ∧
      ∀ f, (sys_Exec F s cp call argl args).2.fcb_refcount f =
        s.fcb_refcount f + (fidt_entries F (s.PT cp).FIDT).count (some f)) := by
  obtain ⟨a1, a2, a3, a4⟩ := acquire_PCB_some s p h
  rw [sys_Exec_some F s cp call argl args p h]
  have hT := exec_thread_PT (exec_args (exec_link F (acquire_PCB s).2 cp p) p call argl args)
    p call argl args
  obtain ⟨t1, t2, _⟩ := exec_thread_frame
    (exec_args (exec_link F (acquire_PCB s).2 cp p) p call argl args) p call argl args
  have hA : ∀ q, (exec_args (exec_link F (acquire_PCB s).2 cp p) p call argl args).PT q =
      if q = p then { (exec_link F (acquire_PCB s).2 cp p).PT p with
        main_task := call, argl := argl, args := args.map (fun a => a.take argl.toNat) }
      else (exec_link F (acquire_PCB s).2 cp p).PT q := fun q => rfl
  by_cases hp : p ≤ 1
  · have hL := exec_link_low F (acquire_PCB s).2 cp p hp
    have hp' : ¬ 1 < p := by omega
    refine ⟨fun q => ?_, fun q => ?_, fun q => ?_, fun q => ?_, ?_, ?_, ?_, fun h1 => absurd h1 hp'⟩
    · obtain ⟨tc, pl, e⟩ := hT q
      rw [e, hA q, hL]
      by_cases hq : q = p
      · subst hq; simp [set_pcb_same, a1]
      · simp [hq, set_pcb_other, a2 q hq]
    · obtain ⟨tc, pl, e⟩ := hT q
      rw [e, hA q, hL]
      by_cases hq : q = p
      · subst hq; simp [set_pcb_same, hp]
      · simp [hq, set_pcb_other, a2 q hq]
    · obtain ⟨tc, pl, e⟩ := hT q
      rw [e, hA q, hL]
      by_cases hq : q = p
      · subst hq; simp [set_pcb_same, a1, hp']
      · simp [hq, set_pcb_other, a2 q hq, hp']
    · obtain ⟨tc, pl, e⟩ := hT q
      rw [e, hA q, hL]
      by_cases hq : q = p
      · subst hq; simp [set_pcb_same, a1]
      · simp [hq, set_pcb_other, a2 q hq]
    · show (exec_thread _ p call argl args).pcb_freelist = _
      rw [t1]
      show (exec_link F (acquire_PCB s).2 cp p).pcb_freelist = _
      rw [hL]
      exact a3
    · obtain ⟨tc, pl, e⟩ := hT p
      rw [e, hA p]
      simp
    · obtain ⟨tc, pl, e⟩ := hT p
      rw [e, hA p]
      simp
  · have hp' : 1 < p := by omega
    have hne := hne' hp'
    have hcp : cp ≠ p := fun e => hne e.symm
    obtain ⟨l1, l2, l3, l4, l5, _⟩ := exec_link_high F (acquire_PCB s).2 cp p hp' hne
    refine ⟨fun q => ?_, fun q => ?_, fun q => ?_, fun q => ?_, ?_, ?_, ?_, fun _ => ⟨?_, ?_⟩⟩
    · obtain ⟨tc, pl, e⟩ := hT q
      rw [e, hA q]
      by_cases hq : q = p
      · subst hq; simp [l1, a1]
      · by_cases hq2 : q = cp
        · subst hq2; simp [hq, l2, a2 q hq]
        · simp [hq, l3 q hq hq2, a2 q hq]
    · obtain ⟨tc, pl, e⟩ := hT q
      rw [e, hA q]
      by_cases hq : q = p
      · subst hq; simp [l1, hp]
      · by_cases hq2 : q = cp
        · subst hq2; simp [hq, l2, a2 q hq]
        · simp [hq, l3 q hq hq2, a2 q hq]
    · obtain ⟨tc, pl, e⟩ := hT q
      rw [e, hA q]
      by_cases hq : q = p
      · subst hq; simp [l1, a1, hne]
      · by_cases hq2 : q = cp
        · subst hq2; simp [hq, l2, a2 q hq, hp']
        · simp [hq, hq2, l3 q hq hq2, a2 q hq]
    · obtain ⟨tc, pl, e⟩ := hT q
      rw [e, hA q]
      by_cases hq : q = p
      · subst hq; simp [l1, a1]
      · by_cases hq2 : q = cp
        · subst hq2; simp [hq, l2, a2 q hq]
        · simp [hq, l3 q hq hq2, a2 q hq]
    · show (exec_thread _ p call argl args).pcb_freelist = _
      rw [t1]
      show (exec_link F (acquire_PCB s).2 cp p).pcb_freelist = _
      rw [l5]
      exact a3
    · obtain ⟨tc, pl, e⟩ := hT p
      rw [e, hA p]
      simp
    · obtain ⟨tc, pl, e⟩ := hT p
      rw [e, hA p]
      simp
    · obtain ⟨tc, pl, e⟩ := hT p
      rw [e, hA p]
      simp [l1, a2 cp hcp]
    · intro f
      show (exec_thread _ p call argl args).fcb_refcount f = _
      rw [t2]
      show (exec_link F (acquire_PCB s).2 cp p).fcb_refcount f = _
      rw [l4 f, a4, a2 cp hcp]

theorem build_freelist_PT (L : List Nat) :
    ∀ (s : ProcState) (q : Nat), ∃ par, (build_freelist s L).PT q = { s.PT q with parent := par } := by
  induction L with
  | nil => intro s q; exact ⟨_, rfl⟩
  | cons m rest ih =>
    intro s q
    obtain ⟨par, e⟩ := ih
      { s.set_pcb m { s.PT m with parent := s.pcb_freelist } with pcb_freelist := some m } q
    show ∃ par, (build_freelist _ rest).PT q = _
    rw [e]
    by_cases hq : q = m
    · subst hq
      exact ⟨par, by simp [ProcState.set_pcb]⟩
    · exact ⟨par, by simp [ProcState.set_pcb, hq]⟩

theorem build_freelist_chain (N : Nat) (m : Nat) :
    ∀ s : ProcState, m ≤ N →
      s.pcb_freelist = (if m < N then some m else none) →
      (∀ p, m ≤ p → p < N → (s.PT p).parent = if p + 1 < N then some (p + 1) else none) →
      (build_freelist s (List.range m).reverse).pcb_freelist =
          (if 0 < N then some 0 else none) ∧
        ∀ p, p < N → ((build_freelist s (List.range m).reverse).PT p).parent =
          if p + 1 < N then some (p + 1) else none := by
  induction m with
  | zero =>
    intro s _ h1 h2
    exact ⟨h1, fun p hp => h2 p (Nat.zero_le p) hp⟩
  | succ m ih =>
    intro s hm h1 h2
    rw [List.range_succ, List.reverse_append, List.reverse_singleton, List.singleton_append]
    show (build_freelist _ (List.range m).reverse).pcb_freelist = _ ∧ _
    refine ih _ (by omega) ?_ ?_
    · show some m = _
      rw [if_pos (by omega)]
    · intro p hp1 hp2
      by_cases hpm : p = m
      · subst hpm
        show ((if p = p then _ else _ : PCB)).parent = _
        rw [if_pos rfl]
        exact h1
      · show ((if p = m then _ else _ : PCB)).parent = _
        rw [if_neg hpm]
        exact h2 p (by omega) hp2

theorem init_table_spec (N F : Nat) :
    (init_table N F).pcb_freelist = (if 0 < N then some 0 else none) ∧
      (∀ p, p < N → ((init_table N F).PT p).parent = if p + 1 < N then some (p + 1) else none) ∧
      (∀ q, ((init_table N F).PT q).pstate = .FREE ∧ ((init_table N F).PT q).children_list = [] ∧
        ((init_table N F).PT q).exited_list = []) := by
  unfold init_table
  obtain ⟨h1, h2⟩ := build_freelist_chain N N
    { PT := fun _ => initialize_PCB F PCB.zero, pcb_freelist := none,
      process_count := 0, ptcbs := fun _ => none, nptcb := 0, fcb_refcount := fun _ => 0,
      log := [] } le_rfl (by simp) (fun p h1 h2 => by omega)
  refine ⟨h1, h2, fun q => ?_⟩
  obtain ⟨par, e⟩ := build_freelist_PT (List.range N).reverse
    { PT := fun _ => initialize_PCB F PCB.zero, pcb_freelist := none,
      process_count := 0, ptcbs := fun _ => none, nptcb := 0, fcb_refcount := fun _ => 0,
      log := [] } q
  rw [e]
  exact ⟨rfl, rfl, rfl⟩

theorem exec_seq_pids (N F : Nat) (calls : List (Nat × Option Nat × Int × Option (List Byte))) :
    ∀ (k : Nat) (s : ProcState),
      s.pcb_freelist = (if k < N then some k else none) →
      (∀ p, k ≤ p → p < N → (s.PT p).parent = if p + 1 < N then some (p + 1) else none) →
      k + calls.length ≤ N →
      (∀ i c, calls.get? i = some c → 1 < k + i → c.1 ≠ k + i) →
      (exec_seq F calls s).1 = (List.range' k calls.length).map (fun i => (i : Int)) := by
  induction calls with
  | nil => intro k s _ _ _ _; rfl
  | cons c rest ih =>
    intro k s h1 h2 h3 h4
    have hk : k < N := by
      rw [List.length_cons] at h3; omega
    rw [if_pos hk] at h1
    have hne : 1 < k → k ≠ c.1 := fun h => (h4 0 c rfl (by omega)).symm
    obtain ⟨_, l2, _, _, l5, _⟩ := sys_Exec_links F s c.1 c.2.1 c.2.2.1 c.2.2.2 k h1 hne
    have hv : (sys_Exec F s c.1 c.2.1 c.2.2.1 c.2.2.2).1 = (k : Int) := by
      rw [sys_Exec_some F s c.1 c.2.1 c.2.2.1 c.2.2.2 k h1]
    have hrec := ih (k + 1) (sys_Exec F s c.1 c.2.1 c.2.2.1 c.2.2.2).2
      (by rw [l5]; exact h2 k le_rfl hk)
      (fun p hp1 hp2 => by
        rw [l2 p, if_neg (by omega)]
        exact h2 p (by omega) hp2)
      (by rw [List.length_cons] at h3; omega)
      (fun i c' hc' hi => by
        have := h4 (i + 1) c' hc' (by omega)
        omega)
    show (sys_Exec F s c.1 c.2.1 c.2.2.1 c.2.2.2).1 ::
      (exec_seq F rest (sys_Exec F s c.1 c.2.1 c.2.2.1 c.2.2.2).2).1 = _
    rw [hv, hrec]
    rfl

theorem fidt_entries_getD (F : Nat) (T : List (Option Nat)) (i : Nat) (h : i < F) :
    (fidt_entries F T).getD i none = T.getD i none := by
  unfold fidt_entries
  simp [List.getD_eq_getElem?_getD, List.getElem?_map, List.getElem?_range h]

/-- Where the argument copy is defined, the buffer of the new process holds exactly `argl`
bytes. -/
theorem args_copy_length (argl : Int) (args x : Option (List Byte))
    (h : args_defined argl args) (hx : x = args.map (fun a => a.take argl.toNat)) :
    x.map (fun b => (b.length : Int)) = args.map (fun _ => argl) := by
  subst hx
  cases args with
  | none => rfl
  | some a =>
    obtain ⟨h0, h1⟩ := h
    simp only [Option.map_some', List.length_take, Option.some.injEq]
    omega

/-- Claim C20. In a state whose free list is empty exactly when no slot below `MAX_PROC` is
`FREE` and whose free-list head, if any, is a `FREE` slot, and for arguments with a defined
copy (`args` null, or at least `argl >= 0` bytes behind `args`): `sys_Exec` returns
`NOPROC` and changes nothing when no slot is `FREE`; otherwise it returns the pid of a slot
that was `FREE` and is now `ALIVE`, whose `argl` is the given one and whose `args` is a copy
of the `argl` given bytes, exactly `argl` of them (absent for a null pointer). For a pid
above 1, called by a process `cp`, the new PCB has parent `cp`, is in the children list of
`cp`, its file table equals that of `cp` entry for entry, and every FCB has gained one
reference per entry that holds it. From the table as `initialize_processes` builds it, with
no slot released, successive calls with defined argument copies return the pids 0, 1, 2,
... in order; the first of them is the call for the idle process inside
`initialize_processes`. -/
theorem sys_Exec_spec (N F : Nat) (s : ProcState) (cp : Nat) (call : Option Nat) (argl : Int)
    (args : Option (List Byte))
    (hhead : ∀ p, s.pcb_freelist = some p → (s.PT p).pstate = .FREE)
    (hfull : s.pcb_freelist = none ↔ ∀ p, p < N → (s.PT p).pstate ≠ .FREE)
    (hargs : args_defined argl args) :
    ((∀ p, p < N → (s.PT p).pstate ≠ .FREE) → sys_Exec F s cp call argl args = (NOPROC, s)) ∧
    ((∃ p, p < N ∧ (s.PT p).pstate = .FREE) →
      ∃ pid : Nat, (sys_Exec F s cp call argl args).1 = pid ∧
        (s.PT pid).pstate = .FREE ∧
        ((sys_Exec F s cp call argl args).2.PT pid).pstate = .ALIVE ∧
        ((sys_Exec F s cp call argl args).2.PT pid).argl = argl ∧
        ((sys_Exec F s cp call argl args).2.PT pid).args =
          args.map (fun a => a.take argl.toNat) ∧
        (((sys_Exec F s cp call argl args).2.PT pid).args.map (fun b => (b.length : Int)) =
          args.map (fun _ => argl)) ∧
        (1 < pid → (s.PT cp).pstate ≠ .FREE →
          ((sys_Exec F s cp call argl args).2.PT pid).parent = some cp ∧
          pid ∈ ((sys_Exec F s cp call argl args).2.PT cp).children_list ∧
          (∀ i, i < F → ((sys_Exec F s cp call argl args).2.PT pid).FIDT.getD i none =
            (s.PT cp).FIDT.getD i none) ∧
          ∀ f, (sys_Exec F s cp call argl args).2.fcb_refcount f =
            s.fcb_refcount f + (fidt_entries F (s.PT cp).FIDT).count (some f))) ∧
    (∀ calls : List (Nat × Option Nat × Int × Option (List Byte)), calls.length ≤ N →
      (∀ i c, calls.get? i = some c → 1 < i → c.1 ≠ i) →
      (∀ c, c ∈ calls → args_defined c.2.2.1 c.2.2.2) →
      (exec_seq F calls (init_table N F)).1 = (List.range calls.length).map (fun i => (i : Int))) ∧
    (0 < N → (initialize_processes N F).1 = 0) := by
  refine ⟨fun h => sys_Exec_none F s cp call argl args (hfull.2 h), ?_, ?_, ?_⟩
  · rintro ⟨p0, hp0, hfree⟩
    cases hfl : s.pcb_freelist with
    | none => exact absurd hfree (hfull.1 hfl p0 hp0)
    | some pid =>
      have hF := hhead pid hfl
      by_cases hcase : (s.PT cp).pstate ≠ .FREE
      · have hne : 1 < pid → pid ≠ cp := fun _ e => hcase (e ▸ hF)
        obtain ⟨l1, l2, l3, _, _, l6, l7, l8⟩ := sys_Exec_links F s cp call argl args pid hfl hne
        refine ⟨pid, ?_, hF, ?_, l6, l7, args_copy_length argl args _ hargs l7,
          fun h1 _ => ⟨?_, ?_, fun i hi => ?_, (l8 h1).2⟩⟩
        · rw [sys_Exec_some F s cp call argl args pid hfl]
        · rw [l1 pid, if_pos rfl]
        · rw [l2 pid, if_pos rfl, if_neg (by omega)]
        · rw [l3 cp, if_pos ⟨rfl, h1⟩]
          exact List.mem_cons_self _ _
        · rw [(l8 h1).1]
          exact fidt_entries_getD F _ i hi
      · have hne : 1 < pid → pid ≠ pid + 1 := fun _ => by omega
        obtain ⟨l1, _, _, _, _, l6, l7, _⟩ :=
          sys_Exec_links F s (pid + 1) call argl args pid hfl hne
        have hsame : ∀ c1 c2, pid ≤ 1 →
            sys_Exec F s c1 call argl args = sys_Exec F s c2 call argl args := by
          intro c1 c2 hle
          rw [sys_Exec_some F s c1 call argl args pid hfl,
            sys_Exec_some F s c2 call argl args pid hfl, exec_link_low F _ c1 pid hle,
            exec_link_low F _ c2 pid hle]
        by_cases hle : pid ≤ 1
        · rw [hsame cp (pid + 1) hle]
          refine ⟨pid, ?_, hF, ?_, l6, l7, args_copy_length argl args _ hargs l7,
            fun h1 => absurd h1 (by omega)⟩
          · rw [sys_Exec_some F s (pid + 1) call argl args pid hfl]
          · rw [l1 pid, if_pos rfl]
        · by_cases hpc : pid = cp
          · subst hpc
            -- the caller is the slot handed out: only the unconditional facts are claimed
            have e := sys_Exec_some F s pid call argl args pid hfl
            have hT := exec_thread_PT
              (exec_args (exec_link F (acquire_PCB s).2 pid pid) pid call argl args)
              pid call argl args pid
            obtain ⟨tc, pl, e2⟩ := hT
            have hA : (exec_args (exec_link F (acquire_PCB s).2 pid pid) pid call argl args).PT
                pid = { (exec_link F (acquire_PCB s).2 pid pid).PT pid with
                  main_task := call, argl := argl,
                  args := args.map (fun a => a.take argl.toNat) } := by
              show (if pid = pid then _ else _ : PCB) = _
              rw [if_pos rfl]
            have hL : ((exec_link F (acquire_PCB s).2 pid pid).PT pid).pstate = .ALIVE := by
              unfold exec_link
              rw [if_neg (fun h' => hle ((get_pid_le_one pid).1 h'))]
              simp only []
              rw [incref_all_PT]
              simp [ProcState.set_pcb, (acquire_PCB_some s pid hfl).1]
            rw [e]
            refine ⟨pid, rfl, hF, ?_, ?_, ?_, ?_, fun _ h2 => absurd hF h2⟩
            · rw [e2, hA]; exact hL
            · rw [e2, hA]
            · rw [e2, hA]
            · exact args_copy_length argl args _ hargs (by rw [e2, hA])
          · obtain ⟨l1, _, _, _, _, l6, l7, _⟩ :=
              sys_Exec_links F s cp call argl args pid hfl (fun _ => hpc)
            refine ⟨pid, ?_, hF, ?_, l6, l7, args_copy_length argl args _ hargs l7,
              fun _ h2 => absurd h2 hcase⟩
            · rw [sys_Exec_some F s cp call argl args pid hfl]
            · rw [l1 pid, if_pos rfl]
  · intro calls hlen hcallers _
    obtain ⟨i1, i2, _⟩ := init_table_spec N F
    rw [List.range_eq_range']
    exact exec_seq_pids N F calls 0 (init_table N F) i1 (fun p _ hp => i2 p hp)
      (by omega) (fun i c hc hi => by
        have := hcallers i c hc (by omega)
        omega)
  · intro hN
    obtain ⟨i1, _, _⟩ := init_table_spec N F
    rw [if_pos hN] at i1
    unfold initialize_processes
    rw [sys_Exec_some F _ 0 none 0 none 0 i1]
    rfl

/-- C20 on the worked example: init executes a child with two argument bytes taken from a
buffer of three; the child gets a slot that was free and a copy of the two bytes. -/
theorem sys_Exec_spec_witness :
    ∃ pid : Nat, (sys_Exec 2 demo_init 1 (some 3) 2 (some [7, 8, 9])).1 = pid ∧
      (demo_init.PT pid).pstate = .FREE ∧
      ((sys_Exec 2 demo_init 1 (some 3) 2 (some [7, 8, 9])).2.PT pid).args = some [7, 8] := by
  have hfl : demo_init.pcb_freelist = some 2 := by decide
  have hfree : (demo_init.PT 2).pstate = .FREE := by decide
  obtain ⟨pid, h1, h2, _, _, h5, _⟩ :=
    (sys_Exec_spec 4 2 demo_init 1 (some 3) 2 (some [7, 8, 9])
      (fun p hp => by
        rw [hfl] at hp
        cases hp
        exact hfree)
      ⟨fun h => (by rw [hfl] at h; cases h),
        fun h => absurd hfree (h 2 (by decide))⟩ (by decide)).2.1 ⟨2, by decide, hfree⟩
  exact ⟨pid, h1, h2, h5⟩

theorem reparent_one_links (i cp c : Nat) (rest : List Nat) (hne : i ≠ cp) (s : ProcState) :
    (∀ q, ((reparent_one (some i) cp c rest s).PT q).pstate = (s.PT q).pstate) ∧
    (∀ q, ((reparent_one (some i) cp c rest s).PT q).parent =
      if q = c then some i else (s.PT q).parent) ∧
    (∀ q, ((reparent_one (some i) cp c rest s).PT q).children_list =
      if q = i then c :: (s.PT i).children_list
      else if q = cp then rest else (s.PT q).children_list) ∧
    (∀ q, ((reparent_one (some i) cp c rest s).PT q).exited_list = (s.PT q).exited_list) ∧
    (∀ q, ((reparent_one (some i) cp c rest s).PT q).exitval = (s.PT q).exitval) := by
  have hne' : cp ≠ i := fun e => hne e.symm
  refine ⟨fun q => ?_, fun q => ?_, fun q => ?_, fun q => ?_, fun q => ?_⟩
  · by_cases h1 : q = i <;> by_cases h2 : q = cp <;> by_cases h3 : q = c <;>
      simp [reparent_one, ProcState.set_pcb, h1, h2, h3] <;> subst_vars <;> simp_all
  · by_cases h1 : q = i <;> by_cases h2 : q = cp <;> by_cases h3 : q = c <;>
      simp [reparent_one, ProcState.set_pcb, h1, h2, h3] <;> subst_vars <;> simp_all
  · by_cases h1 : q = i <;> by_cases h2 : q = cp <;> by_cases h3 : q = c <;>
      simp [reparent_one, ProcState.set_pcb, h1, h2, h3] <;> subst_vars <;> simp_all
  · by_cases h1 : q = i <;> by_cases h2 : q = cp <;> by_cases h3 : q = c <;>
      simp [reparent_one, ProcState.set_pcb, h1, h2, h3] <;> subst_vars <;> simp_all
  · by_cases h1 : q = i <;> by_cases h2 : q = cp <;> by_cases h3 : q = c <;>
      simp [reparent_one, ProcState.set_pcb, h1, h2, h3] <;> subst_vars <;> simp_all

theorem reparent_children_links (i cp : Nat) (hne : i ≠ cp) (L : List Nat) :
    ∀ s : ProcState,
      (∀ q, ((reparent_children (some i) cp L s).PT q).pstate = (s.PT q).pstate) ∧
      (∀ q, ((reparent_children (some i) cp L s).PT q).parent =
        if q ∈ L then some i else (s.PT q).parent) ∧
      (∀ q, ((reparent_children (some i) cp L s).PT q).children_list =
        if q = i then L.reverse ++ (s.PT i).children_list
        else if q = cp then (if L = [] then (s.PT cp).children_list else [])
        else (s.PT q).children_list) ∧
      (∀ q, ((reparent_children (some i) cp L s).PT q).exited_list = (s.PT q).exited_list) ∧
      (∀ q, ((reparent_children (some i) cp L s).PT q).exitval = (s.PT q).exitval) := by
  have hne' : cp ≠ i := fun e => hne e.symm
  induction L with
  | nil =>
    intro s
    refine ⟨fun q => rfl, fun q => by simp [reparent_children], fun q => ?_, fun q => rfl,
      fun q => rfl⟩
    by_cases h1 : q = i
    · subst h1; simp [reparent_children]
    · by_cases h2 : q = cp
      · subst h2; simp [reparent_children, h1]
      · simp [reparent_children, h1, h2]
  | cons c rest ih =>
    intro s
    obtain ⟨i1, i2, i3, i4, i5⟩ := ih (reparent_one (some i) cp c rest s)
    obtain ⟨o1, o2, o3, o4, o5⟩ := reparent_one_links i cp c rest hne s
    refine ⟨fun q => ?_, fun q => ?_, fun q => ?_, fun q => ?_, fun q => ?_⟩
    · show ((reparent_children (some i) cp rest _).PT q).pstate = _
      rw [i1 q, o1 q]
    · show ((reparent_children (some i) cp rest _).PT q).parent = _
      rw [i2 q, o2 q]
      by_cases hq : q ∈ rest
      · simp [hq]
      · by_cases hqc : q = c
        · simp [hqc]
        · simp [hq, hqc]
    · show ((reparent_children (some i) cp rest _).PT q).children_list = _
      rw [i3 q, o3 i, o3 cp]
      by_cases h1 : q = i
      · simp [h1]
      · by_cases h2 : q = cp
        · simp only [h1, h2, if_false, if_true, hne', reduceCtorEq]
          split_ifs with h3
          · exact h3
          · rfl
        · simp only [h1, h2, if_false]
          rw [o3 q, if_neg h1, if_neg h2]
    · show ((reparent_children (some i) cp rest _).PT q).exited_list = _
      rw [i4 q, o4 q]
    · show ((reparent_children (some i) cp rest _).PT q).exitval = _
      rw [i5 q, o5 q]

theorem free_ptcbs_PT (L : List Nat) (s : ProcState) : (free_ptcbs s L).PT = s.PT :=
  (free_ptcbs_frame L s).2.2.2.2.1

theorem decref_all_PT (L : List (Option Nat)) (s : ProcState) : (decref_all s L).PT = s.PT :=
  (decref_all_frame L s).2.2.2.2.1

theorem CleanUp_links (F : Nat) (s : ProcState) (cp : Nat) :
    (∀ q, ((CleanUp F s cp).PT q).pstate = if q = cp then .ZOMBIE else (s.PT q).pstate) ∧
    (∀ q, ((CleanUp F s cp).PT q).parent = (s.PT q).parent) ∧
    (∀ q, ((CleanUp F s cp).PT q).children_list = (s.PT q).children_list) ∧
    (∀ q, ((CleanUp F s cp).PT q).exited_list = (s.PT q).exited_list) ∧
    (∀ q, ((CleanUp F s cp).PT q).exitval = (s.PT q).exitval) := by
  refine ⟨fun q => ?_, fun q => ?_, fun q => ?_, fun q => ?_, fun q => ?_⟩ <;>
  · unfold CleanUp
    by_cases hq : q = cp
    · subst hq
      by_cases ha : (s.PT q).args = none <;>
        simp [ProcState.set_pcb, ProcState.emit, free_ptcbs_PT, decref_all_PT, ha]
    · by_cases ha : (s.PT cp).args = none <;>
        simp [ProcState.set_pcb, ProcState.emit, free_ptcbs_PT, decref_all_PT, ha, hq]

theorem splice_exited_links (i cp : Nat) (hne : i ≠ cp) (s : ProcState) :
    (∀ q, ((splice_exited (some i) cp s).PT q).pstate = (s.PT q).pstate) ∧
    (∀ q, ((splice_exited (some i) cp s).PT q).parent = (s.PT q).parent) ∧
    (∀ q, ((splice_exited (some i) cp s).PT q).children_list = (s.PT q).children_list) ∧
    (∀ q, ((splice_exited (some i) cp s).PT q).exited_list =
      if q = i then (s.PT i).exited_list ++ (s.PT cp).exited_list
      else if q = cp then [] else (s.PT q).exited_list) ∧
    (∀ q, ((splice_exited (some i) cp s).PT q).exitval = (s.PT q).exitval) := by
  have hne' : cp ≠ i := fun e => hne e.symm
  refine ⟨fun q => ?_, fun q => ?_, fun q => ?_, fun q => ?_, fun q => ?_⟩ <;>
  · unfold splice_exited
    by_cases he : (s.PT cp).exited_list = [] <;> by_cases h1 : q = i <;> by_cases h2 : q = cp <;>
      simp [ProcState.set_pcb, ProcState.emit, he, h1, h2, hne, hne']

theorem enter_exited_links (cp : Nat) (s : ProcState) :
    (∀ q, ((enter_exited cp s).PT q).pstate = (s.PT q).pstate) ∧
    (∀ q, ((enter_exited cp s).PT q).parent = (s.PT q).parent) ∧
    (∀ q, ((enter_exited cp s).PT q).children_list = (s.PT q).children_list) ∧
    (∀ q, ((enter_exited cp s).PT q).exited_list =
      if (s.PT cp).parent = some q then cp :: (s.PT q).exited_list else (s.PT q).exited_list) ∧
    (∀ q, ((enter_exited cp s).PT q).exitval = (s.PT q).exitval) := by
  refine ⟨fun q => ?_, fun q => ?_, fun q => ?_, fun q => ?_, fun q => ?_⟩ <;>
  · unfold enter_exited
    cases hp : (s.PT cp).parent with
    | none => simp
    | some par =>
      by_cases h1 : q = par
      · subst h1; simp [ProcState.set_pcb, ProcState.emit]
      · have : ¬ (par = q) := fun e => h1 e.symm
        simp [ProcState.set_pcb, ProcState.emit, h1, this]

theorem get_pid_ne_one (cp : Nat) : get_pid (some cp) ≠ 1 ↔ cp ≠ 1 := by
  show (cp : Int) ≠ 1 ↔ cp ≠ 1
  omega

theorem last_thread_init (F : Nat) (s : ProcState) :
    last_thread F s 1 = CleanUp F s 1 := by
  unfold last_thread
  rw [if_neg (fun h => (get_pid_ne_one 1).1 h rfl)]

theorem last_thread_orphans (F : Nat) (s : ProcState) (cp : Nat) (hcp : cp ≠ 1)
    (hinit : (s.PT 1).pstate ≠ .FREE) :
    last_thread F s cp = CleanUp F (enter_exited cp (splice_exited (some 1) cp
      (reparent_children (some 1) cp (s.PT cp).children_list s))) cp := by
  unfold last_thread orphan_children
  rw [if_pos ((get_pid_ne_one cp).2 hcp)]
  simp only [get_pcb, if_neg hinit]

theorem last_thread_links (F : Nat) (s : ProcState) (cp : Nat) (hcp : cp ≠ 1)
    (hinit : (s.PT 1).pstate ≠ .FREE) :
    (∀ q, ((last_thread F s cp).PT q).pstate = if q = cp then .ZOMBIE else (s.PT q).pstate) ∧
    (∀ q, ((last_thread F s cp).PT q).parent =
      if q ∈ (s.PT cp).children_list then some 1 else (s.PT q).parent) ∧
    (∀ q, ((last_thread F s cp).PT q).children_list =
      if q = 1 then (s.PT cp).children_list.reverse ++ (s.PT 1).children_list
      else if q = cp then [] else (s.PT q).children_list) ∧
    (∀ q, ((last_thread F s cp).PT q).exited_list =
      if ((last_thread F s cp).PT cp).parent = some q then
        cp :: (if q = 1 then (s.PT 1).exited_list ++ (s.PT cp).exited_list
          else if q = cp then [] else (s.PT q).exited_list)
      else (if q = 1 then (s.PT 1).exited_list ++ (s.PT cp).exited_list
          else if q = cp then [] else (s.PT q).exited_list)) ∧
    (∀ q, ((last_thread F s cp).PT q).exitval = (s.PT q).exitval) := by
  have h1cp : (1 : Nat) ≠ cp := fun e => hcp e.symm
  obtain ⟨a1, a2, a3, a4, a5⟩ :=
    reparent_children_links 1 cp h1cp (s.PT cp).children_list s
  obtain ⟨b1, b2, b3, b4, b5⟩ := splice_exited_links 1 cp h1cp
    (reparent_children (some 1) cp (s.PT cp).children_list s)
  obtain ⟨c1, c2, c3, c4, c5⟩ := enter_exited_links cp (splice_exited (some 1) cp
    (reparent_children (some 1) cp (s.PT cp).children_list s))
  obtain ⟨d1, d2, d3, d4, d5⟩ := CleanUp_links F (enter_exited cp (splice_exited (some 1) cp
    (reparent_children (some 1) cp (s.PT cp).children_list s))) cp
  rw [last_thread_orphans F s cp hcp hinit]
  refine ⟨fun q => ?_, fun q => ?_, fun q => ?_, fun q => ?_, fun q => ?_⟩
  · rw [d1 q, c1 q, b1 q, a1 q]
  · rw [d2 q, c2 q, b2 q, a2 q]
  · rw [d3 q, c3 q, b3 q, a3 q]
    by_cases h1 : q = 1
    · rw [if_pos h1, if_pos h1]
    · rw [if_neg h1, if_neg h1]
      by_cases h2 : q = cp
      · rw [if_pos h2, if_pos h2]
        by_cases h3 : (s.PT cp).children_list = []
        · rw [if_pos h3, h3]
        · rw [if_neg h3]
      · rw [if_neg h2, if_neg h2]
  · rw [d4 q, c4 q, b2 cp, d2 cp, c2 cp, b2 cp, b4 q, a4 1, a4 cp, a4 q]
  · rw [d5 q, c5 q, b5 q, a5 q]

theorem leave_links (s : ProcState) (cp self : Nat) (v : Int) (q : Nat) :
    ((leave_process (mark_exited s self v) cp self).PT q).pstate = (s.PT q).pstate ∧
    ((leave_process (mark_exited s self v) cp self).PT q).parent = (s.PT q).parent ∧
    ((leave_process (mark_exited s self v) cp self).PT q).children_list =
      (s.PT q).children_list ∧
    ((leave_process (mark_exited s self v) cp self).PT q).exited_list =
      (s.PT q).exited_list ∧
    ((leave_process (mark_exited s self v) cp self).PT q).exitval = (s.PT q).exitval ∧
    (leave_process (mark_exited s self v) cp self).pcb_freelist = s.pcb_freelist := by
  have hpt : (mark_exited s self v).PT = s.PT := (update_ptcb_frame s self _).1
  have hfl : (mark_exited s self v).pcb_freelist = s.pcb_freelist :=
    (update_ptcb_frame s self _).2.1
  unfold leave_process
  by_cases hq : q = cp
  · subst hq
    simp [ProcState.set_pcb, ProcState.emit, hpt, hfl]
  · simp [ProcState.set_pcb, ProcState.emit, hpt, hfl, hq]

theorem sys_ThreadExit_last (F : Nat) (s : ProcState) (cp self : Nat) (v : Int)
    (h : (s.PT cp).thread_count = 1) :
    sys_ThreadExit F s cp self v =
      (last_thread F (leave_process (mark_exited s self v) cp self) cp).emit
        (.sleep_exited self) := by
  have hpt : (mark_exited s self v).PT = s.PT := (update_ptcb_frame s self _).1
  have hc : ((leave_process (mark_exited s self v) cp self).PT cp).thread_count = 0 := by
    show ((if cp = cp then _ else _ : PCB)).thread_count = 0
    rw [if_pos rfl, hpt]
    show (s.PT cp).thread_count - 1 = 0
    omega
  unfold sys_ThreadExit
  simp only [if_pos hc]

theorem sys_ThreadExit_links (F : Nat) (s : ProcState) (cp self : Nat) (v : Int) (hcp : cp ≠ 1)
    (hinit : (s.PT 1).pstate ≠ .FREE) (h : (s.PT cp).thread_count = 1) :
    (∀ q, ((sys_ThreadExit F s cp self v).PT q).pstate =
      if q = cp then .ZOMBIE else (s.PT q).pstate) ∧
    (∀ q, ((sys_ThreadExit F s cp self v).PT q).parent =
      if q ∈ (s.PT cp).children_list then some 1 else (s.PT q).parent) ∧
    (∀ q, ((sys_ThreadExit F s cp self v).PT q).children_list =
      if q = 1 then (s.PT cp).children_list.reverse ++ (s.PT 1).children_list
      else if q = cp then [] else (s.PT q).children_list) ∧
    (∀ q, ((sys_ThreadExit F s cp self v).PT q).exited_list =
      if ((sys_ThreadExit F s cp self v).PT cp).parent = some q then
        cp :: (if q = 1 then (s.PT 1).exited_list ++ (s.PT cp).exited_list
          else if q = cp then [] else (s.PT q).exited_list)
      else (if q = 1 then (s.PT 1).exited_list ++ (s.PT cp).exited_list
          else if q = cp then [] else (s.PT q).exited_list)) ∧
    (∀ q, ((sys_ThreadExit F s cp self v).PT q).exitval = (s.PT q).exitval) ∧
    (sys_ThreadExit F s cp self v).pcb_freelist = s.pcb_freelist := by
  have L := leave_links s cp self v
  obtain ⟨t1, t2, t3, t4, t5⟩ := last_thread_links F
    (leave_process (mark_exited s self v) cp self) cp hcp (by rw [(L 1).1]; exact hinit)
  rw [sys_ThreadExit_last F s cp self v h]
  refine ⟨fun q => ?_, fun q => ?_, fun q => ?_, fun q => ?_, fun q => ?_, ?_⟩
  · show ((last_thread F _ cp).PT q).pstate = _
    rw [t1 q, (L q).1]
  · show ((last_thread F _ cp).PT q).parent = _
    rw [t2 q, (L q).2.1, (L cp).2.2.1]
  · show ((last_thread F _ cp).PT q).children_list = _
    rw [t3 q, (L q).2.2.1, (L cp).2.2.1, (L 1).2.2.1]
  · show ((last_thread F _ cp).PT q).exited_list =
      if ((last_thread F _ cp).PT cp).parent = some q then _ else _
    rw [t4 q, (L q).2.2.2.1, (L cp).2.2.2.1, (L 1).2.2.2.1]
  · show ((last_thread F _ cp).PT q).exitval = _
    rw [t5 q, (L q).2.2.2.2.1]
  · show (last_thread F _ cp).pcb_freelist = _
    rw [(last_thread_frame F _ cp).2.2.1, (L cp).2.2.2.2.2]

/-- Claim C17. The last thread of a process `P` other than init (pid 1, which exists) exits;
`P` has parent `q` and is neither its own parent nor its own child. Afterwards every process
that was in the children list of `P` has init as parent, is in the children list of init,
and `sys_GetPPid` called in it returns 1; every entry of the exited list of `P` is in the
exited list of init; both lists of `P` are empty; `P` is in the exited list of its parent
`q` and is a `ZOMBIE`; a process that was not a child of `P` keeps its parent. -/
theorem orphans_go_to_init (F : Nat) (s : ProcState) (P self : Nat) (v : Int) (q : Nat)
    (hP : P ≠ 1) (hinit : (s.PT 1).pstate ≠ .FREE) (hlast : (s.PT P).thread_count = 1)
    (hpar : (s.PT P).parent = some q) (hq : q ≠ P) (hself : P ∉ (s.PT P).children_list) :
    (∀ c, c ∈ (s.PT P).children_list →
      ((sys_ThreadExit F s P self v).PT c).parent = some 1 ∧
      c ∈ ((sys_ThreadExit F s P self v).PT 1).children_list ∧
      sys_GetPPid (sys_ThreadExit F s P self v) c = 1) ∧
    (∀ z, z ∈ (s.PT P).exited_list → z ∈ ((sys_ThreadExit F s P self v).PT 1).exited_list) ∧
    ((sys_ThreadExit F s P self v).PT P).children_list = [] ∧
    ((sys_ThreadExit F s P self v).PT P).exited_list = [] ∧
    ((sys_ThreadExit F s P self v).PT P).parent = some q ∧
    P ∈ ((sys_ThreadExit F s P self v).PT q).exited_list ∧
    ((sys_ThreadExit F s P self v).PT P).pstate = .ZOMBIE ∧
    (∀ c, c ∉ (s.PT P).children_list →
      ((sys_ThreadExit F s P self v).PT c).parent = (s.PT c).parent) := by
  obtain ⟨e1, e2, e3, e4, _, _⟩ := sys_ThreadExit_links F s P self v hP hinit hlast
  have hparP : ((sys_ThreadExit F s P self v).PT P).parent = some q := by
    rw [e2 P, if_neg hself, hpar]
  refine ⟨fun c hc => ⟨?_, ?_, ?_⟩, fun z hz => ?_, ?_, ?_, hparP, ?_, ?_, fun c hc => ?_⟩
  · rw [e2 c, if_pos hc]
  · rw [e3 1, if_pos rfl]
    exact List.mem_append_left _ (List.mem_reverse.2 hc)
  · unfold sys_GetPPid
    rw [e2 c, if_pos hc]
    rfl
  · rw [e4 1]
    simp only [if_true]
    split_ifs
    · exact List.mem_cons_of_mem _ (List.mem_append_right _ hz)
    · exact List.mem_append_right _ hz
  · rw [e3 P, if_neg hP, if_pos rfl]
  · rw [e4 P, hparP, if_neg (fun e => hq (Option.some.inj e)), if_neg hP, if_pos rfl]
  · rw [e4 q, hparP, if_pos rfl]
    exact List.mem_cons_self _ _
  · rw [e1 P, if_pos rfl]
  · rw [e2 c, if_neg hc]

/-- C17 on the worked example: the child of init, pid 2, exits while its own child, pid 3,
is alive; pid 3 becomes a child of init. -/
theorem orphans_go_to_init_witness :
    ((sys_ThreadExit 2 demo_grandchild 2 1 43).PT 3).parent = some 1 ∧
      sys_GetPPid (sys_ThreadExit 2 demo_grandchild 2 1 43) 3 = 1 :=
  have h := (orphans_go_to_init 2 demo_grandchild 2 1 43 1 (by decide) (by decide) (by decide)
    (by decide) (by decide) (by decide)).1 3 (by decide)
  ⟨h.1, h.2.2⟩

theorem cleanup_zombie_links (s : ProcState) (c : Nat) (status : Option Int) :
    (∀ q, (((cleanup_zombie s c status).1).PT q).pstate =
      if q = c then .FREE else (s.PT q).pstate) ∧
    (∀ q, (((cleanup_zombie s c status).1).PT q).parent =
      if q = c then s.pcb_freelist else (s.PT q).parent) ∧
    (∀ q, (((cleanup_zombie s c status).1).PT q).children_list =
      (s.PT q).children_list.filter (fun x => x ≠ c)) ∧
    (∀ q, (((cleanup_zombie s c status).1).PT q).exited_list =
      (s.PT q).exited_list.filter (fun x => x ≠ c)) ∧
    ((cleanup_zombie s c status).1).pcb_freelist = some c ∧
    (cleanup_zombie s c status).2 = status.map (fun _ => (s.PT c).exitval) := by
  refine ⟨fun q => ?_, fun q => ?_, fun q => ?_, fun q => ?_, rfl, rfl⟩ <;>
  · by_cases hq : q = c
    · subst hq
      simp [cleanup_zombie, release_PCB, ProcState.set_pcb]
    · simp [cleanup_zombie, release_PCB, ProcState.set_pcb, hq]

theorem wait_specific_reject (N : Nat) (s : ProcState) (cp : Nat) (cpid : Int)
    (status : Option Int)
    (h : cpid < 0 ∨ cpid ≥ N ∨ (s.PT cpid.toNat).pstate = .FREE ∨
      (s.PT cpid.toNat).parent ≠ some cp) :
    wait_for_specific_child N s cp cpid status = .ret NOPROC s status := by
  unfold wait_for_specific_child
  by_cases h1 : cpid < 0 ∨ cpid ≥ N
  · rw [if_pos h1]
  · rw [if_neg h1]
    by_cases h2 : (s.PT cpid.toNat).pstate = .FREE
    · simp [get_pcb, h2]
    · have h3 : (s.PT cpid.toNat).parent ≠ some cp := by
        rcases h with h | h | h | h
        · exact absurd (Or.inl h) h1
        · exact absurd (Or.inr h) h1
        · exact absurd h h2
        · exact h
      simp [get_pcb, h2, h3]

theorem wait_specific_zombie (N : Nat) (s : ProcState) (cp c : Nat) (status : Option Int)
    (hc : c < N) (hz : (s.PT c).pstate = .ZOMBIE) (hp : (s.PT c).parent = some cp) :
    wait_for_specific_child N s cp c status =
      .ret c (cleanup_zombie s c status).1 (cleanup_zombie s c status).2 := by
  unfold wait_for_specific_child
  have h1 : ¬ ((c : Int) < 0 ∨ (c : Int) ≥ N) := by omega
  rw [if_neg h1]
  simp [get_pcb, hz, hp, wait_for_specific_child_resume]

theorem wait_specific_alive (N : Nat) (s : ProcState) (cp c : Nat) (status : Option Int)
    (hc : c < N) (hz : (s.PT c).pstate = .ALIVE) (hp : (s.PT c).parent = some cp) :
    wait_for_specific_child N s cp c status = .wait s := by
  unfold wait_for_specific_child
  have h1 : ¬ ((c : Int) < 0 ∨ (c : Int) ≥ N) := by omega
  rw [if_neg h1]
  simp [get_pcb, hz, hp, wait_for_specific_child_resume]

theorem sys_Exit_other (F : Nat) (s : ProcState) (cp self : Nat) (v : Int) (hcp : cp ≠ 1) :
    sys_Exit F s cp self v =
      (true, sys_ThreadExit F (s.set_pcb cp { s.PT cp with exitval := v }) cp self v) := by
  unfold sys_Exit
  have : ¬ (get_pid (some cp) = 1) := (get_pid_ne_one cp).2 hcp
  simp only [this, if_false]

theorem set_exitval_links (s : ProcState) (cp : Nat) (v : Int) (q : Nat) :
    ((s.set_pcb cp { s.PT cp with exitval := v }).PT q).pstate = (s.PT q).pstate ∧
    ((s.set_pcb cp { s.PT cp with exitval := v }).PT q).parent = (s.PT q).parent ∧
    ((s.set_pcb cp { s.PT cp with exitval := v }).PT q).children_list =
      (s.PT q).children_list ∧
    ((s.set_pcb cp { s.PT cp with exitval := v }).PT q).exited_list = (s.PT q).exited_list ∧
    ((s.set_pcb cp { s.PT cp with exitval := v }).PT q).thread_count =
      (s.PT q).thread_count := by
  by_cases hq : q = cp
  · subst hq; simp [ProcState.set_pcb]
  · simp [ProcState.set_pcb, hq]

/-- Claim C19, as the code has it. A child `c` of `par` (not init, one thread) calls
`Exit(v)`: it is then in both lists of `par`, and `sys_WaitChild(c, &status)` by `par`
returns `c` with `status = v` (a null pointer stays null), takes `c` out of both lists and
frees its slot, after which `sys_WaitChild(c)` by `par` returns `NOPROC` and changes
nothing. `sys_WaitChild(cpid)` with a `cpid` other than `NOPROC` that is outside
`[0, MAX_PROC)`, or names a free slot or a process whose parent is not the caller, returns
`NOPROC` and changes nothing. -/
theorem exit_status_round_trip (N F : Nat) (s : ProcState) (par c self : Nat) (v : Int)
    (status : Option Int)
    (hc1 : c ≠ 1) (hcN : c < N) (hinit : (s.PT 1).pstate ≠ .FREE)
    (hpar : (s.PT c).parent = some par)
    (hchild : c ∈ (s.PT par).children_list)
    (hlast : (s.PT c).thread_count = 1) (hne : par ≠ c) (hself : c ∉ (s.PT c).children_list) :
    (c ∈ ((sys_Exit F s c self v).2.PT par).children_list ∧
      c ∈ ((sys_Exit F s c self v).2.PT par).exited_list ∧
      ∃ s2, sys_WaitChild N (sys_Exit F s c self v).2 par c status =
          .ret c s2 (status.map (fun _ => v)) ∧
        c ∉ (s2.PT par).children_list ∧ c ∉ (s2.PT par).exited_list ∧
        (s2.PT c).pstate = .FREE ∧
        ∀ status', sys_WaitChild N s2 par c status' = .ret NOPROC s2 status') ∧
    ∀ (t : ProcState) (cp : Nat) (cpid : Int) (st : Option Int), cpid ≠ NOPROC →
      (cpid < 0 ∨ cpid ≥ N ∨ (t.PT cpid.toNat).pstate = .FREE ∨
        (t.PT cpid.toNat).parent ≠ some cp) →
      sys_WaitChild N t cp cpid st = .ret NOPROC t st := by
  have hnp : (c : Int) ≠ NOPROC := by
    show (c : Int) ≠ -1
    omega
  have hrej : ∀ (t : ProcState) (cp : Nat) (cpid : Int) (st : Option Int), cpid ≠ NOPROC →
      (cpid < 0 ∨ cpid ≥ N ∨ (t.PT cpid.toNat).pstate = .FREE ∨
        (t.PT cpid.toNat).parent ≠ some cp) →
      sys_WaitChild N t cp cpid st = .ret NOPROC t st := by
    intro t cp cpid st h1 h2
    unfold sys_WaitChild
    rw [if_pos h1]
    exact wait_specific_reject N t cp cpid st h2
  refine ⟨?_, hrej⟩
  have X := set_exitval_links s c v
  obtain ⟨e1, e2, e3, e4, e5, _⟩ := sys_ThreadExit_links F
    (s.set_pcb c { s.PT c with exitval := v }) c self v hc1
    (by rw [(X 1).1]; exact hinit) (by rw [(X c).2.2.2.2]; exact hlast)
  have hself' : c ∉ ((s.set_pcb c { s.PT c with exitval := v }).PT c).children_list := by
    rw [(X c).2.2.1]; exact hself
  rw [sys_Exit_other F s c self v hc1]
  have hpc : ((sys_ThreadExit F (s.set_pcb c { s.PT c with exitval := v }) c self v).PT
      c).parent = some par := by
    rw [e2 c, if_neg hself', (X c).2.1, hpar]
  have hz : ((sys_ThreadExit F (s.set_pcb c { s.PT c with exitval := v }) c self v).PT
      c).pstate = .ZOMBIE := by
    rw [e1 c, if_pos rfl]
  have hv : ((sys_ThreadExit F (s.set_pcb c { s.PT c with exitval := v }) c self v).PT
      c).exitval = v := by
    rw [e5 c]
    simp [ProcState.set_pcb]
  obtain ⟨k1, _, k3, k4, _, k6⟩ := cleanup_zombie_links
    (sys_ThreadExit F (s.set_pcb c { s.PT c with exitval := v }) c self v) c status
  refine ⟨?_, ?_, (cleanup_zombie
    (sys_ThreadExit F (s.set_pcb c { s.PT c with exitval := v }) c self v) c status).1,
    ?_, ?_, ?_, ?_, ?_⟩
  · show c ∈ ((sys_ThreadExit F _ c self v).PT par).children_list
    rw [e3 par, (X par).2.2.1, (X 1).2.2.1]
    by_cases hp1 : par = 1
    · subst hp1
      rw [if_pos rfl]
      exact List.mem_append_right _ hchild
    · rw [if_neg hp1, if_neg hne]
      exact hchild
  · show c ∈ ((sys_ThreadExit F _ c self v).PT par).exited_list
    rw [e4 par, hpc, if_pos rfl]
    exact List.mem_cons_self _ _
  · show sys_WaitChild N (sys_ThreadExit F _ c self v) par c status = _
    unfold sys_WaitChild
    rw [if_pos hnp, wait_specific_zombie N _ par c status hcN hz hpc, k6, hv]
  · rw [k3 par]
    simp
  · rw [k4 par]
    simp
  · rw [k1 c, if_pos rfl]
  · intro status'
    refine hrej _ par c status' hnp (Or.inr (Or.inr (Or.inl ?_)))
    rw [Int.toNat_ofNat, k1 c, if_pos rfl]

/-- C19 on the worked example: init reaps its child, pid 2, which has exited with 42. -/
theorem exit_status_round_trip_witness :
    ∃ s2, sys_WaitChild 4 (sys_Exit 2 demo_child 2 1 42).2 1 2 (some 0) =
        .ret 2 s2 (some 42) ∧ (s2.PT 2).pstate = .FREE := by
  obtain ⟨_, _, s2, h1, _, _, h4, _⟩ :=
    (exit_status_round_trip 4 2 demo_child 1 2 1 42 (some 0) (by decide) (by decide)
      (by decide) (by decide) (by decide) (by decide) (by decide) (by decide)).1
  exact ⟨s2, h1, h4⟩

/-- The sentence of C19 on a `cpid` outside `[0, MAX_PROC)` fails for `cpid = NOPROC`:
with a zombie child, `sys_WaitChild(NOPROC)` by init returns the pid of that child, 2, and
frees its slot. -/
theorem wait_any_reaps :
    (-1 : Int) < 0 ∧ (demo_zombie.PT 2).pstate = .ZOMBIE ∧
      (sys_WaitChild 4 demo_zombie 1 (-1) none).value = some 2 ∧
      ((sys_WaitChild 4 demo_zombie 1 (-1) none).state.PT 2).pstate = .FREE := by
  decide

theorem free_chain_congr (s s' : ProcState) (L : List Nat) :
    ∀ h : Option Nat,
      (∀ q, q ∈ L → (s'.PT q).pstate = (s.PT q).pstate ∧ (s'.PT q).parent = (s.PT q).parent) →
      free_chain s h L → free_chain s' h L := by
  induction L with
  | nil =>
    intro h _ hc
    cases h with
    | none => trivial
    | some p => exact hc
  | cons q rest ih =>
    intro h hsame hc
    cases h with
    | none => exact hc
    | some p =>
      obtain ⟨h1, h2, h3, h4⟩ := hc
      obtain ⟨e1, e2⟩ := hsame q (List.mem_cons_self _ _)
      refine ⟨h1, by rw [e1]; exact h2, h3, ?_⟩
      rw [e2]
      exact ih _ (fun x hx => hsame x (List.mem_cons_of_mem _ hx)) h4

theorem free_chain_free (s : ProcState) (L : List Nat) :
    ∀ h : Option Nat, free_chain s h L → ∀ q, q ∈ L → (s.PT q).pstate = .FREE := by
  induction L with
  | nil => intro h _ q hq; cases hq
  | cons x rest ih =>
    intro h hc q hq
    cases h with
    | none => exact absurd hc id
    | some p =>
      obtain ⟨_, h2, _, h4⟩ := hc
      rcases List.mem_cons.1 hq with rfl | hq'
      · exact h2
      · exact ih _ h4 q hq'

theorem free_chain_head (s : ProcState) (L : List Nat) (p : Nat)
    (h : free_chain s (some p) L) :
    (s.PT p).pstate = .FREE ∧ ∃ rest, L = p :: rest ∧ p ∉ rest ∧
      free_chain s (s.PT p).parent rest := by
  cases L with
  | nil => exact absurd h id
  | cons q rest =>
    obtain ⟨h1, h2, h3, h4⟩ := h
    subst h1
    exact ⟨h2, rest, rfl, h3, h4⟩

theorem ProcInv_of_links (s s' : ProcState)
    (h1 : ∀ q, (s'.PT q).pstate = (s.PT q).pstate)
    (h2 : ∀ q, (s'.PT q).parent = (s.PT q).parent)
    (h3 : ∀ q, (s'.PT q).children_list = (s.PT q).children_list)
    (h4 : ∀ q, (s'.PT q).exited_list = (s.PT q).exited_list)
    (h5 : s'.pcb_freelist = s.pcb_freelist) (I : ProcInv s) : ProcInv s' := by
  refine ⟨?_, ?_, ?_, ?_, ?_, ?_⟩
  · obtain ⟨L, hL⟩ := I.chain
    exact ⟨L, by rw [h5]; exact free_chain_congr s s' L _ (fun q _ => ⟨h1 q, h2 q⟩) hL⟩
  · intro c q
    rw [h1 c, h2 c, h3 q, h4 q]
    exact I.child_in c q
  · intro q c
    rw [h1 c, h2 c, h3 q]
    exact I.children_ok q c
  · intro q c
    rw [h1 c, h2 c, h4 q]
    exact I.exited_ok q c
  · intro p
    rw [h1 p, h2 p]
    exact I.low p
  · rw [h1 1, h5]
    intro h
    obtain ⟨a, b⟩ := I.init_first h
    exact ⟨fun p hp => by rw [h1 p]; exact a p hp, b⟩

theorem ProcInv_exec (F : Nat) (s : ProcState) (cp : Nat) (call : Option Nat) (argl : Int)
    (args : Option (List Byte)) (I : ProcInv s) (hcp : (s.PT cp).pstate = .ALIVE) :
    ProcInv (sys_Exec F s cp call argl args).2 := by
  cases hfl : s.pcb_freelist with
  | none =>
    rw [sys_Exec_none F s cp call argl args hfl]
    exact I
  | some p =>
    obtain ⟨L, hL⟩ := I.chain
    rw [hfl] at hL
    obtain ⟨hpF, rest, rfl, hprest, hchain⟩ := free_chain_head s L p hL
    have hne : p ≠ cp := by
      rintro rfl
      rw [hcp] at hpF
      cases hpF
    have hrestF := free_chain_free s rest _ hchain
    obtain ⟨l1, l2, l3, l4, l5, _⟩ := sys_Exec_links F s cp call argl args p hfl (fun _ => hne)
    have notin_children : ∀ q, p ∉ (s.PT q).children_list :=
      fun q h => (I.children_ok q p h).1 hpF
    have notin_exited : ∀ q, p ∉ (s.PT q).exited_list := fun q h => by
      have := (I.exited_ok q p h).1
      rw [hpF] at this
      cases this
    refine ⟨⟨rest, ?_⟩, ?_, ?_, ?_, ?_, ?_⟩
    · rw [l5]
      refine free_chain_congr s _ rest _ (fun q hq => ?_) hchain
      have hqp : q ≠ p := fun e => hprest (e ▸ hq)
      rw [l1 q, l2 q, if_neg hqp, if_neg hqp]
      exact ⟨rfl, rfl⟩
    · intro c q hc hpar
      rw [l3 q, l4 q, l1 c]
      rw [l1 c] at hc
      rw [l2 c] at hpar
      by_cases hcp' : c = p
      · subst hcp'
        rw [if_pos rfl] at hpar ⊢
        by_cases hp1 : c ≤ 1
        · rw [if_pos hp1] at hpar
          cases hpar
        · rw [if_neg hp1] at hpar
          cases hpar
          rw [if_pos ⟨rfl, by omega⟩]
          refine ⟨List.mem_cons_self _ _, ?_⟩
          constructor
          · intro h; exact absurd h (notin_exited cp)
          · intro h; cases h
      · rw [if_neg hcp'] at hc hpar ⊢
        obtain ⟨a, b⟩ := I.child_in c q hc hpar
        refine ⟨?_, b⟩
        split_ifs
        · exact List.mem_cons_of_mem _ a
        · exact a
    · intro q c hc
      rw [l3 q] at hc
      rw [l1 c, l2 c]
      by_cases hcp' : c = p
      · subst hcp'
        rw [if_pos rfl, if_pos rfl]
        by_cases hq : q = cp ∧ 1 < c
        · obtain ⟨rfl, h1⟩ := hq
          exact ⟨by simp, by rw [if_neg (by omega)]⟩
        · rw [if_neg hq] at hc
          exact absurd hc (notin_children q)
      · rw [if_neg hcp', if_neg hcp']
        have : c ∈ (s.PT q).children_list := by
          split_ifs at hc
          · rcases List.mem_cons.1 hc with h | h
            · exact absurd h hcp'
            · exact h
          · exact hc
        exact I.children_ok q c this
    · intro q c hc
      rw [l4 q] at hc
      have hcp' : c ≠ p := fun e => notin_exited q (e ▸ hc)
      rw [l1 c, l2 c, if_neg hcp', if_neg hcp']
      exact I.exited_ok q c hc
    · intro q hq hF
      rw [l1 q] at hF
      rw [l2 q]
      by_cases hqp : q = p
      · subst hqp
        rw [if_pos rfl, if_pos hq]
      · rw [if_neg hqp] at hF ⊢
        exact I.low q hq hF
    · intro h1
      rw [l1 1] at h1
      by_cases h1p : 1 = p
      · rw [if_pos h1p] at h1
        cases h1
      · rw [if_neg h1p] at h1
        rcases (I.init_first h1).2 with h | h
        · rw [hfl] at h
          exact absurd (Option.some.inj h).symm h1p
        · rw [hfl] at h
          cases h

theorem ProcInv_cleanup (s : ProcState) (c : Nat) (status : Option Int) (I : ProcInv s)
    (hz : (s.PT c).pstate = .ZOMBIE) (hpar : ∃ q, (s.PT c).parent = some q) :
    ProcInv (cleanup_zombie s c status).1 := by
  obtain ⟨k1, k2, k3, k4, k5, _⟩ := cleanup_zombie_links s c status
  obtain ⟨L, hL⟩ := I.chain
  have hLF := free_chain_free s L _ hL
  have hcL : c ∉ L := fun h => by
    have := hLF c h
    rw [hz] at this
    cases this
  have hc_low : ¬ c ≤ 1 := fun h => by
    obtain ⟨q, hq⟩ := hpar
    have := I.low c h (by rw [hz]; exact fun e => by cases e)
    rw [this] at hq
    cases hq
  have mem_filter : ∀ (l : List Nat) (x : Nat), x ∈ l.filter (fun y => y ≠ c) ↔ x ∈ l ∧ x ≠ c := by
    intro l x
    simp [List.mem_filter]
  refine ⟨⟨c :: L, ?_⟩, ?_, ?_, ?_, ?_, ?_⟩
  · rw [k5]
    refine ⟨rfl, by rw [k1 c, if_pos rfl], hcL, ?_⟩
    rw [k2 c, if_pos rfl]
    refine free_chain_congr s _ L _ (fun q hq => ?_) hL
    have hqc : q ≠ c := fun e => hcL (e ▸ hq)
    rw [k1 q, k2 q, if_neg hqc, if_neg hqc]
    exact ⟨rfl, rfl⟩
  · intro x q hx hp
    rw [k1 x] at hx ⊢
    rw [k2 x] at hp
    by_cases hxc : x = c
    · rw [if_pos hxc] at hx
      exact absurd rfl hx
    · rw [if_neg hxc] at hx hp ⊢
      obtain ⟨a, b⟩ := I.child_in x q hx hp
      rw [k3 q, k4 q, mem_filter, mem_filter]
      exact ⟨⟨a, hxc⟩, ⟨fun h => b.1 h.1, fun h => ⟨b.2 h, hxc⟩⟩⟩
  · intro q x hx
    rw [k3 q, mem_filter] at hx
    rw [k1 x, k2 x, if_neg hx.2, if_neg hx.2]
    exact I.children_ok q x hx.1
  · intro q x hx
    rw [k4 q, mem_filter] at hx
    rw [k1 x, k2 x, if_neg hx.2, if_neg hx.2]
    exact I.exited_ok q x hx.1
  · intro p hp hF
    rw [k1 p] at hF
    rw [k2 p]
    by_cases hpc : p = c
    · rw [if_pos hpc] at hF
      exact absurd rfl hF
    · rw [if_neg hpc] at hF ⊢
      exact I.low p hp hF
  · intro h1
    rw [k1 1] at h1
    have h1c : (1 : Nat) ≠ c := fun e => hc_low (by omega)
    rw [if_neg h1c] at h1
    have := (I.init_first h1).1 c (by omega)
    rw [hz] at this
    cases this

theorem pid_state_cases (x : pid_state) : x = .FREE ∨ x = .ALIVE ∨ x = .ZOMBIE := by
  cases x <;> simp

theorem wait_any_cases (s : ProcState) (cp : Nat) (status : Option Int) (I : ProcInv s) :
    wait_for_any_child s cp status = .ret NOPROC s status ∨
    wait_for_any_child s cp status = .wait s ∨
    ∃ c, (s.PT c).pstate = .ZOMBIE ∧ (s.PT c).parent = some cp ∧
      wait_for_any_child s cp status =
        .ret c (cleanup_zombie s c status).1 (cleanup_zombie s c status).2 := by
  unfold wait_for_any_child
  by_cases h1 : (s.PT cp).children_list = []
  · exact Or.inl (by rw [if_pos h1])
  · rw [if_neg h1]
    cases h2 : (s.PT cp).exited_list with
    | nil => exact Or.inr (Or.inl rfl)
    | cons c rest =>
      obtain ⟨a, b⟩ := I.exited_ok cp c (by rw [h2]; exact List.mem_cons_self _ _)
      exact Or.inr (Or.inr ⟨c, a, b, rfl⟩)

theorem wait_specific_cases (N : Nat) (s : ProcState) (cp : Nat) (cpid : Int)
    (status : Option Int) :
    wait_for_specific_child N s cp cpid status = .ret NOPROC s status ∨
    wait_for_specific_child N s cp cpid status = .wait s ∨
    ∃ c, (s.PT c).pstate = .ZOMBIE ∧ (s.PT c).parent = some cp ∧
      wait_for_specific_child N s cp cpid status =
        .ret c (cleanup_zombie s c status).1 (cleanup_zombie s c status).2 := by
  by_cases h : cpid < 0 ∨ cpid ≥ N ∨ (s.PT cpid.toNat).pstate = .FREE ∨
      (s.PT cpid.toNat).parent ≠ some cp
  · exact Or.inl (wait_specific_reject N s cp cpid status h)
  · have h0 : 0 ≤ cpid := by
      by_contra hc
      exact h (Or.inl (by omega))
    have hN : cpid.toNat < N := by
      by_contra hc
      exact h (Or.inr (Or.inl (by omega)))
    have hF : (s.PT cpid.toNat).pstate ≠ .FREE := fun e => h (Or.inr (Or.inr (Or.inl e)))
    have hp : (s.PT cpid.toNat).parent = some cp := by
      by_contra hc
      exact h (Or.inr (Or.inr (Or.inr hc)))
    have hcast : ((cpid.toNat : Nat) : Int) = cpid := Int.toNat_of_nonneg h0
    rcases pid_state_cases (s.PT cpid.toNat).pstate with e | e | e
    · exact absurd e hF
    · right; left
      have := wait_specific_alive N s cp cpid.toNat status hN e hp
      rw [hcast] at this
      exact this
    · right; right
      refine ⟨cpid.toNat, e, hp, ?_⟩
      have := wait_specific_zombie N s cp cpid.toNat status hN e hp
      rw [hcast] at this
      rw [this, hcast]

theorem ProcInv_wait (N : Nat) (s : ProcState) (cp : Nat) (cpid : Int) (status : Option Int)
    (I : ProcInv s) : ProcInv (sys_WaitChild N s cp cpid status).state := by
  unfold sys_WaitChild
  by_cases h : cpid ≠ NOPROC
  · rw [if_pos h]
    rcases wait_specific_cases N s cp cpid status with e | e | ⟨c, hz, hp, e⟩
    · rw [e]; exact I
    · rw [e]; exact I
    · rw [e]; exact ProcInv_cleanup s c status I hz ⟨cp, hp⟩
  · rw [if_neg h]
    rcases wait_any_cases s cp status I with e | e | ⟨c, hz, hp, e⟩
    · rw [e]; exact I
    · rw [e]; exact I
    · rw [e]; exact ProcInv_cleanup s c status I hz ⟨cp, hp⟩

theorem drain_children_inv (cp : Nat) (fuel : Nat) :
    ∀ s : ProcState, ProcInv s → (s.PT cp).pstate = .ALIVE →
      ProcInv (drain_children fuel s cp).2 ∧
        ((drain_children fuel s cp).2.PT cp).pstate = .ALIVE := by
  induction fuel with
  | zero => intro s I h; exact ⟨I, h⟩
  | succ n ih =>
    intro s I h
    rcases wait_any_cases s cp none I with e | e | ⟨c, hz, hp, e⟩
    · have : drain_children (n + 1) s cp = (true, s) := by
        rw [drain_children, e]
        simp
      rw [this]
      exact ⟨I, h⟩
    · have : drain_children (n + 1) s cp = (false, s) := by
        rw [drain_children, e]
      rw [this]
      exact ⟨I, h⟩
    · have hI := ProcInv_cleanup s c none I hz ⟨cp, hp⟩
      have hne : cp ≠ c := by
        rintro rfl
        rw [h] at hz
        cases hz
      have halive : (((cleanup_zombie s c none).1).PT cp).pstate = .ALIVE := by
        rw [(cleanup_zombie_links s c none).1 cp, if_neg hne]
        exact h
      by_cases hv : (c : Int) ≠ NOPROC
      · have : drain_children (n + 1) s cp =
            drain_children n (cleanup_zombie s c none).1 cp := by
          rw [drain_children, e]
          simp only [if_pos hv]
        rw [this]
        exact ih _ hI halive
      · have : drain_children (n + 1) s cp = (true, (cleanup_zombie s c none).1) := by
          rw [drain_children, e]
          simp only [if_neg hv]
        rw [this]
        exact ⟨hI, halive⟩

theorem ProcInv_zombie (s s' : ProcState) (cp : Nat) (I : ProcInv s)
    (halive : (s.PT cp).pstate = .ALIVE) (hpar : (s.PT cp).parent = none)
    (e1 : ∀ q, (s'.PT q).pstate = if q = cp then .ZOMBIE else (s.PT q).pstate)
    (e2 : ∀ q, (s'.PT q).parent = (s.PT q).parent)
    (e3 : ∀ q, (s'.PT q).children_list = (s.PT q).children_list)
    (e4 : ∀ q, (s'.PT q).exited_list = (s.PT q).exited_list)
    (e5 : s'.pcb_freelist = s.pcb_freelist) : ProcInv s' := by
  have notF : ∀ x, (s'.PT x).pstate ≠ .FREE → (s.PT x).pstate ≠ .FREE := by
    intro x hx
    rw [e1 x] at hx
    by_cases hxc : x = cp
    · subst hxc; rw [halive]; exact fun e => by cases e
    · rw [if_neg hxc] at hx; exact hx
  refine ⟨?_, ?_, ?_, ?_, ?_, ?_⟩
  · obtain ⟨L, hL⟩ := I.chain
    refine ⟨L, ?_⟩
    rw [e5]
    refine free_chain_congr s s' L _ (fun q hq => ?_) hL
    have hF := free_chain_free s L _ hL q hq
    have hqc : q ≠ cp := by
      rintro rfl
      rw [halive] at hF
      cases hF
    rw [e1 q, e2 q, if_neg hqc]
    exact ⟨rfl, rfl⟩
  · intro x q hx hp
    rw [e2 x] at hp
    rw [e3 q, e4 q, e1 x]
    have hxc : x ≠ cp := by
      rintro rfl
      rw [hpar] at hp
      cases hp
    rw [if_neg hxc]
    exact I.child_in x q (notF x hx) hp
  · intro q x hx
    rw [e3 q] at hx
    obtain ⟨a, b⟩ := I.children_ok q x hx
    rw [e2 x, e1 x]
    refine ⟨?_, b⟩
    split_ifs
    · exact fun e => by cases e
    · exact a
  · intro q x hx
    rw [e4 q] at hx
    obtain ⟨a, b⟩ := I.exited_ok q x hx
    rw [e2 x, e1 x]
    refine ⟨?_, b⟩
    split_ifs
    · rfl
    · exact a
  · intro p hp hF
    rw [e2 p]
    exact I.low p hp (notF p hF)
  · intro h1
    rw [e1 1] at h1
    by_cases h1c : 1 = cp
    · rw [if_pos h1c] at h1
      cases h1
    · rw [if_neg h1c] at h1
      obtain ⟨a, b⟩ := I.init_first h1
      refine ⟨fun p hp => ?_, by rw [e5]; exact b⟩
      rw [e1 p]
      have hpc : p ≠ cp := by
        rintro rfl
        have := a p hp
        rw [halive] at this
        cases this
      rw [if_neg hpc]
      exact a p hp

theorem mem_ite_cons (c : Prop) [Decidable c] (x cp : Nat) (l : List Nat) (h : x ≠ cp) :
    x ∈ (if c then cp :: l else l) ↔ x ∈ l := by
  by_cases hc : c
  · rw [if_pos hc, List.mem_cons]
    exact ⟨fun h' => h'.elim (fun e => absurd e h) id, Or.inr⟩
  · rw [if_neg hc]

theorem ProcInv_orphans (s s' : ProcState) (cp : Nat) (I : ProcInv s) (hcp : cp ≠ 1)
    (hinit : (s.PT 1).pstate ≠ .FREE) (halive : (s.PT cp).pstate = .ALIVE)
    (e1 : ∀ q, (s'.PT q).pstate = if q = cp then .ZOMBIE else (s.PT q).pstate)
    (e2 : ∀ q, (s'.PT q).parent =
      if q ∈ (s.PT cp).children_list then some 1 else (s.PT q).parent)
    (e3 : ∀ q, (s'.PT q).children_list =
      if q = 1 then (s.PT cp).children_list.reverse ++ (s.PT 1).children_list
      else if q = cp then [] else (s.PT q).children_list)
    (e4 : ∀ q, (s'.PT q).exited_list =
      if (s'.PT cp).parent = some q then
        cp :: (if q = 1 then (s.PT 1).exited_list ++ (s.PT cp).exited_list
          else if q = cp then [] else (s.PT q).exited_list)
      else (if q = 1 then (s.PT 1).exited_list ++ (s.PT cp).exited_list
          else if q = cp then [] else (s.PT q).exited_list))
    (e5 : s'.pcb_freelist = s.pcb_freelist) : ProcInv s' := by
  have h1cp : (1 : Nat) ≠ cp := fun e => hcp e.symm
  have F1 := I.children_ok cp
  have F2 : ∀ x, x ∈ (s.PT cp).exited_list →
      (s.PT x).pstate = .ZOMBIE ∧ x ∈ (s.PT cp).children_list := by
    intro x hx
    obtain ⟨a, b⟩ := I.exited_ok cp x hx
    exact ⟨a, (I.child_in x cp (by rw [a]; exact fun e => by cases e) b).1⟩
  have F4 : ∀ q, cp ∉ (s.PT q).exited_list := by
    intro q h
    have := (I.exited_ok q cp h).1
    rw [halive] at this
    cases this
  have notC : ∀ x q, (s.PT x).parent = some q → q ≠ cp → x ∉ (s.PT cp).children_list := by
    intro x q hp hq hx
    have := (F1 x hx).2
    rw [hp] at this
    exact hq (Option.some.inj this)
  have base_mem : ∀ x q, x ∈ (if q = 1 then (s.PT 1).exited_list ++ (s.PT cp).exited_list
      else if q = cp then [] else (s.PT q).exited_list) →
      (s.PT x).pstate = .ZOMBIE ∧ x ≠ cp ∧
        (if x ∈ (s.PT cp).children_list then some 1 else (s.PT x).parent) = some q := by
    intro x q hx
    by_cases hq1 : q = 1
    · subst hq1
      rw [if_pos rfl] at hx
      rcases List.mem_append.1 hx with h | h
      · obtain ⟨a, b⟩ := I.exited_ok 1 x h
        refine ⟨a, fun e => F4 1 (e ▸ h), ?_⟩
        rw [if_neg (notC x 1 b h1cp), b]
      · obtain ⟨a, b⟩ := F2 x h
        exact ⟨a, fun e => F4 cp (e ▸ h), by rw [if_pos b]⟩
    · rw [if_neg hq1] at hx
      by_cases hqc : q = cp
      · rw [if_pos hqc] at hx
        cases hx
      · rw [if_neg hqc] at hx
        obtain ⟨a, b⟩ := I.exited_ok q x hx
        refine ⟨a, fun e => F4 q (e ▸ hx), ?_⟩
        rw [if_neg (notC x q b hqc), b]
  refine ⟨?_, ?_, ?_, ?_, ?_, ?_⟩
  · obtain ⟨L, hL⟩ := I.chain
    refine ⟨L, ?_⟩
    rw [e5]
    refine free_chain_congr s s' L _ (fun q hq => ?_) hL
    have hF := free_chain_free s L _ hL q hq
    have hqc : q ≠ cp := by
      rintro rfl
      rw [halive] at hF
      cases hF
    have hqC : q ∉ (s.PT cp).children_list := fun h => (F1 q h).1 hF
    rw [e1 q, e2 q, if_neg hqc, if_neg hqC]
    exact ⟨rfl, rfl⟩
  · intro x q hx hp
    rw [e2 x] at hp
    rw [e1 x] at hx
    by_cases hxc : x = cp
    · subst hxc
      refine ⟨?_, ?_⟩
      · rw [e3 q]
        by_cases hxC : x ∈ (s.PT x).children_list
        · rw [if_pos hxC] at hp
          cases hp
          rw [if_pos rfl]
          exact List.mem_append_left _ (List.mem_reverse.2 hxC)
        · rw [if_neg hxC] at hp
          have hin := (I.child_in x q (by rw [halive]; exact fun e => by cases e) hp).1
          have hqx : q ≠ x := fun e => hxC (e ▸ hin)
          by_cases hq1 : q = 1
          · rw [if_pos hq1]
            exact List.mem_append_right _ (hq1 ▸ hin)
          · rw [if_neg hq1, if_neg hqx]
            exact hin
      · rw [e4 q, e2 x, hp, if_pos rfl, e1 x, if_pos rfl]
        exact ⟨fun _ => rfl, fun _ => List.mem_cons_self _ _⟩
    · rw [if_neg hxc] at hx
      rw [e1 x, if_neg hxc]
      by_cases hxC : x ∈ (s.PT cp).children_list
      · rw [if_pos hxC] at hp
        cases hp
        obtain ⟨_, b⟩ := F1 x hxC
        obtain ⟨_, d⟩ := I.child_in x cp hx b
        refine ⟨?_, ?_⟩
        · rw [e3 1, if_pos rfl]
          exact List.mem_append_left _ (List.mem_reverse.2 hxC)
        · rw [e4 1]
          simp only [if_true]
          have hnot1 : x ∉ (s.PT 1).exited_list := fun h => by
            have := (I.exited_ok 1 x h).2
            rw [b] at this
            exact hcp (Option.some.inj this)
          rw [mem_ite_cons _ x cp _ hxc, List.mem_append]
          exact ⟨fun h => h.elim (fun h0 => absurd h0 hnot1) d.1, fun h => Or.inr (d.2 h)⟩
      · rw [if_neg hxC] at hp
        obtain ⟨c, d⟩ := I.child_in x q hx hp
        have hqc : q ≠ cp := fun e => hxC (e ▸ c)
        have hnE : x ∉ (s.PT cp).exited_list := fun h => hxC (F2 x h).2
        refine ⟨?_, ?_⟩
        · rw [e3 q]
          by_cases hq1 : q = 1
          · rw [if_pos hq1]
            exact List.mem_append_right _ (hq1 ▸ c)
          · rw [if_neg hq1, if_neg hqc]
            exact c
        · rw [e4 q]
          have hb : x ∈ (if q = 1 then (s.PT 1).exited_list ++ (s.PT cp).exited_list
              else if q = cp then [] else (s.PT q).exited_list) ↔ x ∈ (s.PT q).exited_list := by
            by_cases hq1 : q = 1
            · subst hq1
              rw [if_pos rfl, List.mem_append]
              exact ⟨fun h => h.elim id (fun h0 => absurd h0 hnE), Or.inl⟩
            · rw [if_neg hq1, if_neg hqc]
          rw [mem_ite_cons _ x cp _ hxc]
          exact hb.trans d
  · intro q x hx
    rw [e3 q] at hx
    rw [e1 x, e2 x]
    have key : (s.PT x).pstate ≠ .FREE ∧
        (if x ∈ (s.PT cp).children_list then some 1 else (s.PT x).parent) = some q := by
      by_cases hq1 : q = 1
      · subst hq1
        rw [if_pos rfl] at hx
        rcases List.mem_append.1 hx with h | h
        · have hC := List.mem_reverse.1 h
          exact ⟨(F1 x hC).1, by rw [if_pos hC]⟩
        · obtain ⟨a, b⟩ := I.children_ok 1 x h
          exact ⟨a, by rw [if_neg (notC x 1 b h1cp), b]⟩
      · rw [if_neg hq1] at hx
        by_cases hqc : q = cp
        · rw [if_pos hqc] at hx
          cases hx
        · rw [if_neg hqc] at hx
          obtain ⟨a, b⟩ := I.children_ok q x hx
          exact ⟨a, by rw [if_neg (notC x q b hqc), b]⟩
    refine ⟨?_, key.2⟩
    split_ifs
    · exact fun e => by cases e
    · exact key.1
  · intro q x hx
    rw [e4 q] at hx
    rw [e1 x, e2 x]
    by_cases hpq : (s'.PT cp).parent = some q
    · rw [if_pos hpq] at hx
      rcases List.mem_cons.1 hx with h | h
      · subst h
        rw [if_pos rfl, ← e2 x]
        exact ⟨rfl, hpq⟩
      · obtain ⟨a, b, c⟩ := base_mem x q h
        rw [if_neg b]
        exact ⟨a, c⟩
    · rw [if_neg hpq] at hx
      obtain ⟨a, b, c⟩ := base_mem x q hx
      rw [if_neg b]
      exact ⟨a, c⟩
  · intro p hp hF
    rw [e1 p] at hF
    rw [e2 p]
    have hpF : (s.PT p).pstate ≠ .FREE := by
      by_cases hpc : p = cp
      · subst hpc; rw [halive]; exact fun e => by cases e
      · rw [if_neg hpc] at hF; exact hF
    have hpar := I.low p hp hpF
    have hpC : p ∉ (s.PT cp).children_list := fun h => by
      have := (F1 p h).2
      rw [hpar] at this
      cases this
    rw [if_neg hpC]
    exact hpar
  · intro h1
    rw [e1 1, if_neg h1cp] at h1
    exact absurd h1 hinit

theorem orphan_children_none (s : ProcState) (cp : Nat)
    (hC : (s.PT cp).children_list = []) (hE : (s.PT cp).exited_list = [])
    (hp : (s.PT cp).parent = none) : orphan_children s cp = s := by
  unfold orphan_children
  simp only []
  rw [hC]
  show enter_exited cp (splice_exited (get_pcb s 1) cp s) = s
  have h1 : splice_exited (get_pcb s 1) cp s = s := by
    unfold splice_exited
    rw [if_neg (not_not.mpr hE)]
  rw [h1]
  unfold enter_exited
  rw [hp]

theorem ProcInv_exit_plain (F : Nat) (s : ProcState) (cp self : Nat) (v : Int) (I : ProcInv s)
    (halive : (s.PT cp).pstate = .ALIVE) (hpar : (s.PT cp).parent = none)
    (hlast : (s.PT cp).thread_count = 1)
    (hplain : last_thread F (leave_process (mark_exited s self v) cp self) cp =
      CleanUp F (leave_process (mark_exited s self v) cp self) cp) :
    ProcInv (sys_ThreadExit F s cp self v) := by
  have L := leave_links s cp self v
  obtain ⟨d1, d2, d3, d4, _⟩ := CleanUp_links F (leave_process (mark_exited s self v) cp self) cp
  have hfl : (sys_ThreadExit F s cp self v).pcb_freelist = s.pcb_freelist := by
    rw [sys_ThreadExit_last F s cp self v hlast]
    show (last_thread F _ cp).pcb_freelist = _
    rw [(last_thread_frame F _ cp).2.2.1, (L cp).2.2.2.2.2]
  have hPT : (sys_ThreadExit F s cp self v).PT =
      (CleanUp F (leave_process (mark_exited s self v) cp self) cp).PT := by
    rw [sys_ThreadExit_last F s cp self v hlast, ← hplain]
    rfl
  refine ProcInv_zombie s _ cp I halive hpar (fun q => ?_) (fun q => ?_) (fun q => ?_)
    (fun q => ?_) hfl
  · rw [hPT, d1 q, (L q).1]
  · rw [hPT, d2 q, (L q).2.1]
  · rw [hPT, d3 q, (L q).2.2.1]
  · rw [hPT, d4 q, (L q).2.2.2.1]

theorem ProcInv_thread_exit (F : Nat) (s : ProcState) (cp self : Nat) (v : Int) (I : ProcInv s)
    (halive : (s.PT cp).pstate = .ALIVE) : ProcInv (sys_ThreadExit F s cp self v) := by
  have L := leave_links s cp self v
  have hnF : (s.PT cp).pstate ≠ .FREE := by rw [halive]; exact fun e => by cases e
  by_cases hlast : (s.PT cp).thread_count = 1
  · by_cases hcp : cp = 1
    · subst hcp
      exact ProcInv_exit_plain F s 1 self v I halive (I.low 1 le_rfl hnF) hlast
        (last_thread_init F _)
    · by_cases hinit : (s.PT 1).pstate = .FREE
      · obtain ⟨allF, _⟩ := I.init_first hinit
        have hcp0 : cp ≤ 1 := by
          by_contra h
          exact hnF (allF cp (by omega))
        have hpar := I.low cp hcp0 hnF
        have isF : ∀ x, (s.PT x).parent = some cp → (s.PT x).pstate ≠ .FREE → False := by
          intro x hx hF
          by_cases hx2 : 2 ≤ x
          · exact hF (allF x hx2)
          · have := I.low x (by omega) hF
            rw [this] at hx
            cases hx
        have hC : (s.PT cp).children_list = [] := by
          cases hl : (s.PT cp).children_list with
          | nil => rfl
          | cons x rest =>
            obtain ⟨a, b⟩ := I.children_ok cp x (by rw [hl]; exact List.mem_cons_self _ _)
            exact (isF x b a).elim
        have hE : (s.PT cp).exited_list = [] := by
          cases hl : (s.PT cp).exited_list with
          | nil => rfl
          | cons x rest =>
            obtain ⟨a, b⟩ := I.exited_ok cp x (by rw [hl]; exact List.mem_cons_self _ _)
            exact (isF x b (by rw [a]; exact fun e => by cases e)).elim
        refine ProcInv_exit_plain F s cp self v I halive hpar hlast ?_
        unfold last_thread
        rw [if_pos ((get_pid_ne_one cp).2 hcp),
          orphan_children_none _ cp (by rw [(L cp).2.2.1]; exact hC)
            (by rw [(L cp).2.2.2.1]; exact hE) (by rw [(L cp).2.1]; exact hpar)]
      · obtain ⟨e1, e2, e3, e4, _, e6⟩ := sys_ThreadExit_links F s cp self v hcp hinit hlast
        exact ProcInv_orphans s _ cp I hcp hinit halive e1 e2 e3 e4 e6
  · rw [sys_ThreadExit_live F s cp self v hlast]
    exact ProcInv_of_links s _ (fun q => (L q).1) (fun q => (L q).2.1) (fun q => (L q).2.2.1)
      (fun q => (L q).2.2.2.1) (L cp).2.2.2.2.2 I

theorem ProcInv_exit (F : Nat) (s : ProcState) (cp self : Nat) (v : Int) (I : ProcInv s)
    (halive : (s.PT cp).pstate = .ALIVE) : ProcInv (sys_Exit F s cp self v).2 := by
  have X := set_exitval_links s cp v
  have I1 : ProcInv (s.set_pcb cp { s.PT cp with exitval := v }) :=
    ProcInv_of_links s _ (fun q => (X q).1) (fun q => (X q).2.1) (fun q => (X q).2.2.1)
      (fun q => (X q).2.2.2.1) rfl I
  have h1 : ((s.set_pcb cp { s.PT cp with exitval := v }).PT cp).pstate = .ALIVE := by
    rw [(X cp).1]; exact halive
  unfold sys_Exit
  simp only []
  by_cases hc : get_pid (some cp) = 1
  · rw [if_pos hc]
    obtain ⟨hI, hA⟩ := drain_children_inv cp
      (((s.set_pcb cp { s.PT cp with exitval := v }).PT cp).exited_list.length + 1)
      (s.set_pcb cp { s.PT cp with exitval := v }) I1 h1
    split_ifs
    · exact ProcInv_thread_exit F _ cp self v hI hA
    · exact hI
  · rw [if_neg hc]
    exact ProcInv_thread_exit F _ cp self v I1 h1

theorem free_chain_range (N : Nat) (s : ProcState) (m : Nat) :
    ∀ k, N - k = m →
      (∀ p, k ≤ p → p < N → (s.PT p).pstate = .FREE ∧
        (s.PT p).parent = if p + 1 < N then some (p + 1) else none) →
      free_chain s (if k < N then some k else none) (List.range' k m) := by
  induction m with
  | zero =>
    intro k hk _
    rw [if_neg (by omega)]
    trivial
  | succ m ih =>
    intro k hk h
    have hkN : k < N := by omega
    rw [if_pos hkN]
    show free_chain s (some k) (k :: List.range' (k + 1) m)
    obtain ⟨a, b⟩ := h k le_rfl hkN
    refine ⟨rfl, a, ?_, ?_⟩
    · rw [List.mem_range']
      rintro ⟨i, _, hi⟩
      omega
    · rw [b]
      exact ih (k + 1) (by omega) (fun p hp1 hp2 => h p (by omega) hp2)

theorem ProcInv_boot (N F : Nat) : ProcInv (initialize_processes N F).2 := by
  obtain ⟨i1, i2, i3⟩ := init_table_spec N F
  unfold initialize_processes
  by_cases hN : 0 < N
  · rw [if_pos hN] at i1
    obtain ⟨l1, l2, l3, l4, l5, _⟩ :=
      sys_Exec_links F (init_table N F) 0 none 0 none 0 i1 (fun h => absurd h (by omega))
    have hch : ∀ q, ((sys_Exec F (init_table N F) 0 none 0 none).2.PT q).children_list = [] := by
      intro q
      rw [l3 q, if_neg (fun h => absurd h.2 (by omega))]
      exact (i3 q).2.1
    have hex : ∀ q, ((sys_Exec F (init_table N F) 0 none 0 none).2.PT q).exited_list = [] := by
      intro q
      rw [l4 q]
      exact (i3 q).2.2
    have hps : ∀ q, q ≠ 0 → ((sys_Exec F (init_table N F) 0 none 0 none).2.PT q).pstate = .FREE := by
      intro q hq
      rw [l1 q, if_neg hq]
      exact (i3 q).1
    have hp0 : ((sys_Exec F (init_table N F) 0 none 0 none).2.PT 0).parent = none := by
      rw [l2 0, if_pos rfl, if_pos (by omega)]
    have hzero : ∀ x, ((sys_Exec F (init_table N F) 0 none 0 none).2.PT x).pstate ≠ .FREE →
        x = 0 := by
      intro x hx
      by_contra h
      exact hx (hps x h)
    refine ⟨⟨List.range' 1 (N - 1), ?_⟩, ?_, ?_, ?_, ?_, ?_⟩
    · rw [l5, i2 0 hN]
      refine free_chain_range N _ (N - 1) 1 rfl (fun p hp1 hp2 => ⟨hps p (by omega), ?_⟩)
      rw [l2 p, if_neg (by omega)]
      exact i2 p hp2
    · intro x q hx hp
      have := hzero x hx
      subst this
      rw [hp0] at hp
      cases hp
    · intro q x hx
      rw [hch q] at hx
      cases hx
    · intro q x hx
      rw [hex q] at hx
      cases hx
    · intro p _ hF
      have := hzero p hF
      subst this
      exact hp0
    · intro _
      refine ⟨fun p hp => hps p (by omega), ?_⟩
      rw [l5, i2 0 hN]
      by_cases h1 : 0 + 1 < N
      · rw [if_pos h1]; exact Or.inl rfl
      · rw [if_neg h1]; exact Or.inr rfl
  · rw [if_neg hN] at i1
    rw [sys_Exec_none F _ 0 none 0 none i1]
    refine ⟨⟨[], by rw [i1]; trivial⟩, ?_, ?_, ?_, ?_, ?_⟩
    · intro x q hx _
      exact absurd (i3 x).1 hx
    · intro q x hx
      rw [(i3 q).2.1] at hx
      cases hx
    · intro q x hx
      rw [(i3 q).2.2] at hx
      cases hx
    · intro p _ hF
      exact absurd (i3 p).1 hF
    · intro _
      exact ⟨fun p _ => (i3 p).1, Or.inr i1⟩

theorem Reachable_inv (N F : Nat) (s : ProcState) (h : Reachable N F s) : ProcInv s := by
  induction h with
  | boot => exact ProcInv_boot N F
  | exec s cp call argl args _ hcp ih => exact ProcInv_exec F s cp call argl args ih hcp
  | thread_exit s cp self v _ hcp ih => exact ProcInv_thread_exit F s cp self v ih hcp
  | exit s cp self v _ hcp ih => exact ProcInv_exit F s cp self v ih hcp
  | wait_child s cp cpid status _ _ ih => exact ProcInv_wait N s cp cpid status ih

theorem wait_resume_anew (N : Nat) (s : ProcState) (cp c : Nat) (status : Option Int)
    (hc : c < N) (hF : (s.PT c).pstate ≠ .FREE) (hp : (s.PT c).parent = some cp) :
    wait_for_specific_child_resume s c status =
      wait_for_specific_child N s cp c status := by
  unfold wait_for_specific_child
  have h1 : ¬ ((c : Int) < 0 ∨ (c : Int) ≥ N) := by omega
  rw [if_neg h1]
  simp [get_pcb, hF, hp]

theorem drain_children_enough (cp : Nat) (fuel : Nat) :
    ∀ s : ProcState, (s.PT cp).exited_list.length < fuel →
      (drain_children fuel s cp).1 = true ∨
        wait_for_any_child (drain_children fuel s cp).2 cp none =
          .wait (drain_children fuel s cp).2 := by
  induction fuel with
  | zero => intro s h; omega
  | succ n ih =>
    intro s h
    by_cases h1 : (s.PT cp).children_list = []
    · left
      rw [drain_children]
      simp [wait_for_any_child, h1]
    · cases h2 : (s.PT cp).exited_list with
      | nil =>
        right
        have e : wait_for_any_child s cp none = .wait s := by
          simp [wait_for_any_child, h1, h2]
        have : drain_children (n + 1) s cp = (false, s) := by
          rw [drain_children, e]
        rw [this]
        exact e
      | cons c rest =>
        have e : wait_for_any_child s cp none =
            .ret c (cleanup_zombie s c none).1 (cleanup_zombie s c none).2 := by
          simp [wait_for_any_child, h1, h2, get_pid]
        have hv : (c : Int) ≠ NOPROC := by
          show (c : Int) ≠ -1
          omega
        have : drain_children (n + 1) s cp =
            drain_children n (cleanup_zombie s c none).1 cp := by
          rw [drain_children, e]
          simp only [if_pos hv]
        rw [this]
        refine ih _ ?_
        rw [(cleanup_zombie_links s c none).2.2.2.1 cp, h2]
        have hlen : ((c :: rest).filter (fun x => decide (x ≠ c))).length ≤ rest.length := by
          rw [List.filter_cons_of_neg (by simp)]
          exact List.length_filter_le _ _
        rw [h2, List.length_cons] at h
        omega

theorem demo_zombie_reachable : Reachable 4 2 demo_zombie :=
  Reachable.exit demo_child 2 1 42
    (Reachable.exec demo_init 1 (some 3) 2 (some [7, 8, 9])
      (Reachable.exec demo_boot 0 (some 1) 0 none Reachable.boot (by decide)) (by decide))
    (by decide)

/-- Claim C18, as the code has it. In every state reachable from `initialize_processes` by
`sys_Exec`, `sys_ThreadExit`, `sys_Exit` and `sys_WaitChild`, for every PCB `c` whose state
is `ALIVE` or `ZOMBIE` and whose parent pointer is `q`: `c` is in the children list of `q`,
and `c` is in the exited list of `q` exactly when `c` is a `ZOMBIE`. A live child is in the
children list only, a zombie child is in both lists, and no child is in neither. -/
theorem parent_child_lists (N F : Nat) (s : ProcState) (h : Reachable N F s) (c q : Nat)
    (hs : (s.PT c).pstate = .ALIVE ∨ (s.PT c).pstate = .ZOMBIE)
    (hp : (s.PT c).parent = some q) :
    c ∈ (s.PT q).children_list ∧ (c ∈ (s.PT q).exited_list ↔ (s.PT c).pstate = .ZOMBIE) := by
  have hF : (s.PT c).pstate ≠ .FREE := by
    rcases hs with e | e <;> rw [e] <;> exact fun e' => by cases e'
  exact (Reachable_inv N F s h).child_in c q hF hp

/-- C18 on the worked example: the child of init, pid 2, is alive in the state `demo_child`,
where it is in the children list of init and not in its exited list. -/
theorem parent_child_lists_witness :
    2 ∈ (demo_child.PT 1).children_list ∧ ¬ 2 ∈ (demo_child.PT 1).exited_list :=
  have h := parent_child_lists 4 2 demo_child
    (Reachable.exec demo_init 1 (some 3) 2 (some [7, 8, 9])
      (Reachable.exec demo_boot 0 (some 1) 0 none Reachable.boot (by decide)) (by decide))
    2 1 (Or.inl (by decide)) (by decide)
  ⟨h.1, fun e => absurd (h.2.1 e) (by decide)⟩

/-- The sentence of C18 that a child is in exactly one of the two lists fails: after the
only thread of the child of init, pid 2, has exited, the state is reachable, pid 2 is a
`ZOMBIE` with parent init, and it is in the children list and in the exited list of init. -/
theorem zombie_in_both_lists :
    Reachable 4 2 demo_zombie ∧ (demo_zombie.PT 2).pstate = .ZOMBIE ∧
      (demo_zombie.PT 2).parent = some 1 ∧
      2 ∈ (demo_zombie.PT 1).children_list ∧ 2 ∈ (demo_zombie.PT 1).exited_list :=
  ⟨demo_zombie_reachable, by decide, by decide, by decide, by decide⟩

/-! ## Theorems: release of sockets, requests and pipes -/

/-- The reference count after `decref` is a `uint` value, so the test `refcount < 0` of
`decref` fails whatever the count was: no call of `decref` frees a socket. -/
theorem decref_never_frees (s : SockState) (socket_CB : Nat) :
    (decref s socket_CB).log = s.log ∧
      ∀ cb, s.socks socket_CB = some cb →
        (decref s socket_CB).socks socket_CB =
          some { cb with refcount := (cb.refcount + (UINT_MOD - 1)) % UINT_MOD } := by
  refine ⟨(decref_frame s socket_CB).2.2.2.2.2.2.2.2.2, fun cb h => ?_⟩
  unfold decref
  rw [h]
  have hn : ¬ ((((cb.refcount + (UINT_MOD - 1)) % UINT_MOD : Nat) : Int) < 0) :=
    not_lt.mpr (Int.ofNat_nonneg _)
  simp only [hn, if_false, SockState.set_sock, heap_set, if_true]

/-- C22, evaluated on the code. `socket_close` on a socket whose reference count is 0 wraps
the `uint` count to 4294967295 and frees nothing: so for the fresh UNBOUND socket of the
worked example, for its listener with no call in flight, and for the connected client
PEER socket. A listener closed while a `sys_Connect` is in flight goes from count 1 to 0,
and the decrement of that last user, in `sys_Connect` after its wait, wraps the count as
well: no `free_socket` is ever logged. -/
theorem socket_close_never_frees :
    ((socket_close demo_socket (some 0)).1 = 0 ∧
      ((socket_close demo_socket (some 0)).2.socks 0).map (fun cb => (cb.type, cb.refcount))
        = some (.SOCKET_UNBOUND, 4294967295) ∧
      SysEvent.free_socket 0 ∉ (socket_close demo_socket (some 0)).2.log) ∧
    ((socket_close demo_listening (some 0)).1 = 0 ∧
      ((socket_close demo_listening (some 0)).2.socks 0).map
          (fun cb => (cb.type, cb.refcount)) = some (.SOCKET_LISTENER, 4294967295) ∧
      SysEvent.free_socket 0 ∉ (socket_close demo_listening (some 0)).2.log) ∧
    ((demo_accepted.socks 1).map (fun cb => (cb.type, cb.refcount))
        = some (.SOCKET_PEER, 0) ∧
      (socket_close demo_accepted (some 1)).1 = 0 ∧
      ((socket_close demo_accepted (some 1)).2.socks 1).map (fun cb => cb.refcount)
        = some 4294967295 ∧
      SysEvent.free_socket 1 ∉ (socket_close demo_accepted (some 1)).2.log) ∧
    ((demo_connecting.socks 0).map (fun cb => cb.refcount) = some 1 ∧
      ((socket_close demo_connecting (some 0)).2.socks 0).map (fun cb => cb.refcount)
        = some 0 ∧
      ((sys_Connect_resume (socket_close demo_connecting (some 0)).2 0 0).2.socks 0).map
          (fun cb => cb.refcount) = some 4294967295 ∧
      SysEvent.free_socket 0 ∉
        (sys_Connect_resume (socket_close demo_connecting (some 0)).2 0 0).2.log) := by
  decide

/-- The loop of `socket_close` over the queue of a listener logs one `free` per queued node. -/
theorem free_queue_log (q : List Nat) :
    ∀ s : SockState, (free_queue s q).log = s.log ++ q.map SysEvent.free_node := by
  induction q with
  | nil => intro s; simp [free_queue]
  | cons a q ih =>
    intro s
    simp [free_queue, ih, SockState.emit]

/-- What `socket_close` on a listener logs: the `free` of every queued node, then one
signal on `req_available`; no signal on the `connected_cv` of a request. -/
theorem socket_close_listener_log (s : SockState) (l : Nat) (lcb : socket_cb)
    (hl : s.socks l = some lcb) (ht : lcb.type = .SOCKET_LISTENER) :
    (socket_close s (some l)).2.log =
      s.log ++ lcb.queue.map SysEvent.free_node ++ [.signal_req_available l] := by
  simp only [socket_close, hl, ht]
  rw [(decref_frame _ l).2.2.2.2.2.2.2.2.2]
  simp [SockState.emit, SockState.set_sock, free_queue_log]

/-- C23, evaluated on the code. In the worked example the client (socket 1) is asleep in
`sys_Connect` on its request 0, queued at the listener (socket 0, port 80). `socket_close`
on the listener returns 0, empties the queue, clears `port_map[80]` and leaves `admitted`
at 0, but it frees the queued node of the request and signals only `req_available`: the
`connected_cv` of the request is never signalled. When the client's wait ends,
`sys_Connect` returns -1 and frees request 0 a second time. -/
theorem listener_close_frees_pending_request :
    (demo_connecting.socks 0).map (fun cb => (cb.type, cb.queue))
      = some (.SOCKET_LISTENER, [0]) ∧
    (socket_close demo_connecting (some 0)).1 = 0 ∧
    ((socket_close demo_connecting (some 0)).2.socks 0).map (fun cb => cb.queue) = some [] ∧
    (socket_close demo_connecting (some 0)).2.port_map 80 = none ∧
    ((socket_close demo_connecting (some 0)).2.reqs 0).map (fun r => r.admitted) = some 0 ∧
    (socket_close demo_connecting (some 0)).2.log =
      demo_connecting.log ++ [.free_node 0, .signal_req_available 0] ∧
    SysEvent.signal_connected 0 ∉ (socket_close demo_connecting (some 0)).2.log ∧
    (sys_Connect_resume (socket_close demo_connecting (some 0)).2 0 0).1 = -1 ∧
    (sys_Connect_resume (socket_close demo_connecting (some 0)).2 0 0).2.log =
      demo_connecting.log ++ [.free_node 0, .signal_req_available 0, .free_request 0] := by
  decide

/-- Whatever the pipe, the close of the second end logs the `free` before the broadcast. -/
theorem close_second_end_events (p : pipe_cb) (h : Nat) :
    (pipe_writer_close (some { p with reader := none, writer := some h })).2.2 =
        [.free_pipe, .broadcast .has_data] ∧
      (pipe_reader_close (some { p with reader := some h, writer := none })).2.2 =
        [.free_pipe, .broadcast .has_space] := by
  constructor <;> simp [pipe_writer_close, pipe_reader_close]

/-- C24, evaluated on the code. On the pipe of the worked example, whose reader end is
closed first, `pipe_writer_close` returns 0 and frees the control block before it broadcasts
on `has_data`, a field of the freed block; with the writer end closed first,
`pipe_reader_close` frees the block before it broadcasts on `has_space`. -/
theorem pipe_close_frees_before_broadcast :
    (pipe_reader_close (some (fresh_pipe demo_config 0 1))).2.2 = [.broadcast .has_space] ∧
    (pipe_writer_close (pipe_reader_close (some (fresh_pipe demo_config 0 1))).2.1).1 = 0 ∧
    (pipe_writer_close (pipe_reader_close (some (fresh_pipe demo_config 0 1))).2.1).2.2 =
      [.free_pipe, .broadcast .has_data] ∧
    (pipe_writer_close (some (fresh_pipe demo_config 0 1))).2.2 = [.broadcast .has_data] ∧
    (pipe_reader_close (pipe_writer_close (some (fresh_pipe demo_config 0 1))).2.1).1 = 0 ∧
    (pipe_reader_close (pipe_writer_close (some (fresh_pipe demo_config 0 1))).2.1).2.2 =
      [.free_pipe, .broadcast .has_space] := by
  decide

/-! ## Theorems: the process-info stream -/

/-- The slots in use from `index` on, in ascending order. -/
theorem live_from_cons (MAX_PROC : Nat) (PT : Nat → PCB) (index : Nat) (h : index < MAX_PROC) :
    (List.range' index (MAX_PROC - index)).filter (fun p => (PT p).pstate ≠ .FREE) =
      if (PT index).pstate ≠ .FREE then
        index :: (List.range' (index + 1) (MAX_PROC - (index + 1))).filter
          (fun p => (PT p).pstate ≠ .FREE)
      else (List.range' (index + 1) (MAX_PROC - (index + 1))).filter
          (fun p => (PT p).pstate ≠ .FREE) := by
  have e : MAX_PROC - index = (MAX_PROC - (index + 1)) + 1 := by omega
  rw [e, List.range'_succ, List.filter_cons]
  by_cases hf : (PT index).pstate = .FREE
  · simp [hf]
  · simp [hf]

/-- The search loop of `procinfo_read` stops at the first slot in use from `index` on, or at
`MAX_PROC` when there is none. -/
theorem skip_free_loop_spec (MAX_PROC : Nat) (PT : Nat → PCB) (cursor : Option Nat) :
    ∀ (left index : Nat), index + left = MAX_PROC →
      ((skip_free_loop PT cursor left index).1 = MAX_PROC ∧
        (List.range' index (MAX_PROC - index)).filter (fun p => (PT p).pstate ≠ .FREE) = []) ∨
      (∃ c, skip_free_loop PT cursor left index = (c, some c) ∧ c < MAX_PROC ∧
        (List.range' index (MAX_PROC - index)).filter (fun p => (PT p).pstate ≠ .FREE) =
          c :: (List.range' (c + 1) (MAX_PROC - (c + 1))).filter
            (fun p => (PT p).pstate ≠ .FREE)) := by
  intro left
  induction left with
  | zero =>
    intro index h
    left
    have e : MAX_PROC - index = 0 := by omega
    refine ⟨by simpa [skip_free_loop] using h, ?_⟩
    rw [e]
    rfl
  | succ left ih =>
    intro index h
    have hlt : index < MAX_PROC := by omega
    rw [live_from_cons MAX_PROC PT index hlt]
    by_cases hf : (PT index).pstate = .FREE
    · have e : skip_free_loop PT cursor (left + 1) index =
          skip_free_loop PT cursor left (index + 1) := by
        simp [skip_free_loop, hf]
      rw [e, if_neg (not_not.mpr hf)]
      exact ih (index + 1) (by omega)
    · right
      refine ⟨index, ?_, hlt, ?_⟩
      · simp [skip_free_loop, hf]
      · rw [if_pos hf]

/-- The cursor after a read: the first slot in use from `index` on, `NULL` when there is
none. -/
theorem skip_free_spec (MAX_PROC : Nat) (PT : Nat → PCB) (cursor : Option Nat) (index : Nat)
    (h : index ≤ MAX_PROC) :
    (skip_free MAX_PROC PT cursor index = none ∧
      (List.range' index (MAX_PROC - index)).filter (fun p => (PT p).pstate ≠ .FREE) = []) ∨
    (∃ c, skip_free MAX_PROC PT cursor index = some c ∧ c < MAX_PROC ∧
      (List.range' index (MAX_PROC - index)).filter (fun p => (PT p).pstate ≠ .FREE) =
        c :: (List.range' (c + 1) (MAX_PROC - (c + 1))).filter
          (fun p => (PT p).pstate ≠ .FREE)) := by
  rcases skip_free_loop_spec MAX_PROC PT cursor (MAX_PROC - index) index (by omega) with
    ⟨h1, h2⟩ | ⟨c, h1, h2, h3⟩
  · left
    exact ⟨by simp [skip_free, h1], h2⟩
  · right
    refine ⟨c, ?_, h2, h3⟩
    have hne : c ≠ MAX_PROC := by omega
    simp [skip_free, h1, hne]

/-- Whether `memcpy` is defined does not depend on the destination. -/
theorem memcpy_isSome (dst : List Byte) (src : Option (List Byte)) (n : Nat) :
    (memcpy dst src n).isSome = (memcpy [] src n).isSome := by
  unfold memcpy
  by_cases h0 : n = 0
  · simp [h0]
  · cases src with
    | none => simp [h0]
    | some a => by_cases h1 : n ≤ a.length <;> simp [h0, h1]

/-- One read at a cursor on a slot whose argument bytes can be copied: the call returns the
size of the control block, the record delivered is that of the slot under the cursor, and
the cursor moves on. -/
theorem procinfo_read_at (cfg : InfoConfig) (s : ProcState) (cb : procinfo_cb) (size c : Nat)
    (hc : cb.cursor = some c) (hr : args_readable cfg.PROCINFO_MAX_ARGS_SIZE (s.PT c)) :
    ∃ r, procinfo_read cfg s cb size = .ret r ∧
      r.ret = (cfg.sizeof_procinfo_cb : Int) ∧
      r.buf.map procinfo.header = some (info_spec s c) ∧
      r.copied = size ∧
      r.copy_size = copy_size cfg.PROCINFO_MAX_ARGS_SIZE (s.PT c).argl ∧
      r.cb.cursor = skip_free cfg.MAX_PROC s.PT (some c) (c + 1) := by
  have e : ((get_pid (some c) + 1 : Int)).toNat = c + 1 := by
    simp only [get_pid]
    omega
  have hs : (memcpy cb.info.args (s.PT c).args
      (copy_size cfg.PROCINFO_MAX_ARGS_SIZE (s.PT c).argl)).isSome := by
    rw [memcpy_isSome]
    exact hr
  obtain ⟨bytes, hb⟩ := Option.isSome_iff_exists.mp hs
  have heq : procinfo_read cfg s cb size =
      .ret
        { ret := (cfg.sizeof_procinfo_cb : Int)
          cb :=
            { info :=
                { pid := get_pid (some c), ppid := get_pid (s.PT c).parent,
                  alive := if (s.PT c).pstate = .ALIVE then 1 else 0,
                  thread_count := (s.PT c).thread_count, main_task := (s.PT c).main_task,
                  argl := (s.PT c).argl, args := bytes }
              cursor := skip_free cfg.MAX_PROC s.PT (some c) (c + 1) }
          buf := some
            { pid := get_pid (some c), ppid := get_pid (s.PT c).parent,
              alive := if (s.PT c).pstate = .ALIVE then 1 else 0,
              thread_count := (s.PT c).thread_count, main_task := (s.PT c).main_task,
              argl := (s.PT c).argl, args := bytes }
          copied := size
          copy_size := copy_size cfg.PROCINFO_MAX_ARGS_SIZE (s.PT c).argl } := by
    simp only [procinfo_read, hc, hb, e]
  exact ⟨_, heq, rfl, rfl, rfl, rfl, rfl⟩

/-- One read at a cursor on a slot whose argument bytes cannot be copied faults. -/
theorem procinfo_read_fault (cfg : InfoConfig) (s : ProcState) (cb : procinfo_cb)
    (size c : Nat) (hc : cb.cursor = some c)
    (hr : ¬ args_readable cfg.PROCINFO_MAX_ARGS_SIZE (s.PT c)) :
    procinfo_read cfg s cb size =
      .fault (copy_size cfg.PROCINFO_MAX_ARGS_SIZE (s.PT c).argl) := by
  have hs : memcpy cb.info.args (s.PT c).args
      (copy_size cfg.PROCINFO_MAX_ARGS_SIZE (s.PT c).argl) = none := by
    rw [← Option.not_isSome_iff_eq_none, memcpy_isSome]
    exact hr
  simp only [procinfo_read, hc, hs]

/-- At end of stream a read returns 0, delivers nothing and leaves the stream as it is. -/
theorem procinfo_read_eos (cfg : InfoConfig) (s : ProcState) (cb : procinfo_cb) (size : Nat)
    (hc : cb.cursor = none) :
    procinfo_read cfg s cb size =
      .ret { ret := 0, cb := cb, buf := none, copied := 0, copy_size := 0 } := by
  simp only [procinfo_read, hc]

/-- Once at end of stream, every read returns 0 and delivers nothing. -/
theorem procinfo_reads_eos (cfg : InfoConfig) (s : ProcState) (size : Nat) :
    ∀ (n : Nat) (cb : procinfo_cb), cb.cursor = none →
      (procinfo_reads cfg s size n cb).map (fun r => (r.value, r.buf.map procinfo.header)) =
        List.replicate n (some 0, none) := by
  intro n
  induction n with
  | zero => intro cb _; rfl
  | succ n ih =>
    intro cb hc
    simp only [procinfo_reads, procinfo_read_eos cfg s cb size hc, List.map_cons,
      List.replicate_succ]
    exact congrArg _ (ih cb hc)

/-- Padding with `n` or more end-of-stream entries gives the same first `n` entries. -/
theorem take_pad {α : Type} (X : List α) (a : α) (n m : Nat) (h : n ≤ m) :
    (X ++ List.replicate m a).take n = (X ++ List.replicate n a).take n := by
  rw [List.take_append_eq_append_take, List.take_append_eq_append_take,
    List.take_replicate, List.take_replicate]
  congr 2
  omega

/-- From a cursor on a slot below `MAX_PROC`, over a table in which the argument bytes of
every slot in use from there on can be copied, the reads report that slot, then the slots
in use above it in ascending order, then end of stream. -/
theorem procinfo_reads_from (cfg : InfoConfig) (s : ProcState) (size : Nat) :
    ∀ (n : Nat) (cb : procinfo_cb) (c : Nat), cb.cursor = some c → c < cfg.MAX_PROC →
      (∀ p, p ∈ c :: (List.range' (c + 1) (cfg.MAX_PROC - (c + 1))).filter
          (fun p => (s.PT p).pstate ≠ .FREE) →
        args_readable cfg.PROCINFO_MAX_ARGS_SIZE (s.PT p)) →
      (procinfo_reads cfg s size n cb).map (fun r => (r.value, r.buf.map procinfo.header)) =
        (((c :: (List.range' (c + 1) (cfg.MAX_PROC - (c + 1))).filter
              (fun p => (s.PT p).pstate ≠ .FREE)).map
            (fun p => (some (cfg.sizeof_procinfo_cb : Int), some (info_spec s p)))) ++
          List.replicate n (some 0, none)).take n := by
  intro n
  induction n with
  | zero => intro cb c _ _ _; rfl
  | succ n ih =>
    intro cb c hc hlt hread
    obtain ⟨r, r0, r1, r2, _, _, r5⟩ :=
      procinfo_read_at cfg s cb size c hc (hread c (List.mem_cons_self _ _))
    have hv : (InfoStep.ret r).value = some (cfg.sizeof_procinfo_cb : Int) := by
      show some r.ret = _
      rw [r1]
    have hb : (InfoStep.ret r).buf.map procinfo.header = some (info_spec s c) := r2
    simp only [procinfo_reads, r0, List.map_cons, List.cons_append, List.take_succ_cons]
    rw [hv, hb]
    congr 1
    rcases skip_free_spec cfg.MAX_PROC s.PT (some c) (c + 1) (by omega) with
      ⟨h1, h2⟩ | ⟨c', h1, h2, h3⟩
    · rw [procinfo_reads_eos cfg s size n _ (r5.trans h1), h2]
      simp
    · rw [ih _ c' (r5.trans h1) h2
        (fun p hp => hread p (List.mem_cons_of_mem _ (by rw [h3]; exact hp))), h3]
      exact (take_pad _ _ n (n + 1) (by omega)).symm

/-- The slots listed by `live_pids` are the slots in use with a pid from 1 up. -/
theorem mem_live_pids (MAX_PROC : Nat) (s : ProcState) (p : Nat) :
    p ∈ live_pids MAX_PROC s ↔ 1 ≤ p ∧ p < MAX_PROC ∧ (s.PT p).pstate ≠ .FREE := by
  simp only [live_pids, List.mem_filter, List.mem_range'_1, decide_eq_true_eq]
  constructor
  · rintro ⟨⟨h1, h2⟩, h3⟩
    exact ⟨h1, by omega, h3⟩
  · rintro ⟨h1, h2, h3⟩
    exact ⟨⟨h1, by omega⟩, h3⟩

/-- The list `live_pids` is strictly ascending. -/
theorem live_pids_sorted (MAX_PROC : Nat) (s : ProcState) :
    (live_pids MAX_PROC s).Pairwise (fun a b => a < b) :=
  (List.pairwise_lt_range' 1 (MAX_PROC - 1)).sublist (List.filter_sublist _)

/-- The first slot in use whose argument bytes cannot be copied ends the enumeration: from a
cursor on such a slot the next read faults, whatever the number of reads asked for. -/
theorem procinfo_reads_fault (cfg : InfoConfig) (s : ProcState) (size n : Nat)
    (cb : procinfo_cb) (c : Nat) (hc : cb.cursor = some c)
    (hr : ¬ args_readable cfg.PROCINFO_MAX_ARGS_SIZE (s.PT c)) :
    procinfo_reads cfg s size (n + 1) cb =
      [.fault (copy_size cfg.PROCINFO_MAX_ARGS_SIZE (s.PT c).argl)] := by
  simp only [procinfo_reads, procinfo_read_fault cfg s cb size c hc hr]

/-- Over a process table that does not change, with `MAX_PROC` above 1, slot 1 not `FREE`
and the argument bytes of every slot in use readable, the successive `procinfo_read` calls
on the stream opened by `sys_OpenInfo`, each with a buffer of one record, report the slots
of `live_pids`: these are exactly the slots in use with a pid from 1 up, in strictly
ascending order, so each once. The record of a slot carries its pid, the pid of its parent
(`NOPROC` for none), `alive` equal to 1 exactly for an `ALIVE` slot, and its
`thread_count`, `main_task` and `argl` (`info_spec`). Every read after the last record
returns 0 and delivers nothing. -/
theorem procinfo_enumeration (cfg : InfoConfig) (s : ProcState)
    (reserved : Option (Nat × Nat)) (raw : procinfo) (cb : procinfo_cb) (n : Nat)
    (hmax : 1 < cfg.MAX_PROC) (hinit : (s.PT 1).pstate ≠ .FREE)
    (hread : ∀ p, p ∈ live_pids cfg.MAX_PROC s →
      args_readable cfg.PROCINFO_MAX_ARGS_SIZE (s.PT p))
    (hopen : (sys_OpenInfo reserved raw).2 = some cb) :
    (∀ p, p ∈ live_pids cfg.MAX_PROC s ↔
      1 ≤ p ∧ p < cfg.MAX_PROC ∧ (s.PT p).pstate ≠ .FREE) ∧
    (live_pids cfg.MAX_PROC s).Pairwise (fun a b => a < b) ∧
    (procinfo_reads cfg s cfg.sizeof_procinfo n cb).map
        (fun r => (r.value, r.buf.map procinfo.header)) =
      ((live_pids cfg.MAX_PROC s).map
          (fun p => (some (cfg.sizeof_procinfo_cb : Int), some (info_spec s p))) ++
        List.replicate n (some 0, none)).take n := by
  refine ⟨mem_live_pids cfg.MAX_PROC s, live_pids_sorted cfg.MAX_PROC s, ?_⟩
  have hcur : cb.cursor = some 1 := by
    cases reserved with
    | none => simp [sys_OpenInfo] at hopen
    | some fd =>
      simp only [sys_OpenInfo, Option.some.injEq] at hopen
      rw [← hopen]
  have hlive : live_pids cfg.MAX_PROC s =
      1 :: (List.range' (1 + 1) (cfg.MAX_PROC - (1 + 1))).filter
        (fun p => (s.PT p).pstate ≠ .FREE) := by
    unfold live_pids
    rw [live_from_cons cfg.MAX_PROC s.PT 1 hmax, if_pos hinit]
  rw [hlive] at hread ⊢
  exact procinfo_reads_from cfg s cfg.sizeof_procinfo n cb 1 hcur hmax hread

/-- The enumeration on the worked example: in `demo_reaped` slot 2 is `FREE`; five reads
report init, pid 1, then pid 3 with parent 1, then end of stream three times. -/
theorem procinfo_enumeration_reaped :
    live_pids demo_info.MAX_PROC demo_reaped = [1, 3] ∧
    (procinfo_reads demo_info demo_reaped demo_info.sizeof_procinfo 5 demo_stream).map
        (fun r => (r.value, r.buf.map procinfo.header)) =
      [(some 16, some ⟨1, -1, 1, 1, some 1, 0⟩), (some 16, some ⟨3, 1, 1, 1, some 4, 0⟩),
        (some 0, none), (some 0, none), (some 0, none)] :=
  ⟨by decide,
   (procinfo_enumeration demo_info demo_reaped (some (0, 0)) demo_raw demo_stream 5
      (by decide) (by decide) (by decide) rfl).2.2.trans (by decide)⟩

/-- C21, evaluated on the code. In `demo_zombie` init, pid 1, has executed a child, pid 2,
with two argument bytes, and the child has exited: slot 2 is a `ZOMBIE`, so it is in use
and `live_pids` lists it, `CleanUp` has freed its argument buffer and set `args` to null,
and its `argl` is still 2. On the stream opened by `sys_OpenInfo` the first read reports
init; the second asks `memcpy` for 2 bytes from the null pointer and faults: the record of
pid 2 is never reported and no read returns 0. -/
theorem procinfo_read_faults_on_zombie :
    (sys_OpenInfo (some (0, 0)) demo_raw).2 = some demo_stream ∧
    (demo_zombie.PT 1).pstate = .ALIVE ∧
    ((demo_zombie.PT 2).pstate, (demo_zombie.PT 2).args, (demo_zombie.PT 2).argl) =
      (.ZOMBIE, none, 2) ∧
    live_pids demo_info.MAX_PROC demo_zombie = [1, 2] ∧
    (procinfo_reads demo_info demo_zombie demo_info.sizeof_procinfo 3 demo_stream).map
        (fun r => (r.value, r.buf.map procinfo.header)) =
      [(some 16, some ⟨1, -1, 1, 1, some 1, 0⟩), (none, none)] ∧
    (procinfo_reads demo_info demo_zombie demo_info.sizeof_procinfo 3 demo_stream).map
        (fun r => r.copy_size) = [0, 2] := by
  decide

/-- The count of the argument `memcpy` for an `argl` that is not negative: the smaller of
`argl` and `PROCINFO_MAX_ARGS_SIZE`. -/
theorem copy_size_of_nonneg (M : Nat) (argl : Int) (h0 : 0 ≤ argl) (hM : M < UINT_MOD) :
    (copy_size M argl : Int) = min argl M := by
  unfold copy_size
  unfold UINT_MOD at *
  by_cases h : argl < M
  · rw [if_pos h, min_eq_left (le_of_lt h)]
    omega
  · rw [if_neg h, min_eq_right (not_lt.mp h)]
    omega

/-- The count of the argument `memcpy` for a negative `argl`: `argl` taken modulo 2^32. -/
theorem copy_size_of_neg (M : Nat) (argl : Int) (h0 : argl < 0) :
    (copy_size M argl : Int) = argl % UINT_MOD := by
  unfold copy_size
  have h : argl < M := by omega
  rw [if_pos h]
  unfold UINT_MOD
  omega

/-- C26, evaluated on the code. With the sizes of the worked example, 168 bytes for the
record and 16 for the control block of the stream, the first read on the stream opened by
`sys_OpenInfo` over `demo_child`, with a buffer of one record, delivers the 168 bytes of
the record of init and returns 16, the size of the control block. -/
theorem procinfo_read_returns_cb_size :
    (sys_OpenInfo (some (0, 0)) demo_raw).2 = some demo_stream ∧
    demo_info.sizeof_procinfo = 168 ∧
    (procinfo_read demo_info demo_child demo_stream demo_info.sizeof_procinfo).buf.map
      procinfo.header = some ⟨1, -1, 1, 1, some 1, 0⟩ ∧
    (procinfo_read demo_info demo_child demo_stream demo_info.sizeof_procinfo).copied = 168 ∧
    (procinfo_read demo_info demo_child demo_stream demo_info.sizeof_procinfo).value =
      some 16 := by
  decide

/-- C27, evaluated on the code. In `demo_noargs` init has executed pid 2 with `argl = 5`
and no argument buffer: the process owns no argument byte, and the read of its record, the
second on the stream (pid 2 is the slot in use after init), asks `memcpy` for 5 bytes and
faults on the null source. In `demo_negargs` it has executed pid 2 with `argl = -1`: the
count is 4294967295, above `PROCINFO_MAX_ARGS_SIZE = 128`. -/
theorem copy_size_exceeds_args :
    ((sys_Exec 2 demo_init 1 (some 3) 5 none).1 = 2 ∧
      (demo_noargs.PT 2).args = none ∧ (demo_noargs.PT 2).argl = 5 ∧
      live_pids demo_info.MAX_PROC demo_noargs = [1, 2] ∧
      (procinfo_reads demo_info demo_noargs 168 2 demo_stream).map
        (fun r => (r.buf.map (fun i => i.pid), r.copy_size)) = [(some 1, 0), (none, 5)] ∧
      copy_size demo_info.PROCINFO_MAX_ARGS_SIZE (demo_noargs.PT 2).argl = 5) ∧
    ((sys_Exec 2 demo_init 1 (some 3) (-1) none).1 = 2 ∧
      (demo_negargs.PT 2).args = none ∧ (demo_negargs.PT 2).argl = -1 ∧
      live_pids demo_info.MAX_PROC demo_negargs = [1, 2] ∧
      (procinfo_reads demo_info demo_negargs 168 2 demo_stream).map
        (fun r => (r.buf.map (fun i => i.pid), r.copy_size)) =
          [(some 1, 0), (none, 4294967295)] ∧
      copy_size demo_info.PROCINFO_MAX_ARGS_SIZE (demo_negargs.PT 2).argl = 4294967295 ∧
      demo_info.PROCINFO_MAX_ARGS_SIZE = 128) := by
  decide

/-! ## Theorems: release of detached threads -/

theorem reparent_one_ptcb_list (i : Option Nat) (cp c : Nat) (rest : List Nat)
    (s : ProcState) (q : Nat) :
    ((reparent_one i cp c rest s).PT q).ptcb_list = (s.PT q).ptcb_list ∧
      ((reparent_one i cp c rest s).PT q).thread_count = (s.PT q).thread_count := by
  cases i with
  | none =>
    by_cases h2 : q = cp <;> by_cases h3 : q = c <;>
      simp [reparent_one, ProcState.set_pcb, h2, h3] <;> subst_vars <;> simp_all
  | some i =>
    by_cases h1 : q = i <;> by_cases h2 : q = cp <;> by_cases h3 : q = c <;>
      simp [reparent_one, ProcState.set_pcb, h1, h2, h3] <;> subst_vars <;> simp_all

theorem reparent_children_ptcb_list (i : Option Nat) (cp : Nat) (L : List Nat) :
    ∀ (s : ProcState) (q : Nat),
      ((reparent_children i cp L s).PT q).ptcb_list = (s.PT q).ptcb_list ∧
        ((reparent_children i cp L s).PT q).thread_count = (s.PT q).thread_count := by
  induction L with
  | nil => intro s q; exact ⟨rfl, rfl⟩
  | cons c rest ih =>
    intro s q
    simp only [reparent_children]
    rw [(ih _ q).1, (ih _ q).2]
    exact reparent_one_ptcb_list i cp c rest s q

theorem splice_exited_ptcb_list (i : Option Nat) (cp : Nat) (s : ProcState) (q : Nat) :
    ((splice_exited i cp s).PT q).ptcb_list = (s.PT q).ptcb_list ∧
      ((splice_exited i cp s).PT q).thread_count = (s.PT q).thread_count := by
  unfold splice_exited
  cases i with
  | none => by_cases he : (s.PT cp).exited_list = [] <;> simp [he]
  | some i =>
    by_cases he : (s.PT cp).exited_list = [] <;> by_cases h1 : q = i <;>
      by_cases h2 : q = cp <;> simp [ProcState.set_pcb, ProcState.emit, he, h1, h2] <;>
      subst_vars <;> simp_all

theorem enter_exited_ptcb_list (cp : Nat) (s : ProcState) (q : Nat) :
    ((enter_exited cp s).PT q).ptcb_list = (s.PT q).ptcb_list ∧
      ((enter_exited cp s).PT q).thread_count = (s.PT q).thread_count := by
  unfold enter_exited
  cases hp : (s.PT cp).parent with
  | none => simp
  | some par =>
    by_cases h1 : q = par
    · subst h1; simp [ProcState.set_pcb, ProcState.emit]
    · simp [ProcState.set_pcb, ProcState.emit, h1]

theorem orphan_children_ptcb_list (s : ProcState) (cp q : Nat) :
    ((orphan_children s cp).PT q).ptcb_list = (s.PT q).ptcb_list ∧
      ((orphan_children s cp).PT q).thread_count = (s.PT q).thread_count := by
  unfold orphan_children
  rw [(enter_exited_ptcb_list cp _ q).1, (enter_exited_ptcb_list cp _ q).2,
    (splice_exited_ptcb_list _ cp _ q).1, (splice_exited_ptcb_list _ cp _ q).2]
  exact reparent_children_ptcb_list _ cp _ s q

/-- The free loop of `CleanUp` logs one `free` per thread control block of the list. -/
theorem free_ptcbs_log (L : List Nat) :
    ∀ s : ProcState, (free_ptcbs s L).log = s.log ++ L.map ProcEvent.free_ptcb := by
  induction L with
  | nil => intro s; simp [free_ptcbs]
  | cons t rest ih =>
    intro s
    simp [free_ptcbs, ih, ProcState.emit]

/-- The effect of `CleanUp` on the thread lists: the list of `cp` is emptied, every block
that was in it is freed, the other lists stay. -/
theorem CleanUp_ptcb_list (F : Nat) (s : ProcState) (cp : Nat) :
    (∀ q, ((CleanUp F s cp).PT q).ptcb_list = if q = cp then [] else (s.PT q).ptcb_list) ∧
    (∀ q, ((CleanUp F s cp).PT q).thread_count = (s.PT q).thread_count) ∧
    (∀ t, t ∈ (s.PT cp).ptcb_list → ProcEvent.free_ptcb t ∈ (CleanUp F s cp).log) := by
  refine ⟨fun q => ?_, fun q => ?_, fun t ht => ?_⟩
  · unfold CleanUp
    by_cases hq : q = cp
    · subst hq
      by_cases ha : (s.PT q).args = none <;>
        simp [ProcState.set_pcb, ProcState.emit, free_ptcbs_PT, decref_all_PT, ha]
    · by_cases ha : (s.PT cp).args = none <;>
        simp [ProcState.set_pcb, ProcState.emit, free_ptcbs_PT, decref_all_PT, ha, hq]
  · unfold CleanUp
    by_cases hq : q = cp
    · subst hq
      by_cases ha : (s.PT q).args = none <;>
        simp [ProcState.set_pcb, ProcState.emit, free_ptcbs_PT, decref_all_PT, ha]
    · by_cases ha : (s.PT cp).args = none <;>
        simp [ProcState.set_pcb, ProcState.emit, free_ptcbs_PT, decref_all_PT, ha, hq]
  · unfold CleanUp
    by_cases ha : (s.PT cp).args = none <;>
      simp [ProcState.set_pcb, ProcState.emit, free_ptcbs_PT, decref_all_PT, ha,
        free_ptcbs_log, (decref_all_frame _ _).2.2.2.2.2, ht]

/-- A write through a pointer to one thread control block leaves the others alone. -/
theorem update_ptcb_other (s : ProcState) (x : Nat) (f : PTCB → PTCB) (t : Nat) (h : t ≠ x) :
    (s.update_ptcb x f).ptcbs t = s.ptcbs t := by
  unfold ProcState.update_ptcb
  cases s.ptcbs x with
  | none => rfl
  | some u => simp [ProcState.set_ptcb, heap_set, h]

/-- The effect of `sys_ThreadExit` on the thread control blocks and the thread lists: only
the block of the caller is written, and only the exit of the last thread of a process
changes a list, which it empties. -/
theorem sys_ThreadExit_threads (F : Nat) (s : ProcState) (cp self : Nat) (v : Int) :
    (sys_ThreadExit F s cp self v).nptcb = s.nptcb ∧
    (∀ t, t ≠ self → (sys_ThreadExit F s cp self v).ptcbs t = s.ptcbs t) ∧
    (∀ q, ((sys_ThreadExit F s cp self v).PT q).ptcb_list =
      if q = cp ∧ (s.PT cp).thread_count = 1 then [] else (s.PT q).ptcb_list) := by
  have hPT : (mark_exited s self v).PT = s.PT := (update_ptcb_frame s self _).1
  have hn : (mark_exited s self v).nptcb = s.nptcb := (update_ptcb_frame s self _).2.2.2.2.1
  refine ⟨?_, fun t ht => ?_, fun q => ?_⟩
  · by_cases hc : (s.PT cp).thread_count = 1
    · rw [sys_ThreadExit_last F s cp self v hc]
      show (last_thread F _ cp).nptcb = _
      rw [(last_thread_frame F _ cp).2.1]
      exact hn
    · rw [sys_ThreadExit_live F s cp self v hc]
      exact hn
  · rw [sys_ThreadExit_ptcbs]
    exact update_ptcb_other s self _ t ht
  · by_cases hc : (s.PT cp).thread_count = 1
    · rw [sys_ThreadExit_last F s cp self v hc]
      show ((last_thread F _ cp).PT q).ptcb_list = _
      unfold last_thread
      rw [(CleanUp_ptcb_list F _ cp).1 q]
      by_cases hq : q = cp
      · simp [hq, hc]
      · simp only [hq, false_and, if_false]
        by_cases h1 : get_pid (some cp) ≠ 1
        · rw [if_pos h1, (orphan_children_ptcb_list _ cp q).1]
          simp [leave_process, ProcState.set_pcb, ProcState.emit, hq, hPT]
        · rw [if_neg h1]
          simp [leave_process, ProcState.set_pcb, ProcState.emit, hq, hPT]
    · rw [sys_ThreadExit_live F s cp self v hc]
      simp only [hc, and_false, if_false]
      by_cases hq : q = cp
      · subst hq
        simp [leave_process, ProcState.set_pcb, ProcState.emit, hPT]
      · simp [leave_process, ProcState.set_pcb, ProcState.emit, hq, hPT]

/-- The effect of a joiner that resumes on `ptcb`: no other block is written or unlinked. -/
theorem join_resume_threads (s : ProcState) (ptcb : Nat) (ev : Option Int) :
    (sys_ThreadJoin_resume s ptcb ev).state.nptcb = s.nptcb ∧
    (∀ t, t ≠ ptcb → (sys_ThreadJoin_resume s ptcb ev).state.ptcbs t = s.ptcbs t) ∧
    (∀ q t, t ≠ ptcb → (t ∈ ((sys_ThreadJoin_resume s ptcb ev).state.PT q).ptcb_list ↔
      t ∈ (s.PT q).ptcb_list)) := by
  cases hs : s.ptcbs ptcb with
  | none => simp [sys_ThreadJoin_resume, hs, JoinStep.state]
  | some u =>
    cases hd : u.detached with
    | true =>
      rw [join_resume_detached s ptcb u ev hs hd]
      refine ⟨rfl, fun t ht => ?_, fun q t _ => Iff.rfl⟩
      simp [JoinStep.state, ProcState.set_ptcb, heap_set, ht]
    | false =>
      cases he : u.exited with
      | false =>
        rw [join_resume_live s ptcb u ev hs he hd]
        exact ⟨rfl, fun _ _ => rfl, fun _ _ _ => Iff.rfl⟩
      | true =>
        rw [join_resume_exited s ptcb u ev hs he hd]
        by_cases h3 : u.ref_count - 1 = 0
        · rw [if_pos h3]
          refine ⟨rfl, fun t ht => ?_, fun q t ht => ?_⟩
          · simp [JoinStep.state, ProcState.set_ptcb, heap_set, ht, unlink_ptcb, ProcState.emit]
          · simp [JoinStep.state, ProcState.set_ptcb, unlink_ptcb, ProcState.emit,
              List.mem_filter, ht]
        · rw [if_neg h3]
          refine ⟨rfl, fun t ht => ?_, fun q t _ => Iff.rfl⟩
          simp [JoinStep.state, ProcState.set_ptcb, heap_set, ht]

/-- A detached thread is not joined: the call returns at once and changes nothing. -/
theorem join_detached_same (s : ProcState) (cp self t : Nat) (ev : Option Int) (u : PTCB)
    (hs : s.ptcbs t = some u) (hd : u.detached = true) :
    (sys_ThreadJoin s cp self (some t) ev).state = s := by
  unfold sys_ThreadJoin
  by_cases hin : t ∈ (s.PT cp).ptcb_list
  · simp [JoinStep.state, hin, hs, hd]
  · simp [JoinStep.state, hin]

/-- The effect of `sys_ThreadJoin` on the blocks other than the one joined. -/
theorem join_threads (s : ProcState) (cp self : Nat) (tid : Option Nat) (ev : Option Int) :
    (sys_ThreadJoin s cp self tid ev).state.nptcb = s.nptcb ∧
    (∀ t, tid ≠ some t → (sys_ThreadJoin s cp self tid ev).state.ptcbs t = s.ptcbs t) ∧
    (∀ q t, tid ≠ some t → (t ∈ ((sys_ThreadJoin s cp self tid ev).state.PT q).ptcb_list ↔
      t ∈ (s.PT q).ptcb_list)) := by
  cases tid with
  | none => simp [sys_ThreadJoin, JoinStep.state]
  | some x =>
    by_cases hin : x ∈ (s.PT cp).ptcb_list
    · cases hs : s.ptcbs x with
      | none => simp [sys_ThreadJoin, JoinStep.state, hin, hs]
      | some u =>
        cases hd : u.detached with
        | true =>
          rw [join_detached_same s cp self x ev u hs hd]
          exact ⟨rfl, fun _ _ => rfl, fun _ _ _ => Iff.rfl⟩
        | false =>
          by_cases hself : self = x
          · simp [sys_ThreadJoin, sys_ThreadSelf, JoinStep.state, hin, hs, hd, hself]
          · rw [join_entry s cp self x u ev hin hs hd hself]
            obtain ⟨r1, r2, r3⟩ := join_resume_threads
              (s.set_ptcb x { u with ref_count := u.ref_count + 1 }) x ev
            refine ⟨r1, fun t ht => ?_, fun q t ht => ?_⟩
            · have hne : t ≠ x := fun e => ht (by rw [e])
              rw [r2 t hne]
              simp [ProcState.set_ptcb, heap_set, hne]
            · have hne : t ≠ x := fun e => ht (by rw [e])
              exact r3 q t hne
    · rw [join_gone s cp self x ev hin]
      exact ⟨rfl, fun _ _ => rfl, fun _ _ _ => Iff.rfl⟩

/-- The effect of `sys_ThreadDetach`: only the block detached is written; a thread that has
exited is not detached. -/
theorem detach_threads (s : ProcState) (cp : Nat) (tid : Option Nat) :
    (sys_ThreadDetach s cp tid).2.nptcb = s.nptcb ∧
    (∀ q, ((sys_ThreadDetach s cp tid).2.PT q).ptcb_list = (s.PT q).ptcb_list) ∧
    (∀ t, tid ≠ some t → (sys_ThreadDetach s cp tid).2.ptcbs t = s.ptcbs t) ∧
    (∀ t u, s.ptcbs t = some u → u.exited = true → (sys_ThreadDetach s cp (some t)).2 = s) := by
  refine ⟨?_, fun q => ?_, fun t ht => ?_, fun t u hs he => ?_⟩
  · unfold sys_ThreadDetach
    cases tid with
    | none => rfl
    | some x =>
      by_cases hin : x ∈ (s.PT cp).ptcb_list
      · cases hs : s.ptcbs x with
        | none => simp [hin, hs]
        | some u => by_cases he : u.exited = true <;> simp [hin, hs, he, ProcState.set_ptcb,
            ProcState.emit]
      · simp [hin]
  · unfold sys_ThreadDetach
    cases tid with
    | none => rfl
    | some x =>
      by_cases hin : x ∈ (s.PT cp).ptcb_list
      · cases hs : s.ptcbs x with
        | none => simp [hin, hs]
        | some u => by_cases he : u.exited = true <;> simp [hin, hs, he, ProcState.set_ptcb,
            ProcState.emit]
      · simp [hin]
  · unfold sys_ThreadDetach
    cases tid with
    | none => rfl
    | some x =>
      have hne : t ≠ x := fun e => ht (by rw [e])
      by_cases hin : x ∈ (s.PT cp).ptcb_list
      · cases hs : s.ptcbs x with
        | none => simp [hin, hs]
        | some u => by_cases he : u.exited = true <;> simp [hin, hs, he, ProcState.set_ptcb,
            ProcState.emit, heap_set, hne]
      · simp [hin]
  · unfold sys_ThreadDetach
    by_cases hin : t ∈ (s.PT cp).ptcb_list
    · simp [hin, hs, he]
    · simp [hin]

/-- The effect of `sys_CreateThread`: the blocks allocated before are not written, and no
list loses a block. -/
theorem create_threads (s : ProcState) (cp : Nat) (task : Option Nat) (argl : Int)
    (args : Option (List Byte)) :
    s.nptcb ≤ (sys_CreateThread s cp task argl args).2.nptcb ∧
    (∀ t, t < s.nptcb → (sys_CreateThread s cp task argl args).2.ptcbs t = s.ptcbs t) ∧
    (∀ q t, t ∈ (s.PT q).ptcb_list →
      t ∈ ((sys_CreateThread s cp task argl args).2.PT q).ptcb_list) := by
  unfold sys_CreateThread
  cases task with
  | none => exact ⟨le_refl _, fun _ _ => rfl, fun _ _ h => h⟩
  | some f =>
    refine ⟨?_, fun t ht => ?_, fun q t ht => ?_⟩
    · show _ ≤ (ProcState.update_ptcb _ _ _).nptcb
      rw [(update_ptcb_frame _ _ _).2.2.2.2.1]
      simp [spawn_process_thread]
    · show (ProcState.update_ptcb _ _ _).ptcbs t = _
      have hne : t ≠ s.nptcb := by omega
      rw [update_ptcb_other _ _ _ t (by simpa [spawn_process_thread] using hne)]
      simp [spawn_process_thread, heap_set, hne]
    · show t ∈ ((ProcState.update_ptcb _ _ _).PT q).ptcb_list
      rw [(update_ptcb_frame _ _ _).1]
      by_cases hq : q = cp
      · subst hq
        simp [spawn_process_thread, ProcState.set_pcb, ht]
      · simp [spawn_process_thread, ProcState.set_pcb, hq, ht]

/-- A block that lingers, spelled out. -/
theorem lingering_iff (s : ProcState) (p t : Nat) :
    Lingering s p t ↔ t ∈ (s.PT p).ptcb_list ∧ t < s.nptcb ∧
      ∃ u, s.ptcbs t = some u ∧ u.exited = true ∧ u.detached = true ∧ u.ref_count = 0 := by
  unfold Lingering
  cases s.ptcbs t with
  | none => simp
  | some u => simp

/-- A step that keeps the block `t`, its list membership and the allocation order keeps it
lingering. -/
theorem lingering_of_same (s s' : ProcState) (p t : Nat) (h : Lingering s p t)
    (h1 : t ∈ (s.PT p).ptcb_list → t ∈ (s'.PT p).ptcb_list) (h2 : s.nptcb ≤ s'.nptcb)
    (h3 : s'.ptcbs t = s.ptcbs t) : Lingering s' p t := by
  rw [lingering_iff] at h ⊢
  obtain ⟨a, b, u, c, d⟩ := h
  exact ⟨h1 a, by omega, u, h3.trans c, d⟩

/-- Every step other than the exit of the last running thread of `p` keeps a lingering block
of `p` in the list, exited, detached and without joiner. -/
theorem lingering_step (F : Nat) (s : ProcState) (p t : Nat) (c : ThreadCall)
    (h : Lingering s p t) (hok : c.ok s) (hlast : ¬ c.last_exit s p) :
    Lingering (thread_step F s c) p t := by
  obtain ⟨hin, hlt, u, hu, he, hd, hr⟩ := (lingering_iff s p t).mp h
  cases c with
  | create cp task argl args =>
    obtain ⟨r1, r2, r3⟩ := create_threads s cp task argl args
    exact lingering_of_same s _ p t h (r3 p t) r1 (r2 t hlt)
  | join cp self tid ev =>
    by_cases ht : tid = some t
    · subst ht
      show Lingering (sys_ThreadJoin s cp self (some t) ev).state p t
      rw [join_detached_same s cp self t ev u hu hd]
      exact h
    · obtain ⟨r1, r2, r3⟩ := join_threads s cp self tid ev
      exact lingering_of_same s _ p t h (fun a => (r3 p t ht).mpr a) (le_of_eq r1.symm)
        (r2 t ht)
  | wake ptcb ev =>
    have hne : t ≠ ptcb := by
      intro e
      subst e
      simp only [ThreadCall.ok, hu] at hok
      omega
    obtain ⟨r1, r2, r3⟩ := join_resume_threads s ptcb ev
    exact lingering_of_same s _ p t h (fun a => (r3 p t hne).mpr a) (le_of_eq r1.symm)
      (r2 t hne)
  | detach cp tid =>
    by_cases ht : tid = some t
    · subst ht
      show Lingering (sys_ThreadDetach s cp (some t)).2 p t
      rw [(detach_threads s cp (some t)).2.2.2 t u hu he]
      exact h
    · obtain ⟨r1, r2, r3, _⟩ := detach_threads s cp tid
      exact lingering_of_same s _ p t h (fun a => (r2 p).symm ▸ a) (le_of_eq r1.symm)
        (r3 t ht)
  | exit cp self v =>
    have hne : t ≠ self := by
      intro e
      subst e
      simp only [ThreadCall.ok, hu] at hok
      rw [he] at hok
      exact absurd hok.2 (by decide)
    obtain ⟨r1, r2, r3⟩ := sys_ThreadExit_threads F s cp self v
    refine lingering_of_same s _ p t h (fun a => ?_) (le_of_eq r1.symm) (r2 t hne)
    show t ∈ ((sys_ThreadExit F s cp self v).PT p).ptcb_list
    rw [r3 p]
    have hn : ¬ (p = cp ∧ (s.PT cp).thread_count = 1) := by
      rintro ⟨e1, e2⟩
      subst e1
      exact hlast ⟨rfl, e2⟩
    rw [if_neg hn]
    exact a

/-- A lingering block of `p` lingers through every admissible schedule. -/
theorem lingering_run (F : Nat) (p t : Nat) (calls : List ThreadCall) :
    ∀ s : ProcState, Lingering s p t → Admissible F p s calls →
      Lingering (thread_run F calls s) p t := by
  induction calls with
  | nil => intro s h _; exact h
  | cons c rest ih =>
    intro s h ha
    obtain ⟨a1, a2, a3⟩ := ha
    exact ih _ (lingering_step F s p t c h a1 a2) a3

/-- The exit of the last running thread of a process empties its thread list and frees
every block that was in it. -/
theorem last_exit_frees (F : Nat) (s : ProcState) (p self t : Nat) (v : Int)
    (hc : (s.PT p).thread_count = 1) (hin : t ∈ (s.PT p).ptcb_list) :
    ((sys_ThreadExit F s p self v).PT p).ptcb_list = [] ∧
      ProcEvent.free_ptcb t ∈ (sys_ThreadExit F s p self v).log := by
  refine ⟨?_, ?_⟩
  · rw [(sys_ThreadExit_threads F s p self v).2.2 p, if_pos ⟨rfl, hc⟩]
  · rw [sys_ThreadExit_last F s p self v hc]
    have hPT : (mark_exited s self v).PT = s.PT := (update_ptcb_frame s self _).1
    have hmem : ∀ s' : ProcState, t ∈ (s'.PT p).ptcb_list →
        ProcEvent.free_ptcb t ∈ ((CleanUp F s' p).emit (.sleep_exited self)).log := by
      intro s' h'
      have := (CleanUp_ptcb_list F s' p).2.2 t h'
      simp [ProcState.emit, this]
    unfold last_thread
    apply hmem
    have hl : ((leave_process (mark_exited s self v) p self).PT p).ptcb_list =
        (s.PT p).ptcb_list := by
      simp [leave_process, ProcState.set_pcb, ProcState.emit, hPT]
    by_cases h1 : get_pid (some p) ≠ 1
    · rw [if_pos h1, (orphan_children_ptcb_list _ p p).1, hl]
      exact hin
    · rw [if_neg h1, hl]
      exact hin

/-- C25, counterexample. In the worked example thread 0 of init creates thread 1 and detaches
it, and thread 1 calls `sys_ThreadExit(7)` while thread 0 is running. In the state reached
the block of thread 1 is exited, detached and without joiner, it is still in the thread
list of init, and no `free` of it has been logged. -/
theorem detached_ptcb_stays_listed :
    demo_threads = (sys_CreateThread demo_init 1 (some 2) 0 none).2 ∧
    demo_detached = (sys_ThreadDetach demo_threads 1 (some 1)).2 ∧
    demo_lingering = sys_ThreadExit 2 demo_detached 1 1 7 ∧
    (demo_lingering.PT 1).thread_count = 1 ∧
    demo_lingering.ptcbs 1 = some ⟨some 2, 0, none, 7, true, true, 0⟩ ∧
    1 ∈ (demo_lingering.PT 1).ptcb_list ∧
    ProcEvent.free_ptcb 1 ∉ demo_lingering.log :=
  ⟨rfl, rfl, rfl, by decide, by decide, by decide, by decide⟩

/-- C25, amended. A detached thread `t` of process `p` without joiner calls `sys_ThreadExit`
while other threads of `p` are running. Its block is not freed by the call: it stays in the
thread list of `p`, exited, detached and with `ref_count` 0, and the call logs only the
broadcast on its `exit_cv` and its last sleep. The block stays so through every schedule of
`sys_CreateThread`, `sys_ThreadJoin`, wake-ups of joiners, `sys_ThreadDetach` and
`sys_ThreadExit` that does not contain the exit of the last running thread of `p`; that
exit, when it comes, empties the thread list of `p` and frees the block. -/
theorem detached_ptcb_kept_until_cleanup (F : Nat) (s : ProcState) (p t : Nat) (u : PTCB)
    (v : Int) (hin : t ∈ (s.PT p).ptcb_list) (hlt : t < s.nptcb) (hu : s.ptcbs t = some u)
    (hdet : u.detached = true) (hrc : u.ref_count = 0)
    (hothers : 1 < (s.PT p).thread_count) :
    Lingering (sys_ThreadExit F s p t v) p t ∧
    (sys_ThreadExit F s p t v).log = s.log ++ [.broadcast_exit_cv t, .sleep_exited t] ∧
    (∀ calls, Admissible F p (sys_ThreadExit F s p t v) calls →
      Lingering (thread_run F calls (sys_ThreadExit F s p t v)) p t) ∧
    (∀ calls self w, Admissible F p (sys_ThreadExit F s p t v) calls →
      ((thread_run F calls (sys_ThreadExit F s p t v)).PT p).thread_count = 1 →
      ((sys_ThreadExit F (thread_run F calls (sys_ThreadExit F s p t v)) p self w).PT
          p).ptcb_list = [] ∧
        ProcEvent.free_ptcb t ∈
          (sys_ThreadExit F (thread_run F calls (sys_ThreadExit F s p t v)) p self w).log) := by
  have hc : (s.PT p).thread_count ≠ 1 := by omega
  have hling : Lingering (sys_ThreadExit F s p t v) p t := by
    rw [lingering_iff]
    obtain ⟨r1, _, r3⟩ := sys_ThreadExit_threads F s p t v
    refine ⟨?_, by omega, { u with exitval := v, exited := true }, ?_, rfl, hdet, hrc⟩
    · rw [r3 p, if_neg (fun h => hc h.2)]
      exact hin
    · rw [sys_ThreadExit_ptcbs]
      unfold mark_exited
      rw [update_ptcb_some s t _ u hu]
      simp [ProcState.set_ptcb, heap_set]
  refine ⟨hling, ?_, fun calls ha => lingering_run F p t calls _ hling ha,
    fun calls self w ha h1 => ?_⟩
  · rw [sys_ThreadExit_live F s p t v hc]
    simp [leave_process, ProcState.emit, ProcState.set_pcb, mark_exited,
      (update_ptcb_frame s t _).2.2.2.2.2]
  · exact last_exit_frees F _ p self t w h1
      ((lingering_iff _ p t).mp (lingering_run F p t calls _ hling ha)).1

/-- C25 on the worked example: the detached thread 1 of init exits while thread 0 runs; its
block lingers through the creation, join and exit of a third thread; the exit of thread 0,
the last running thread, empties the list and frees it. -/
theorem detached_ptcb_kept_until_cleanup_witness :
    Lingering demo_lingering 1 1 ∧
    demo_lingering.log = demo_detached.log ++ [.broadcast_exit_cv 1, .sleep_exited 1] ∧
    Lingering (thread_run 2
      [.create 1 (some 5) 0 none, .join 1 0 (some 2) none, .exit 1 2 3, .wake 2 none,
        .join 1 0 (some 1) none] demo_lingering) 1 1 ∧
    ((sys_ThreadExit 2 (thread_run 2
      [.create 1 (some 5) 0 none, .join 1 0 (some 2) none, .exit 1 2 3, .wake 2 none,
        .join 1 0 (some 1) none] demo_lingering) 1 0 9).PT 1).ptcb_list = [] ∧
    ProcEvent.free_ptcb 1 ∈ (sys_ThreadExit 2 (thread_run 2
      [.create 1 (some 5) 0 none, .join 1 0 (some 2) none, .exit 1 2 3, .wake 2 none,
        .join 1 0 (some 1) none] demo_lingering) 1 0 9).log :=
  have h := detached_ptcb_kept_until_cleanup 2 demo_detached 1 1
    ⟨some 2, 0, none, 0, false, true, 0⟩ 7 (by decide) (by decide) (by decide) rfl rfl (by decide)
  ⟨h.1, h.2.1,
    h.2.2.1 [.create 1 (some 5) 0 none, .join 1 0 (some 2) none, .exit 1 2 3, .wake 2 none,
      .join 1 0 (some 1) none] (by decide),
    h.2.2.2 [.create 1 (some 5) 0 none, .join 1 0 (some 2) none, .exit 1 2 3, .wake 2 none,
      .join 1 0 (some 1) none] 0 9 (by decide) (by decide)⟩

end TinyOS
